import Mathlib

/-!
# A verification development for the OS/161 teaching kernel extensions

Shallow embedding of
* `kern/arch/mips/vm/dumbvm.c` (coremap frame allocator, TLB refill),
* `kern/proc/proctable.c` and `kern/syscall/proc_syscalls.c` (process table, exit / wait),
* `kern/synchprobs/traffic_synch.c` (intersection synchroniser),

followed by theorems about the embedded functions.

Conventions.  Machine words are natural numbers reduced modulo `2 ^ 32` where the C
arithmetic can wrap.  A kernel panic (failed `KASSERT`) or an access outside an array is
the result `none`.  Global variables of the C code are fields of explicit state records.
-/

namespace OS161

/-! ## Machine constants -/

/-- Modelled from the spec: `PAGE_SIZE` comes from the machine header `vm.h`, which is not
part of the sources; a frame is one 4096-byte page (the 12-page stack is "48k"). -/
def PAGE_SIZE : Nat := 4096

/-- Modelled from the spec: base of the MIPS direct-mapped kernel segment, through which
the kernel addresses a physical frame ("kernel-virtual alias"); header not in the sources. -/
def MIPS_KSEG0 : Nat := 0x80000000

/-- Modelled from the spec: the macro `PADDR_TO_KVADDR` (header not in the sources), the
kernel-virtual alias of a physical address, computed in 32-bit arithmetic. -/
def PADDR_TO_KVADDR (paddr : Nat) : Nat := (paddr + MIPS_KSEG0) % 2 ^ 32

/-- Modelled from the spec: the macro `VADDR_TO_PVADDR` (header not in the sources), the
conversion of a kernel-virtual alias back "to physical", computed in 32-bit arithmetic. -/
def VADDR_TO_PVADDR (vaddr : Nat) : Nat := (vaddr + (2 ^ 32 - MIPS_KSEG0)) % 2 ^ 32

/-! ## Coremap (`coremapEtry.h`, `dumbvm.c`) -/

/-- The record `struct coremap_entry`. -/
structure coremap_entry where
  available : Bool
  datasize : Int
deriving DecidableEq, Repr

/-- The allocator globals after `vm_bootstrap` (`coremapready == true`): the array `coremap`,
whose length is the global `pageNum`, and the global `mapStart`. -/
structure VMState where
  coremap : List coremap_entry
  mapStart : Nat
deriving DecidableEq, Repr

/-- The global `pageNum`: the number of entries of the coremap array. -/
def VMState.pageNum (st : VMState) : Nat := st.coremap.length

/-- Modelled from the spec: `sizeof(struct coremap_entry)` on 32-bit MIPS, a `bool` padded
to the alignment of the following `int`. -/
def sizeof_coremap_entry : Nat := 8

/-- The function `vm_bootstrap`, with the result of `ram_getsize` as arguments `low`, `high`. -/
def vm_bootstrap (low high : Nat) : VMState :=
  let pageNum := ((high + 2 ^ 32 - low) % 2 ^ 32) / PAGE_SIZE
  let mapSize := (sizeof_coremap_entry * pageNum) % 2 ^ 32
  let map_takes_page := ((mapSize + PAGE_SIZE - 1) % 2 ^ 32) / PAGE_SIZE
  let pageNum := pageNum - map_takes_page
  { coremap := List.replicate pageNum ⟨true, -1⟩
    mapStart := (low + map_takes_page * PAGE_SIZE) % 2 ^ 32 }

/-- The first loop of `getppageIndex`: the scan `for (i = 0; i < pageNum; i++)` over the
entries not yet visited, with the loop variables `i`, `emptyPagecount` and `start`.
The result is `some start` when the loop leaves through `break` with `found = true`. -/
def getppageIndex_scan (npages : Nat) :
    List coremap_entry → Nat → Nat → Nat → Option Nat
  | [], _, _, _ => none
  | e :: rest, i, emptyPagecount, start =>
    if e.available then
      let start := if emptyPagecount = 0 then i else start
      let emptyPagecount := emptyPagecount + 1
      if emptyPagecount = npages then some start
      else getppageIndex_scan npages rest (i + 1) emptyPagecount start
    else getppageIndex_scan npages rest (i + 1) 0 start

/-- The second loop of `getppageIndex`: `coremap[start+i].available = false` for the
remaining `k` iterations starting at loop index `i`. -/
def getppageIndex_mark (start : Nat) : Nat → Nat → List coremap_entry → List coremap_entry
  | 0, _, cm => cm
  | k + 1, i, cm =>
    getppageIndex_mark start k (i + 1)
      (List.modify (fun e => { e with available := false }) (start + i) cm)

/-- The function `getppageIndex`: the returned `int` and the coremap afterwards; `none` is
the failed `KASSERT(npages != 0)`.  When the scan succeeds `npages ≤ pageNum`, so the
conversions of `npages` to `int` are exact. -/
def getppageIndex (cm : List coremap_entry) (npages : Nat) :
    Option (Int × List coremap_entry) :=
  if npages = 0 then none
  else
    match getppageIndex_scan npages cm 0 0 0 with
    | some start =>
      some ((start : Int),
        getppageIndex_mark start npages 0
          (List.modify (fun e => { e with datasize := (npages : Int) }) start cm))
    | none => some (-1, cm)

/-- The function `getppages` in the branch `coremapready == true`: the physical address
returned (0 on failure) and the state afterwards. -/
def getppages (st : VMState) (npages : Nat) : Option (Nat × VMState) :=
  match getppageIndex st.coremap npages with
  | none => none
  | some (index, cm) =>
    if index = -1 then some (0, { st with coremap := cm })
    else some ((index.toNat * PAGE_SIZE + st.mapStart) % 2 ^ 32, { st with coremap := cm })

/-- The function `alloc_kpages`; `npages` is the argument after its conversion to
`unsigned long`. -/
def alloc_kpages (st : VMState) (npages : Nat) : Option (Nat × VMState) :=
  match getppages st npages with
  | none => none
  | some (pa, st1) =>
    if pa = 0 then some (0, st1) else some (PADDR_TO_KVADDR pa, st1)

/-- The loop of `free_kpages`: `coremap[index+i]` is made available with `datasize = -1`
for the remaining `k` iterations starting at loop index `i`. -/
def free_kpages_loop (index : Nat) : Nat → Nat → List coremap_entry → List coremap_entry
  | 0, _, cm => cm
  | k + 1, i, cm =>
    free_kpages_loop index k (i + 1) (cm.set (index + i) ⟨true, -1⟩)

/-- The function `free_kpages`.  The result is `none` when a `KASSERT` fails or when the
function reads or writes outside the coremap array. -/
def free_kpages (st : VMState) (addr : Nat) : Option VMState :=
  let paddr := VADDR_TO_PVADDR addr
  if paddr % PAGE_SIZE ≠ 0 then none
  else
    let index := ((paddr + 2 ^ 32 - st.mapStart) % 2 ^ 32) / PAGE_SIZE
    match st.coremap[index]? with
    | none => none
    | some e =>
      if e.available = false ∧ e.datasize ≠ -1 then
        let size := e.datasize.toNat
        if index + size ≤ st.coremap.length then
          some { st with coremap := free_kpages_loop index size 0 st.coremap }
        else none
      else none

/-- Entry `j` lies inside the coremap and is available. -/
def entryAvailable (cm : List coremap_entry) (j : Nat) : Bool :=
  match cm[j]? with
  | some e => e.available
  | none => false

/-- Entries `s .. s+n-1` lie inside the coremap (`s + n ≤ pageNum`) and are all available. -/
def freeRun (cm : List coremap_entry) (s n : Nat) : Prop :=
  s + n ≤ cm.length ∧ ∀ j, s ≤ j → j < s + n → entryAvailable cm j = true

/-- Every available entry has `datasize = -1`. -/
def freeEntriesClean (cm : List coremap_entry) : Prop :=
  ∀ (j : Nat) (e : coremap_entry), cm[j]? = some e → e.available = true → e.datasize = -1

/-- Entry `i` is unavailable with `datasize = n > 0`: it is the first frame of a run. -/
def runStart (cm : List coremap_entry) (i n : Nat) : Prop :=
  ∃ e, cm[i]? = some e ∧ e.available = false ∧ e.datasize = (n : Int) ∧ 0 < n

/-- The run `i .. i+n-1` is inside the coremap, all its entries are unavailable and its
trailing entries have `datasize = -1`. -/
def runIntact (cm : List coremap_entry) (i n : Nat) : Prop :=
  i + n ≤ cm.length ∧
    ∀ (j : Nat) (f : coremap_entry), i ≤ j → j < i + n → cm[j]? = some f →
      f.available = false ∧ (i < j → f.datasize = -1)

/-- Coremap well-formedness. -/
structure coremapWF (cm : List coremap_entry) : Prop where
  runs : ∀ i n, runStart cm i n → runIntact cm i n
  free : freeEntriesClean cm
  covered : ∀ (j : Nat) (f : coremap_entry), cm[j]? = some f → f.available = false →
    ∃! i, ∃ n, runStart cm i n ∧ i ≤ j ∧ j < i + n

/-- States reachable from `vm_bootstrap` by calls of `alloc_kpages` and `free_kpages` that
return (no failed assertion, no access outside the coremap). -/
inductive Reachable : VMState → Prop
  | boot (low high : Nat) : Reachable (vm_bootstrap low high)
  | alloc {st st1 : VMState} {n addr : Nat} :
      Reachable st → alloc_kpages st n = some (addr, st1) → Reachable st1
  | free {st st1 : VMState} {addr : Nat} :
      Reachable st → free_kpages st addr = some st1 → Reachable st1

/-- The form of well-formedness used in the induction: every unavailable entry is covered by
a run (uniqueness follows from the trailing entries having `datasize = -1`). -/
structure coremapInv (cm : List coremap_entry) : Prop where
  runs : ∀ i n, runStart cm i n → runIntact cm i n
  free : freeEntriesClean cm
  covered : ∀ (j : Nat) (f : coremap_entry), cm[j]? = some f → f.available = false →
    ∃ i n, runStart cm i n ∧ i ≤ j ∧ j < i + n

/-- A boot state with five managed frames. -/
def bootExample : VMState := vm_bootstrap 0x30000 0x36000

/-- The state after `alloc_kpages(2)` in `bootExample`. -/
def allocExample1 : VMState :=
  { coremap := [⟨false, 2⟩, ⟨false, -1⟩, ⟨true, -1⟩, ⟨true, -1⟩, ⟨true, -1⟩]
    mapStart := 0x31000 }

/-- The state after a further `alloc_kpages(3)`. -/
def allocExample2 : VMState :=
  { coremap := [⟨false, 2⟩, ⟨false, -1⟩, ⟨false, 3⟩, ⟨false, -1⟩, ⟨false, -1⟩]
    mapStart := 0x31000 }

/-- The state after then freeing the first allocation. -/
def afterExample : VMState :=
  { coremap := [⟨true, -1⟩, ⟨true, -1⟩, ⟨false, 3⟩, ⟨false, -1⟩, ⟨false, -1⟩]
    mapStart := 0x31000 }

/-! ## Address spaces and the TLB refill handler (`dumbvm.c`) -/

/-- Modelled from the spec: the mask `PAGE_FRAME` of `vm.h` (not in the sources) that
"masks an address to its page frame". -/
def PAGE_FRAME : Nat := 0xfffff000

/-- Modelled from the spec: `USERSTACK`, the top of the user stack (header not in the
sources); user space ends where the kernel segment begins. -/
def USERSTACK : Nat := MIPS_KSEG0

/-- The constant `DUMBVM_STACKPAGES`. -/
def DUMBVM_STACKPAGES : Nat := 12

/-- Modelled from the spec: the "dirty/writable bit" `TLBLO_DIRTY` of a TLB entry
(`mips/tlb.h`, not in the sources). -/
def TLBLO_DIRTY : Nat := 0x400

/-- Modelled from the spec: the valid bit `TLBLO_VALID` of a TLB entry (`mips/tlb.h`, not in
the sources). -/
def TLBLO_VALID : Nat := 0x200

/-- Modelled from the spec: fault type `VM_FAULT_READ` (`vm.h`, not in the sources). -/
def VM_FAULT_READ : Int := 0

/-- Modelled from the spec: fault type `VM_FAULT_WRITE` (`vm.h`, not in the sources). -/
def VM_FAULT_WRITE : Int := 1

/-- Modelled from the spec: fault type `VM_FAULT_READONLY` (`vm.h`, not in the sources). -/
def VM_FAULT_READONLY : Int := 2

/-- Modelled from the spec: error code `EFAULT` (`kern/errno.h`, not in the sources). -/
def EFAULT : Int := 6

/-- Modelled from the spec: error code `EINVAL` (`kern/errno.h`, not in the sources). -/
def EINVAL : Int := 8

/-- The record `struct addrspace` as used by `dumbvm.c`.  A page table is the sequence of
the `paddr` fields of its `struct pagetableEtry` array (the other fields are never
accessed); `none` is a null pointer. -/
structure addrspace where
  as_vbase1 : Nat
  as_ptable1 : Option (List Nat)
  as_npages1 : Nat
  as_vbase2 : Nat
  as_ptable2 : Option (List Nat)
  as_npages2 : Nat
  as_stack : Option (List Nat)
  readonlyON : Bool
deriving DecidableEq, Repr

/-- The TLB: the sequence of its `NUM_TLB` entries, each a pair `(entryhi, entrylo)`. -/
abbrev TLB := List (Nat × Nat)

/-- The function `get_paddr`; `none` is a read through a null page table or past its end. -/
def get_paddr (vaddr : Nat) (ptb : Option (List Nat)) (vbase : Nat) : Option Nat :=
  let vlookfor := (vaddr + 2 ^ 32 - vbase) % 2 ^ 32
  let page := vlookfor / PAGE_SIZE
  match ptb with
  | none => none
  | some t =>
    match t[page]? with
    | none => none
    | some p => some ((VADDR_TO_PVADDR p + vlookfor % PAGE_SIZE) % 2 ^ 32)

/-- The scan `for (i = 0; i < NUM_TLB; i++)` of `vm_fault`: the first index, counted from
`i`, of an entry whose `TLBLO_VALID` bit is clear. -/
def vm_fault_scan : TLB → Nat → Option Nat
  | [], _ => none
  | (_, elo) :: rest, i =>
    if elo &&& TLBLO_VALID ≠ 0 then vm_fault_scan rest (i + 1) else some i

/-- The value `elo` that `vm_fault` writes for the frame `paddr`. -/
def vm_fault_elo (paddr : Nat) (readonly : Bool) : Nat :=
  let elo := paddr ||| TLBLO_DIRTY ||| TLBLO_VALID
  if readonly then elo &&& (0xffffffff ^^^ TLBLO_DIRTY) else elo

/-- The function `vm_fault`.  `curproc` is `none` when there is no current process and
`some none` when the process has no address space; `victim` is the slot that `tlb_random`
writes.  The result is the returned code and the TLB afterwards; `none` is a failed
`KASSERT` or a read outside a page table. -/
def vm_fault (curproc : Option (Option addrspace)) (tlb : TLB) (victim : Nat)
    (faulttype : Int) (faultaddress : Nat) : Option (Int × TLB) :=
  let faultaddress := faultaddress &&& PAGE_FRAME
  if faulttype = VM_FAULT_READONLY then some (1, tlb)
  else if faulttype = VM_FAULT_READ ∨ faulttype = VM_FAULT_WRITE then
    match curproc with
    | none => some (EFAULT, tlb)
    | some none => some (EFAULT, tlb)
    | some (some as) =>
      let vbase1 := as.as_vbase1
      let vtop1 := (vbase1 + as.as_npages1 * PAGE_SIZE) % 2 ^ 32
      let vbase2 := as.as_vbase2
      let vtop2 := (vbase2 + as.as_npages2 * PAGE_SIZE) % 2 ^ 32
      let stackbase := USERSTACK - DUMBVM_STACKPAGES * PAGE_SIZE
      let stacktop := USERSTACK
      let found : Option (Option Nat × Bool) :=
        if faultaddress ≥ vbase1 ∧ faultaddress < vtop1 then
          some (get_paddr faultaddress as.as_ptable1 vbase1, true)
        else if faultaddress ≥ vbase2 ∧ faultaddress < vtop2 then
          some (get_paddr faultaddress as.as_ptable2 vbase2, false)
        else if faultaddress ≥ stackbase ∧ faultaddress < stacktop then
          some (get_paddr faultaddress as.as_stack stackbase, false)
        else none
      match found with
      | none => some (EFAULT, tlb)
      | some (none, _) => none
      | some (some paddr, changingText) =>
        if paddr &&& PAGE_FRAME ≠ paddr then none
        else
          let readonly := changingText && as.readonlyON
          let ehi := faultaddress
          let elo := vm_fault_elo paddr readonly
          match vm_fault_scan tlb 0 with
          | some i => some (0, tlb.set i (ehi, elo))
          | none => some (0, tlb.set victim (ehi, elo))
  else some (EINVAL, tlb)

/-- The function `as_create`; `none` is the null pointer returned when `kmalloc` fails
(`kmalloc_ok = false`). -/
def as_create (kmalloc_ok : Bool) : Option addrspace :=
  if kmalloc_ok then
    some { as_vbase1 := 0, as_ptable1 := none, as_npages1 := 0,
           as_vbase2 := 0, as_ptable2 := none, as_npages2 := 0,
           as_stack := none, readonlyON := false }
  else none

/-- Modelled from the spec: the invalid entry `(TLBHI_INVALID(i), TLBLO_INVALID())` written
to slot `i` by a TLB flush (`mips/tlb.h`, not in the sources). -/
def tlb_invalid_entry (i : Nat) : Nat × Nat := ((0x80000 + i) * 4096 % 2 ^ 32, 0)

/-- The loop `for (i = 0; i < NUM_TLB; i++) tlb_write(TLBHI_INVALID(i), TLBLO_INVALID(), i)`. -/
def tlb_flush (tlb : TLB) : TLB :=
  (List.range tlb.length).map tlb_invalid_entry

/-- The function `as_complete_load`: the returned code, the address space and the TLB
afterwards. -/
def as_complete_load (as : addrspace) (tlb : TLB) : Int × addrspace × TLB :=
  (0, { as with readonlyON := true }, tlb_flush tlb)

/-- The faulting page lies in region 1, `[vbase1, vbase1 + npages1*PAGE_SIZE)` in the 32-bit
arithmetic of the handler. -/
def inRegion1 (as : addrspace) (faultaddress : Nat) : Prop :=
  as.as_vbase1 ≤ (faultaddress &&& PAGE_FRAME) ∧
    (faultaddress &&& PAGE_FRAME) < (as.as_vbase1 + as.as_npages1 * PAGE_SIZE) % 2 ^ 32

instance (as : addrspace) (fa : Nat) : Decidable (inRegion1 as fa) := by
  unfold inRegion1; infer_instance

/-- An address space during loading: one text page, one data page, twelve stack pages. -/
def asLoading : addrspace :=
  { as_vbase1 := 0x400000, as_ptable1 := some [0x80031000], as_npages1 := 1,
    as_vbase2 := 0x10000000, as_ptable2 := some [0x80032000], as_npages2 := 1,
    as_stack := some ((List.range 12).map (fun i => 0x80033000 + i * 0x1000)),
    readonlyON := false }

/-- A TLB of 64 entries. -/
def tlbExample : TLB := List.replicate 64 (0, 0)

/-- The address space `asLoading` after `as_complete_load`. -/
def asLoaded : addrspace := (as_complete_load asLoading tlbExample).2.1

/-- The TLB after `as_complete_load`. -/
def tlbFlushed : TLB := (as_complete_load asLoading tlbExample).2.2

/-! ## Process table (`proctable.h`, `proctable.c`) and process system calls -/

/-- Modelled from the spec: error code `ENOMEM` (`kern/errno.h`, not in the sources). -/
def ENOMEM : Int := 3

/-- Modelled from the spec: error code `ENPROC` (`kern/errno.h`, not in the sources). -/
def ENPROC : Int := 12

/-- Modelled from the spec: error code `ESRCH` (`kern/errno.h`, not in the sources). -/
def ESRCH : Int := 15

/-- Modelled from the spec: error code `ECHILD` (`kern/errno.h`, not in the sources). -/
def ECHILD : Int := 16

/-- Modelled from the spec: the macro `_MKWAIT_EXIT` of `kern/wait.h` (not in the sources),
"a macro equivalent to `(code & 0xff) << 8`". -/
def _MKWAIT_EXIT (code : Int) : Int := (Int.land code 0xff) <<< (8 : Int)

/-- The record `struct proctable_node`.  `proc` stands for the pointer to the process; the
condition variable and the lock of a node carry no data and are not represented. -/
structure proctable_node where
  proc : Nat
  parent : Int
  exited : Bool
  exitcode : Int
deriving DecidableEq, Repr

/-- The global array `proctable`, of `PID_MAX - PID_MIN` slots; `none` is a null slot.  The
limits `PID_MIN` and `PID_MAX` (`limits.h`, not in the sources) are parameters of the
functions below. -/
abbrev ProcTable := List (Option proctable_node)

/-- The function `proctable_create_node` when its allocations succeed. -/
def proctable_create_node (p : Nat) : proctable_node :=
  { proc := p, parent := -1, exited := false, exitcode := -1 }

/-- The loop of `proctable_add`: the first index, counted from `i`, of a null slot. -/
def proctable_add_scan : ProcTable → Nat → Option Nat
  | [], _ => none
  | none :: _, i => some i
  | some _ :: rest, i => proctable_add_scan rest (i + 1)

/-- The function `proctable_add`: the returned code, the value stored in `*repid` (if any)
and the table afterwards.  `node_ok = false` is a failed allocation in
`proctable_create_node`. -/
def proctable_add (PID_MIN : Nat) (t : ProcTable) (p : Nat) (node_ok : Bool) :
    Int × Option Int × ProcTable :=
  if node_ok then
    match proctable_add_scan t 0 with
    | some i => (0, some ((i : Int) + PID_MIN), t.set i (some (proctable_create_node p)))
    | none => (ENPROC, none, t)
  else (ENOMEM, none, t)

/-- The function `proctable_get`: `some none` is the returned null pointer, and `none` is a
read outside the array. -/
def proctable_get (PID_MIN PID_MAX : Nat) (t : ProcTable) (pid : Int) :
    Option (Option proctable_node) :=
  if pid > PID_MAX ∨ pid < PID_MIN then some none
  else t[(pid - PID_MIN).toNat]?

/-- The function `proctable_remove`; `none` is the failed `KASSERT(pt != NULL)` or an access
outside the array. -/
def proctable_remove (PID_MIN : Nat) (t : ProcTable) (pid : Int) : Option ProcTable :=
  if pid < PID_MIN then none
  else
    match t[(pid - PID_MIN).toNat]? with
    | none => none
    | some none => none
    | some (some _) => some (t.set (pid - PID_MIN).toNat none)

/-- The loop of `proctable_update`, for the remaining `k` iterations starting at index `i`. -/
def proctable_update_loop (PID_MIN : Nat) (pid : Int) : Nat → Nat → ProcTable → Option ProcTable
  | 0, _, t => some t
  | k + 1, i, t =>
    match t[i]? with
    | none => none
    | some none => proctable_update_loop PID_MIN pid k (i + 1) t
    | some (some nd) =>
      if nd.parent = pid then
        if nd.exited then
          match proctable_remove PID_MIN t ((i : Int) + PID_MIN) with
          | none => none
          | some t1 => proctable_update_loop PID_MIN pid k (i + 1) t1
        else
          proctable_update_loop PID_MIN pid k (i + 1) (t.set i (some { nd with parent := -1 }))
      else proctable_update_loop PID_MIN pid k (i + 1) t

/-- The function `proctable_update`. -/
def proctable_update (PID_MIN PID_MAX : Nat) (t : ProcTable) (pid : Int) : Option ProcTable :=
  proctable_update_loop PID_MIN pid (PID_MAX - PID_MIN) 0 t

/-- The part of `sys__exit` that acts on the process table, for the calling process
`curpid = curproc->p_pid`: from `proctable_get` to the conditional `proctable_remove`.  (The
rest of the function releases the address space and the thread.)  `none` is a failed
assertion or the use of a node that is no longer in the table. -/
def sys__exit (PID_MIN PID_MAX : Nat) (t : ProcTable) (curpid : Int) (exitcode : Int) :
    Option ProcTable :=
  match proctable_get PID_MIN PID_MAX t curpid with
  | none => none
  | some none => none
  | some (some pt) =>
    let t1 := t.set (curpid - PID_MIN).toNat
      (some { pt with exited := true, exitcode := _MKWAIT_EXIT exitcode })
    match proctable_update PID_MIN PID_MAX t1 curpid with
    | none => none
    | some t2 =>
      match t2[(curpid - PID_MIN).toNat]? with
      | some (some pt2) =>
        if pt2.parent = -1 then proctable_remove PID_MIN t2 curpid else some t2
      | _ => none

/-- What a call of `sys_waitpid` gives back: the returned code, the value stored in
`*retval` (if any) and the word copied out to the user's `status` pointer (if any). -/
structure WaitResult where
  ret : Int
  retval : Option Int
  status : Option Int
deriving DecidableEq, Repr

/-- A call of `sys_waitpid` either returns or waits on the child's condition variable. -/
inductive WaitOutcome where
  | blocks
  | returns (r : WaitResult)
deriving DecidableEq, Repr

/-- The function `sys_waitpid` for the caller `curpid = curproc->p_pid`; `status = 0` is the
null pointer and `copyout_ok` tells whether `copyout` to `status` succeeds.  The result is
the outcome and the process table afterwards; `none` is a read outside the table. -/
def sys_waitpid (PID_MIN PID_MAX : Nat) (t : ProcTable) (curpid : Int) (pid : Int)
    (status : Nat) (options : Int) (copyout_ok : Bool) : Option (WaitOutcome × ProcTable) :=
  if status = 0 then some (WaitOutcome.returns ⟨EFAULT, none, none⟩, t)
  else if options ≠ 0 then some (WaitOutcome.returns ⟨EINVAL, none, none⟩, t)
  else
    match proctable_get PID_MIN PID_MAX t pid with
    | none => none
    | some none => some (WaitOutcome.returns ⟨ESRCH, none, none⟩, t)
    | some (some child) =>
      if curpid ≠ child.parent then some (WaitOutcome.returns ⟨ECHILD, none, none⟩, t)
      else if ¬ child.exited then some (WaitOutcome.blocks, t)
      else
        let exitstatus := child.exitcode
        if copyout_ok then some (WaitOutcome.returns ⟨0, some pid, some exitstatus⟩, t)
        else some (WaitOutcome.returns ⟨EFAULT, none, none⟩, t)

/-- The slot of the process `pid` in the table. -/
def slotOf (PID_MIN : Nat) (t : ProcTable) (pid : Int) : Option (Option proctable_node) :=
  if pid < PID_MIN then none else t[(pid - PID_MIN).toNat]?

/-- What `proctable_update(pid)` does to one slot. -/
def updateSlot (pid : Int) : Option proctable_node → Option proctable_node
  | none => none
  | some nd =>
    if nd.parent = pid then
      if nd.exited then none else some { nd with parent := -1 }
    else some nd

/-- The table after the successive successful calls `proctable_add(p)` for `p` in `ps`. -/
def proctable_add_many (PID_MIN : Nat) : ProcTable → List Nat → ProcTable
  | t, [] => t
  | t, p :: ps => proctable_add_many PID_MIN (proctable_add PID_MIN t p true).2.2 ps

/-- The PID `pid` is reusable: after some further successful `proctable_add` calls (filling
lower free slots), the next `proctable_add` returns `pid`. -/
def pidReusable (PID_MIN : Nat) (t : ProcTable) (pid : Int) : Prop :=
  ∃ (ps : List Nat) (p : Nat),
    (proctable_add PID_MIN (proctable_add_many PID_MIN t ps) p true).1 = 0 ∧
    (proctable_add PID_MIN (proctable_add_many PID_MIN t ps) p true).2.1 = some pid

/-- A table with limits `PID_MIN = 2`, `PID_MAX = 6`: the process 2 and its child 3, which
has exited with status 1792. -/
def tableZombie : ProcTable :=
  [some ⟨100, -1, false, -1⟩, some ⟨101, 2, true, 1792⟩, none, none]

/-- The same table with the child 3 still running. -/
def tableAlive : ProcTable :=
  [some ⟨100, -1, false, -1⟩, some ⟨101, 2, false, -1⟩, none, none]

/-! ## Intersection synchroniser (`traffic_synch.c`) -/

/-- Modelled from the spec: the enumeration `Direction` of `synchprobs.h` (not in the
sources), the four directions `{N, S, E, W}`. -/
inductive Direction where
  | north
  | east
  | south
  | west
deriving DecidableEq, Repr

/-- The record `Vehicle`. -/
structure Vehicle where
  origin : Direction
  destination : Direction
deriving DecidableEq, Repr

/-- The queue `struct vehicles`: `nodes` is the sequence of vehicles of the linked nodes from
`first` along `next` (ending at `last`), and `total` is the counter field. -/
structure vehicles where
  nodes : List Vehicle
  total : Int
deriving DecidableEq, Repr

/-- The static variable `NumThreads`. -/
def NumThreads : Int := 10

/-- The function `right_turn`. -/
def right_turn (v : Vehicle) : Bool :=
  if (v.origin = Direction.west ∧ v.destination = Direction.south) ∨
      (v.origin = Direction.south ∧ v.destination = Direction.east) ∨
      (v.origin = Direction.east ∧ v.destination = Direction.north) ∨
      (v.origin = Direction.north ∧ v.destination = Direction.west) then true
  else false

/-- The `while (current)` loop of `check_constraints` over the nodes from `current` on. -/
def check_constraints_loop (v : Vehicle) : List Vehicle → Bool
  | [] => true
  | current :: next =>
    if current.origin = v.origin then check_constraints_loop v next
    else if current.origin = v.destination ∧ current.destination = v.origin then
      check_constraints_loop v next
    else if (right_turn current || right_turn v) ∧ v.destination ≠ current.destination then
      check_constraints_loop v next
    else false

/-- The function `check_constraints`; `none` is the failed
`KASSERT(Vqueue->total <= NumThreads)`. -/
def check_constraints (Vqueue : vehicles) (v : Vehicle) : Option Bool :=
  if ¬ (Vqueue.total ≤ NumThreads) then none
  else if Vqueue.nodes.isEmpty ∧ Vqueue.total = 0 then some true
  else some (check_constraints_loop v Vqueue.nodes)

/-- The queue set up by `intersection_sync_init`. -/
def intersection_sync_init : vehicles := { nodes := [], total := 0 }

/-- What a call of `intersection_before_entry` does once it holds the mutex: it waits on the
condition variable (`blocked`), or appends the vehicle and returns (`entered`). -/
inductive EntryOutcome where
  | blocked
  | entered (Vqueue : vehicles)
deriving DecidableEq, Repr

/-- The function `intersection_before_entry`, one pass under the mutex: when
`check_constraints` fails the thread waits (and re-checks after a wake-up), otherwise a new
node is linked after `last` and `total` is incremented. `none` is a failed assertion. -/
def intersection_before_entry (Vqueue : vehicles) (origin destination : Direction) :
    Option EntryOutcome :=
  let v : Vehicle := { origin := origin, destination := destination }
  match check_constraints Vqueue v with
  | none => none
  | some false => some EntryOutcome.blocked
  | some true =>
    some (EntryOutcome.entered { nodes := Vqueue.nodes ++ [v], total := Vqueue.total + 1 })

/-- The `while (current)` loop of `intersection_after_exit`: the nodes after unlinking the
first node that matches, and whether a node was unlinked. -/
def intersection_after_exit_loop (origin destination : Direction) :
    List Vehicle → List Vehicle × Bool
  | [] => ([], false)
  | current :: next =>
    if current.origin = origin ∧ current.destination = destination then (next, true)
    else
      let r := intersection_after_exit_loop origin destination next
      (current :: r.1, r.2)

/-- The function `intersection_after_exit`; `none` is a failed assertion
(`total <= NumThreads`, `total > 0`). -/
def intersection_after_exit (Vqueue : vehicles) (origin destination : Direction) :
    Option vehicles :=
  if ¬ (Vqueue.total ≤ NumThreads) then none
  else if ¬ (Vqueue.total > 0) then none
  else
    let r := intersection_after_exit_loop origin destination Vqueue.nodes
    some { nodes := r.1, total := if r.2 then Vqueue.total - 1 else Vqueue.total }

/-- The right turns named by the specification: `W→S`, `S→E`, `E→N`, `N→W`. -/
def specRightTurn (v : Vehicle) : Prop :=
  (v.origin = Direction.west ∧ v.destination = Direction.south) ∨
  (v.origin = Direction.south ∧ v.destination = Direction.east) ∨
  (v.origin = Direction.east ∧ v.destination = Direction.north) ∨
  (v.origin = Direction.north ∧ v.destination = Direction.west)

/-- The pairwise-compatibility predicate of the specification for an occupant `c` and an
arrival `v`: same origin, or exact opposites, or one of them turns right and the
destinations differ. -/
def specCompatible (c v : Vehicle) : Prop :=
  c.origin = v.origin ∨
  (c.origin = v.destination ∧ c.destination = v.origin) ∨
  ((specRightTurn c ∨ specRightTurn v) ∧ c.destination ≠ v.destination)

instance (v : Vehicle) : Decidable (specRightTurn v) := by
  unfold specRightTurn; infer_instance

instance (c v : Vehicle) : Decidable (specCompatible c v) := by
  unfold specCompatible; infer_instance

/-- States of the queue reachable from `intersection_sync_init` by completed calls of
`intersection_before_entry` and `intersection_after_exit` (the mutex makes each an atomic
step). -/
inductive QueueReachable : vehicles → Prop
  | init : QueueReachable intersection_sync_init
  | entry {q q1 : vehicles} {origin destination : Direction} :
      QueueReachable q →
      intersection_before_entry q origin destination = some (EntryOutcome.entered q1) →
      QueueReachable q1
  | exit {q q1 : vehicles} {origin destination : Direction} :
      QueueReachable q → intersection_after_exit q origin destination = some q1 →
      QueueReachable q1

/-- A queue holding a vehicle going north to south. -/
def queueNS : vehicles := { nodes := [⟨Direction.north, Direction.south⟩], total := 1 }

/-- The queue after the opposite vehicle (south to north) has entered as well. -/
def queueNSSN : vehicles :=
  { nodes := [⟨Direction.north, Direction.south⟩, ⟨Direction.south, Direction.north⟩]
    total := 2 }

/-! ## Process-table lookup, region definition and fault lookup -/

/-- The index of `proctable` that `proctable_get(pid)` reads: `none` when the bounds check
returns null, otherwise `pid - PID_MIN`. -/
def proctable_get_index (PID_MIN PID_MAX : Nat) (pid : Int) : Option Nat :=
  if pid > PID_MAX ∨ pid < PID_MIN then none else some (pid - PID_MIN).toNat

/-- A full table with limits `PID_MIN = 2`, `PID_MAX = 4`. -/
def tableFull : ProcTable :=
  [some ⟨100, -1, false, -1⟩, some ⟨101, 2, false, -1⟩]

/-- Modelled from the spec: error code `EUNIMP`, "unimplemented" (`kern/errno.h`, not in the
sources). -/
def EUNIMP : Int := 2

/-- The number of pages that `as_define_region` computes from `vaddr` and `sz`: the size is
increased by the offset of `vaddr` in its page and rounded up to a page multiple, in 32-bit
arithmetic. -/
def as_define_region_npages (vaddr sz : Nat) : Nat :=
  let sz := (sz + (vaddr &&& (0xffffffff ^^^ PAGE_FRAME))) % 2 ^ 32
  let sz := ((sz + PAGE_SIZE - 1) % 2 ^ 32) &&& PAGE_FRAME
  sz / PAGE_SIZE

/-- The function `as_define_region`: the returned code and the address space afterwards.
`kmalloc n` is the result of allocating a page table of `n` entries: `none` for a null
pointer, otherwise the (uninitialised) entries.  The arguments `readable`, `writeable` and
`executable` are not used by the function. -/
def as_define_region (as : addrspace) (vaddr sz : Nat) (_readable _writeable _executable : Int)
    (kmalloc : Nat → Option (List Nat)) : Int × addrspace :=
  let npages := as_define_region_npages vaddr sz
  let vaddr := vaddr &&& PAGE_FRAME
  if as.as_vbase1 = 0 then
    match kmalloc npages with
    | none => (ENOMEM, { as with as_vbase1 := vaddr, as_ptable1 := none })
    | some tbl => (0, { as with as_vbase1 := vaddr, as_ptable1 := some tbl, as_npages1 := npages })
  else if as.as_vbase2 = 0 then
    match kmalloc npages with
    | none => (ENOMEM, { as with as_vbase2 := vaddr, as_ptable2 := none })
    | some tbl => (0, { as with as_vbase2 := vaddr, as_ptable2 := some tbl, as_npages2 := npages })
  else (EUNIMP, as)

/-- An allocator of page tables that always succeeds, with zeroed entries. -/
def kmallocExample (n : Nat) : Option (List Nat) := some (List.replicate n 0)

/-- The address space returned by a successful `as_create`. -/
def asFresh : addrspace :=
  { as_vbase1 := 0, as_ptable1 := none, as_npages1 := 0,
    as_vbase2 := 0, as_ptable2 := none, as_npages2 := 0,
    as_stack := none, readonlyON := false }

/-- The three places in which `vm_fault` looks a fault address up. -/
inductive FaultRegion where
  | region1
  | region2
  | stack
deriving DecidableEq, Repr

/-- The region lookup of `vm_fault` (the chain of `if`s on `faultaddress`), for the
page-masked fault address; `none` is the final `else`, which returns `EFAULT`. -/
def vm_fault_lookup (as : addrspace) (faultaddress : Nat) : Option FaultRegion :=
  let vbase1 := as.as_vbase1
  let vtop1 := (vbase1 + as.as_npages1 * PAGE_SIZE) % 2 ^ 32
  let vbase2 := as.as_vbase2
  let vtop2 := (vbase2 + as.as_npages2 * PAGE_SIZE) % 2 ^ 32
  let stackbase := USERSTACK - DUMBVM_STACKPAGES * PAGE_SIZE
  let stacktop := USERSTACK
  if faultaddress ≥ vbase1 ∧ faultaddress < vtop1 then some FaultRegion.region1
  else if faultaddress ≥ vbase2 ∧ faultaddress < vtop2 then some FaultRegion.region2
  else if faultaddress ≥ stackbase ∧ faultaddress < stacktop then some FaultRegion.stack
  else none

/-- The physical address that `vm_fault` computes with `get_paddr` once the region of the
page-masked fault address is known. -/
def vm_fault_paddr (as : addrspace) (faultaddress : Nat) : FaultRegion → Option Nat
  | FaultRegion.region1 => get_paddr faultaddress as.as_ptable1 as.as_vbase1
  | FaultRegion.region2 => get_paddr faultaddress as.as_ptable2 as.as_vbase2
  | FaultRegion.stack =>
    get_paddr faultaddress as.as_stack (USERSTACK - DUMBVM_STACKPAGES * PAGE_SIZE)

/-- The end of `vm_fault`, after the lookup: the alignment assertion and the TLB write. -/
def vm_fault_install (as : addrspace) (tlb : TLB) (victim faultaddress : Nat)
    (paddr : Option Nat) (changingText : Bool) : Option (Int × TLB) :=
  match paddr with
  | none => none
  | some paddr =>
    if paddr &&& PAGE_FRAME ≠ paddr then none
    else
      match vm_fault_scan tlb 0 with
      | some i =>
        some (0, tlb.set i (faultaddress, vm_fault_elo paddr (changingText && as.readonlyON)))
      | none =>
        some (0, tlb.set victim
          (faultaddress, vm_fault_elo paddr (changingText && as.readonlyON)))

/-- The page-masked fault address lies in region 2, in the 32-bit arithmetic of the handler. -/
def inRegion2 (as : addrspace) (faultaddress : Nat) : Prop :=
  as.as_vbase2 ≤ (faultaddress &&& PAGE_FRAME) ∧
    (faultaddress &&& PAGE_FRAME) < (as.as_vbase2 + as.as_npages2 * PAGE_SIZE) % 2 ^ 32

/-- The page-masked fault address lies in the stack range
`[USERSTACK - 12*PAGE_SIZE, USERSTACK)`. -/
def inStack (faultaddress : Nat) : Prop :=
  USERSTACK - 12 * PAGE_SIZE ≤ (faultaddress &&& PAGE_FRAME) ∧
    (faultaddress &&& PAGE_FRAME) < USERSTACK

instance (as : addrspace) (fa : Nat) : Decidable (inRegion2 as fa) := by
  unfold inRegion2; infer_instance

instance (fa : Nat) : Decidable (inStack fa) := by
  unfold inStack; infer_instance

/-! ## The index computed by `free_kpages` -/

/-- The index `(paddr - mapStart) / PAGE_SIZE` that `free_kpages(addr)` computes, in 32-bit
arithmetic. -/
def free_kpages_index (st : VMState) (addr : Nat) : Nat :=
  ((VADDR_TO_PVADDR addr + 2 ^ 32 - st.mapStart) % 2 ^ 32) / PAGE_SIZE

/-! ## The process table under `sys_fork`; reachable process tables -/

/-- The part of `sys_fork` that acts on the process table, for the caller
`curpid = curproc->p_pid`: `proctable_add(child, &cpid)`, the return of its error code, and
the assignment `proctable[cpid-PID_MIN]->parent = curproc->p_pid`.  The result is the code,
the child's PID (if any) and the table afterwards; `none` is the use of a slot that holds no
node. -/
def sys_fork_proctable (PID_MIN : Nat) (t : ProcTable) (curpid : Int) (child : Nat)
    (node_ok : Bool) : Option (Int × Option Int × ProcTable) :=
  match proctable_add PID_MIN t child node_ok with
  | (result, repid, t1) =>
    if result ≠ 0 then some (result, none, t1)
    else
      match repid with
      | none => none
      | some cpid =>
        match t1[(cpid - PID_MIN).toNat]? with
        | some (some nd) =>
          some (0, some cpid, t1.set (cpid - PID_MIN).toNat (some { nd with parent := curpid }))
        | _ => none

/-- Process tables reachable from a table of `PID_MAX - PID_MIN` slots all of whose nodes
are roots (`parent = -1`; in particular a table holding a single root node) by completed
calls of `sys_fork` (made by a running process: its slot is occupied and not marked exited),
`sys__exit` and `sys_waitpid`, and by `proctable_add` calls made when a process is created
outside `sys_fork`. -/
inductive ProcReachable (PID_MIN PID_MAX : Nat) : ProcTable → Prop
  | root (t : ProcTable) : t.length = PID_MAX - PID_MIN →
      (∀ (i : Nat) (nd : proctable_node), t[i]? = some (some nd) → nd.parent = -1) →
      ProcReachable PID_MIN PID_MAX t
  | create {t : ProcTable} {p : Nat} {ok : Bool} {pid : Int} :
      ProcReachable PID_MIN PID_MAX t → (proctable_add PID_MIN t p ok).2.1 = some pid →
      ProcReachable PID_MIN PID_MAX (proctable_add PID_MIN t p ok).2.2
  | fork {t t1 : ProcTable} {curpid cpid : Int} {pt : proctable_node} {child : Nat}
      {node_ok : Bool} :
      ProcReachable PID_MIN PID_MAX t → slotOf PID_MIN t curpid = some (some pt) →
      pt.exited = false →
      sys_fork_proctable PID_MIN t curpid child node_ok = some (0, some cpid, t1) →
      ProcReachable PID_MIN PID_MAX t1
  | exit {t t1 : ProcTable} {curpid exitcode : Int} :
      ProcReachable PID_MIN PID_MAX t →
      sys__exit PID_MIN PID_MAX t curpid exitcode = some t1 →
      ProcReachable PID_MIN PID_MAX t1
  | wait {t t1 : ProcTable} {curpid pid : Int} {status : Nat} {options : Int}
      {copyout_ok : Bool} {out : WaitOutcome} :
      ProcReachable PID_MIN PID_MAX t →
      sys_waitpid PID_MIN PID_MAX t curpid pid status options copyout_ok = some (out, t1) →
      ProcReachable PID_MIN PID_MAX t1

/-- The invariant of reachable process tables: the table has `PID_MAX - PID_MIN` slots, no
node is its own parent, and the parent of a node is -1 or the PID of an occupied slot that is
not marked exited. -/
def procInv (PID_MIN PID_MAX : Nat) (t : ProcTable) : Prop :=
  t.length = PID_MAX - PID_MIN ∧
  ∀ (pid : Int) (nd : proctable_node), slotOf PID_MIN t pid = some (some nd) →
    nd.parent ≠ pid ∧
    (nd.parent = -1 ∨
      ∃ pnd, slotOf PID_MIN t nd.parent = some (some pnd) ∧ pnd.exited = false)

/-- A table with limits `PID_MIN = 2`, `PID_MAX = 6` that holds the single root process 2. -/
def tableRoot : ProcTable := [some ⟨100, -1, false, -1⟩, none, none, none]

/-! ## Address spaces over the coremap: loading, stack, destroy, copy (`dumbvm.c`) -/

/-- Kernel memory: the byte stored at each kernel-virtual address. -/
abbrev Mem := Nat → Nat

/-- Modelled from the spec: the library function `bzero` (not in the sources), which sets
the `len` bytes from `addr` to zero ("allocate one frame and zero it"). -/
def bzero (mem : Mem) (addr len : Nat) : Mem :=
  fun a => if addr ≤ a ∧ a < addr + len then 0 else mem a

/-- Modelled from the spec: the library function `memmove` (not in the sources), which
copies `len` bytes from `src` to `dst` ("copy `PAGE_SIZE` bytes from the old frame to the
new frame"). -/
def memmove (mem : Mem) (dst src len : Nat) : Mem :=
  fun a => if dst ≤ a ∧ a < dst + len then mem (src + (a - dst)) else mem a

/-- The function `as_zero_region`. -/
def as_zero_region (mem : Mem) (paddr npages : Nat) : Mem :=
  bzero mem (PADDR_TO_KVADDR paddr) (npages * PAGE_SIZE)

/-- The loop `for (i = 0; i < n; i++)` shared by `as_prepare_load` and `as_define_stack`, for
the remaining `k` iterations starting at index `i`: entry `i` of the page table receives
`alloc_kpages(1)`; when that is 0 the loop is left with `ENOMEM` (`false`), otherwise the
frame is zeroed.  The result is whether the loop ran to its end, the table, the allocator
state and the memory; `none` is a write outside the table. -/
def as_alloc_loop : Nat → Nat → List Nat → VMState → Mem →
    Option (Bool × List Nat × VMState × Mem)
  | 0, _, tbl, st, mem => some (true, tbl, st, mem)
  | k + 1, i, tbl, st, mem =>
    if i < tbl.length then
      match alloc_kpages st 1 with
      | none => none
      | some (addr, st1) =>
        if addr = 0 then some (false, tbl.set i addr, st1, mem)
        else
          as_alloc_loop k (i + 1) (tbl.set i addr) st1
            (as_zero_region mem (VADDR_TO_PVADDR addr) 1)
    else none

/-- The function `as_prepare_load`: the returned code, the address space, the allocator
state and the memory afterwards; `none` is a failed `KASSERT` (a page table is null) or a
write outside a table. -/
def as_prepare_load (as : addrspace) (st : VMState) (mem : Mem) :
    Option (Int × addrspace × VMState × Mem) :=
  match as.as_ptable1, as.as_ptable2 with
  | some t1, some t2 =>
    match as_alloc_loop as.as_npages1 0 t1 st mem with
    | none => none
    | some (false, t1a, st1, mem1) => some (ENOMEM, { as with as_ptable1 := some t1a }, st1, mem1)
    | some (true, t1a, st1, mem1) =>
      match as_alloc_loop as.as_npages2 0 t2 st1 mem1 with
      | none => none
      | some (false, t2a, st2, mem2) =>
        some (ENOMEM, { as with as_ptable1 := some t1a, as_ptable2 := some t2a }, st2, mem2)
      | some (true, t2a, st2, mem2) =>
        some (0, { as with as_ptable1 := some t1a, as_ptable2 := some t2a }, st2, mem2)
  | _, _ => none

/-- The function `as_define_stack`: the returned code, the value stored in `*stackptr` (if
any), the address space, the allocator state and the memory afterwards.  `kmalloc n` is the
result of allocating a page table of `n` entries (`none` for a null pointer); the result
`none` is the failed `KASSERT(as->as_stack == 0)` or a write outside the table. -/
def as_define_stack (as : addrspace) (st : VMState) (mem : Mem)
    (kmalloc : Nat → Option (List Nat)) :
    Option (Int × Option Nat × addrspace × VMState × Mem) :=
  match as.as_stack with
  | some _ => none
  | none =>
    match kmalloc DUMBVM_STACKPAGES with
    | none => some (ENOMEM, none, as, st, mem)
    | some tbl =>
      match as_alloc_loop DUMBVM_STACKPAGES 0 tbl st mem with
      | none => none
      | some (false, tbl1, st1, mem1) =>
        some (ENOMEM, none, { as with as_stack := some tbl1 }, st1, mem1)
      | some (true, tbl1, st1, mem1) =>
        some (0, some USERSTACK, { as with as_stack := some tbl1 }, st1, mem1)

/-- The statement `free_kpages(ptable[i].paddr)` of `as_destroy`; `none` is a failed
assertion of `free_kpages` or a read through a null page table or past its end. -/
def as_destroy_free (ptb : Option (List Nat)) (i : Nat) (st : VMState) : Option VMState :=
  match ptb with
  | none => none
  | some t =>
    match t[i]? with
    | none => none
    | some addr => free_kpages st addr

/-- One loop of `as_destroy`, `for (i = 0; i < n; i++) free_kpages(ptable[i].paddr)`, for
the remaining `k` iterations starting at index `i`. -/
def as_destroy_loop : Nat → Nat → Option (List Nat) → VMState → Option VMState
  | 0, _, _, st => some st
  | k + 1, i, ptb, st =>
    match as_destroy_free ptb i st with
    | none => none
    | some st1 => as_destroy_loop k (i + 1) ptb st1

/-- The function `as_destroy`, as it acts on the coremap: the three loops over `as_ptable1`,
`as_ptable2` and `as_stack` (the `kfree` calls release the tables and the record). -/
def as_destroy (as : addrspace) (st : VMState) : Option VMState :=
  match as_destroy_loop as.as_npages1 0 as.as_ptable1 st with
  | none => none
  | some st1 =>
    match as_destroy_loop as.as_npages2 0 as.as_ptable2 st1 with
    | none => none
    | some st2 => as_destroy_loop DUMBVM_STACKPAGES 0 as.as_stack st2

/-- One copy loop of `as_copy`, `memmove(new[i].paddr, old[i].paddr, PAGE_SIZE)` for the
remaining `k` iterations starting at index `i`; `none` is a read through a null page table
or past its end. -/
def as_copy_loop : Nat → Nat → Option (List Nat) → Option (List Nat) → Mem → Option Mem
  | 0, _, _, _, mem => some mem
  | k + 1, i, newt, oldt, mem =>
    match newt, oldt with
    | some tn, some told =>
      match tn[i]?, told[i]? with
      | some dst, some src =>
        as_copy_loop k (i + 1) newt oldt (memmove mem dst src PAGE_SIZE)
      | _, _ => none
    | _, _ => none

/-- The function `as_copy`: the returned code, the value stored in `*ret` (if any), the
allocator state and the memory afterwards.  `as_ok` tells whether the `kmalloc` of
`as_create` succeeds, and `kmalloc1`, `kmalloc2`, `kmalloc3` are the allocations of the three
page tables (`none` for a null pointer); the result `none` is a failed assertion or an
access through a null or too short page table. -/
def as_copy (old : addrspace) (st : VMState) (mem : Mem) (as_ok : Bool)
    (kmalloc1 kmalloc2 kmalloc3 : Nat → Option (List Nat)) :
    Option (Int × Option addrspace × VMState × Mem) :=
  match as_create as_ok with
  | none => some (ENOMEM, none, st, mem)
  | some new =>
    match kmalloc1 old.as_npages1 with
    | none => some (ENOMEM, none, st, mem)
    | some t1 =>
      match kmalloc2 old.as_npages2 with
      | none => some (ENOMEM, none, st, mem)
      | some t2 =>
        match as_prepare_load
            { new with as_vbase1 := old.as_vbase1, as_ptable1 := some t1,
                       as_npages1 := old.as_npages1, as_vbase2 := old.as_vbase2,
                       as_ptable2 := some t2, as_npages2 := old.as_npages2,
                       readonlyON := old.readonlyON } st mem with
        | none => none
        | some (r1, new1, st1, mem1) =>
          if r1 ≠ 0 then
            match as_destroy new1 st1 with
            | none => none
            | some st2 => some (ENOMEM, none, st2, mem1)
          else
            match as_define_stack new1 st1 mem1 kmalloc3 with
            | none => none
            | some (r2, _, new2, st2, mem2) =>
              if r2 ≠ 0 then
                match as_destroy new2 st2 with
                | none => none
                | some st3 => some (ENOMEM, none, st3, mem2)
              else
                match new2.as_ptable1, new2.as_ptable2, new2.as_stack with
                | some _, some _, some _ =>
                  match as_copy_loop old.as_npages1 0 new2.as_ptable1 old.as_ptable1 mem2 with
                  | none => none
                  | some m1 =>
                    match as_copy_loop old.as_npages2 0 new2.as_ptable2 old.as_ptable2 m1 with
                    | none => none
                    | some m2 =>
                      match as_copy_loop DUMBVM_STACKPAGES 0 new2.as_stack old.as_stack
                          m2 with
                      | none => none
                      | some m3 => some (0, some new2, st2, m3)
                | _, _, _ => none

/-- The kernel-virtual address of the managed frame with index `s`. -/
def frameAddr (st : VMState) (s : Nat) : Nat := PADDR_TO_KVADDR (st.mapStart + s * PAGE_SIZE)

/-- The physical layout set up at boot: `mapStart` is non-zero and page-aligned and the
managed frames lie below the direct-mapped segment. -/
def bootLayout (st : VMState) : Prop :=
  0 < st.mapStart ∧ st.mapStart % PAGE_SIZE = 0 ∧
    st.mapStart + st.pageNum * PAGE_SIZE ≤ MIPS_KSEG0

instance (st : VMState) : Decidable (bootLayout st) := by
  unfold bootLayout; infer_instance

/-- The coremap after the entries with the indices `idxs` have been overwritten with `e`. -/
def markFrames (e : coremap_entry) : List Nat → List coremap_entry → List coremap_entry
  | [], cm => cm
  | s :: rest, cm => markFrames e rest (cm.set s e)

/-- The address `a` lies in the page of the managed frame with index `s`. -/
def inFrame (st : VMState) (s a : Nat) : Prop :=
  frameAddr st s ≤ a ∧ a < frameAddr st s + PAGE_SIZE
/-- The page tables of regions 1 and 2, where defined, have `as_npages1` and `as_npages2`
entries. -/
def tablesSized (as : addrspace) : Prop :=
  (∀ t, as.as_ptable1 = some t → t.length = as.as_npages1) ∧
  (∀ t, as.as_ptable2 = some t → t.length = as.as_npages2)

/-- An allocator of page tables gives a table of the number of entries asked for. -/
def kmallocSized (kmalloc : Nat → Option (List Nat)) : Prop :=
  ∀ (n : Nat) (tbl : List Nat), kmalloc n = some tbl → tbl.length = n

/-- A boot state with 31 managed frames. -/
def bootExample31 : VMState := vm_bootstrap 0x30000 0x50000

/-- A memory content. -/
def memExample : Mem := fun a => a % 251

/-- The address space after `as_create` and two calls of `as_define_region` (one page of
text at `0x400000`, one page of data at `0x10000000`). -/
def asDefined : addrspace :=
  { as_vbase1 := 0x400000, as_ptable1 := some [0], as_npages1 := 1,
    as_vbase2 := 0x10000000, as_ptable2 := some [0], as_npages2 := 1,
    as_stack := none, readonlyON := false }

/-- The address space `asDefined` after `as_prepare_load` in `bootExample31`. -/
def asPrepared : addrspace :=
  { asDefined with as_ptable1 := some [0x80031000], as_ptable2 := some [0x80032000] }

/-- The allocator state in which the first `n` of 31 managed frames are single-frame
runs. -/
def allocatedExample (n : Nat) : VMState :=
  { coremap := List.replicate n ⟨false, 1⟩ ++ List.replicate (31 - n) ⟨true, -1⟩
    mapStart := 0x31000 }

/-- The memory after the frames with the physical addresses `0x31000 + i * 0x1000`,
`i < n`, have been zeroed in turn. -/
def zeroedExample (n : Nat) : Mem :=
  (List.range n).foldl (fun m i => as_zero_region m (0x31000 + i * 0x1000) 1) memExample

/-! ## Examples for `as_copy` -/

/-- The memory `memExample` after the frames with the physical addresses
`0x3f000 + i * 0x1000`, `i < 14`, have been zeroed in turn. -/
def copyZeroedExample : Mem :=
  (List.range 14).foldl (fun m i => as_zero_region m (0x3f000 + i * 0x1000) 1) memExample

/-- The memory after the 14 pages at `0x80031000` have then been copied, page by page,
to the 14 pages at `0x8003f000`. -/
def copiedExample : Mem :=
  (List.range 14).foldl
    (fun m i => memmove m (0x8003f000 + i * 0x1000) (0x80031000 + i * 0x1000) PAGE_SIZE)
    copyZeroedExample

/-- The copy of `asLoading` made by `as_copy` in `allocatedExample 14`. -/
def asCopied : addrspace :=
  { asLoading with
    as_ptable1 := some [0x8003f000], as_ptable2 := some [0x80040000],
    as_stack := some ((List.range 12).map (fun i => 0x80041000 + i * 0x1000)) }

/-- The function `sys_fork` for the caller `curpid = curproc->p_pid` with the address space
`curas = curproc->p_addrspace`: the returned code, the value stored in `*retval` (if any),
the process table, the allocator state and the memory afterwards; `none` is a failed
assertion or an access outside an array.  Modelled from the spec: the functions
`proc_create_runprogram`, `proc_destroy`, `kmalloc`, `kfree` and `thread_fork` are not in
the sources.  `child` is the result of `proc_create_runprogram` (`none` for a null pointer,
otherwise the new process and its `p_pid` field), `kmalloc_as_ok` and `tf_ok` tell whether
the allocations of `child->p_addrspace` and of the trapframe succeed, `thread_fork` is the
code returned by `thread_fork`, and `proc_destroy(child)` releases the process structure
only.  The remaining parameters are those of `as_copy` and `proctable_add`. -/
def sys_fork (PID_MIN : Nat) (t : ProcTable) (st : VMState) (mem : Mem) (curpid : Int)
    (curas : addrspace) (child : Option (Nat × Int)) (kmalloc_as_ok as_ok : Bool)
    (kmalloc1 kmalloc2 kmalloc3 : Nat → Option (List Nat)) (node_ok tf_ok : Bool)
    (thread_fork : Int) : Option (Int × Option Int × ProcTable × VMState × Mem) :=
  match child with
  | none => some (ENOMEM, none, t, st, mem)
  | some (childp, child_pid) =>
    if kmalloc_as_ok = false then
      match proctable_remove PID_MIN t child_pid with
      | none => none
      | some t1 => some (ENOMEM, none, t1, st, mem)
    else
      match as_copy curas st mem as_ok kmalloc1 kmalloc2 kmalloc3 with
      | none => none
      | some (result, _, st1, mem1) =>
        if result ≠ 0 then some (result, none, t, st1, mem1)
        else
          match sys_fork_proctable PID_MIN t curpid childp node_ok with
          | none => none
          | some (result, repid, t1) =>
            if result ≠ 0 then some (result, none, t1, st1, mem1)
            else
              match repid with
              | none => none
              | some cpid =>
                if tf_ok = false then
                  match proctable_remove PID_MIN t1 cpid with
                  | none => none
                  | some t2 => some (ENOMEM, none, t2, st1, mem1)
                else if thread_fork ≠ 0 then
                  match proctable_remove PID_MIN t1 cpid with
                  | none => none
                  | some t2 => some (thread_fork, none, t2, st1, mem1)
                else some (0, some cpid, t1, st1, mem1)

/-! ## The argument stack of `sys_execv` (`proc_syscalls.c`) -/

/-- Modelled from the spec: the macro `ROUNDUP(a, b)` (`lib.h`, not in the sources), which
rounds `a` up to a multiple of `b` ("each padded up to 8-byte alignment"). -/
def ROUNDUP (a b : Nat) : Nat := (a + b - 1) / b * b

/-- Modelled from the spec: the limit `ARG_MAX` on the total size of the argument strings
(`kern/limits.h`, not in the sources). -/
def ARG_MAX : Nat := 65536

/-- Modelled from the spec: error code `ENAMETOOLONG` (`kern/errno.h`, not in the
sources). -/
def ENAMETOOLONG : Int := 7

/-- The memory `um` with the bytes `bs` stored from the address `addr` on. -/
def writeBytes (um : Mem) (addr : Nat) (bs : List Nat) : Mem :=
  fun a => if addr ≤ a ∧ a < addr + bs.length then bs.getD (a - addr) 0 else um a

/-- The four bytes of a 32-bit word, the most significant first. -/
def wordBytes (w : Nat) : List Nat :=
  [w / 16777216 % 256, w / 65536 % 256, w / 256 % 256, w % 256]

/-- The 32-bit word stored in the four bytes at the address `a`. -/
def readWord (um : Mem) (a : Nat) : Nat :=
  um a * 16777216 + um (a + 1) * 65536 + um (a + 2) * 256 + um (a + 3)

/-- Modelled from the spec: the interface `copyout` of the surrounding kernel (not in the
sources), which stores the bytes `bs` at the user address `dst`.  The copy fails with
`EFAULT` unless every byte of the destination lies in user space and is `mapped`.  Returns
the code and the user memory. -/
def copyout (mapped : Nat → Bool) (bs : List Nat) (dst : Nat) (um : Mem) : Int × Mem :=
  if dst + bs.length ≤ USERSTACK ∧ (List.range bs.length).all (fun j => mapped (dst + j)) = true
  then (0, writeBytes um dst bs)
  else (EFAULT, um)

/-- Modelled from the spec: the interface `copyoutstr` of the surrounding kernel (not in the
sources), which stores the string `s`, given by its bytes before the terminating NUL, and
the NUL at the user address `dst`; a string that does not fit in `maxlen` bytes gives
`ENAMETOOLONG`. -/
def copyoutstr (mapped : Nat → Bool) (s : List Nat) (dst maxlen : Nat) (um : Mem) : Int × Mem :=
  if s.length + 1 > maxlen then (ENAMETOOLONG, um)
  else copyout mapped (s ++ [0]) dst um

/-- The assignment `stackptr -= ROUNDUP(size, align)` on 32-bit words. -/
def stackptr_lower (stackptr size align : Nat) : Nat :=
  (stackptr + 2 ^ 32 - ROUNDUP size align % 2 ^ 32) % 2 ^ 32

/-- The first copy loop of `sys_execv`, `for (int i = count-1; i >= 0; i--)`, with `k`
iterations left (the next index is `k - 1`): the string `local_args[i]` is stored below the
stack pointer, which has been lowered by `ROUNDUP(strlen + 1, 8)`, and its address goes to
`usermodePointer[i]`.  The result is the code, the stack pointer, the array and the user
memory; `none` is an access outside an array. -/
def sys_execv_copy_strings (mapped : Nat → Bool) (local_args : List (List Nat)) :
    Nat → Nat → List Nat → Mem → Option (Int × Nat × List Nat × Mem)
  | 0, stackptr, usermodePointer, um => some (0, stackptr, usermodePointer, um)
  | k + 1, stackptr, usermodePointer, um =>
    match local_args[k]? with
    | none => none
    | some s =>
      match copyoutstr mapped s (stackptr_lower stackptr (s.length + 1) 8) ARG_MAX um with
      | (result, um1) =>
        if result ≠ 0 then
          some (result, stackptr_lower stackptr (s.length + 1) 8, usermodePointer, um1)
        else if k < usermodePointer.length then
          sys_execv_copy_strings mapped local_args k
            (stackptr_lower stackptr (s.length + 1) 8)
            (usermodePointer.set k (stackptr_lower stackptr (s.length + 1) 8)) um1
        else none

/-- One iteration of the second copy loop of `sys_execv` for the index `i`: the stack
pointer is lowered by `ROUNDUP(sizeof(vaddr_t), 4)` and the word `usermodePointer[i]` is
stored there.  The result is the code of `copyout`, the stack pointer and the user memory;
`none` is an access outside the array. -/
def sys_execv_copy_pointer (mapped : Nat → Bool) (usermodePointer : List Nat) (i : Nat)
    (stackptr : Nat) (um : Mem) : Option (Int × Nat × Mem) :=
  match usermodePointer[i]? with
  | none => none
  | some w =>
    some ((copyout mapped (wordBytes w) (stackptr_lower stackptr 4 4) um).1,
      stackptr_lower stackptr 4 4,
      (copyout mapped (wordBytes w) (stackptr_lower stackptr 4 4) um).2)

/-- The second copy loop of `sys_execv`, `for (int i = count; i >= 0; i--)`, with `k`
iterations left (the next index is `k - 1`); the loop is left with the first non-zero
code. -/
def sys_execv_copy_pointers (mapped : Nat → Bool) (usermodePointer : List Nat) :
    Nat → Nat → Mem → Option (Int × Nat × Mem)
  | 0, stackptr, um => some (0, stackptr, um)
  | k + 1, stackptr, um =>
    match sys_execv_copy_pointer mapped usermodePointer k stackptr um with
    | none => none
    | some (result, stackptr1, um1) =>
      if result ≠ 0 then some (result, stackptr1, um1)
      else sys_execv_copy_pointers mapped usermodePointer k stackptr1 um1

/-- The end of `sys_execv`, from the declaration of `usermodePointer` to the call of
`enter_new_process`: the two copy loops with the store `usermodePointer[count] = 0` between
them.  `usermodePointer` is the array as declared, `vaddr_t usermodePointer[count]`, with
its initial contents, so that in the source its length is `count`, the number of strings in
`local_args`; `stackptr` is the value set by `as_define_stack`, `um` the user memory of the
new address space, and `args` the user pointer passed to the call.  The result is the
returned code, or code 0 with the arguments `argc`, `argv` and `stackptr` passed to
`enter_new_process`, and the user memory; `none` is an access outside an array. -/
def sys_execv_stack (mapped : Nat → Bool) (usermodePointer : List Nat)
    (local_args : List (List Nat)) (stackptr : Nat) (um : Mem) (args : Nat) :
    Option (Int × Option (Nat × Nat × Nat) × Mem) :=
  match sys_execv_copy_strings mapped local_args local_args.length stackptr
      usermodePointer um with
  | none => none
  | some (result, sp1, arr1, um1) =>
    if result ≠ 0 then some (result, none, um1)
    else if local_args.length < arr1.length then
      match sys_execv_copy_pointers mapped (arr1.set local_args.length 0)
          (local_args.length + 1) sp1 um1 with
      | none => none
      | some (result2, sp2, um2) =>
        if result2 ≠ 0 then some (result2, none, um2)
        else some (0, some (local_args.length, if args ≠ 0 then sp2 else 0, sp2), um2)
    else none

/-- The number of bytes that the first `k` strings of `args` take on the stack. -/
def execvStringBytes (args : List (List Nat)) (k : Nat) : Nat :=
  ((args.take k).map (fun s => ROUNDUP (s.length + 1) 8)).sum

/-- The user stack of 12 pages below `USERSTACK`. -/
def stackMapped (a : Nat) : Bool :=
  decide (USERSTACK - DUMBVM_STACKPAGES * PAGE_SIZE ≤ a ∧ a < USERSTACK)

/-- The argument vector `["a", "bb"]`. -/
def argvExample : List (List Nat) := [[97], [98, 98]]

/-- The stack pointer below the strings of `args` and their `args.length + 1` pointer
slots. -/
def execvStackPointer (args : List (List Nat)) : Nat :=
  USERSTACK - (args.map (fun s => ROUNDUP (s.length + 1) 8)).sum - 4 * (args.length + 1)

/-- The address of the copy of the string `i` of `args`: the strings lie above the pointer
slots, the first one lowest. -/
def execvStringAddr (args : List (List Nat)) (i : Nat) : Nat :=
  execvStackPointer args + 4 * (args.length + 1) + execvStringBytes args i

/-! ## The linked queue of the intersection (`traffic_synch.c`) -/

/-- The record `struct node`; the pointers `previous` and `next` are addresses, and 0 is the
null pointer. -/
structure node where
  vehicle : Vehicle
  previous : Nat
  next : Nat
deriving DecidableEq, Repr

/-- The queue `*Vqueue` with its nodes: the fields `first`, `last` and `total` of
`struct vehicles`, and `heap`, the node stored at each address (`none` where no node is
allocated). -/
structure Vqueue where
  first : Nat
  last : Nat
  total : Int
  heap : Nat → Option node

/-- The store `p->next = v`; `none` when no node is allocated at `p`. -/
def node_set_next (heap : Nat → Option node) (p v : Nat) : Option (Nat → Option node) :=
  match heap p with
  | none => none
  | some n => some (fun a => if a = p then some { n with next := v } else heap a)

/-- The store `p->previous = v`; `none` when no node is allocated at `p`. -/
def node_set_previous (heap : Nat → Option node) (p v : Nat) :
    Option (Nat → Option node) :=
  match heap p with
  | none => none
  | some n => some (fun a => if a = p then some { n with previous := v } else heap a)

/-- The queue set up by `intersection_sync_init`, with the nodes `heap` allocated so far. -/
def intersection_sync_init_linked (heap : Nat → Option node) : Vqueue :=
  { first := 0, last := 0, total := 0, heap := heap }

/-- The end of `intersection_before_entry`, which links the new node for `v` after `last`;
`newNode` is the address returned by `kmalloc`.  `none` is a store through the null pointer
or through a pointer at which no node is allocated. -/
def intersection_before_entry_link (q : Vqueue) (newNode : Nat) (v : Vehicle) :
    Option Vqueue :=
  if newNode = 0 then none
  else
    match (if q.last ≠ 0 then
        node_set_next (fun a => if a = newNode then some ⟨v, q.last, 0⟩ else q.heap a)
          q.last newNode
      else some (fun a => if a = newNode then some ⟨v, q.last, 0⟩ else q.heap a)) with
    | none => none
    | some h1 =>
      some { first := if q.last ≠ 0 then q.first else newNode
             last := newNode
             total := q.total + 1
             heap := h1 }

/-- The `while (current)` loop of `intersection_after_exit` on the linked nodes, for at
most `fuel` iterations: the address of the first node from `current` on, along `next`, whose
vehicle matches (`some none` when the loop ends at the null pointer without a match).
`none` is a read through a pointer at which no node is allocated, or the end of the
fuel. -/
def intersection_after_exit_find (origin destination : Direction)
    (heap : Nat → Option node) : Nat → Nat → Option (Option Nat)
  | 0, current => if current = 0 then some none else none
  | fuel + 1, current =>
    if current = 0 then some none
    else
      match heap current with
      | none => none
      | some n =>
        if n.vehicle.origin = origin ∧ n.vehicle.destination = destination then
          some (some current)
        else intersection_after_exit_find origin destination heap fuel n.next

/-- The body of the `if` in the loop of `intersection_after_exit`, which removes the node
`current` from the queue: the four conditional pointer stores, `kfree(current)` and
`Vqueue->total --`.  Each field is read when the source reads it.  `none` is an access
through a pointer at which no node is allocated. -/
def intersection_after_exit_unlink (q : Vqueue) (current : Nat) : Option Vqueue :=
  match q.heap current with
  | none => none
  | some n =>
    match (if n.previous ≠ 0 then node_set_next q.heap n.previous n.next
      else some q.heap) with
    | none => none
    | some h1 =>
      match h1 current with
      | none => none
      | some n1 =>
        match (if n1.next ≠ 0 then node_set_previous h1 n1.next n1.previous
          else some h1) with
        | none => none
        | some h2 =>
          match h2 current with
          | none => none
          | some n2 =>
            some { first := if q.first = current then n2.next else q.first
                   last := if q.last = current then n2.previous else q.last
                   total := q.total - 1
                   heap := fun a => if a = current then none else h2 a }

/-- The function `intersection_after_exit` on the linked nodes; `none` is a failed
assertion (`total <= NumThreads`, `total > 0`), an access through a pointer at which no
node is allocated, or the end of the fuel of the loop. -/
def intersection_after_exit_linked (fuel : Nat) (q : Vqueue)
    (origin destination : Direction) : Option Vqueue :=
  if ¬ (q.total ≤ NumThreads) then none
  else if ¬ (q.total > 0) then none
  else
    match intersection_after_exit_find origin destination q.heap fuel q.first with
    | none => none
    | some none => some q
    | some (some current) => intersection_after_exit_unlink q current

/-- The address of the node `i` of the list of node addresses `addrs`, and the null pointer
past its end. -/
def addrAt (addrs : List Nat) (i : Nat) : Nat := (addrs[i]?).getD 0

/-- The queue `q` links exactly the nodes at the addresses `addrs`, in this order, and they
hold the vehicles `vs`: the addresses are distinct and non-null, `first` and `last` point
to the first and the last node (null for no node), `total` is the number of nodes, and
each node holds its vehicle, the address of the node before it in `previous` (null for the
first) and the address of the node after it in `next` (null for the last). -/
def QueueLinked (q : Vqueue) (addrs : List Nat) (vs : List Vehicle) : Prop :=
  addrs.length = vs.length ∧ addrs.Nodup ∧ 0 ∉ addrs ∧
  q.first = addrAt addrs 0 ∧ q.last = addrAt addrs (addrs.length - 1) ∧
  q.total = (addrs.length : Int) ∧
  ∀ i v, vs[i]? = some v →
    q.heap (addrAt addrs i)
      = some ⟨v, if i = 0 then 0 else addrAt addrs (i - 1), addrAt addrs (i + 1)⟩

/-- The nodes of a queue of two vehicles, north to south at `0x1000` and south to north at
`0x2000`. -/
def heapNSSN (a : Nat) : Option node :=
  if a = 0x1000 then some ⟨⟨Direction.north, Direction.south⟩, 0, 0x2000⟩
  else if a = 0x2000 then some ⟨⟨Direction.south, Direction.north⟩, 0x1000, 0⟩
  else none

/-- The linked queue of the two vehicles of `heapNSSN`. -/
def linkedNSSN : Vqueue := { first := 0x1000, last := 0x2000, total := 2, heap := heapNSSN }

/-! ## Theorems: the coremap allocator -/

theorem entryAvailable_of_getElem? {cm : List coremap_entry} {j : Nat} {e : coremap_entry}
    (h : cm[j]? = some e) : entryAvailable cm j = e.available := by
  simp [entryAvailable, h]

theorem getppageIndex_scan_spec (npages : Nat) (hn : 0 < npages) (cm : List coremap_entry) :
    ∀ (rest : List coremap_entry) (i cnt start : Nat), cm.drop i = rest → cnt < npages →
      cnt ≤ i → (∀ j, i - cnt ≤ j → j < i → entryAvailable cm j = true) →
      (0 < cnt → start = i - cnt) →
      (∀ s, s + cnt < i → ¬ freeRun cm s npages) →
      match getppageIndex_scan npages rest i cnt start with
      | some s => freeRun cm s npages ∧ ∀ t, t < s → ¬ freeRun cm t npages
      | none => ∀ s, ¬ freeRun cm s npages := by
  intro rest
  induction rest with
  | nil =>
    intro i cnt start hdrop hcnt _ _ _ hmin
    simp only [getppageIndex_scan]
    intro s hs
    have hlen : cm.length ≤ i := by
      have := congrArg List.length hdrop
      simp only [List.length_drop, List.length_nil] at this
      omega
    by_cases h : s + cnt < i
    · exact hmin s h hs
    · have := hs.1
      omega
  | cons e rest ih =>
    intro i cnt start hdrop hcnt hci hav hstart hmin
    have hget : cm[i]? = some e := by
      have := List.getElem?_drop cm i 0
      rw [hdrop] at this
      simpa using this.symm
    have hilt : i < cm.length := by
      rcases List.getElem?_eq_some.1 hget with ⟨h, _⟩
      exact h
    have hdrop1 : cm.drop (i + 1) = rest := by
      rw [← List.drop_drop, hdrop]
      rfl
    simp only [getppageIndex_scan]
    by_cases hea : e.available = true
    · simp only [hea, if_true]
      have hst : (if cnt = 0 then i else start) = i - cnt := by
        by_cases h0 : cnt = 0
        · simp [h0]
        · simp only [h0, if_false]
          exact hstart (Nat.pos_of_ne_zero h0)
      rw [hst]
      have havi : entryAvailable cm i = true := by
        rw [entryAvailable_of_getElem? hget]; exact hea
      by_cases hfull : cnt + 1 = npages
      · simp only [hfull, if_true]
        refine ⟨⟨by omega, ?_⟩, ?_⟩
        · intro j hj1 hj2
          by_cases hji : j = i
          · rw [hji]; exact havi
          · exact hav j hj1 (by omega)
        · intro t ht
          exact hmin t (by omega)
      · simp only [hfull, if_false]
        apply ih (i + 1) (cnt + 1) (i - cnt) hdrop1 (by omega) (by omega)
        · intro j hj1 hj2
          by_cases hji : j = i
          · rw [hji]; exact havi
          · exact hav j (by omega) (by omega)
        · intro _; omega
        · intro s hs
          exact hmin s (by omega)
    · have hea2 : e.available = false := by simpa using hea
      simp only [hea2]
      apply ih (i + 1) 0 start hdrop1 hn (by omega)
      · intro j hj1 hj2; omega
      · intro h; omega
      · intro s hs hrun
        by_cases h : s + cnt < i
        · exact hmin s h hrun
        · have := hrun.2 i (by omega) (by omega)
          rw [entryAvailable_of_getElem? hget, hea2] at this
          exact Bool.noConfusion this

theorem getppageIndex_mark_getElem? (start : Nat) :
    ∀ (k i : Nat) (cm : List coremap_entry) (j : Nat),
      (getppageIndex_mark start k i cm)[j]? =
        (cm[j]?).map (fun e =>
          if start + i ≤ j ∧ j < start + i + k then { e with available := false } else e) := by
  intro k
  induction k with
  | zero =>
    intro i cm j
    have hno : ¬ (start + i ≤ j ∧ j < start + i + 0) := by omega
    simp only [getppageIndex_mark, hno, if_false]
    cases cm[j]? <;> rfl
  | succ k ih =>
    intro i cm j
    simp only [getppageIndex_mark]
    rw [ih, List.getElem?_modify]
    cases hj : cm[j]? with
    | none => simp
    | some e =>
      simp only [Option.map_some', Option.map_eq_map]
      by_cases h1 : start + i = j
      · subst h1
        simp
      · simp only [h1, if_false]
        have : (start + (i + 1) ≤ j ∧ j < start + (i + 1) + k) ↔
            (start + i ≤ j ∧ j < start + i + (k + 1)) := by omega
        simp only [this]

theorem getppageIndex_mark_length (start : Nat) :
    ∀ (k i : Nat) (cm : List coremap_entry),
      (getppageIndex_mark start k i cm).length = cm.length := by
  intro k
  induction k with
  | zero => intro i cm; rfl
  | succ k ih =>
    intro i cm
    simp only [getppageIndex_mark]
    rw [ih, List.length_modify]

theorem getppageIndex_found (cm : List coremap_entry) (n : Nat) (hn : 1 ≤ n) (s : Nat)
    (hscan : getppageIndex_scan n cm 0 0 0 = some s) :
    ∃ cm1, getppageIndex cm n = some ((s : Int), cm1) ∧ cm1.length = cm.length ∧
      ∀ j e, cm[j]? = some e →
        cm1[j]? = some (if j = s then ⟨false, (n : Int)⟩
          else if s < j ∧ j < s + n then ⟨false, e.datasize⟩ else e) := by
  have hn0 : n ≠ 0 := by omega
  refine ⟨getppageIndex_mark s n 0
      (List.modify (fun e => { e with datasize := (n : Int) }) s cm), ?_, ?_, ?_⟩
  · simp only [getppageIndex, hn0, if_false, hscan]
  · rw [getppageIndex_mark_length, List.length_modify]
  · intro j e hj
    rw [getppageIndex_mark_getElem?, List.getElem?_modify, hj]
    simp only [Option.map_eq_map, Option.map_some', Nat.add_zero]
    by_cases h1 : s = j
    · subst h1
      have : s ≤ s ∧ s < s + n := by omega
      simp [this]
    · have h2 : ¬ j = s := fun h => h1 h.symm
      simp only [h1, h2, if_false]
      have : (s ≤ j ∧ j < s + n) ↔ (s < j ∧ j < s + n) := by omega
      simp only [this]

theorem getppageIndex_scan_result (cm : List coremap_entry) (n : Nat) (hn : 1 ≤ n) :
    match getppageIndex_scan n cm 0 0 0 with
    | some s => freeRun cm s n ∧ ∀ t, t < s → ¬ freeRun cm t n
    | none => ∀ s, ¬ freeRun cm s n := by
  apply getppageIndex_scan_spec n hn cm cm 0 0 0 rfl hn (Nat.le_refl 0)
  · intro j _ h; omega
  · intro h; omega
  · intro s h; omega

/-- First-fit behaviour of `alloc_kpages`, in the form shared by the results below. -/
theorem alloc_kpages_spec (st : VMState) (n : Nat) (hn : 1 ≤ n) :
    ((∃ s, freeRun st.coremap s n) →
      ∃ s cm addr, freeRun st.coremap s n ∧ (∀ t, t < s → ¬ freeRun st.coremap t n) ∧
        alloc_kpages st n = some (addr, { coremap := cm, mapStart := st.mapStart }) ∧
        cm.length = st.coremap.length ∧
        (∀ j e, st.coremap[j]? = some e →
          cm[j]? = some (if j = s then ⟨false, (n : Int)⟩
            else if s < j ∧ j < s + n then ⟨false, e.datasize⟩ else e)) ∧
        (0 < st.mapStart → st.mapStart + st.pageNum * PAGE_SIZE ≤ MIPS_KSEG0 →
          addr = PADDR_TO_KVADDR (st.mapStart + s * PAGE_SIZE) ∧ addr ≠ 0)) ∧
    ((¬ ∃ s, freeRun st.coremap s n) → alloc_kpages st n = some (0, st)) := by
  have hres := getppageIndex_scan_result st.coremap n hn
  have hn0 : n ≠ 0 := by omega
  constructor
  · intro hex
    cases hscan : getppageIndex_scan n st.coremap 0 0 0 with
    | none =>
      rw [hscan] at hres
      obtain ⟨s, hs⟩ := hex
      exact absurd hs (hres s)
    | some s =>
      rw [hscan] at hres
      obtain ⟨cm1, hidx, hlen, hpt⟩ := getppageIndex_found st.coremap n hn s hscan
      have hsn : s + n ≤ st.coremap.length := hres.1.1
      have hne : ¬ ((s : Int) = -1) := by omega
      refine ⟨s, cm1,
        if (s * PAGE_SIZE + st.mapStart) % 2 ^ 32 = 0 then 0
        else PADDR_TO_KVADDR ((s * PAGE_SIZE + st.mapStart) % 2 ^ 32),
        hres.1, hres.2, ?_, hlen, hpt, ?_⟩
      · simp only [alloc_kpages, getppages, hidx, hne, if_false, Int.toNat_ofNat]
        split <;> rfl
      · intro hlow hhigh
        have hpa : (s * PAGE_SIZE + st.mapStart) % 2 ^ 32 = st.mapStart + s * PAGE_SIZE := by
          simp only [VMState.pageNum, PAGE_SIZE, MIPS_KSEG0] at hhigh ⊢
          omega
        have hpa0 : st.mapStart + s * PAGE_SIZE ≠ 0 := by omega
        rw [hpa, if_neg hpa0]
        refine ⟨rfl, ?_⟩
        simp only [VMState.pageNum, PAGE_SIZE, MIPS_KSEG0, PADDR_TO_KVADDR] at hhigh ⊢
        omega
  · intro hno
    cases hscan : getppageIndex_scan n st.coremap 0 0 0 with
    | none =>
      simp [alloc_kpages, getppages, getppageIndex, hn0, hscan]
    | some s =>
      rw [hscan] at hres
      exact absurd ⟨s, hres.1⟩ hno

/-- C1: `alloc_kpages(n)` with `n ≥ 1` is first-fit in every coremap state: when some run of
`n` available entries inside the coremap exists, the call takes the least start `s`, makes
entries `s..s+n-1` unavailable, stores `datasize = n` on entry `s` and changes nothing else
(every entry outside the run, the `datasize` of the trailing entries, `mapStart`), and under
the physical layout set up at boot (managed frames at non-zero addresses below the
direct-mapped segment) the address returned is the kernel-virtual alias of
`mapStart + s*PAGE_SIZE`, which is not 0; when no run exists the call returns 0 and the
state is unchanged. -/
theorem alloc_kpages_first_fit (st : VMState) (n : Nat) (hn : 1 ≤ n) :
    ((∃ s, freeRun st.coremap s n) →
      ∃ s cm addr, freeRun st.coremap s n ∧ (∀ t, t < s → ¬ freeRun st.coremap t n) ∧
        alloc_kpages st n = some (addr, { coremap := cm, mapStart := st.mapStart }) ∧
        cm.length = st.coremap.length ∧
        (∀ j e, st.coremap[j]? = some e →
          cm[j]? = some (if j = s then ⟨false, (n : Int)⟩
            else if s < j ∧ j < s + n then ⟨false, e.datasize⟩ else e)) ∧
        (0 < st.mapStart → st.mapStart + st.pageNum * PAGE_SIZE ≤ MIPS_KSEG0 →
          addr = PADDR_TO_KVADDR (st.mapStart + s * PAGE_SIZE) ∧ addr ≠ 0)) ∧
    ((¬ ∃ s, freeRun st.coremap s n) → alloc_kpages st n = some (0, st)) :=
  alloc_kpages_spec st n hn

theorem alloc_kpages_first_fit_witness :
    (1 ≤ 2 ∧ 0 < afterExample.mapStart ∧
      afterExample.mapStart + afterExample.pageNum * PAGE_SIZE ≤ MIPS_KSEG0 ∧
      freeRun afterExample.coremap 0 2) ∧
    ∃ s cm addr, freeRun afterExample.coremap s 2 ∧
      (∀ t, t < s → ¬ freeRun afterExample.coremap t 2) ∧
      alloc_kpages afterExample 2 =
        some (addr, { coremap := cm, mapStart := afterExample.mapStart }) ∧
      cm.length = afterExample.coremap.length ∧
      (∀ j e, afterExample.coremap[j]? = some e →
        cm[j]? = some (if j = s then ⟨false, ((2 : Nat) : Int)⟩
          else if s < j ∧ j < s + 2 then ⟨false, e.datasize⟩ else e)) ∧
      (0 < afterExample.mapStart →
        afterExample.mapStart + afterExample.pageNum * PAGE_SIZE ≤ MIPS_KSEG0 →
        addr = PADDR_TO_KVADDR (afterExample.mapStart + s * PAGE_SIZE) ∧ addr ≠ 0) :=
  have hrun : freeRun afterExample.coremap 0 2 :=
    ⟨by decide, fun j _ h2 => by
      have hj : j = 0 ∨ j = 1 := by omega
      rcases hj with hj | hj <;> subst hj <;> rfl⟩
  ⟨⟨by decide, by decide, by decide, hrun⟩,
    (alloc_kpages_first_fit afterExample 2 (by decide)).1 ⟨0, hrun⟩⟩

/-- When the RAM reported at boot is directly mapped (`low ≤ high ≤ MIPS_KSEG0`) and at
least one frame is managed, the state set up by `vm_bootstrap` has its managed frames at
non-zero addresses inside `[low, high)`. -/
theorem vm_bootstrap_layout (low high : Nat) (hlh : low ≤ high) (hhi : high ≤ MIPS_KSEG0)
    (hpos : 0 < (vm_bootstrap low high).pageNum) :
    0 < (vm_bootstrap low high).mapStart ∧
      low ≤ (vm_bootstrap low high).mapStart ∧
      (vm_bootstrap low high).mapStart + (vm_bootstrap low high).pageNum * PAGE_SIZE ≤ high := by
  simp only [vm_bootstrap, VMState.pageNum, List.length_replicate, PAGE_SIZE, MIPS_KSEG0,
    sizeof_coremap_entry] at hhi hpos ⊢
  omega

theorem coremapInv.unique {cm : List coremap_entry} (h : coremapInv cm) {j i1 n1 i2 n2 : Nat}
    (h1 : runStart cm i1 n1) (hj1 : i1 ≤ j ∧ j < i1 + n1)
    (h2 : runStart cm i2 n2) (hj2 : i2 ≤ j ∧ j < i2 + n2) : i1 = i2 := by
  by_contra hne
  rcases Nat.lt_or_gt_of_ne hne with hlt | hgt
  · obtain ⟨e2, he2, _, hd2, hp2⟩ := h2
    have := ((h.runs i1 n1 h1).2 i2 e2 (by omega) (by omega) he2).2 hlt
    omega
  · obtain ⟨e1, he1, _, hd1, hp1⟩ := h1
    have := ((h.runs i2 n2 h2).2 i1 e1 (by omega) (by omega) he1).2 hgt
    omega

theorem coremapInv.toWF {cm : List coremap_entry} (h : coremapInv cm) : coremapWF cm := by
  refine ⟨h.runs, h.free, ?_⟩
  intro j f hj hf
  obtain ⟨i, n, hs, hij⟩ := h.covered j f hj hf
  refine ⟨i, ⟨n, hs, hij⟩, ?_⟩
  rintro i2 ⟨n2, hs2, hij2⟩
  exact h.unique hs2 hij2 hs hij

theorem coremapWF.toInv {cm : List coremap_entry} (h : coremapWF cm) : coremapInv cm := by
  refine ⟨h.runs, h.free, ?_⟩
  intro j f hj hf
  obtain ⟨i, ⟨n, hs, hij⟩, _⟩ := h.covered j f hj hf
  exact ⟨i, n, hs, hij⟩

theorem coremapInv_replicate (k : Nat) :
    coremapInv (List.replicate k (⟨true, -1⟩ : coremap_entry)) := by
  have hget : ∀ (j : Nat) (e : coremap_entry), (List.replicate k (⟨true, -1⟩ : coremap_entry))[j]? = some e →
      e = ⟨true, -1⟩ := by
    intro j e h
    rw [List.getElem?_replicate] at h
    by_cases hjk : j < k
    · simp only [hjk, if_true] at h
      exact (Option.some.inj h).symm
    · simp only [hjk, if_false] at h
      exact Option.noConfusion h
  refine ⟨?_, ?_, ?_⟩
  · rintro i n ⟨e, he, hav, _, _⟩
    rw [hget i e he] at hav
    exact Bool.noConfusion hav
  · intro j e he _
    rw [hget j e he]
  · intro j f hf hav
    rw [hget j f hf] at hav
    exact Bool.noConfusion hav

theorem coremapInv_alloc {cm cm1 : List coremap_entry} {s n : Nat} (hn : 1 ≤ n)
    (h : coremapInv cm) (hrun : freeRun cm s n) (hlen : cm1.length = cm.length)
    (hpt : ∀ (j : Nat) (e : coremap_entry), cm[j]? = some e →
      cm1[j]? = some (if j = s then ⟨false, (n : Int)⟩
        else if s < j ∧ j < s + n then ⟨false, e.datasize⟩ else e)) :
    coremapInv cm1 := by
  -- every entry of the new coremap comes from an entry of the old one
  have hback : ∀ (j : Nat) (f : coremap_entry), cm1[j]? = some f →
      ∃ e, cm[j]? = some e ∧
        f = (if j = s then ⟨false, (n : Int)⟩
          else if s < j ∧ j < s + n then ⟨false, e.datasize⟩ else e) := by
    intro j f hf
    have hj : j < cm.length := by
      rcases List.getElem?_eq_some.1 hf with ⟨hj, _⟩
      omega
    refine ⟨cm[j], List.getElem?_eq_getElem hj, ?_⟩
    have := hpt j cm[j] (List.getElem?_eq_getElem hj)
    rw [hf] at this
    exact Option.some.inj this
  have hold : ∀ (j : Nat) (e : coremap_entry), cm[j]? = some e → s ≤ j → j < s + n →
      e.available = true ∧ e.datasize = -1 := by
    intro j e he h1 h2
    have hav := hrun.2 j h1 h2
    rw [entryAvailable_of_getElem? he] at hav
    exact ⟨hav, h.free j e he hav⟩
  have hin : ∀ (j : Nat) (f : coremap_entry), cm1[j]? = some f → s ≤ j → j < s + n →
      f = ⟨false, if j = s then (n : Int) else -1⟩ := by
    intro j f hf h1 h2
    obtain ⟨e, he, hfe⟩ := hback j f hf
    have hd := (hold j e he h1 h2).2
    by_cases hjs : j = s
    · simp only [hjs, if_true] at hfe ⊢
      exact hfe
    · have : s < j ∧ j < s + n := by omega
      simp only [hjs, if_false, this, and_self, if_true] at hfe ⊢
      rw [hfe, hd]
  have hout : ∀ (j : Nat) (f : coremap_entry), cm1[j]? = some f → (j < s ∨ s + n ≤ j) →
      cm[j]? = some f := by
    intro j f hf hj
    obtain ⟨e, he, hfe⟩ := hback j f hf
    have h1 : ¬ j = s := by omega
    have h2 : ¬ (s < j ∧ j < s + n) := by omega
    simp only [h1, h2, if_false] at hfe
    rw [hfe]; exact he
  have hout2 : ∀ (j : Nat) (e : coremap_entry), cm[j]? = some e → (j < s ∨ s + n ≤ j) →
      cm1[j]? = some e := by
    intro j e he hj
    have h1 : ¬ j = s := by omega
    have h2 : ¬ (s < j ∧ j < s + n) := by omega
    have := hpt j e he
    simpa only [h1, h2, if_false] using this
  have hsn : s + n ≤ cm.length := hrun.1
  -- an old run never meets the entries that were available
  have hdisj : ∀ (i m : Nat), runStart cm i m → ∀ j, i ≤ j → j < i + m →
      (j < s ∨ s + n ≤ j) := by
    intro i m hs j h1 h2
    by_contra hc
    have hjlt : j < cm.length := by omega
    have hf := ((h.runs i m hs).2 j cm[j] h1 h2 (List.getElem?_eq_getElem hjlt)).1
    have := (hold j cm[j] (List.getElem?_eq_getElem hjlt) (by omega) (by omega)).1
    rw [hf] at this
    exact Bool.noConfusion this
  have hnew : runStart cm1 s n := by
    have hs : s < cm1.length := by omega
    refine ⟨cm1[s], List.getElem?_eq_getElem hs, ?_⟩
    have := hin s cm1[s] (List.getElem?_eq_getElem hs) (Nat.le_refl s) (by omega)
    simp only [if_true] at this
    rw [this]
    exact ⟨rfl, rfl, by omega⟩
  have hstart : ∀ (i m : Nat), runStart cm1 i m → (i = s ∧ m = n) ∨
      ((i < s ∨ s + n ≤ i) ∧ runStart cm i m) := by
    rintro i m ⟨e, he, hav, hd, hm⟩
    by_cases hi : s ≤ i ∧ i < s + n
    · have := hin i e he hi.1 hi.2
      by_cases his : i = s
      · left
        simp only [his, if_true] at this
        rw [this] at hd
        simp only at hd
        exact ⟨his, by omega⟩
      · simp only [his, if_false] at this
        rw [this] at hd
        simp only at hd
        omega
    · right
      have hio : i < s ∨ s + n ≤ i := by omega
      exact ⟨hio, e, hout i e he hio, hav, hd, hm⟩
  refine ⟨?_, ?_, ?_⟩
  · intro i m hs
    rcases hstart i m hs with ⟨his, hmn⟩ | ⟨hio, hsold⟩
    · subst his; subst hmn
      refine ⟨by omega, ?_⟩
      intro j f h1 h2 hf
      have := hin j f hf h1 h2
      rw [this]
      refine ⟨rfl, ?_⟩
      intro hlt
      have : ¬ j = i := by omega
      simp [this]
    · have hrunold := h.runs i m hsold
      have hb : i + m ≤ cm.length := hrunold.1
      refine ⟨by omega, ?_⟩
      intro j f h1 h2 hf
      have hjo := hdisj i m hsold j h1 h2
      exact hrunold.2 j f h1 h2 (hout j f hf hjo)
  · intro j f hf hav
    by_cases hj : s ≤ j ∧ j < s + n
    · have := hin j f hf hj.1 hj.2
      rw [this] at hav
      exact Bool.noConfusion hav
    · exact h.free j f (hout j f hf (by omega)) hav
  · intro j f hf hav
    by_cases hj : s ≤ j ∧ j < s + n
    · exact ⟨s, n, hnew, hj.1, hj.2⟩
    · have hjo : j < s ∨ s + n ≤ j := by omega
      obtain ⟨i, m, hs, h1, h2⟩ := h.covered j f (hout j f hf hjo) hav
      have hio := hdisj i m hs i (Nat.le_refl i) (by obtain ⟨_, _, _, _, hm⟩ := hs; omega)
      obtain ⟨e, he, hrest⟩ := hs
      exact ⟨i, m, ⟨e, hout2 i e he hio, hrest⟩, h1, h2⟩

theorem free_kpages_loop_getElem? (index : Nat) :
    ∀ (k i : Nat) (cm : List coremap_entry) (j : Nat),
      (free_kpages_loop index k i cm)[j]? =
        if index + i ≤ j ∧ j < index + i + k then
          (cm[j]?).map (fun _ => (⟨true, -1⟩ : coremap_entry))
        else cm[j]? := by
  intro k
  induction k with
  | zero =>
    intro i cm j
    have hno : ¬ (index + i ≤ j ∧ j < index + i + 0) := by omega
    simp only [free_kpages_loop, hno, if_false]
  | succ k ih =>
    intro i cm j
    simp only [free_kpages_loop]
    rw [ih, List.getElem?_set]
    by_cases h1 : index + i = j
    · subst h1
      have ha : ¬ (index + (i + 1) ≤ index + i ∧ index + i < index + (i + 1) + k) := by omega
      have hb : index + i ≤ index + i ∧ index + i < index + i + (k + 1) := by omega
      simp only [ha, hb, if_false, if_true, and_self]
      by_cases hlt : index + i < cm.length
      · simp [hlt, List.getElem?_eq_getElem hlt]
      · simp [hlt, List.getElem?_eq_none (Nat.le_of_not_lt hlt)]
    · have : (index + (i + 1) ≤ j ∧ j < index + (i + 1) + k) ↔
          (index + i ≤ j ∧ j < index + i + (k + 1)) := by omega
      simp only [h1, if_false, this]

theorem free_kpages_loop_length (index : Nat) :
    ∀ (k i : Nat) (cm : List coremap_entry),
      (free_kpages_loop index k i cm).length = cm.length := by
  intro k
  induction k with
  | zero => intro i cm; rfl
  | succ k ih =>
    intro i cm
    simp only [free_kpages_loop]
    rw [ih, List.length_set]

/-- In a well-formed coremap an unavailable entry whose `datasize` is not `-1` is the first
frame of a run of `datasize` frames. -/
theorem coremapInv.runStart_of_base {cm : List coremap_entry} (h : coremapInv cm) {i0 : Nat}
    {e0 : coremap_entry} (he0 : cm[i0]? = some e0) (hav : e0.available = false)
    (hd : e0.datasize ≠ -1) : runStart cm i0 e0.datasize.toNat := by
  obtain ⟨i, m, hs, h1, h2⟩ := h.covered i0 e0 he0 hav
  have hii : i = i0 := by
    by_contra hne
    have := ((h.runs i m hs).2 i0 e0 h1 h2 he0).2 (by omega)
    exact hd this
  subst hii
  obtain ⟨e, he, hea, hed, hm⟩ := hs
  rw [he0] at he
  have hee : e0 = e := Option.some.inj he
  subst hee
  have : e0.datasize.toNat = m := by omega
  rw [this]
  exact ⟨e0, he0, hea, hed, hm⟩

theorem coremapInv_free {cm cm1 : List coremap_entry} {i0 n : Nat}
    (h : coremapInv cm) (hs0 : runStart cm i0 n)
    (hpt : ∀ j : Nat, cm1[j]? =
      if i0 ≤ j ∧ j < i0 + n then (cm[j]?).map (fun _ => (⟨true, -1⟩ : coremap_entry))
      else cm[j]?) :
    coremapInv cm1 := by
  have hr0 := h.runs i0 n hs0
  have hin : ∀ (j : Nat) (f : coremap_entry), cm1[j]? = some f → i0 ≤ j → j < i0 + n →
      f = ⟨true, -1⟩ := by
    intro j f hf h1 h2
    rw [hpt j] at hf
    simp only [h1, h2, and_self, if_true] at hf
    cases hc : cm[j]? with
    | none => rw [hc] at hf; exact Option.noConfusion hf
    | some e =>
      rw [hc] at hf
      exact (Option.some.inj hf).symm
  have hout : ∀ (j : Nat) (f : coremap_entry), (j < i0 ∨ i0 + n ≤ j) →
      (cm1[j]? = some f ↔ cm[j]? = some f) := by
    intro j f hj
    have : ¬ (i0 ≤ j ∧ j < i0 + n) := by omega
    rw [hpt j]
    simp only [this, if_false]
  -- another run starts outside the freed run and does not meet it
  have hother : ∀ (i m : Nat), runStart cm1 i m →
      (i < i0 ∨ i0 + n ≤ i) ∧ runStart cm i m := by
    rintro i m ⟨e, he, hav, hd, hm⟩
    by_cases hi : i0 ≤ i ∧ i < i0 + n
    · have := hin i e he hi.1 hi.2
      rw [this] at hav
      exact Bool.noConfusion hav
    · have hio : i < i0 ∨ i0 + n ≤ i := by omega
      exact ⟨hio, e, (hout i e hio).1 he, hav, hd, hm⟩
  have hdisj : ∀ (i m : Nat), runStart cm i m → (i < i0 ∨ i0 + n ≤ i) →
      ∀ j, i ≤ j → j < i + m → (j < i0 ∨ i0 + n ≤ j) := by
    intro i m hs hio j h1 h2
    by_contra hc
    obtain ⟨e0, he0, _, hd0, hn0⟩ := hs0
    have := ((h.runs i m hs).2 i0 e0 (by omega) (by omega) he0).2 (by omega)
    omega
  refine ⟨?_, ?_, ?_⟩
  · intro i m hs
    obtain ⟨hio, hsold⟩ := hother i m hs
    have hrunold := h.runs i m hsold
    have hb : i + m ≤ cm.length := hrunold.1
    have hlen : cm1.length = cm.length := by
      apply Nat.le_antisymm
      · by_contra hc
        have hlt : cm.length < cm1.length := by omega
        have h1 := List.getElem?_eq_getElem hlt
        rw [hpt] at h1
        rw [List.getElem?_eq_none (Nat.le_refl _)] at h1
        simp at h1
      · by_contra hc
        have hlt : cm1.length < cm.length := by omega
        have h1 := hpt cm1.length
        rw [List.getElem?_eq_none (Nat.le_refl _), List.getElem?_eq_getElem hlt] at h1
        by_cases hcc : i0 ≤ cm1.length ∧ cm1.length < i0 + n
        · simp [hcc] at h1
        · simp [hcc] at h1
    refine ⟨by omega, ?_⟩
    intro j f h1 h2 hf
    have hjo := hdisj i m hsold hio j h1 h2
    exact hrunold.2 j f h1 h2 ((hout j f hjo).1 hf)
  · intro j f hf hav
    by_cases hj : i0 ≤ j ∧ j < i0 + n
    · rw [hin j f hf hj.1 hj.2]
    · exact h.free j f ((hout j f (by omega)).1 hf) hav
  · intro j f hf hav
    by_cases hj : i0 ≤ j ∧ j < i0 + n
    · have := hin j f hf hj.1 hj.2
      rw [this] at hav
      exact Bool.noConfusion hav
    · have hjo : j < i0 ∨ i0 + n ≤ j := by omega
      obtain ⟨i, m, hs, h1, h2⟩ := h.covered j f ((hout j f hjo).1 hf) hav
      have hio : i < i0 ∨ i0 + n ≤ i := by
        by_contra hc
        by_cases hii : i = i0
        · subst hii
          obtain ⟨e, he, _, hde, _⟩ := hs
          obtain ⟨e0, he0, _, hd0, _⟩ := hs0
          rw [he0] at he
          have := Option.some.inj he
          subst this
          omega
        · obtain ⟨e, he, _, hde, hm⟩ := hs
          have := (hr0.2 i e (by omega) (by omega) he).2 (by omega)
          omega
      obtain ⟨e, he, hrest⟩ := hs
      exact ⟨i, m, ⟨e, (hout i e hio).2 he, hrest⟩, h1, h2⟩

theorem alloc_kpages_coremap {st st1 : VMState} {n addr : Nat}
    (h : alloc_kpages st n = some (addr, st1)) :
    1 ≤ n ∧ st1.mapStart = st.mapStart ∧
      ((getppageIndex_scan n st.coremap 0 0 0 = none ∧ st1 = st ∧ addr = 0) ∨
        ∃ s, getppageIndex_scan n st.coremap 0 0 0 = some s ∧
          getppageIndex st.coremap n = some ((s : Int), st1.coremap)) := by
  by_cases hn0 : n = 0
  · simp [alloc_kpages, getppages, getppageIndex, hn0] at h
  · refine ⟨by omega, ?_⟩
    cases hscan : getppageIndex_scan n st.coremap 0 0 0 with
    | none =>
      simp only [alloc_kpages, getppages, getppageIndex, hn0, if_false, hscan] at h
      simp only [if_true, Option.some.injEq, Prod.mk.injEq] at h
      obtain ⟨h1, h2⟩ := h
      subst h2
      exact ⟨rfl, Or.inl ⟨rfl, rfl, h1.symm⟩⟩
    | some s =>
      have hne : ¬ ((s : Int) = -1) := by omega
      simp only [alloc_kpages, getppages, getppageIndex, hn0, if_false, hscan, hne] at h
      split at h
      · simp only [Option.some.injEq, Prod.mk.injEq] at h
        obtain ⟨_, h2⟩ := h
        subst h2
        refine ⟨rfl, Or.inr ⟨s, rfl, ?_⟩⟩
        simp only [getppageIndex, hn0, if_false, hscan]
      · simp only [Option.some.injEq, Prod.mk.injEq] at h
        obtain ⟨_, h2⟩ := h
        subst h2
        refine ⟨rfl, Or.inr ⟨s, rfl, ?_⟩⟩
        simp only [getppageIndex, hn0, if_false, hscan]

theorem alloc_kpages_preserves {st st1 : VMState} {n addr : Nat}
    (h : alloc_kpages st n = some (addr, st1)) (hinv : coremapInv st.coremap) :
    coremapInv st1.coremap := by
  obtain ⟨hn, _, hcase⟩ := alloc_kpages_coremap h
  rcases hcase with ⟨_, heq, _⟩ | ⟨s, hscan, hidx⟩
  · rw [heq]; exact hinv
  · obtain ⟨cm1, hidx1, hlen, hpt⟩ := getppageIndex_found st.coremap n hn s hscan
    rw [hidx] at hidx1
    have hcm : st1.coremap = cm1 := by
      simpa using hidx1
    have hres := getppageIndex_scan_result st.coremap n hn
    rw [hscan] at hres
    rw [hcm]
    exact coremapInv_alloc hn hinv hres.1 hlen hpt

theorem free_kpages_coremap {st st1 : VMState} {addr : Nat}
    (h : free_kpages st addr = some st1) :
    VADDR_TO_PVADDR addr % PAGE_SIZE = 0 ∧ st1.mapStart = st.mapStart ∧
      ∃ e, st.coremap[((VADDR_TO_PVADDR addr + 2 ^ 32 - st.mapStart) % 2 ^ 32) / PAGE_SIZE]?
          = some e ∧ e.available = false ∧ e.datasize ≠ -1 ∧
        st1.coremap = free_kpages_loop
          (((VADDR_TO_PVADDR addr + 2 ^ 32 - st.mapStart) % 2 ^ 32) / PAGE_SIZE)
          e.datasize.toNat 0 st.coremap := by
  unfold free_kpages at h
  simp only at h
  split at h
  · exact Option.noConfusion h
  · rename_i hal
    refine ⟨by simpa using hal, ?_⟩
    split at h
    · exact Option.noConfusion h
    · rename_i e he
      split at h
      · rename_i hc
        split at h
        · have := Option.some.inj h
          subst this
          exact ⟨rfl, e, he, hc.1, hc.2, rfl⟩
        · exact Option.noConfusion h
      · exact Option.noConfusion h

theorem free_kpages_preserves {st st1 : VMState} {addr : Nat}
    (h : free_kpages st addr = some st1) (hinv : coremapInv st.coremap) :
    coremapInv st1.coremap := by
  obtain ⟨_, _, e, he, hav, hd, hcm⟩ := free_kpages_coremap h
  have hs := hinv.runStart_of_base he hav hd
  apply coremapInv_free hinv hs
  intro j
  rw [hcm, free_kpages_loop_getElem?]
  simp only [Nat.add_zero]

theorem reachable_coremapInv {st : VMState} (h : Reachable st) : coremapInv st.coremap := by
  induction h with
  | boot low high => exact coremapInv_replicate _
  | alloc _ hstep ih => exact alloc_kpages_preserves hstep ih
  | free _ hstep ih => exact free_kpages_preserves hstep ih

/-- C2: coremap well-formedness holds in every state reachable from `vm_bootstrap` by
`alloc_kpages` and `free_kpages` calls: an unavailable entry with `datasize = n > 0` starts
a run of `n` unavailable entries whose trailing entries have `datasize = -1`, an available
entry has `datasize = -1`, and an unavailable entry lies in exactly one run. -/
theorem coremap_wellformed_invariant (st : VMState) (h : Reachable st) :
    coremapWF st.coremap :=
  (reachable_coremapInv h).toWF

theorem afterExample_reachable : Reachable afterExample :=
  Reachable.free
    (Reachable.alloc
      (Reachable.alloc (Reachable.boot 0x30000 0x36000)
        (rfl : alloc_kpages bootExample 2 = some (0x80031000, allocExample1)))
      (rfl : alloc_kpages allocExample1 3 = some (0x80033000, allocExample2)))
    (rfl : free_kpages allocExample2 0x80031000 = some afterExample)

theorem coremap_wellformed_invariant_witness :
    Reachable afterExample ∧ coremapWF afterExample.coremap :=
  ⟨afterExample_reachable, coremap_wellformed_invariant afterExample afterExample_reachable⟩

/-- C3: in a well-formed coremap laid out as at boot (`mapStart` page-aligned, non-zero,
managed frames below the direct-mapped segment), a successful `alloc_kpages(n)`, `n ≥ 1`,
followed by `free_kpages` of the returned address passes both assertions, recovers the
start index of the run from the address and gives back exactly the state before the
allocation (same `available` and `datasize` in every entry). -/
theorem free_alloc_roundtrip (st st1 : VMState) (n addr : Nat) (hn : 1 ≤ n)
    (hwf : coremapWF st.coremap) (hlow : 0 < st.mapStart)
    (halign : st.mapStart % PAGE_SIZE = 0)
    (hhigh : st.mapStart + st.pageNum * PAGE_SIZE ≤ MIPS_KSEG0)
    (halloc : alloc_kpages st n = some (addr, st1)) (hsucc : addr ≠ 0) :
    free_kpages st1 addr = some st := by
  have hinv := hwf.toInv
  obtain ⟨_, hms, hcase⟩ := alloc_kpages_coremap halloc
  rcases hcase with ⟨_, _, h0⟩ | ⟨s, hscan, _⟩
  · exact absurd h0 hsucc
  · have hres := getppageIndex_scan_result st.coremap n hn
    rw [hscan] at hres
    obtain ⟨hex, _⟩ := alloc_kpages_spec st n hn
    obtain ⟨s2, cm, addr2, hrun2, hmin2, heq, hlen, hpt, hlay⟩ := hex ⟨s, hres.1⟩
    obtain ⟨haddr2, _⟩ := hlay hlow hhigh
    have hss : s2 = s := by
      by_contra hne
      rcases Nat.lt_or_gt_of_ne hne with hlt | hgt
      · exact hres.2 s2 hlt hrun2
      · exact hmin2 s hgt hres.1
    subst hss
    rw [halloc] at heq
    simp only [Option.some.injEq, Prod.mk.injEq] at heq
    obtain ⟨haddr, hst1⟩ := heq
    rw [haddr2] at haddr
    have hsn : s2 + n ≤ st.coremap.length := hrun2.1
    have hpv : VADDR_TO_PVADDR addr = st.mapStart + s2 * PAGE_SIZE := by
      rw [haddr]
      simp only [VMState.pageNum, PAGE_SIZE, MIPS_KSEG0, PADDR_TO_KVADDR,
        VADDR_TO_PVADDR] at hhigh ⊢
      omega
    have hal : (st.mapStart + s2 * PAGE_SIZE) % PAGE_SIZE = 0 := by
      simp only [PAGE_SIZE] at halign ⊢
      omega
    have hidx : ((st.mapStart + s2 * PAGE_SIZE + 2 ^ 32 - st.mapStart) % 2 ^ 32) / PAGE_SIZE
        = s2 := by
      simp only [VMState.pageNum, PAGE_SIZE, MIPS_KSEG0] at hhigh ⊢
      omega
    have hs2lt : s2 < st.coremap.length := by omega
    have hbase : cm[s2]? = some ⟨false, (n : Int)⟩ := by
      have := hpt s2 _ (List.getElem?_eq_getElem hs2lt)
      simpa using this
    have hnn : ¬ ((n : Int) = -1) := by omega
    have hfit : s2 + n ≤ cm.length := by omega
    have hcm : free_kpages_loop s2 n 0 cm = st.coremap := by
      apply List.ext_getElem?
      intro j
      rw [free_kpages_loop_getElem?]
      simp only [Nat.add_zero]
      by_cases hj : j < st.coremap.length
      · have hold := List.getElem?_eq_getElem hj
        have hnew := hpt j _ hold
        by_cases hin : s2 ≤ j ∧ j < s2 + n
        · rw [if_pos hin, hnew, Option.map_some', hold]
          have hav := hrun2.2 j hin.1 hin.2
          rw [entryAvailable_of_getElem? hold] at hav
          have hd := hinv.free j _ hold hav
          have hent : st.coremap[j] = ⟨true, -1⟩ := by
            cases hc : st.coremap[j] with
            | mk a d =>
              rw [hc] at hav hd
              simp only at hav hd
              rw [hav, hd]
          rw [hent]
        · have h1 : ¬ j = s2 := by omega
          have h2 : ¬ (s2 < j ∧ j < s2 + n) := by omega
          rw [if_neg hin, hnew, if_neg h1, if_neg h2, hold]
      · have h1 : st.coremap[j]? = none := List.getElem?_eq_none (Nat.le_of_not_lt hj)
        have h2 : cm[j]? = none := List.getElem?_eq_none (by omega)
        rw [h1, h2]
        split <;> rfl
    rw [hst1]
    unfold free_kpages
    simp only [hpv, hal, ne_eq, not_true_eq_false, if_false, hidx, hbase, hnn,
      not_false_eq_true, and_self, if_true, Int.toNat_ofNat, hfit, hcm]

theorem free_alloc_roundtrip_witness :
    (1 ≤ 2 ∧ coremapWF afterExample.coremap ∧ 0 < afterExample.mapStart ∧
      afterExample.mapStart % PAGE_SIZE = 0 ∧
      afterExample.mapStart + afterExample.pageNum * PAGE_SIZE ≤ MIPS_KSEG0) ∧
    free_kpages allocExample2 0x80031000 = some afterExample :=
  ⟨⟨by decide, (reachable_coremapInv afterExample_reachable).toWF, by decide, by decide,
      by decide⟩,
    free_alloc_roundtrip afterExample allocExample2 2 0x80031000 (by decide)
      (reachable_coremapInv afterExample_reachable).toWF (by decide) (by decide) (by decide)
      rfl (by decide)⟩

/-! ## Theorems: the TLB refill handler -/

theorem vm_fault_elo_valid (paddr : Nat) (readonly : Bool) :
    vm_fault_elo paddr readonly &&& TLBLO_VALID ≠ 0 := by
  intro h
  have h1 := congrArg (fun n => Nat.testBit n 9) h
  have c1 : Nat.testBit 512 9 = true := by decide
  have c2 : Nat.testBit (0xffffffff ^^^ 1024) 9 = true := by decide
  cases readonly <;>
    simp [vm_fault_elo, TLBLO_VALID, TLBLO_DIRTY, Nat.testBit_and, Nat.testBit_or, c1] at h1
  exact absurd c2 (by simpa using h1)

theorem vm_fault_elo_dirty (paddr : Nat) (readonly : Bool) :
    vm_fault_elo paddr readonly &&& TLBLO_DIRTY = 0 ↔ readonly = true := by
  cases readonly
  · simp only [vm_fault_elo, Bool.false_eq_true, if_false, iff_false]
    intro h
    have h1 := congrArg (fun n => Nat.testBit n 10) h
    have c1 : Nat.testBit 1024 10 = true := by decide
    simp [TLBLO_VALID, TLBLO_DIRTY, Nat.testBit_and, Nat.testBit_or, c1] at h1
  · simp only [vm_fault_elo, if_true, iff_true]
    rw [Nat.and_assoc]
    have : (0xffffffff ^^^ TLBLO_DIRTY) &&& TLBLO_DIRTY = 0 := by decide
    rw [this]
    exact Nat.and_zero _

theorem vm_fault_success {curproc : Option (Option addrspace)} {tlb tlb1 : TLB}
    {victim : Nat} {faulttype : Int} {faultaddress : Nat}
    (h : vm_fault curproc tlb victim faulttype faultaddress = some (0, tlb1)) :
    ∃ (as : addrspace) (paddr slot : Nat), curproc = some (some as) ∧
      tlb1 = tlb.set slot (faultaddress &&& PAGE_FRAME,
        vm_fault_elo paddr (decide (inRegion1 as faultaddress) && as.readonlyON)) ∧
      (vm_fault_scan tlb 0 = some slot ∨ (vm_fault_scan tlb 0 = none ∧ slot = victim)) := by
  unfold vm_fault at h
  simp only at h
  split at h
  · simp at h
  · split at h
    · split at h
      · simp [EFAULT] at h
      · simp [EFAULT] at h
      · rename_i as
        refine ⟨as, ?_⟩
        split at h
        · simp [EFAULT] at h
        · exact Option.noConfusion h
        · rename_i paddr changingText hfound
          split at h
          · exact Option.noConfusion h
          · have hct : changingText = decide (inRegion1 as faultaddress) := by
              unfold inRegion1
              split at hfound
              · rename_i hc
                simp only [Option.some.injEq, Prod.mk.injEq] at hfound
                rw [← hfound.2]
                symm
                rw [decide_eq_true_eq]
                exact ⟨hc.1, hc.2⟩
              · rename_i hc
                have hdec : decide (as.as_vbase1 ≤ faultaddress &&& PAGE_FRAME ∧
                    faultaddress &&& PAGE_FRAME <
                      (as.as_vbase1 + as.as_npages1 * PAGE_SIZE) % 2 ^ 32) = false := by
                  rw [decide_eq_false_iff_not]
                  exact hc
                rw [hdec]
                split at hfound
                · simp only [Option.some.injEq, Prod.mk.injEq] at hfound
                  exact hfound.2.symm
                · split at hfound
                  · simp only [Option.some.injEq, Prod.mk.injEq] at hfound
                    exact hfound.2.symm
                  · exact Option.noConfusion hfound
            refine ⟨paddr, ?_⟩
            split at h
            · rename_i i hi
              simp only [Option.some.injEq, Prod.mk.injEq, true_and] at h
              exact ⟨i, rfl, by rw [← h, hct], Or.inl hi⟩
            · rename_i hi
              simp only [Option.some.injEq, Prod.mk.injEq, true_and] at h
              exact ⟨victim, rfl, by rw [← h, hct], Or.inr ⟨hi, rfl⟩⟩
    · simp [EINVAL] at h

/-- C6: when `vm_fault` returns 0 it has written exactly one TLB entry, in the first slot
without `VALID` or, if there is none, in the slot chosen by `tlb_random`; the entry has
`VALID` set, and has `DIRTY` clear exactly when the faulting page lies in region 1 and
`readonlyON` is true.  `as_create` sets the flag false and `as_complete_load` sets it true,
so after `as_complete_load` a refill has `DIRTY` clear exactly when it is for region 1
(region 2 and stack refills keep it). -/
theorem vm_fault_readonly_text (curproc : Option (Option addrspace)) (tlb tlb1 : TLB)
    (victim : Nat) (faulttype : Int) (faultaddress : Nat)
    (h : vm_fault curproc tlb victim faulttype faultaddress = some (0, tlb1)) :
    (∃ (as : addrspace) (slot elo : Nat), curproc = some (some as) ∧
      tlb1 = tlb.set slot (faultaddress &&& PAGE_FRAME, elo) ∧
      (vm_fault_scan tlb 0 = some slot ∨ (vm_fault_scan tlb 0 = none ∧ slot = victim)) ∧
      elo &&& TLBLO_VALID ≠ 0 ∧
      (elo &&& TLBLO_DIRTY = 0 ↔ (inRegion1 as faultaddress ∧ as.readonlyON = true)) ∧
      (∀ (as0 : addrspace) (tlb0 : TLB), as = (as_complete_load as0 tlb0).2.1 →
        (elo &&& TLBLO_DIRTY = 0 ↔ inRegion1 as faultaddress))) ∧
    (∀ as0 : addrspace, as_create true = some as0 → as0.readonlyON = false) ∧
    (∀ (as0 : addrspace) (tlb0 : TLB), (as_complete_load as0 tlb0).2.1.readonlyON = true) := by
  obtain ⟨as, paddr, slot, hcur, htlb, hslot⟩ := vm_fault_success h
  have hd := vm_fault_elo_dirty paddr (decide (inRegion1 as faultaddress) && as.readonlyON)
  have hd2 : vm_fault_elo paddr (decide (inRegion1 as faultaddress) && as.readonlyON)
      &&& TLBLO_DIRTY = 0 ↔ (inRegion1 as faultaddress ∧ as.readonlyON = true) := by
    rw [hd, Bool.and_eq_true, decide_eq_true_eq]
  refine ⟨⟨as, slot, _, hcur, htlb, hslot, vm_fault_elo_valid _ _, hd2, ?_⟩, ?_, ?_⟩
  · intro as0 tlb0 has
    rw [hd2]
    have hro : as.readonlyON = true := by rw [has]; rfl
    simp [hro]
  · intro as0 h0
    simp only [as_create, if_true, Option.some.injEq] at h0
    rw [← h0]
  · intro as0 tlb0
    rfl

theorem vm_fault_readonly_text_witness :
    vm_fault (some (some asLoaded)) tlbFlushed 0 VM_FAULT_WRITE 0x400abc
      = some (0, tlbFlushed.set 0 (0x400000, 0x31200)) ∧
    ((∃ (as : addrspace) (slot elo : Nat), some (some asLoaded) = some (some as) ∧
      tlbFlushed.set 0 (0x400000, 0x31200)
        = tlbFlushed.set slot (0x400abc &&& PAGE_FRAME, elo) ∧
      (vm_fault_scan tlbFlushed 0 = some slot ∨
        (vm_fault_scan tlbFlushed 0 = none ∧ slot = 0)) ∧
      elo &&& TLBLO_VALID ≠ 0 ∧
      (elo &&& TLBLO_DIRTY = 0 ↔ (inRegion1 as 0x400abc ∧ as.readonlyON = true)) ∧
      (∀ (as0 : addrspace) (tlb0 : TLB), as = (as_complete_load as0 tlb0).2.1 →
        (elo &&& TLBLO_DIRTY = 0 ↔ inRegion1 as 0x400abc))) ∧
    (∀ as0 : addrspace, as_create true = some as0 → as0.readonlyON = false) ∧
    (∀ (as0 : addrspace) (tlb0 : TLB), (as_complete_load as0 tlb0).2.1.readonlyON = true)) :=
  ⟨rfl, vm_fault_readonly_text (some (some asLoaded)) tlbFlushed
    (tlbFlushed.set 0 (0x400000, 0x31200)) 0 VM_FAULT_WRITE 0x400abc rfl⟩

/-! ## Theorems: the process table, exit and wait -/

theorem proctable_update_loop_spec (PID_MIN : Nat) (pid : Int) :
    ∀ (k i : Nat) (t : ProcTable), i + k ≤ t.length →
      ∃ t1, proctable_update_loop PID_MIN pid k i t = some t1 ∧
        ∀ j : Nat, t1[j]? =
          if i ≤ j ∧ j < i + k then (t[j]?).map (updateSlot pid) else t[j]? := by
  intro k
  induction k with
  | zero =>
    intro i t _
    refine ⟨t, rfl, ?_⟩
    intro j
    have : ¬ (i ≤ j ∧ j < i + 0) := by omega
    rw [if_neg this]
  | succ k ih =>
    intro i t hlen
    have hi : i < t.length := by omega
    have hget : t[i]? = some t[i] := List.getElem?_eq_getElem hi
    -- the table after iteration `i` and what it holds
    have key : ∀ t2 : ProcTable, t2.length = t.length →
        (∀ j : Nat, t2[j]? = if j = i then (t[j]?).map (updateSlot pid) else t[j]?) →
        ∃ t1, proctable_update_loop PID_MIN pid k (i + 1) t2 = some t1 ∧
          ∀ j : Nat, t1[j]? =
            if i ≤ j ∧ j < i + (k + 1) then (t[j]?).map (updateSlot pid) else t[j]? := by
      intro t2 hl2 hp2
      obtain ⟨t1, h1, h2⟩ := ih (i + 1) t2 (by omega)
      refine ⟨t1, h1, ?_⟩
      intro j
      rw [h2 j, hp2 j]
      by_cases hji : j = i
      · subst hji
        have ha : ¬ (j + 1 ≤ j ∧ j < j + 1 + k) := by omega
        have hb : j ≤ j ∧ j < j + (k + 1) := by omega
        rw [if_neg ha, if_pos rfl, if_pos hb]
      · rw [if_neg hji]
        by_cases hr : i + 1 ≤ j ∧ j < i + 1 + k
        · have hb : i ≤ j ∧ j < i + (k + 1) := by omega
          rw [if_pos hr, if_pos hb]
        · have hb : ¬ (i ≤ j ∧ j < i + (k + 1)) := by omega
          rw [if_neg hr, if_neg hb]
    simp only [proctable_update_loop, hget]
    cases hs : t[i] with
    | none =>
      simp only
      apply key t rfl
      intro j
      by_cases hji : j = i
      · subst hji
        rw [if_pos rfl, hget, hs]; rfl
      · rw [if_neg hji]
    | some nd =>
      simp only
      by_cases hp : nd.parent = pid
      · simp only [hp, if_true]
        by_cases he : nd.exited = true
        · simp only [he, if_true]
          have hidx : ((i : Int) + (PID_MIN : Int) - (PID_MIN : Int)).toNat = i := by omega
          have hnlt : ¬ ((i : Int) + (PID_MIN : Int) < (PID_MIN : Int)) := by omega
          have hrem : proctable_remove PID_MIN t ((i : Int) + PID_MIN) = some (t.set i none) := by
            simp only [proctable_remove, hnlt, if_false, hidx, hget, hs]
          rw [hrem]
          simp only
          apply key (t.set i none) (List.length_set _ _ _)
          intro j
          rw [List.getElem?_set]
          by_cases hji : j = i
          · subst hji
            simp [hi, hget, hs, updateSlot, hp, he]
          · have : ¬ i = j := fun h => hji h.symm
            rw [if_neg this, if_neg hji]
        · have he2 : nd.exited = false := by simpa using he
          rw [if_neg he]
          apply key (t.set i (some { nd with parent := -1 })) (List.length_set _ _ _)
          intro j
          rw [List.getElem?_set]
          by_cases hji : j = i
          · subst hji
            simp [hi, hget, hs, updateSlot, hp, he2]
          · have : ¬ i = j := fun h => hji h.symm
            rw [if_neg this, if_neg hji]
      · simp only [hp, if_false]
        apply key t rfl
        intro j
        by_cases hji : j = i
        · subst hji
          rw [if_pos rfl, hget, hs]
          simp [updateSlot, hp]
        · rw [if_neg hji]

theorem proctable_update_eq (PID_MIN PID_MAX : Nat) (t : ProcTable) (pid : Int)
    (hlen : t.length = PID_MAX - PID_MIN) :
    proctable_update PID_MIN PID_MAX t pid = some (t.map (updateSlot pid)) := by
  obtain ⟨t1, h1, h2⟩ := proctable_update_loop_spec PID_MIN pid (PID_MAX - PID_MIN) 0 t
    (by omega)
  unfold proctable_update
  rw [h1]
  congr 1
  apply List.ext_getElem?
  intro j
  rw [h2 j, List.getElem?_map]
  by_cases hj : j < t.length
  · have : 0 ≤ j ∧ j < 0 + (PID_MAX - PID_MIN) := by omega
    rw [if_pos this]
  · have : ¬ (0 ≤ j ∧ j < 0 + (PID_MAX - PID_MIN)) := by omega
    rw [if_neg this, List.getElem?_eq_none (by omega)]
    rfl

theorem slotOf_some {PID_MIN : Nat} {t : ProcTable} {pid : Int} {s : Option proctable_node}
    (h : slotOf PID_MIN t pid = some s) :
    (PID_MIN : Int) ≤ pid ∧ (pid - PID_MIN).toNat < t.length ∧
      t[(pid - PID_MIN).toNat]? = some s := by
  unfold slotOf at h
  split at h
  · exact Option.noConfusion h
  · refine ⟨by omega, ?_, h⟩
    rcases List.getElem?_eq_some.1 h with ⟨hlt, _⟩
    exact hlt

/-- The process table after the table part of `sys__exit`, slot by slot. -/
theorem sys__exit_slots (PID_MIN PID_MAX : Nat) (t : ProcTable) (curpid exitcode : Int)
    (pt : proctable_node) (hlen : t.length = PID_MAX - PID_MIN)
    (hslot : slotOf PID_MIN t curpid = some (some pt)) (hself : pt.parent ≠ curpid) :
    ∃ t1, sys__exit PID_MIN PID_MAX t curpid exitcode = some t1 ∧ t1.length = t.length ∧
      slotOf PID_MIN t1 curpid =
        some (if pt.parent = -1 then none
          else some { pt with exited := true, exitcode := _MKWAIT_EXIT exitcode }) ∧
      ∀ q : Int, q ≠ curpid →
        slotOf PID_MIN t1 q = (slotOf PID_MIN t q).map (updateSlot curpid) := by
  obtain ⟨hge, hidx, hget⟩ := slotOf_some hslot
  have hnlt : ¬ (curpid < (PID_MIN : Int)) := by omega
  have hbound : ¬ (curpid > (PID_MAX : Int) ∨ curpid < (PID_MIN : Int)) := by omega
  have hgetp : proctable_get PID_MIN PID_MAX t curpid = some (some pt) := by
    simp only [proctable_get, hbound, if_false, hget]
  have hlen1 : (t.set (curpid - PID_MIN).toNat
      (some { pt with exited := true, exitcode := _MKWAIT_EXIT exitcode })).length
        = PID_MAX - PID_MIN := by
    rw [List.length_set]; exact hlen
  have hupd := proctable_update_eq PID_MIN PID_MAX _ curpid hlen1
  have hown : ((t.set (curpid - PID_MIN).toNat
      (some { pt with exited := true, exitcode := _MKWAIT_EXIT exitcode })).map
        (updateSlot curpid))[(curpid - PID_MIN).toNat]?
      = some (some { pt with exited := true, exitcode := _MKWAIT_EXIT exitcode }) := by
    rw [List.getElem?_map, List.getElem?_set, if_pos rfl, if_pos hidx]
    simp only [Option.map_some', updateSlot, if_neg hself]
  have hother : ∀ j : Nat, j ≠ (curpid - PID_MIN).toNat →
      ((t.set (curpid - PID_MIN).toNat
        (some { pt with exited := true, exitcode := _MKWAIT_EXIT exitcode })).map
          (updateSlot curpid))[j]? = (t[j]?).map (updateSlot curpid) := by
    intro j hj
    rw [List.getElem?_map, List.getElem?_set]
    have : ¬ (curpid - PID_MIN).toNat = j := fun h => hj h.symm
    rw [if_neg this]
  have hqidx : ∀ q : Int, q ≠ curpid → ¬ (q < (PID_MIN : Int)) →
      (q - PID_MIN).toNat ≠ (curpid - PID_MIN).toNat := by
    intro q hq hqge; omega
  by_cases hpar : pt.parent = -1
  · refine ⟨((t.set (curpid - PID_MIN).toNat
        (some { pt with exited := true, exitcode := _MKWAIT_EXIT exitcode })).map
          (updateSlot curpid)).set (curpid - PID_MIN).toNat none, ?_, ?_, ?_, ?_⟩
    · unfold sys__exit
      rw [hgetp]
      simp only
      rw [hupd]
      simp only
      rw [hown]
      simp only
      rw [if_pos hpar]
      unfold proctable_remove
      rw [if_neg hnlt, hown]
    · simp only [List.length_set, List.length_map]
    · unfold slotOf
      rw [if_neg hnlt, if_pos hpar, List.getElem?_set, if_pos rfl]
      simp only [List.length_map, List.length_set, hidx, if_true]
    · intro q hq
      by_cases hqlt : q < (PID_MIN : Int)
      · unfold slotOf
        rw [if_pos hqlt, if_pos hqlt]; rfl
      · unfold slotOf
        rw [if_neg hqlt, if_neg hqlt]
        rw [List.getElem?_set, if_neg (fun h => hqidx q hq hqlt h.symm)]
        exact hother _ (hqidx q hq hqlt)
  · refine ⟨(t.set (curpid - PID_MIN).toNat
        (some { pt with exited := true, exitcode := _MKWAIT_EXIT exitcode })).map
          (updateSlot curpid), ?_, ?_, ?_, ?_⟩
    · unfold sys__exit
      rw [hgetp]
      simp only
      rw [hupd]
      simp only
      rw [hown]
      simp only
      rw [if_neg hpar]
    · simp only [List.length_set, List.length_map]
    · unfold slotOf
      rw [if_neg hnlt, if_neg hpar]
      exact hown
    · intro q hq
      by_cases hqlt : q < (PID_MIN : Int)
      · unfold slotOf
        rw [if_pos hqlt, if_pos hqlt]; rfl
      · unfold slotOf
        rw [if_neg hqlt, if_neg hqlt]
        exact hother _ (hqidx q hq hqlt)

theorem proctable_add_scan_some :
    ∀ (t : ProcTable) (i0 i : Nat), proctable_add_scan t i0 = some i →
      i0 ≤ i ∧ t[i - i0]? = some none ∧
        ∀ k : Nat, k < i - i0 → ∃ nd, t[k]? = some (some nd) := by
  intro t
  induction t with
  | nil => intro i0 i h; exact Option.noConfusion h
  | cons s rest ih =>
    intro i0 i h
    cases s with
    | none =>
      simp only [proctable_add_scan, Option.some.injEq] at h
      subst h
      refine ⟨Nat.le_refl _, by simp, ?_⟩
      intro k hk; omega
    | some nd =>
      simp only [proctable_add_scan] at h
      obtain ⟨h1, h2, h3⟩ := ih (i0 + 1) i h
      have hi : i - i0 = (i - (i0 + 1)) + 1 := by omega
      refine ⟨by omega, ?_, ?_⟩
      · rw [hi, List.getElem?_cons_succ]; exact h2
      · intro k hk
        cases k with
        | zero => exact ⟨nd, List.getElem?_cons_zero⟩
        | succ k =>
          rw [List.getElem?_cons_succ]
          exact h3 k (by omega)

theorem proctable_add_scan_none :
    ∀ (t : ProcTable) (i0 : Nat), proctable_add_scan t i0 = none →
      ∀ k : Nat, t[k]? ≠ some none := by
  intro t
  induction t with
  | nil => intro i0 _ k h; simp at h
  | cons s rest ih =>
    intro i0 h k
    cases s with
    | none => simp [proctable_add_scan] at h
    | some nd =>
      simp only [proctable_add_scan] at h
      cases k with
      | zero => simp
      | succ k =>
        rw [List.getElem?_cons_succ]
        exact ih (i0 + 1) h k

/-- A PID that `proctable_add` returns was the PID of a null slot. -/
theorem proctable_add_returns_null (PID_MIN : Nat) (t : ProcTable) (p : Nat) (ok : Bool)
    (pid : Int) (h : (proctable_add PID_MIN t p ok).2.1 = some pid) :
    slotOf PID_MIN t pid = some none := by
  unfold proctable_add at h
  split at h
  · split at h
    · rename_i i hi
      simp only [Option.some.injEq] at h
      obtain ⟨_, h2, _⟩ := proctable_add_scan_some t 0 i hi
      have hnlt : ¬ (pid < (PID_MIN : Int)) := by omega
      have hidx : (pid - (PID_MIN : Int)).toNat = i := by omega
      unfold slotOf
      rw [if_neg hnlt, hidx]
      simpa using h2
    · exact Option.noConfusion h
  · exact Option.noConfusion h

/-- A null slot makes its PID reusable. -/
theorem pidReusable_of_null (PID_MIN : Nat) :
    ∀ (n : Nat) (t : ProcTable) (i j : Nat), proctable_add_scan t 0 = some i →
      t[j]? = some none → j - i = n → pidReusable PID_MIN t ((j : Int) + PID_MIN) := by
  intro n
  induction n using Nat.strong_induction_on with
  | _ n ih =>
    intro t i j hscan hj hn
    obtain ⟨_, hi, hocc⟩ := proctable_add_scan_some t 0 i hscan
    simp only [Nat.sub_zero] at hi hocc
    have hij : i ≤ j := by
      by_contra hc
      obtain ⟨nd, hnd⟩ := hocc j (by omega)
      rw [hnd] at hj
      simp at hj
    by_cases heq : i = j
    · subst heq
      refine ⟨[], 0, ?_, ?_⟩
      · simp only [proctable_add_many, proctable_add, if_true, hscan]
      · simp only [proctable_add_many, proctable_add, if_true, hscan]
    · have hlt : i < j := by omega
      have hadd : (proctable_add PID_MIN t 0 true).2.2
          = t.set i (some (proctable_create_node 0)) := by
        simp only [proctable_add, if_true, hscan]
      have hj1 : (t.set i (some (proctable_create_node 0)))[j]? = some none := by
        rw [List.getElem?_set, if_neg heq]; exact hj
      cases hscan1 : proctable_add_scan (t.set i (some (proctable_create_node 0))) 0 with
      | none => exact absurd hj1 (proctable_add_scan_none _ 0 hscan1 j)
      | some i1 =>
        obtain ⟨_, hi1, _⟩ := proctable_add_scan_some _ 0 i1 hscan1
        simp only [Nat.sub_zero] at hi1
        have hi1gt : i < i1 := by
          by_contra hc
          rw [List.getElem?_set] at hi1
          by_cases h1 : i = i1
          · rw [if_pos h1] at hi1
            split at hi1 <;> simp at hi1
          · rw [if_neg h1] at hi1
            obtain ⟨nd, hnd⟩ := hocc i1 (by omega)
            rw [hnd] at hi1
            simp at hi1
        obtain ⟨ps, p, h1, h2⟩ := ih (j - i1) (by omega) _ i1 j hscan1 hj1 rfl
        refine ⟨0 :: ps, p, ?_, ?_⟩
        · simp only [proctable_add_many]; rw [hadd]; exact h1
        · simp only [proctable_add_many]; rw [hadd]; exact h2

theorem pidReusable_of_slot_null (PID_MIN : Nat) (t : ProcTable) (pid : Int)
    (h : slotOf PID_MIN t pid = some none) : pidReusable PID_MIN t pid := by
  obtain ⟨hge, _, hget⟩ := slotOf_some h
  cases hscan : proctable_add_scan t 0 with
  | none => exact absurd hget (proctable_add_scan_none t 0 hscan _)
  | some i =>
    have := pidReusable_of_null PID_MIN _ t i (pid - PID_MIN).toNat hscan hget rfl
    have hpid : (((pid - (PID_MIN : Int)).toNat : Nat) : Int) + (PID_MIN : Int) = pid := by
      omega
    rw [hpid] at this
    exact this

theorem proctable_add_keeps_occupied (PID_MIN : Nat) (t : ProcTable) (p : Nat) (ok : Bool)
    (j : Nat) (nd : proctable_node) (h : t[j]? = some (some nd)) :
    (proctable_add PID_MIN t p ok).2.2[j]? = some (some nd) := by
  unfold proctable_add
  split
  · split
    · rename_i i hi
      obtain ⟨_, h2, _⟩ := proctable_add_scan_some t 0 i hi
      simp only [Nat.sub_zero] at h2
      have hij : ¬ i = j := by
        intro heq
        rw [heq, h] at h2
        simp at h2
      simp only
      rw [List.getElem?_set, if_neg hij]
      exact h
    · exact h
  · exact h

theorem proctable_add_many_keeps_occupied (PID_MIN : Nat) :
    ∀ (ps : List Nat) (t : ProcTable) (j : Nat) (nd : proctable_node),
      t[j]? = some (some nd) → (proctable_add_many PID_MIN t ps)[j]? = some (some nd) := by
  intro ps
  induction ps with
  | nil => intro t j nd h; exact h
  | cons p ps ih =>
    intro t j nd h
    simp only [proctable_add_many]
    exact ih _ j nd (proctable_add_keeps_occupied PID_MIN t p true j nd h)

/-- The PID of an occupied slot is not handed out by `proctable_add`. -/
theorem not_pidReusable_of_occupied (PID_MIN : Nat) (t : ProcTable) (pid : Int)
    (nd : proctable_node) (h : slotOf PID_MIN t pid = some (some nd)) :
    ¬ pidReusable PID_MIN t pid := by
  rintro ⟨ps, p, _, h2⟩
  obtain ⟨hge, _, hget⟩ := slotOf_some h
  have hocc := proctable_add_many_keeps_occupied PID_MIN ps t _ nd hget
  have hnull := proctable_add_returns_null PID_MIN _ p true pid h2
  obtain ⟨_, _, hget2⟩ := slotOf_some hnull
  rw [hocc] at hget2
  simp at hget2

theorem sys_waitpid_success {PID_MIN PID_MAX : Nat} {t t1 : ProcTable} {curpid pid : Int}
    {status : Nat} {options : Int} {copyout_ok : Bool} {r : WaitResult}
    (h : sys_waitpid PID_MIN PID_MAX t curpid pid status options copyout_ok
      = some (WaitOutcome.returns r, t1)) (hok : r.ret = 0) :
    t1 = t ∧ ∃ child, slotOf PID_MIN t pid = some (some child) ∧ child.parent = curpid ∧
      child.exited = true ∧ r = ⟨0, some pid, some child.exitcode⟩ := by
  unfold sys_waitpid at h
  split at h
  · simp only [Option.some.injEq, Prod.mk.injEq, WaitOutcome.returns.injEq] at h
    rw [← h.1] at hok
    simp [EFAULT] at hok
  · split at h
    · simp only [Option.some.injEq, Prod.mk.injEq, WaitOutcome.returns.injEq] at h
      rw [← h.1] at hok
      simp [EINVAL] at hok
    · split at h
      · exact Option.noConfusion h
      · simp only [Option.some.injEq, Prod.mk.injEq, WaitOutcome.returns.injEq] at h
        rw [← h.1] at hok
        simp [ESRCH] at hok
      · rename_i child hget
        have hslot : slotOf PID_MIN t pid = some (some child) := by
          unfold proctable_get at hget
          split at hget
          · simp at hget
          · rename_i hb
            unfold slotOf
            rw [if_neg (by omega)]
            exact hget
        split at h
        · simp only [Option.some.injEq, Prod.mk.injEq, WaitOutcome.returns.injEq] at h
          rw [← h.1] at hok
          simp [ECHILD] at hok
        · rename_i hpar
          split at h
          · simp at h
          · rename_i hex
            split at h
            · simp only [Option.some.injEq, Prod.mk.injEq, WaitOutcome.returns.injEq] at h
              refine ⟨h.2.symm, child, hslot, ?_, ?_, h.1.symm⟩
              · simp only [ne_eq, not_not] at hpar
                exact hpar.symm
              · simpa using hex
            · simp only [Option.some.injEq, Prod.mk.injEq, WaitOutcome.returns.injEq] at h
              rw [← h.1] at hok
              simp [EFAULT] at hok

/-- C7, counterexample: process 2 waits for its exited child 3; `sys_waitpid` returns
success with the child's status, but the slot of PID 3 is not null afterwards and PID 3 is
not handed out by `proctable_add`. -/
theorem sys_waitpid_reaps_counterexample :
    sys_waitpid 2 6 tableZombie 2 3 0x7fff0000 0 true
      = some (WaitOutcome.returns ⟨0, some 3, some 1792⟩, tableZombie) ∧
    slotOf 2 tableZombie 3 ≠ some none ∧
    ¬ pidReusable 2 tableZombie 3 :=
  ⟨rfl, by decide, not_pidReusable_of_occupied 2 tableZombie 3 ⟨101, 2, true, 1792⟩ rfl⟩

/-- C7, amended: when `sys_waitpid(pid, status, options)` called by `curpid` returns success,
the process table is unchanged: the slot of `pid` still holds the child's node (parent
`curpid`, exited, the reported status), and `proctable_add` does not hand out `pid`. -/
theorem sys_waitpid_keeps_child (PID_MIN PID_MAX : Nat) (t t1 : ProcTable)
    (curpid pid : Int) (status : Nat) (options : Int) (copyout_ok : Bool) (r : WaitResult)
    (h : sys_waitpid PID_MIN PID_MAX t curpid pid status options copyout_ok
      = some (WaitOutcome.returns r, t1)) (hok : r.ret = 0) :
    t1 = t ∧
    (∃ child, slotOf PID_MIN t1 pid = some (some child) ∧ child.parent = curpid ∧
      child.exited = true ∧ r.status = some child.exitcode ∧ r.retval = some pid) ∧
    ¬ pidReusable PID_MIN t1 pid := by
  obtain ⟨ht, child, hslot, hpar, hex, hr⟩ := sys_waitpid_success h hok
  subst ht
  refine ⟨rfl, ⟨child, hslot, hpar, hex, ?_, ?_⟩, not_pidReusable_of_occupied _ _ _ child hslot⟩
  · rw [hr]
  · rw [hr]

theorem sys_waitpid_keeps_child_witness :
    tableZombie = tableZombie ∧
    (∃ child, slotOf 2 tableZombie 3 = some (some child) ∧ child.parent = 2 ∧
      child.exited = true ∧
      (⟨0, some 3, some 1792⟩ : WaitResult).status = some child.exitcode ∧
      (⟨0, some 3, some 1792⟩ : WaitResult).retval = some 3) ∧
    ¬ pidReusable 2 tableZombie 3 :=
  sys_waitpid_keeps_child 2 6 tableZombie tableZombie 2 3 0x7fff0000 0 true
    ⟨0, some 3, some 1792⟩ rfl rfl

/-- C8: for every exit code `c`, when a child `C` whose parent `P` is alive calls
`sys__exit(c)`, its node stays in the table with `exited = true` and
`exitcode = (c & 0xff) << 8`; the parent's following `sys_waitpid(C, status, 0)` with a
writable `status` returns 0, stores `C` in `*retval` and copies out that status word; for
`c = 7` the word is 1792. -/
theorem exit_wait_roundtrip (PID_MIN PID_MAX : Nat) (t : ProcTable) (P C c : Int)
    (cn pn : proctable_node) (status : Nat) (hlen : t.length = PID_MAX - PID_MIN)
    (hC : slotOf PID_MIN t C = some (some cn)) (hpar : cn.parent = P)
    (hP : slotOf PID_MIN t P = some (some pn)) (_halive : pn.exited = false)
    (hne : P ≠ C) (hstatus : status ≠ 0) :
    ∃ t1, sys__exit PID_MIN PID_MAX t C c = some t1 ∧
      slotOf PID_MIN t1 C =
        some (some { cn with exited := true, exitcode := (Int.land c 0xff) <<< (8 : Int) }) ∧
      sys_waitpid PID_MIN PID_MAX t1 P C status 0 true
        = some (WaitOutcome.returns ⟨0, some C, some ((Int.land c 0xff) <<< (8 : Int))⟩, t1) ∧
      (c = 7 → (Int.land c 0xff) <<< (8 : Int) = 1792) := by
  obtain ⟨hPge, _, _⟩ := slotOf_some hP
  have hself : cn.parent ≠ C := by rw [hpar]; exact hne
  have hnot : ¬ cn.parent = -1 := by rw [hpar]; omega
  obtain ⟨t1, hexit, hlen1, hown, _⟩ :=
    sys__exit_slots PID_MIN PID_MAX t C c cn hlen hC hself
  rw [if_neg hnot] at hown
  refine ⟨t1, hexit, hown, ?_, ?_⟩
  · obtain ⟨hCge, hCidx, hCget⟩ := slotOf_some hown
    have hbound : ¬ (C > (PID_MAX : Int) ∨ C < (PID_MIN : Int)) := by omega
    have hget : proctable_get PID_MIN PID_MAX t1 C = some (some
        { cn with exited := true, exitcode := _MKWAIT_EXIT c }) := by
      unfold proctable_get
      rw [if_neg hbound]
      exact hCget
    unfold sys_waitpid
    rw [if_neg hstatus, if_neg (by simp), hget]
    simp only [hpar, ne_eq, not_true_eq_false, if_false, if_true]
    rfl
  · intro h7
    rw [h7]; rfl

theorem exit_wait_roundtrip_witness :
    ∃ t1, sys__exit 2 6 tableAlive 3 7 = some t1 ∧
      slotOf 2 t1 3 =
        some (some { (⟨101, 2, false, -1⟩ : proctable_node) with
          exited := true, exitcode := (Int.land 7 0xff) <<< (8 : Int) }) ∧
      sys_waitpid 2 6 t1 2 3 0x7fff0000 0 true
        = some (WaitOutcome.returns ⟨0, some 3, some ((Int.land 7 0xff) <<< (8 : Int))⟩, t1) ∧
      ((7 : Int) = 7 → (Int.land 7 0xff) <<< (8 : Int) = 1792) :=
  exit_wait_roundtrip 2 6 tableAlive 2 3 7 ⟨101, 2, false, -1⟩ ⟨100, -1, false, -1⟩
    0x7fff0000 rfl rfl rfl rfl rfl (by decide) (by decide)

/-- C9: `proctable_update(p)` returns, and afterwards every slot that had `parent == p` and
`exited` is null, every slot that had `parent == p` and was not exited has `parent == -1`
with its other fields unchanged, and every other slot (null, or with another parent) is
unchanged; in particular when a parent `P` exits while its child `C` has already exited,
the slot of `C` is null after the parent's `sys__exit`. -/
theorem proctable_update_post (PID_MIN PID_MAX : Nat) (t : ProcTable) (p : Int)
    (hlen : t.length = PID_MAX - PID_MIN) :
    (∃ t1, proctable_update PID_MIN PID_MAX t p = some t1 ∧ t1.length = t.length ∧
      (∀ (i : Nat) (nd : proctable_node), t[i]? = some (some nd) → nd.parent = p →
        nd.exited = true → t1[i]? = some none) ∧
      (∀ (i : Nat) (nd : proctable_node), t[i]? = some (some nd) → nd.parent = p →
        nd.exited = false → t1[i]? = some (some { nd with parent := -1 })) ∧
      (∀ (i : Nat) (nd : proctable_node), t[i]? = some (some nd) → nd.parent ≠ p →
        t1[i]? = some (some nd)) ∧
      (∀ i : Nat, t[i]? = some none → t1[i]? = some none)) ∧
    (∀ (C c : Int) (pn cn : proctable_node), slotOf PID_MIN t p = some (some pn) →
      pn.parent ≠ p → slotOf PID_MIN t C = some (some cn) → cn.parent = p →
      cn.exited = true →
      ∃ t2, sys__exit PID_MIN PID_MAX t p c = some t2 ∧ slotOf PID_MIN t2 C = some none) := by
  constructor
  · refine ⟨_, proctable_update_eq PID_MIN PID_MAX t p hlen, List.length_map _ _, ?_, ?_, ?_, ?_⟩
    · intro i nd hi hp he
      rw [List.getElem?_map, hi]
      simp [updateSlot, hp, he]
    · intro i nd hi hp he
      rw [List.getElem?_map, hi]
      simp [updateSlot, hp, he]
    · intro i nd hi hp
      rw [List.getElem?_map, hi]
      simp [updateSlot, hp]
    · intro i hi
      rw [List.getElem?_map, hi]
      rfl
  · intro C c pn cn hP hself hC hpar hex
    obtain ⟨t2, hexit, _, _, hothers⟩ := sys__exit_slots PID_MIN PID_MAX t p c pn hlen hP hself
    have hCP : C ≠ p := by
      intro heq
      rw [heq, hP] at hC
      simp only [Option.some.injEq] at hC
      rw [hC] at hself
      exact hself hpar
    refine ⟨t2, hexit, ?_⟩
    rw [hothers C hCP, hC]
    simp [updateSlot, hpar, hex]

theorem proctable_update_post_witness :
    (∃ t1, proctable_update 2 6 tableZombie 2 = some t1 ∧ t1.length = tableZombie.length ∧
      (∀ (i : Nat) (nd : proctable_node), tableZombie[i]? = some (some nd) → nd.parent = 2 →
        nd.exited = true → t1[i]? = some none) ∧
      (∀ (i : Nat) (nd : proctable_node), tableZombie[i]? = some (some nd) → nd.parent = 2 →
        nd.exited = false → t1[i]? = some (some { nd with parent := -1 })) ∧
      (∀ (i : Nat) (nd : proctable_node), tableZombie[i]? = some (some nd) → nd.parent ≠ 2 →
        t1[i]? = some (some nd)) ∧
      (∀ i : Nat, tableZombie[i]? = some none → t1[i]? = some none)) ∧
    (∀ (C c : Int) (pn cn : proctable_node), slotOf 2 tableZombie 2 = some (some pn) →
      pn.parent ≠ 2 → slotOf 2 tableZombie C = some (some cn) → cn.parent = 2 →
      cn.exited = true →
      ∃ t2, sys__exit 2 6 tableZombie 2 c = some t2 ∧ slotOf 2 t2 C = some none) :=
  proctable_update_post 2 6 tableZombie 2 rfl

/-- C10: when `P` and its child `C` are both alive and `P` calls `sys__exit` and later `C`
calls `sys__exit`, the slot of `C` is null after `C`'s exit and its PID is reusable by
`proctable_add`; in general a process whose node has `parent == -1` at its own exit removes
its own slot, and a process whose parent is alive leaves its node, marked exited, in
place. -/
theorem orphan_reap (PID_MIN PID_MAX : Nat) (t : ProcTable)
    (hlen : t.length = PID_MAX - PID_MIN) :
    (∀ (P C cP cC : Int) (pn cn : proctable_node),
      slotOf PID_MIN t P = some (some pn) → pn.exited = false → pn.parent ≠ P →
      slotOf PID_MIN t C = some (some cn) → cn.exited = false → cn.parent = P →
      ∃ t1 t2, sys__exit PID_MIN PID_MAX t P cP = some t1 ∧
        sys__exit PID_MIN PID_MAX t1 C cC = some t2 ∧
        slotOf PID_MIN t2 C = some none ∧ pidReusable PID_MIN t2 C) ∧
    (∀ (pid c : Int) (nd : proctable_node), slotOf PID_MIN t pid = some (some nd) →
      nd.parent = -1 →
      ∃ t1, sys__exit PID_MIN PID_MAX t pid c = some t1 ∧
        slotOf PID_MIN t1 pid = some none ∧ pidReusable PID_MIN t1 pid) ∧
    (∀ (pid c : Int) (nd pn : proctable_node), slotOf PID_MIN t pid = some (some nd) →
      slotOf PID_MIN t nd.parent = some (some pn) → pn.exited = false → nd.parent ≠ pid →
      ∃ t1, sys__exit PID_MIN PID_MAX t pid c = some t1 ∧
        slotOf PID_MIN t1 pid =
          some (some { nd with exited := true, exitcode := _MKWAIT_EXIT c })) := by
  have orphan : ∀ (t0 : ProcTable), t0.length = PID_MAX - PID_MIN →
      ∀ (pid c : Int) (nd : proctable_node), slotOf PID_MIN t0 pid = some (some nd) →
      nd.parent = -1 →
      ∃ t1, sys__exit PID_MIN PID_MAX t0 pid c = some t1 ∧
        slotOf PID_MIN t1 pid = some none ∧ pidReusable PID_MIN t1 pid := by
    intro t0 hlen0 pid c nd hslot hpar
    obtain ⟨hge, _, _⟩ := slotOf_some hslot
    have hself : nd.parent ≠ pid := by rw [hpar]; omega
    obtain ⟨t1, hexit, _, hown, _⟩ :=
      sys__exit_slots PID_MIN PID_MAX t0 pid c nd hlen0 hslot hself
    rw [if_pos hpar] at hown
    exact ⟨t1, hexit, hown, pidReusable_of_slot_null PID_MIN t1 pid hown⟩
  refine ⟨?_, orphan t hlen, ?_⟩
  · intro P C cP cC pn cn hP hPalive hPself hC hCalive hCpar
    obtain ⟨t1, hexit1, hlen1, _, hothers⟩ :=
      sys__exit_slots PID_MIN PID_MAX t P cP pn hlen hP hPself
    have hCP : C ≠ P := by
      intro heq
      rw [heq, hP] at hC
      simp only [Option.some.injEq] at hC
      rw [hC] at hPself
      exact hPself hCpar
    have hC1 : slotOf PID_MIN t1 C = some (some { cn with parent := -1 }) := by
      rw [hothers C hCP, hC]
      simp [updateSlot, hCpar, hCalive]
    obtain ⟨t2, hexit2, hnull, hre⟩ :=
      orphan t1 (by rw [hlen1]; exact hlen) C cC _ hC1 rfl
    exact ⟨t1, t2, hexit1, hexit2, hnull, hre⟩
  · intro pid c nd pn hslot hparent _ hself
    obtain ⟨hge, _, _⟩ := slotOf_some hparent
    have hnot : ¬ nd.parent = -1 := by omega
    obtain ⟨t1, hexit, _, hown, _⟩ :=
      sys__exit_slots PID_MIN PID_MAX t pid c nd hlen hslot hself
    rw [if_neg hnot] at hown
    exact ⟨t1, hexit, hown⟩

theorem orphan_reap_witness :
    ∃ t1 t2, sys__exit 2 6 tableAlive 2 0 = some t1 ∧
      sys__exit 2 6 t1 3 5 = some t2 ∧
      slotOf 2 t2 3 = some none ∧ pidReusable 2 t2 3 :=
  (orphan_reap 2 6 tableAlive rfl).1 2 3 0 5 ⟨100, -1, false, -1⟩ ⟨101, 2, false, -1⟩
    rfl rfl (by decide) rfl rfl rfl

/-! ## Theorems: the intersection synchroniser -/

theorem right_turn_iff (v : Vehicle) : right_turn v = true ↔ specRightTurn v := by
  unfold right_turn specRightTurn
  split <;> simp_all

theorem check_constraints_loop_iff (v : Vehicle) (l : List Vehicle) :
    check_constraints_loop v l = true ↔ ∀ c ∈ l, specCompatible c v := by
  induction l with
  | nil => simp [check_constraints_loop]
  | cons c rest ih =>
    have hhead : specCompatible c v ↔
        (c.origin = v.origin ∨ (c.origin = v.destination ∧ c.destination = v.origin) ∨
          ((right_turn c || right_turn v) = true ∧ v.destination ≠ c.destination)) := by
      unfold specCompatible
      rw [Bool.or_eq_true, right_turn_iff, right_turn_iff]
      constructor
      · rintro (h | h | ⟨h1, h2⟩)
        · exact Or.inl h
        · exact Or.inr (Or.inl h)
        · exact Or.inr (Or.inr ⟨h1, fun h => h2 h.symm⟩)
      · rintro (h | h | ⟨h1, h2⟩)
        · exact Or.inl h
        · exact Or.inr (Or.inl h)
        · exact Or.inr (Or.inr ⟨h1, fun h => h2 h.symm⟩)
    simp only [check_constraints_loop, List.forall_mem_cons, hhead]
    by_cases h1 : c.origin = v.origin
    · simp only [h1, if_true, true_or, true_and]; exact ih
    · simp only [h1, if_false, false_or]
      by_cases h2 : c.origin = v.destination ∧ c.destination = v.origin
      · simp only [h2, and_self, if_true, true_or, true_and]; exact ih
      · simp only [h2, if_false, false_or]
        by_cases h3 : (right_turn c || right_turn v) = true ∧ v.destination ≠ c.destination
        · rw [if_pos h3]
          exact ⟨fun h => ⟨h3, ih.1 h⟩, fun h => ih.2 h.2⟩
        · rw [if_neg h3]
          exact ⟨fun h => Bool.noConfusion h, fun h => absurd h.1 h3⟩

theorem specCompatible_symm {a b : Vehicle} (h : specCompatible a b) : specCompatible b a := by
  rcases h with h | ⟨h1, h2⟩ | ⟨h1, h2⟩
  · exact Or.inl h.symm
  · exact Or.inr (Or.inl ⟨h2.symm, h1.symm⟩)
  · exact Or.inr (Or.inr ⟨h1.symm, fun h => h2 h.symm⟩)

theorem specCompatible_refl (a : Vehicle) : specCompatible a a := Or.inl rfl

theorem check_constraints_eq (q : vehicles) (v : Vehicle) (h : q.total ≤ NumThreads) :
    check_constraints q v = some (check_constraints_loop v q.nodes) := by
  unfold check_constraints
  simp only [h, not_true_eq_false, if_false]
  split
  · rename_i hc
    have : q.nodes = [] := by simpa using hc.1
    rw [this]; rfl
  · rfl

/-- C4: for a queue within its bound (`total ≤ NumThreads`, the assertion of the function)
`check_constraints` returns, and it returns true exactly when every occupant `c` is
compatible with the arrival `v` in the sense of the specification; `right_turn` holds for
exactly `W→S`, `S→E`, `E→N`, `N→W`; with occupant `N→S` the arrival `S→N` is accepted and
the arrival `E→W` is rejected. -/
theorem check_constraints_spec (q : vehicles) (v : Vehicle) (h : q.total ≤ NumThreads) :
    (∃ b, check_constraints q v = some b) ∧
    (check_constraints q v = some true ↔ ∀ c ∈ q.nodes, specCompatible c v) ∧
    (right_turn v = true ↔
      (v.origin, v.destination) ∈
        [(Direction.west, Direction.south), (Direction.south, Direction.east),
         (Direction.east, Direction.north), (Direction.north, Direction.west)]) ∧
    check_constraints { nodes := [⟨Direction.north, Direction.south⟩], total := 1 }
      ⟨Direction.south, Direction.north⟩ = some true ∧
    check_constraints { nodes := [⟨Direction.north, Direction.south⟩], total := 1 }
      ⟨Direction.east, Direction.west⟩ = some false := by
  refine ⟨⟨_, check_constraints_eq q v h⟩, ?_, ?_, by decide, by decide⟩
  · rw [check_constraints_eq q v h, Option.some.injEq]
    exact check_constraints_loop_iff v q.nodes
  · cases v with
    | mk o d => cases o <;> cases d <;> decide

theorem check_constraints_spec_witness :
    queueNS.total ≤ NumThreads ∧
    check_constraints queueNS ⟨Direction.east, Direction.west⟩ ≠ some true :=
  ⟨by decide, fun h =>
    absurd ((check_constraints_spec queueNS ⟨Direction.east, Direction.west⟩
      (by decide)).2.1.1 h) (by decide)⟩

theorem intersection_after_exit_loop_mem (origin destination : Direction) :
    ∀ (l : List Vehicle) (a : Vehicle),
      a ∈ (intersection_after_exit_loop origin destination l).1 → a ∈ l := by
  intro l
  induction l with
  | nil => intro a h; simp [intersection_after_exit_loop] at h
  | cons c rest ih =>
    intro a h
    simp only [intersection_after_exit_loop] at h
    split at h
    · exact List.mem_cons_of_mem c h
    · rcases List.mem_cons.1 h with h1 | h1
      · rw [h1]; exact List.mem_cons_self c rest
      · exact List.mem_cons_of_mem c (ih a h1)

theorem intersection_before_entry_entered {q q1 : vehicles} {origin destination : Direction}
    (h : intersection_before_entry q origin destination = some (EntryOutcome.entered q1)) :
    check_constraints q ⟨origin, destination⟩ = some true ∧
      q1 = { nodes := q.nodes ++ [⟨origin, destination⟩], total := q.total + 1 } := by
  unfold intersection_before_entry at h
  simp only at h
  split at h
  · exact Option.noConfusion h
  · simp at h
  · rename_i hc
    simp only [Option.some.injEq, EntryOutcome.entered.injEq] at h
    exact ⟨hc, h.symm⟩

theorem check_constraints_true {q : vehicles} {v : Vehicle}
    (h : check_constraints q v = some true) : ∀ c ∈ q.nodes, specCompatible c v := by
  have hb : q.total ≤ NumThreads := by
    by_contra hc
    simp [check_constraints, hc] at h
  rw [check_constraints_eq q v hb, Option.some.injEq] at h
  exact (check_constraints_loop_iff v q.nodes).1 h

theorem intersection_after_exit_nodes {q q1 : vehicles} {origin destination : Direction}
    (h : intersection_after_exit q origin destination = some q1) :
    q1.nodes = (intersection_after_exit_loop origin destination q.nodes).1 := by
  unfold intersection_after_exit at h
  split at h
  · exact Option.noConfusion h
  · split at h
    · exact Option.noConfusion h
    · simp only [Option.some.injEq] at h
      rw [← h]

/-- C5: in every queue state reachable from `intersection_sync_init` by completed
`intersection_before_entry` calls (which append only when `check_constraints` holds) and
`intersection_after_exit` calls, every two vehicles in the queue satisfy the
pairwise-compatibility predicate. -/
theorem intersection_safety (q : vehicles) (h : QueueReachable q) :
    ∀ a ∈ q.nodes, ∀ b ∈ q.nodes, specCompatible a b := by
  induction h with
  | init => intro a ha; simp [intersection_sync_init] at ha
  | entry _ hstep ih =>
    obtain ⟨hchk, hq1⟩ := intersection_before_entry_entered hstep
    have hnew := check_constraints_true hchk
    rw [hq1]
    intro a ha b hb
    simp only [List.mem_append, List.mem_singleton] at ha hb
    rcases ha with ha | ha <;> rcases hb with hb | hb
    · exact ih a ha b hb
    · rw [hb]; exact hnew a ha
    · rw [ha]; exact specCompatible_symm (hnew b hb)
    · rw [ha, hb]; exact specCompatible_refl _
  | exit _ hstep ih =>
    rw [intersection_after_exit_nodes hstep]
    intro a ha b hb
    exact ih a (intersection_after_exit_loop_mem _ _ _ a ha)
      b (intersection_after_exit_loop_mem _ _ _ b hb)

theorem queueNSSN_reachable : QueueReachable queueNSSN :=
  QueueReachable.entry
    (QueueReachable.entry QueueReachable.init
      (rfl : intersection_before_entry intersection_sync_init Direction.north
        Direction.south = some (EntryOutcome.entered queueNS)))
    (rfl : intersection_before_entry queueNS Direction.south Direction.north
      = some (EntryOutcome.entered queueNSSN))

theorem intersection_safety_witness :
    QueueReachable queueNSSN ∧
      ∀ a ∈ queueNSSN.nodes, ∀ b ∈ queueNSSN.nodes, specCompatible a b :=
  ⟨queueNSSN_reachable, intersection_safety queueNSSN queueNSSN_reachable⟩

/-! ## Theorems: fault dispatch and region lookup, the process table, region definition -/

/-- C18: a fault of type `VM_FAULT_READONLY` returns 1 and leaves the TLB as it is, and a
fault type other than read, write and read-only returns `EINVAL` and leaves the TLB as it
is, for every fault address and every kernel state (no current process, no address space,
any address space). -/
theorem vm_fault_dispatch (curproc : Option (Option addrspace)) (tlb : TLB) (victim : Nat)
    (faultaddress : Nat) :
    vm_fault curproc tlb victim VM_FAULT_READONLY faultaddress = some (1, tlb) ∧
    ∀ faulttype : Int, faulttype ≠ VM_FAULT_READ → faulttype ≠ VM_FAULT_WRITE →
      faulttype ≠ VM_FAULT_READONLY →
      vm_fault curproc tlb victim faulttype faultaddress = some (EINVAL, tlb) := by
  constructor
  · simp only [vm_fault, if_true]
  · intro faulttype h1 h2 h3
    have h4 : ¬ (faulttype = VM_FAULT_READ ∨ faulttype = VM_FAULT_WRITE) := by
      rintro (h | h)
      · exact h1 h
      · exact h2 h
    simp only [vm_fault, if_neg h3, if_neg h4]

theorem proctable_get_eq (PID_MIN PID_MAX : Nat) (t : ProcTable) (pid : Int) :
    proctable_get PID_MIN PID_MAX t pid =
      match proctable_get_index PID_MIN PID_MAX pid with
      | none => some none
      | some i => t[i]? := by
  unfold proctable_get proctable_get_index
  split <;> rfl

/-- C12, the code at the failing input: in a table of `PID_MAX - PID_MIN` slots,
`proctable_get(PID_MAX)` passes the bounds check and reads index `PID_MAX - PID_MIN`, one
past the last slot; every other `pid` is either rejected (null) or read inside the table. -/
theorem proctable_get_reads_past_table (PID_MIN PID_MAX : Nat) (t : ProcTable)
    (hlen : t.length = PID_MAX - PID_MIN) (hle : PID_MIN ≤ PID_MAX) :
    proctable_get_index PID_MIN PID_MAX PID_MAX = some t.length ∧
    proctable_get PID_MIN PID_MAX t PID_MAX = t[t.length]? ∧
    proctable_get PID_MIN PID_MAX t PID_MAX = none ∧
    ∀ pid : Int, pid ≠ PID_MAX →
      (proctable_get_index PID_MIN PID_MAX pid = none ∧
        proctable_get PID_MIN PID_MAX t pid = some none) ∨
      ∃ i, proctable_get_index PID_MIN PID_MAX pid = some i ∧ i < t.length ∧
        (i : Int) = pid - PID_MIN ∧ proctable_get PID_MIN PID_MAX t pid = t[i]? := by
  have hidx : proctable_get_index PID_MIN PID_MAX PID_MAX = some t.length := by
    have h1 : ¬ ((PID_MAX : Int) > PID_MAX ∨ (PID_MAX : Int) < PID_MIN) := by omega
    have h2 : ((PID_MAX : Int) - (PID_MIN : Int)).toNat = t.length := by omega
    unfold proctable_get_index
    rw [if_neg h1, h2]
  have hget : proctable_get PID_MIN PID_MAX t PID_MAX = t[t.length]? := by
    rw [proctable_get_eq, hidx]
  refine ⟨hidx, hget, ?_, ?_⟩
  · rw [hget]
    exact List.getElem?_eq_none (Nat.le_refl _)
  · intro pid hne
    by_cases hb : pid > (PID_MAX : Int) ∨ pid < (PID_MIN : Int)
    · left
      have hi : proctable_get_index PID_MIN PID_MAX pid = none := by
        unfold proctable_get_index
        rw [if_pos hb]
      refine ⟨hi, ?_⟩
      rw [proctable_get_eq, hi]
    · right
      have hi : proctable_get_index PID_MIN PID_MAX pid = some (pid - PID_MIN).toNat := by
        unfold proctable_get_index
        rw [if_neg hb]
      refine ⟨(pid - PID_MIN).toNat, hi, by omega, by omega, ?_⟩
      rw [proctable_get_eq, hi]

theorem proctable_get_reads_past_table_witness :
    proctable_get_index 2 6 ((6 : Nat) : Int) = some tableZombie.length ∧
    proctable_get 2 6 tableZombie ((6 : Nat) : Int) = none :=
  ⟨(proctable_get_reads_past_table 2 6 tableZombie rfl (by decide)).1,
    (proctable_get_reads_past_table 2 6 tableZombie rfl (by decide)).2.2.1⟩

/-- C13: `sys_waitpid` validates in this order: a null `status` gives `EFAULT`; otherwise
`options != 0` gives `EINVAL`; otherwise a null result of `proctable_get(pid)` gives
`ESRCH`; otherwise a target whose parent is not the caller gives `ECHILD`.  In each of these
cases the call returns without waiting, stores nothing in `*retval`, copies nothing out and
leaves the process table as it is.  The call waits, or returns `pid`, only when none of the
four applies. -/
theorem sys_waitpid_validation (PID_MIN PID_MAX : Nat) (t : ProcTable) (curpid pid : Int)
    (status : Nat) (options : Int) (copyout_ok : Bool) :
    (status = 0 →
      sys_waitpid PID_MIN PID_MAX t curpid pid status options copyout_ok
        = some (WaitOutcome.returns ⟨EFAULT, none, none⟩, t)) ∧
    (status ≠ 0 → options ≠ 0 →
      sys_waitpid PID_MIN PID_MAX t curpid pid status options copyout_ok
        = some (WaitOutcome.returns ⟨EINVAL, none, none⟩, t)) ∧
    (status ≠ 0 → options = 0 → proctable_get PID_MIN PID_MAX t pid = some none →
      sys_waitpid PID_MIN PID_MAX t curpid pid status options copyout_ok
        = some (WaitOutcome.returns ⟨ESRCH, none, none⟩, t)) ∧
    (∀ child : proctable_node, status ≠ 0 → options = 0 →
      proctable_get PID_MIN PID_MAX t pid = some (some child) → child.parent ≠ curpid →
      sys_waitpid PID_MIN PID_MAX t curpid pid status options copyout_ok
        = some (WaitOutcome.returns ⟨ECHILD, none, none⟩, t)) ∧
    (∀ (out : WaitOutcome) (t1 : ProcTable),
      sys_waitpid PID_MIN PID_MAX t curpid pid status options copyout_ok = some (out, t1) →
      (out = WaitOutcome.blocks ∨ ∃ r, out = WaitOutcome.returns r ∧ r.retval = some pid) →
      status ≠ 0 ∧ options = 0 ∧
        ∃ child, proctable_get PID_MIN PID_MAX t pid = some (some child) ∧
          child.parent = curpid ∧ (out = WaitOutcome.blocks ↔ child.exited = false)) := by
  refine ⟨?_, ?_, ?_, ?_, ?_⟩
  · intro h
    simp only [sys_waitpid, h, if_true]
  · intro h1 h2
    simp only [sys_waitpid, if_neg h1, h2, ne_eq, not_false_eq_true, if_true]
  · intro h1 h2 h3
    have h2' : ¬ (options ≠ 0) := by simp [h2]
    simp only [sys_waitpid, if_neg h1, if_neg h2', h3]
  · intro child h1 h2 h3 h4
    have h2' : ¬ (options ≠ 0) := by simp [h2]
    have h4' : curpid ≠ child.parent := fun h => h4 h.symm
    simp only [sys_waitpid, if_neg h1, if_neg h2', h3, if_pos h4']
  · intro out t1 h hout
    unfold sys_waitpid at h
    split at h
    · simp only [Option.some.injEq, Prod.mk.injEq] at h
      rcases hout with hb | ⟨r, hr, hrv⟩
      · rw [hb] at h; exact absurd h.1 (by simp)
      · rw [hr] at h
        simp only [WaitOutcome.returns.injEq] at h
        rw [← h.1] at hrv
        simp at hrv
    · rename_i hs
      split at h
      · simp only [Option.some.injEq, Prod.mk.injEq] at h
        rcases hout with hb | ⟨r, hr, hrv⟩
        · rw [hb] at h; exact absurd h.1 (by simp)
        · rw [hr] at h
          simp only [WaitOutcome.returns.injEq] at h
          rw [← h.1] at hrv
          simp at hrv
      · rename_i ho
        have ho' : options = 0 := by simpa using ho
        refine ⟨hs, ho', ?_⟩
        split at h
        · exact Option.noConfusion h
        · simp only [Option.some.injEq, Prod.mk.injEq] at h
          rcases hout with hb | ⟨r, hr, hrv⟩
          · rw [hb] at h; exact absurd h.1 (by simp)
          · rw [hr] at h
            simp only [WaitOutcome.returns.injEq] at h
            rw [← h.1] at hrv
            simp at hrv
        · rename_i child hget
          refine ⟨child, hget, ?_⟩
          split at h
          · simp only [Option.some.injEq, Prod.mk.injEq] at h
            rcases hout with hb | ⟨r, hr, hrv⟩
            · rw [hb] at h; exact absurd h.1 (by simp)
            · rw [hr] at h
              simp only [WaitOutcome.returns.injEq] at h
              rw [← h.1] at hrv
              simp at hrv
          · rename_i hpar
            have hpar' : child.parent = curpid := by
              simp only [ne_eq, not_not] at hpar
              exact hpar.symm
            refine ⟨hpar', ?_⟩
            split at h
            · rename_i hex
              simp only [Option.some.injEq, Prod.mk.injEq] at h
              have hex' : child.exited = false := by simpa using hex
              rw [← h.1]
              simp [hex']
            · rename_i hex
              have hex' : child.exited = true := by simpa using hex
              split at h
              · simp only [Option.some.injEq, Prod.mk.injEq] at h
                rw [← h.1]
                simp [hex']
              · simp only [Option.some.injEq, Prod.mk.injEq] at h
                rw [← h.1]
                simp [hex']

/-- The scan of `proctable_add` finds the least null slot. -/
theorem proctable_add_scan_least (t : ProcTable) (i : Nat) (hi : t[i]? = some none)
    (hleast : ∀ k : Nat, k < i → t[k]? ≠ some none) : proctable_add_scan t 0 = some i := by
  cases hscan : proctable_add_scan t 0 with
  | none => exact absurd hi (proctable_add_scan_none t 0 hscan i)
  | some i1 =>
    obtain ⟨_, h1, h2⟩ := proctable_add_scan_some t 0 i1 hscan
    simp only [Nat.sub_zero] at h1 h2
    have : i1 = i := by
      by_contra hne
      rcases Nat.lt_or_gt_of_ne hne with hlt | hgt
      · exact hleast i1 hlt h1
      · obtain ⟨nd, hnd⟩ := h2 i hgt
        rw [hnd] at hi
        simp at hi
    rw [this]

/-- C11, counterexample: the table `tableZombie` has null slots, yet `proctable_add` returns
`ENOMEM` (not 0) when the node cannot be allocated; and on the full table `tableFull` the
same failure gives `ENOMEM`, not `ENPROC`. -/
theorem proctable_add_counterexample :
    tableZombie[2]? = some none ∧
    proctable_add 2 tableZombie 7 false = (ENOMEM, none, tableZombie) ∧
    (proctable_add 2 tableZombie 7 false).1 ≠ 0 ∧
    (∀ i : Nat, tableFull[i]? ≠ some none) ∧
    (proctable_add 2 tableFull 7 false).1 ≠ ENPROC := by
  refine ⟨rfl, rfl, by decide, ?_, by decide⟩
  intro i
  match i with
  | 0 => decide
  | 1 => decide
  | (k + 2) => simp [tableFull]

/-- C11, amended: in a table of `PID_MAX - PID_MIN` slots, when the node is allocated
`proctable_add` returns 0 and assigns `PID_MIN + i` for the least index `i` of a null slot
(a PID that was unused and lies in `[PID_MIN, PID_MAX]`), installs there a node with
`parent = -1`, `exited = false`, `exitcode = -1` and the given `proc`, and leaves the other
slots unchanged; with no null slot it returns `ENPROC` and the table is unchanged.  When
the node cannot be allocated it returns `ENOMEM` and the table is unchanged, whether or not
a slot is null. -/
theorem proctable_add_post (PID_MIN PID_MAX : Nat) (t : ProcTable) (p : Nat)
    (hlen : t.length = PID_MAX - PID_MIN) :
    (∀ i : Nat, t[i]? = some none → (∀ k : Nat, k < i → t[k]? ≠ some none) →
      proctable_add PID_MIN t p true
        = (0, some ((i : Int) + PID_MIN),
            t.set i (some { proc := p, parent := -1, exited := false, exitcode := -1 })) ∧
      slotOf PID_MIN t ((i : Int) + PID_MIN) = some none ∧
      (PID_MIN : Int) ≤ (i : Int) + PID_MIN ∧ (i : Int) + PID_MIN ≤ PID_MAX ∧
      (t.set i (some { proc := p, parent := -1, exited := false, exitcode := -1 }))[i]?
        = some (some { proc := p, parent := -1, exited := false, exitcode := -1 }) ∧
      ∀ j : Nat, j ≠ i →
        (t.set i (some { proc := p, parent := -1, exited := false, exitcode := -1 }))[j]?
          = t[j]?) ∧
    ((∀ i : Nat, t[i]? ≠ some none) → proctable_add PID_MIN t p true = (ENPROC, none, t)) ∧
    proctable_add PID_MIN t p false = (ENOMEM, none, t) := by
  refine ⟨?_, ?_, ?_⟩
  · intro i hi hleast
    have hscan := proctable_add_scan_least t i hi hleast
    have hlt : i < t.length := by
      rcases List.getElem?_eq_some.1 hi with ⟨h, _⟩
      exact h
    refine ⟨?_, ?_, by omega, by omega, ?_, ?_⟩
    · simp only [proctable_add, if_true, hscan, proctable_create_node]
    · have h1 : ¬ ((i : Int) + (PID_MIN : Int) < (PID_MIN : Int)) := by omega
      have h2 : ((i : Int) + (PID_MIN : Int) - (PID_MIN : Int)).toNat = i := by omega
      unfold slotOf
      rw [if_neg h1, h2]
      exact hi
    · rw [List.getElem?_set, if_pos rfl, if_pos hlt]
    · intro j hj
      rw [List.getElem?_set, if_neg (fun h => hj h.symm)]
  · intro hfull
    cases hscan : proctable_add_scan t 0 with
    | none => simp only [proctable_add, if_true, hscan]
    | some i =>
      obtain ⟨_, h1, _⟩ := proctable_add_scan_some t 0 i hscan
      exact absurd h1 (hfull _)
  · simp only [proctable_add, Bool.false_eq_true, if_false]

theorem proctable_add_post_witness :
    proctable_add 2 tableZombie 7 true
        = (0, some (((2 : Nat) : Int) + ((2 : Nat) : Int)),
            tableZombie.set 2
              (some { proc := 7, parent := -1, exited := false, exitcode := -1 })) ∧
    proctable_add 2 tableZombie 7 false = (ENOMEM, none, tableZombie) :=
  ⟨((proctable_add_post 2 6 tableZombie 7 rfl).1 2 rfl (fun k hk => by
      have hk2 : k = 0 ∨ k = 1 := by omega
      rcases hk2 with h | h <;> subst h <;> decide)).1,
    (proctable_add_post 2 6 tableZombie 7 rfl).2.2⟩

/-- C16, counterexample: on a fresh address space the first region is defined at virtual
page 0; `as_vbase1` stays 0, so the second call fills slot 1 again (slot 2 stays empty) and
the third call fills slot 2 and returns 0 instead of `EUNIMP`. -/
theorem as_define_region_counterexample :
    as_create true = some asFresh ∧
    as_define_region asFresh 0 4096 1 0 1 kmallocExample
      = (0, { asFresh with as_ptable1 := some [0], as_npages1 := 1 }) ∧
    as_define_region { asFresh with as_ptable1 := some [0], as_npages1 := 1 }
        0x400000 8192 1 1 0 kmallocExample
      = (0, { asFresh with as_vbase1 := 0x400000, as_ptable1 := some [0, 0],
                           as_npages1 := 2 }) ∧
    (as_define_region
        { asFresh with as_vbase1 := 0x400000, as_ptable1 := some [0, 0], as_npages1 := 2 }
        0x10000000 4096 1 1 0 kmallocExample).1 = 0 ∧
    (0 : Int) ≠ EUNIMP :=
  ⟨rfl, rfl, rfl, rfl, by decide⟩

/-- C16, amended: on a fresh address space (from `as_create`), for three successive calls
of `as_define_region` whose allocations succeed and whose first two regions do not start in
virtual page 0 (`vaddr & PAGE_FRAME` is not 0, the value by which the function recognises
an empty slot), the first call fills slot 1 and returns 0, the second fills slot 2, leaves
slot 1 unchanged and returns 0, and the third returns `EUNIMP` and leaves the address space
unchanged. -/
theorem as_define_region_two_regions (as0 : addrspace) (vaddr1 sz1 vaddr2 sz2 vaddr3 sz3 : Nat)
    (r1 w1 x1 r2 w2 x2 r3 w3 x3 : Int) (kmalloc1 kmalloc2 kmalloc3 : Nat → Option (List Nat))
    (tbl1 tbl2 : List Nat) (hfresh : as_create true = some as0)
    (hk1 : kmalloc1 (as_define_region_npages vaddr1 sz1) = some tbl1)
    (hk2 : kmalloc2 (as_define_region_npages vaddr2 sz2) = some tbl2)
    (hv1 : vaddr1 &&& PAGE_FRAME ≠ 0) (hv2 : vaddr2 &&& PAGE_FRAME ≠ 0) :
    as_define_region as0 vaddr1 sz1 r1 w1 x1 kmalloc1
      = (0, { as0 with as_vbase1 := vaddr1 &&& PAGE_FRAME, as_ptable1 := some tbl1,
                       as_npages1 := as_define_region_npages vaddr1 sz1 }) ∧
    as_define_region (as_define_region as0 vaddr1 sz1 r1 w1 x1 kmalloc1).2
        vaddr2 sz2 r2 w2 x2 kmalloc2
      = (0, { as0 with as_vbase1 := vaddr1 &&& PAGE_FRAME, as_ptable1 := some tbl1,
                       as_npages1 := as_define_region_npages vaddr1 sz1,
                       as_vbase2 := vaddr2 &&& PAGE_FRAME, as_ptable2 := some tbl2,
                       as_npages2 := as_define_region_npages vaddr2 sz2 }) ∧
    as_define_region
        (as_define_region (as_define_region as0 vaddr1 sz1 r1 w1 x1 kmalloc1).2
          vaddr2 sz2 r2 w2 x2 kmalloc2).2 vaddr3 sz3 r3 w3 x3 kmalloc3
      = (EUNIMP,
          (as_define_region (as_define_region as0 vaddr1 sz1 r1 w1 x1 kmalloc1).2
            vaddr2 sz2 r2 w2 x2 kmalloc2).2) := by
  simp only [as_create, if_true, Option.some.injEq] at hfresh
  subst hfresh
  have h1 : as_define_region
      { as_vbase1 := 0, as_ptable1 := none, as_npages1 := 0, as_vbase2 := 0,
        as_ptable2 := none, as_npages2 := 0, as_stack := none, readonlyON := false }
      vaddr1 sz1 r1 w1 x1 kmalloc1
      = (0, { as_vbase1 := vaddr1 &&& PAGE_FRAME, as_ptable1 := some tbl1,
              as_npages1 := as_define_region_npages vaddr1 sz1, as_vbase2 := 0,
              as_ptable2 := none, as_npages2 := 0, as_stack := none,
              readonlyON := false }) := by
    simp only [as_define_region, if_true, hk1]
  rw [h1]
  have h2 : as_define_region
      { as_vbase1 := vaddr1 &&& PAGE_FRAME, as_ptable1 := some tbl1,
        as_npages1 := as_define_region_npages vaddr1 sz1, as_vbase2 := 0,
        as_ptable2 := none, as_npages2 := 0, as_stack := none, readonlyON := false }
      vaddr2 sz2 r2 w2 x2 kmalloc2
      = (0, { as_vbase1 := vaddr1 &&& PAGE_FRAME, as_ptable1 := some tbl1,
              as_npages1 := as_define_region_npages vaddr1 sz1,
              as_vbase2 := vaddr2 &&& PAGE_FRAME, as_ptable2 := some tbl2,
              as_npages2 := as_define_region_npages vaddr2 sz2, as_stack := none,
              readonlyON := false }) := by
    simp only [as_define_region, if_neg hv1, if_true, hk2]
  refine ⟨rfl, ?_, ?_⟩
  · exact h2
  · rw [h2]
    simp only [as_define_region, if_neg hv1, if_neg hv2]

theorem as_define_region_two_regions_witness :
    (as_define_region
        (as_define_region (as_define_region asFresh 0x400000 5000 1 0 1 kmallocExample).2
          0x10000abc 4096 1 1 0 kmallocExample).2 0x20000000 4096 1 1 0 kmallocExample).1
      = EUNIMP :=
  congrArg Prod.fst
    (as_define_region_two_regions asFresh 0x400000 5000 0x10000abc 4096 0x20000000 4096
      1 0 1 1 1 0 1 1 0 kmallocExample kmallocExample kmallocExample
      [0, 0] [0, 0] rfl rfl rfl (by decide) (by decide)).2.2

/-- For a read or write fault with a current address space, `vm_fault` is the region lookup
followed by `get_paddr` in the region found and the TLB write. -/
theorem vm_fault_eq_lookup (as : addrspace) (tlb : TLB) (victim : Nat) (faulttype : Int)
    (faultaddress : Nat) (hrw : faulttype = VM_FAULT_READ ∨ faulttype = VM_FAULT_WRITE) :
    vm_fault (some (some as)) tlb victim faulttype faultaddress =
      match vm_fault_lookup as (faultaddress &&& PAGE_FRAME) with
      | none => some (EFAULT, tlb)
      | some r =>
        vm_fault_install as tlb victim (faultaddress &&& PAGE_FRAME)
          (vm_fault_paddr as (faultaddress &&& PAGE_FRAME) r) (decide (r = FaultRegion.region1)) := by
  have hro : ¬ faulttype = VM_FAULT_READONLY := by
    rcases hrw with h | h <;> rw [h] <;> decide
  unfold vm_fault vm_fault_lookup
  simp only [if_neg hro, if_pos hrw]
  by_cases h1 : faultaddress &&& PAGE_FRAME ≥ as.as_vbase1 ∧
      faultaddress &&& PAGE_FRAME < (as.as_vbase1 + as.as_npages1 * PAGE_SIZE) % 2 ^ 32
  · simp only [if_pos h1, vm_fault_paddr, vm_fault_install]
    cases get_paddr (faultaddress &&& PAGE_FRAME) as.as_ptable1 as.as_vbase1 with
    | none => rfl
    | some p => rfl
  · simp only [if_neg h1]
    by_cases h2 : faultaddress &&& PAGE_FRAME ≥ as.as_vbase2 ∧
        faultaddress &&& PAGE_FRAME < (as.as_vbase2 + as.as_npages2 * PAGE_SIZE) % 2 ^ 32
    · simp only [if_pos h2, vm_fault_paddr, vm_fault_install]
      cases get_paddr (faultaddress &&& PAGE_FRAME) as.as_ptable2 as.as_vbase2 with
      | none => rfl
      | some p => rfl
    · simp only [if_neg h2]
      by_cases h3 : faultaddress &&& PAGE_FRAME ≥ USERSTACK - DUMBVM_STACKPAGES * PAGE_SIZE ∧
          faultaddress &&& PAGE_FRAME < USERSTACK
      · simp only [if_pos h3, vm_fault_paddr, vm_fault_install]
        cases get_paddr (faultaddress &&& PAGE_FRAME) as.as_stack
            (USERSTACK - DUMBVM_STACKPAGES * PAGE_SIZE) with
        | none => rfl
        | some p => rfl
      · simp only [if_neg h3]

theorem vm_fault_lookup_stack_iff (as : addrspace) (faultaddress : Nat) :
    vm_fault_lookup as (faultaddress &&& PAGE_FRAME) = some FaultRegion.stack ↔
      (¬ inRegion1 as faultaddress ∧ ¬ inRegion2 as faultaddress ∧ inStack faultaddress) := by
  unfold vm_fault_lookup inRegion1 inRegion2 inStack
  simp only [DUMBVM_STACKPAGES]
  by_cases h1 : faultaddress &&& PAGE_FRAME ≥ as.as_vbase1 ∧
      faultaddress &&& PAGE_FRAME < (as.as_vbase1 + as.as_npages1 * PAGE_SIZE) % 2 ^ 32
  · simp only [if_pos h1]
    constructor
    · intro h; simp at h
    · intro h; exact absurd h1 h.1
  · simp only [if_neg h1]
    by_cases h2 : faultaddress &&& PAGE_FRAME ≥ as.as_vbase2 ∧
        faultaddress &&& PAGE_FRAME < (as.as_vbase2 + as.as_npages2 * PAGE_SIZE) % 2 ^ 32
    · simp only [if_pos h2]
      constructor
      · intro h; simp at h
      · intro h; exact absurd h2 h.2.1
    · simp only [if_neg h2]
      by_cases h3 : faultaddress &&& PAGE_FRAME ≥ USERSTACK - 12 * PAGE_SIZE ∧
          faultaddress &&& PAGE_FRAME < USERSTACK
      · simp only [if_pos h3]
        exact ⟨fun _ => ⟨h1, h2, h3⟩, fun _ => trivial⟩
      · simp only [if_neg h3]
        constructor
        · intro h; simp at h
        · intro h; exact absurd h.2.2 h3

theorem vm_fault_lookup_none_iff (as : addrspace) (faultaddress : Nat) :
    vm_fault_lookup as (faultaddress &&& PAGE_FRAME) = none ↔
      (¬ inRegion1 as faultaddress ∧ ¬ inRegion2 as faultaddress ∧ ¬ inStack faultaddress) := by
  unfold vm_fault_lookup inRegion1 inRegion2 inStack
  simp only [DUMBVM_STACKPAGES]
  by_cases h1 : faultaddress &&& PAGE_FRAME ≥ as.as_vbase1 ∧
      faultaddress &&& PAGE_FRAME < (as.as_vbase1 + as.as_npages1 * PAGE_SIZE) % 2 ^ 32
  · simp only [if_pos h1]
    constructor
    · intro h; simp at h
    · intro h; exact absurd h1 h.1
  · simp only [if_neg h1]
    by_cases h2 : faultaddress &&& PAGE_FRAME ≥ as.as_vbase2 ∧
        faultaddress &&& PAGE_FRAME < (as.as_vbase2 + as.as_npages2 * PAGE_SIZE) % 2 ^ 32
    · simp only [if_pos h2]
      constructor
      · intro h; simp at h
      · intro h; exact absurd h2 h.2.1
    · simp only [if_neg h2]
      by_cases h3 : faultaddress &&& PAGE_FRAME ≥ USERSTACK - 12 * PAGE_SIZE ∧
          faultaddress &&& PAGE_FRAME < USERSTACK
      · simp only [if_pos h3]
        constructor
        · intro h; simp at h
        · intro h; exact absurd h3 h.2.2
      · simp only [if_neg h3]
        exact ⟨fun _ => ⟨h1, h2, h3⟩, fun _ => trivial⟩

/-- The function `get_paddr` for a page-aligned offset `k * PAGE_SIZE` from the base of the
region: the result is the physical address of entry `k` of the page table. -/
theorem get_paddr_page (vaddr vbase : Nat) (t : List Nat) (k p : Nat)
    (hv : (vaddr + 2 ^ 32 - vbase) % 2 ^ 32 = k * PAGE_SIZE) (hp : t[k]? = some p) :
    get_paddr vaddr (some t) vbase = some (VADDR_TO_PVADDR p) := by
  have hlt : VADDR_TO_PVADDR p < 2 ^ 32 := by
    unfold VADDR_TO_PVADDR
    exact Nat.mod_lt _ (by decide)
  have hdiv : k * PAGE_SIZE / PAGE_SIZE = k := Nat.mul_div_cancel _ (by decide)
  have hmod : k * PAGE_SIZE % PAGE_SIZE = 0 := Nat.mul_mod_left _ _
  show (match t[(vaddr + 2 ^ 32 - vbase) % 2 ^ 32 / PAGE_SIZE]? with
    | none => none
    | some p =>
      some ((VADDR_TO_PVADDR p + (vaddr + 2 ^ 32 - vbase) % 2 ^ 32 % PAGE_SIZE) % 2 ^ 32))
    = some (VADDR_TO_PVADDR p)
  rw [hv, hdiv, hp, hmod]
  show some ((VADDR_TO_PVADDR p + 0) % 2 ^ 32) = some (VADDR_TO_PVADDR p)
  rw [Nat.add_zero, Nat.mod_eq_of_lt hlt]

/-- C17: for a read or write fault with a current address space, `vm_fault` resolves the
page-masked fault address in the stack exactly when it is not in region 1, not in region 2
and lies in `[USERSTACK - 12*PAGE_SIZE, USERSTACK)`.  A fault at `USERSTACK - 1` lies in the
stack range, in its last page, and the handler returns 0 for it when regions 1 and 2 do not
contain it and the stack's last frame is page-aligned; a fault at `USERSTACK` lies outside
the stack range; and an address in none of the three ranges makes the handler return
`EFAULT` with the TLB as it was. -/
theorem vm_fault_region_lookup (as : addrspace) (tlb : TLB) (victim : Nat) (faulttype : Int)
    (faultaddress : Nat) (hrw : faulttype = VM_FAULT_READ ∨ faulttype = VM_FAULT_WRITE) :
    (vm_fault (some (some as)) tlb victim faulttype faultaddress =
      match vm_fault_lookup as (faultaddress &&& PAGE_FRAME) with
      | none => some (EFAULT, tlb)
      | some r =>
        vm_fault_install as tlb victim (faultaddress &&& PAGE_FRAME)
          (vm_fault_paddr as (faultaddress &&& PAGE_FRAME) r)
          (decide (r = FaultRegion.region1))) ∧
    (vm_fault_lookup as (faultaddress &&& PAGE_FRAME) = some FaultRegion.stack ↔
      (¬ inRegion1 as faultaddress ∧ ¬ inRegion2 as faultaddress ∧ inStack faultaddress)) ∧
    (inStack (USERSTACK - 1) ∧
      (USERSTACK - 1) &&& PAGE_FRAME = USERSTACK - 12 * PAGE_SIZE + 11 * PAGE_SIZE) ∧
    (∀ (ts : List Nat) (p : Nat), ¬ inRegion1 as (USERSTACK - 1) →
      ¬ inRegion2 as (USERSTACK - 1) → as.as_stack = some ts → ts[11]? = some p →
      VADDR_TO_PVADDR p &&& PAGE_FRAME = VADDR_TO_PVADDR p →
      ∃ tlb1, vm_fault (some (some as)) tlb victim faulttype (USERSTACK - 1)
        = some (0, tlb1)) ∧
    (¬ inStack USERSTACK ∧
      (¬ inRegion1 as USERSTACK → ¬ inRegion2 as USERSTACK →
        vm_fault (some (some as)) tlb victim faulttype USERSTACK = some (EFAULT, tlb))) ∧
    (¬ inRegion1 as faultaddress → ¬ inRegion2 as faultaddress → ¬ inStack faultaddress →
      vm_fault (some (some as)) tlb victim faulttype faultaddress = some (EFAULT, tlb)) := by
  have hnone : ∀ fa : Nat, ¬ inRegion1 as fa → ¬ inRegion2 as fa → ¬ inStack fa →
      vm_fault (some (some as)) tlb victim faulttype fa = some (EFAULT, tlb) := by
    intro fa h1 h2 h3
    rw [vm_fault_eq_lookup as tlb victim faulttype fa hrw,
      (vm_fault_lookup_none_iff as fa).2 ⟨h1, h2, h3⟩]
  have htop : ¬ inStack USERSTACK := by decide
  refine ⟨vm_fault_eq_lookup as tlb victim faulttype faultaddress hrw,
    vm_fault_lookup_stack_iff as faultaddress, ⟨by decide, by decide⟩, ?_,
    ⟨htop, fun h1 h2 => hnone USERSTACK h1 h2 htop⟩, hnone faultaddress⟩
  intro ts p h1 h2 hts hp hal
  have hst : inStack (USERSTACK - 1) := by decide
  have hpad : vm_fault_paddr as ((USERSTACK - 1) &&& PAGE_FRAME) FaultRegion.stack
      = some (VADDR_TO_PVADDR p) := by
    have hv : (((USERSTACK - 1) &&& PAGE_FRAME) + 2 ^ 32
        - (USERSTACK - DUMBVM_STACKPAGES * PAGE_SIZE)) % 2 ^ 32 = 11 * PAGE_SIZE := by decide
    unfold vm_fault_paddr
    rw [hts]
    exact get_paddr_page _ _ ts 11 p hv hp
  rw [vm_fault_eq_lookup as tlb victim faulttype (USERSTACK - 1) hrw,
    (vm_fault_lookup_stack_iff as (USERSTACK - 1)).2 ⟨h1, h2, hst⟩]
  simp only [hpad, vm_fault_install, hal, ne_eq, not_true_eq_false, if_false]
  cases vm_fault_scan tlb 0 with
  | none => exact ⟨_, rfl⟩
  | some i => exact ⟨_, rfl⟩


theorem vm_fault_region_lookup_witness :
    (VM_FAULT_READ = VM_FAULT_READ ∨ VM_FAULT_READ = VM_FAULT_WRITE) ∧
    (∃ tlb1, vm_fault (some (some asLoaded)) tlbFlushed 0 VM_FAULT_READ (USERSTACK - 1)
      = some (0, tlb1)) ∧
    vm_fault (some (some asLoaded)) tlbFlushed 0 VM_FAULT_READ USERSTACK
      = some (EFAULT, tlbFlushed) :=
  ⟨Or.inl rfl,
    (vm_fault_region_lookup asLoaded tlbFlushed 0 VM_FAULT_READ 0 (Or.inl rfl)).2.2.2.1
      ((List.range 12).map (fun i => 0x80033000 + i * 0x1000)) 0x8003e000
      (by decide) (by decide) rfl rfl (by decide),
    (vm_fault_region_lookup asLoaded tlbFlushed 0 VM_FAULT_READ 0 (Or.inl rfl)).2.2.2.2.1.2
      (by decide) (by decide)⟩

/-! ## Theorems: leaving the intersection, symmetry of the compatibility test -/

/-- The loop of `intersection_after_exit` unlinks the first matching node: when no node of
`pre` matches, the nodes `pre ++ v :: post` become `pre ++ post`. -/
theorem intersection_after_exit_loop_split (origin destination : Direction)
    (pre post : List Vehicle)
    (hpre : ∀ c ∈ pre, c ≠ (⟨origin, destination⟩ : Vehicle)) :
    intersection_after_exit_loop origin destination (pre ++ ⟨origin, destination⟩ :: post)
      = (pre ++ post, true) := by
  induction pre with
  | nil => simp [intersection_after_exit_loop]
  | cons c rest ih =>
    have hc : ¬ (c.origin = origin ∧ c.destination = destination) := by
      intro h
      apply hpre c (List.mem_cons_self c rest)
      cases c
      simp only [Vehicle.mk.injEq]
      exact h
    have ih1 := ih (fun d hd => hpre d (List.mem_cons_of_mem c hd))
    rw [List.cons_append, intersection_after_exit_loop, if_neg hc, ih1]
    rfl

/-- The loop of `intersection_after_exit` changes nothing when no node matches. -/
theorem intersection_after_exit_loop_nomatch (origin destination : Direction)
    (l : List Vehicle) (h : ∀ c ∈ l, c ≠ (⟨origin, destination⟩ : Vehicle)) :
    intersection_after_exit_loop origin destination l = (l, false) := by
  induction l with
  | nil => rfl
  | cons c rest ih =>
    have hc : ¬ (c.origin = origin ∧ c.destination = destination) := by
      intro h1
      apply h c (List.mem_cons_self c rest)
      cases c
      simp only [Vehicle.mk.injEq]
      exact h1
    have ih1 := ih (fun d hd => h d (List.mem_cons_of_mem c hd))
    simp only [intersection_after_exit_loop, if_neg hc, ih1]

/-- A list that holds `v` splits at the first occurrence of `v`. -/
theorem first_occurrence_split (v : Vehicle) (l : List Vehicle) (h : v ∈ l) :
    ∃ pre post, l = pre ++ v :: post ∧ ∀ c ∈ pre, c ≠ v := by
  induction l with
  | nil => simp at h
  | cons c rest ih =>
    by_cases hc : c = v
    · exact ⟨[], rest, by rw [hc]; rfl, fun d hd => by simp at hd⟩
    · have hr : v ∈ rest := by
        rcases List.mem_cons.1 h with h1 | h1
        · exact absurd h1.symm hc
        · exact h1
      obtain ⟨pre, post, hl, hpre⟩ := ih hr
      refine ⟨c :: pre, post, by rw [hl]; rfl, ?_⟩
      intro d hd
      rcases List.mem_cons.1 hd with h1 | h1
      · rw [h1]; exact hc
      · exact hpre d h1

/-- C27: the test that one iteration of the loop of `check_constraints` applies is
symmetric: with occupant `a` and arrival `b` it gives the same answer as with occupant `b`
and arrival `a`; the loop is the conjunction of this test over the occupants; so when
`check_constraints` admits `b`, every occupant `c` passes the test as an arrival against
`b`. -/
theorem check_constraints_symmetric (a b : Vehicle) :
    check_constraints_loop b [a] = check_constraints_loop a [b] ∧
    (∀ l : List Vehicle,
      check_constraints_loop b l = l.all (fun c => check_constraints_loop b [c])) ∧
    (∀ q : vehicles, check_constraints q b = some true →
      ∀ c ∈ q.nodes, check_constraints_loop c [b] = true) := by
  have hsym : ∀ x y : Vehicle, check_constraints_loop y [x] = check_constraints_loop x [y] := by
    intro x y
    rw [Bool.eq_iff_iff, check_constraints_loop_iff, check_constraints_loop_iff]
    constructor
    · intro h c hc
      rw [List.mem_singleton] at hc
      rw [hc]
      exact specCompatible_symm (h x (List.mem_singleton.2 rfl))
    · intro h c hc
      rw [List.mem_singleton] at hc
      rw [hc]
      exact specCompatible_symm (h y (List.mem_singleton.2 rfl))
  refine ⟨hsym a b, ?_, ?_⟩
  · intro l
    rw [Bool.eq_iff_iff, check_constraints_loop_iff, List.all_eq_true]
    constructor
    · intro h c hc
      rw [check_constraints_loop_iff]
      intro d hd
      rw [List.mem_singleton] at hd
      rw [hd]
      exact h c hc
    · intro h c hc
      exact (check_constraints_loop_iff b [c]).1 (h c hc) c (List.mem_singleton.2 rfl)
  · intro q hq c hc
    rw [hsym b c, check_constraints_loop_iff]
    intro d hd
    rw [List.mem_singleton] at hd
    rw [hd]
    exact check_constraints_true hq c hc

/-! ## Theorems: alignment in `as_define_region` -/

/-- Masking a 32-bit address with `PAGE_FRAME` rounds it down to a multiple of `PAGE_SIZE`. -/
theorem and_PAGE_FRAME (x : Nat) (hx : x < 2 ^ 32) :
    x &&& PAGE_FRAME = x / PAGE_SIZE * PAGE_SIZE := by
  have hm : PAGE_FRAME = 2 ^ 12 * (2 ^ 20 - 1) := by decide
  have hr : x / PAGE_SIZE * PAGE_SIZE = 2 ^ 12 * (x >>> 12) := by
    rw [Nat.shiftRight_eq_div_pow, Nat.mul_comm]
    rfl
  rw [hr, hm]
  apply Nat.eq_of_testBit_eq
  intro j
  rw [Nat.testBit_and, Nat.testBit_mul_pow_two, Nat.testBit_mul_pow_two,
    Nat.testBit_two_pow_sub_one, Nat.testBit_shiftRight]
  by_cases h12 : j ≥ 12
  · have hj : 12 + (j - 12) = j := by omega
    rw [hj]
    by_cases h32 : j < 32
    · have h20 : j - 12 < 20 := by omega
      simp [h12, h20]
    · have hxj : x.testBit j = false :=
        Nat.testBit_lt_two_pow (Nat.lt_of_lt_of_le hx (Nat.pow_le_pow_right (by decide) (by omega)))
      simp [hxj]
  · simp [h12]

/-- Masking an address with the complement of `PAGE_FRAME` gives its offset in the page. -/
theorem and_not_PAGE_FRAME (x : Nat) : x &&& (0xffffffff ^^^ PAGE_FRAME) = x % PAGE_SIZE := by
  have hm : 0xffffffff ^^^ PAGE_FRAME = 2 ^ 12 - 1 := by decide
  rw [hm, Nat.and_pow_two_sub_one_eq_mod]
  rfl

/-- When the rounded-up size does not overflow, `as_define_region` computes the ceiling of
`(sz + vaddr mod PAGE_SIZE) / PAGE_SIZE`. -/
theorem as_define_region_npages_eq (vaddr sz : Nat)
    (hsz : sz + vaddr % PAGE_SIZE + PAGE_SIZE - 1 < 2 ^ 32) :
    as_define_region_npages vaddr sz = (sz + vaddr % PAGE_SIZE + PAGE_SIZE - 1) / PAGE_SIZE := by
  have h1 : (sz + vaddr % PAGE_SIZE) % 2 ^ 32 = sz + vaddr % PAGE_SIZE := by
    apply Nat.mod_eq_of_lt
    simp only [PAGE_SIZE] at hsz ⊢
    omega
  have h2 : (sz + vaddr % PAGE_SIZE + PAGE_SIZE - 1) % 2 ^ 32
      = sz + vaddr % PAGE_SIZE + PAGE_SIZE - 1 := Nat.mod_eq_of_lt hsz
  unfold as_define_region_npages
  simp only []
  rw [and_not_PAGE_FRAME, h1, h2, and_PAGE_FRAME _ hsz]
  exact Nat.mul_div_cancel _ (by decide)

/-- C23, counterexample: `vaddr = 0`, `sz = 0xfffff001` do not overflow the address width
(`vaddr + sz < 2^32`), the least number of pages covering `[vaddr, vaddr + sz)` is
`0x100000`, but the size rounded up wraps to 0 and `as_define_region` stores
`npages = 0`. -/
theorem as_define_region_alignment_counterexample :
    (0 : Nat) + 0xfffff001 < 2 ^ 32 ∧
    (0xfffff001 + 0 % PAGE_SIZE + PAGE_SIZE - 1) / PAGE_SIZE = 0x100000 ∧
    as_define_region_npages 0 0xfffff001 = 0 ∧
    as_define_region asFresh 0 0xfffff001 1 1 0 kmallocExample
      = (0, { asFresh with as_vbase1 := 0, as_ptable1 := some [], as_npages1 := 0 }) := by
  refine ⟨by decide, by decide, by decide, ?_⟩
  have h : as_define_region_npages 0 0xfffff001 = 0 := by decide
  simp only [as_define_region, h, asFresh, kmallocExample, if_true]
  rfl

/-- C23, amended: for a 32-bit `vaddr` and a size whose rounding up does not overflow
(`sz + vaddr mod PAGE_SIZE + PAGE_SIZE - 1 < 2^32`, which follows from `vaddr + sz < 2^32`
when `vaddr ≥ PAGE_SIZE`), the base that `as_define_region` stores is `vaddr` rounded down to
a multiple of `PAGE_SIZE` and the stored `npages` is the ceiling of
`(sz + vaddr mod PAGE_SIZE) / PAGE_SIZE`, the least `n` for which
`[vbase, vbase + n*PAGE_SIZE)` contains `[vaddr, vaddr + sz)`; these are the values
written into slot 1 when it is empty and into slot 2 otherwise. -/
theorem as_define_region_alignment (as : addrspace) (vaddr sz : Nat) (r w x : Int)
    (kmalloc : Nat → Option (List Nat)) (hv : vaddr < 2 ^ 32)
    (hsz : sz + vaddr % PAGE_SIZE + PAGE_SIZE - 1 < 2 ^ 32) :
    (PAGE_SIZE ≤ vaddr → vaddr + sz < 2 ^ 32 →
      sz + vaddr % PAGE_SIZE + PAGE_SIZE - 1 < 2 ^ 32) ∧
    vaddr &&& PAGE_FRAME = vaddr / PAGE_SIZE * PAGE_SIZE ∧
    (vaddr &&& PAGE_FRAME) % PAGE_SIZE = 0 ∧
    (vaddr &&& PAGE_FRAME) ≤ vaddr ∧ vaddr < (vaddr &&& PAGE_FRAME) + PAGE_SIZE ∧
    as_define_region_npages vaddr sz = (sz + vaddr % PAGE_SIZE + PAGE_SIZE - 1) / PAGE_SIZE ∧
    vaddr + sz ≤ (vaddr &&& PAGE_FRAME) + as_define_region_npages vaddr sz * PAGE_SIZE ∧
    (∀ n : Nat, vaddr + sz ≤ (vaddr &&& PAGE_FRAME) + n * PAGE_SIZE →
      as_define_region_npages vaddr sz ≤ n) ∧
    (∀ tbl : List Nat, as.as_vbase1 = 0 →
      kmalloc (as_define_region_npages vaddr sz) = some tbl →
      as_define_region as vaddr sz r w x kmalloc
        = (0, { as with as_vbase1 := vaddr &&& PAGE_FRAME, as_ptable1 := some tbl,
                        as_npages1 := as_define_region_npages vaddr sz })) ∧
    (∀ tbl : List Nat, as.as_vbase1 ≠ 0 → as.as_vbase2 = 0 →
      kmalloc (as_define_region_npages vaddr sz) = some tbl →
      as_define_region as vaddr sz r w x kmalloc
        = (0, { as with as_vbase2 := vaddr &&& PAGE_FRAME, as_ptable2 := some tbl,
                        as_npages2 := as_define_region_npages vaddr sz })) := by
  have hb := and_PAGE_FRAME vaddr hv
  have hn := as_define_region_npages_eq vaddr sz hsz
  refine ⟨?_, hb, ?_, ?_, ?_, hn, ?_, ?_, ?_, ?_⟩
  · intro h1 h2
    simp only [PAGE_SIZE] at h1 ⊢
    omega
  · rw [hb]
    exact Nat.mul_mod_left _ _
  · rw [hb]
    exact Nat.div_mul_le_self _ _
  · rw [hb]
    simp only [PAGE_SIZE]
    omega
  · rw [hb, hn]
    simp only [PAGE_SIZE]
    omega
  · intro n hle
    rw [hb] at hle
    rw [hn]
    simp only [PAGE_SIZE] at hle ⊢
    omega
  · intro tbl h1 hk
    simp only [as_define_region, h1, if_true, hk]
  · intro tbl h1 h2 hk
    simp only [as_define_region, if_neg h1, h2, if_true, hk]

theorem as_define_region_alignment_witness :
    ((0x400abc : Nat) < 2 ^ 32 ∧ 5000 + 0x400abc % PAGE_SIZE + PAGE_SIZE - 1 < 2 ^ 32) ∧
    0x400abc &&& PAGE_FRAME = 0x400abc / PAGE_SIZE * PAGE_SIZE ∧
    as_define_region_npages 0x400abc 5000
      = (5000 + 0x400abc % PAGE_SIZE + PAGE_SIZE - 1) / PAGE_SIZE :=
  ⟨⟨by decide, by decide⟩,
    (as_define_region_alignment asFresh 0x400abc 5000 1 0 1 kmallocExample
      (by decide) (by decide)).2.1,
    (as_define_region_alignment asFresh 0x400abc 5000 1 0 1 kmallocExample
      (by decide) (by decide)).2.2.2.2.2.1⟩

/-! ## Theorems: layout arithmetic of `vm_bootstrap` -/

/-- C26: for a physical range `low ≤ high < 2^32` with `N = (high - low) / PAGE_SIZE` and
`reserved = ceil(N * sizeof(struct coremap_entry) / PAGE_SIZE)`, after `vm_bootstrap`:
`reserved ≤ N` and `pageNum = N - reserved`; `mapStart = low + reserved * PAGE_SIZE`; the
coremap consists of `pageNum` entries, all available with `datasize = -1`; the array of
`pageNum` entries at `low` fits in the reserved frames; and every managed frame
`mapStart + i*PAGE_SIZE`, `i < pageNum`, starts after the coremap's storage and ends at or
before `high`. -/
theorem vm_bootstrap_arith (low high : Nat) (hlh : low ≤ high) (hhi : high < 2 ^ 32) :
    (high - low) / PAGE_SIZE * sizeof_coremap_entry < 2 ^ 32 ∧
    ((high - low) / PAGE_SIZE * sizeof_coremap_entry + PAGE_SIZE - 1) / PAGE_SIZE
      ≤ (high - low) / PAGE_SIZE ∧
    (vm_bootstrap low high).pageNum = (high - low) / PAGE_SIZE
      - ((high - low) / PAGE_SIZE * sizeof_coremap_entry + PAGE_SIZE - 1) / PAGE_SIZE ∧
    (vm_bootstrap low high).mapStart = low
      + ((high - low) / PAGE_SIZE * sizeof_coremap_entry + PAGE_SIZE - 1) / PAGE_SIZE
        * PAGE_SIZE ∧
    (∀ (i : Nat) (e : coremap_entry), (vm_bootstrap low high).coremap[i]? = some e →
      e.available = true ∧ e.datasize = -1) ∧
    (vm_bootstrap low high).pageNum * sizeof_coremap_entry
      ≤ ((high - low) / PAGE_SIZE * sizeof_coremap_entry + PAGE_SIZE - 1) / PAGE_SIZE
        * PAGE_SIZE ∧
    (∀ i : Nat, i < (vm_bootstrap low high).pageNum →
      low + (vm_bootstrap low high).pageNum * sizeof_coremap_entry
        ≤ (vm_bootstrap low high).mapStart + i * PAGE_SIZE ∧
      (vm_bootstrap low high).mapStart ≤ (vm_bootstrap low high).mapStart + i * PAGE_SIZE ∧
      (vm_bootstrap low high).mapStart + (i + 1) * PAGE_SIZE ≤ high) := by
  refine ⟨?_, ?_, ?_, ?_, ?_, ?_, ?_⟩
  · simp only [PAGE_SIZE, sizeof_coremap_entry]
    omega
  · simp only [PAGE_SIZE, sizeof_coremap_entry]
    omega
  · simp only [vm_bootstrap, VMState.pageNum, List.length_replicate, PAGE_SIZE,
      sizeof_coremap_entry]
    omega
  · simp only [vm_bootstrap, PAGE_SIZE, sizeof_coremap_entry]
    omega
  · intro i e he
    simp only [vm_bootstrap] at he
    rw [List.getElem?_replicate] at he
    split at he
    · rw [← Option.some.inj he]
      exact ⟨rfl, rfl⟩
    · exact Option.noConfusion he
  · simp only [vm_bootstrap, VMState.pageNum, List.length_replicate, PAGE_SIZE,
      sizeof_coremap_entry]
    omega
  · intro i hi
    simp only [vm_bootstrap, VMState.pageNum, List.length_replicate, PAGE_SIZE,
      sizeof_coremap_entry] at hi ⊢
    omega

theorem vm_bootstrap_arith_witness :
    ((0x30000 : Nat) ≤ 0x36000 ∧ (0x36000 : Nat) < 2 ^ 32) ∧
    (vm_bootstrap 0x30000 0x36000).pageNum = (0x36000 - 0x30000) / PAGE_SIZE
      - ((0x36000 - 0x30000) / PAGE_SIZE * sizeof_coremap_entry + PAGE_SIZE - 1) / PAGE_SIZE ∧
    (vm_bootstrap 0x30000 0x36000).mapStart = 0x30000
      + ((0x36000 - 0x30000) / PAGE_SIZE * sizeof_coremap_entry + PAGE_SIZE - 1) / PAGE_SIZE
        * PAGE_SIZE :=
  ⟨⟨by decide, by decide⟩,
    (vm_bootstrap_arith 0x30000 0x36000 (by decide) (by decide)).2.2.1,
    (vm_bootstrap_arith 0x30000 0x36000 (by decide) (by decide)).2.2.2.1⟩

/-! ## Theorems: exhausting the coremap, the assertions of `free_kpages` -/

/-- When no entry of the coremap is available, `alloc_kpages(k)` with `k ≥ 1` returns 0 and
leaves the state as it is. -/
theorem alloc_kpages_none_free (st : VMState) (k : Nat) (hk : 1 ≤ k)
    (hfull : ∀ (j : Nat) (e : coremap_entry), st.coremap[j]? = some e → e.available = false) :
    alloc_kpages st k = some (0, st) := by
  apply (alloc_kpages_spec st k hk).2
  rintro ⟨s, hs1, hs2⟩
  have hav := hs2 s (Nat.le_refl s) (by omega)
  unfold entryAvailable at hav
  cases he : st.coremap[s]? with
  | none => rw [he] at hav; exact Bool.noConfusion hav
  | some e =>
    rw [he] at hav
    have hav1 : e.available = true := hav
    rw [hfull s e he] at hav1
    exact Bool.noConfusion hav1

/-- C20: in the state set up by `vm_bootstrap` for directly mapped RAM
(`low ≤ high ≤ MIPS_KSEG0`) with `pageNum = N ≥ 1` managed frames, `alloc_kpages(N)`
succeeds: it returns the non-zero kernel address of the first managed frame and leaves no
entry available; in the state it leaves, every `alloc_kpages(k)` with `k ≥ 1` returns 0 and
does not change the state (so this holds for every later allocation made before a free, in
particular for a second `alloc_kpages(N)`). -/
theorem alloc_kpages_exhaustion (low high : Nat) (hlh : low ≤ high) (hhi : high ≤ MIPS_KSEG0)
    (hN : 1 ≤ (vm_bootstrap low high).pageNum) :
    ∃ addr st1,
      alloc_kpages (vm_bootstrap low high) (vm_bootstrap low high).pageNum = some (addr, st1) ∧
      addr ≠ 0 ∧ addr = PADDR_TO_KVADDR (vm_bootstrap low high).mapStart ∧
      st1.pageNum = (vm_bootstrap low high).pageNum ∧
      (∀ (j : Nat) (e : coremap_entry), st1.coremap[j]? = some e → e.available = false) ∧
      (∀ k : Nat, 1 ≤ k → alloc_kpages st1 k = some (0, st1)) ∧
      alloc_kpages st1 (vm_bootstrap low high).pageNum = some (0, st1) := by
  obtain ⟨hlay1, _, hlay3⟩ := vm_bootstrap_layout low high hlh hhi hN
  have hcm : ∀ (j : Nat) (e : coremap_entry), (vm_bootstrap low high).coremap[j]? = some e →
      e.available = true := by
    intro j e he
    simp only [vm_bootstrap] at he
    rw [List.getElem?_replicate] at he
    split at he
    · rw [← Option.some.inj he]
    · exact Option.noConfusion he
  have hrun : freeRun (vm_bootstrap low high).coremap 0 (vm_bootstrap low high).pageNum := by
    refine ⟨by simp [VMState.pageNum], ?_⟩
    intro j _ hj
    have hjl : j < (vm_bootstrap low high).coremap.length := by
      simpa [VMState.pageNum] using hj
    unfold entryAvailable
    rw [List.getElem?_eq_getElem hjl]
    exact hcm j _ (List.getElem?_eq_getElem hjl)
  obtain ⟨s, cm, addr, hs, _, halloc, hlen, hpt, haddr⟩ :=
    (alloc_kpages_spec (vm_bootstrap low high) (vm_bootstrap low high).pageNum hN).1 ⟨0, hrun⟩
  have hs0 : s = 0 := by
    have := hs.1
    simp only [VMState.pageNum] at this
    omega
  subst hs0
  obtain ⟨ha1, ha2⟩ := haddr hlay1 (Nat.le_trans hlay3 hhi)
  have hfull : ∀ (j : Nat) (e : coremap_entry), cm[j]? = some e → e.available = false := by
    intro j e he
    have hj : j < cm.length := (List.getElem?_eq_some.1 he).1
    have hj0 : j < (vm_bootstrap low high).coremap.length := by omega
    have h1 := hpt j _ (List.getElem?_eq_getElem hj0)
    rw [he] at h1
    have h2 := Option.some.inj h1
    rw [h2]
    by_cases hz : j = 0
    · rw [if_pos hz]
    · rw [if_neg hz]
      have hin : 0 < j ∧ j < 0 + (vm_bootstrap low high).pageNum := by
        simp only [VMState.pageNum]
        omega
      rw [if_pos hin]
  have hnone := alloc_kpages_none_free
    { coremap := cm, mapStart := (vm_bootstrap low high).mapStart }
  refine ⟨addr, _, halloc, ha2, ?_, ?_, hfull, fun k hk => hnone k hk hfull,
    hnone _ hN hfull⟩
  · rw [ha1]
    simp
  · simp only [VMState.pageNum]
    exact hlen

theorem alloc_kpages_exhaustion_witness :
    ((0x30000 : Nat) ≤ 0x36000 ∧ (0x36000 : Nat) ≤ MIPS_KSEG0 ∧
      1 ≤ (vm_bootstrap 0x30000 0x36000).pageNum) ∧
    ∃ addr st1,
      alloc_kpages (vm_bootstrap 0x30000 0x36000) (vm_bootstrap 0x30000 0x36000).pageNum
        = some (addr, st1) ∧
      addr ≠ 0 ∧ addr = PADDR_TO_KVADDR (vm_bootstrap 0x30000 0x36000).mapStart ∧
      st1.pageNum = (vm_bootstrap 0x30000 0x36000).pageNum ∧
      (∀ (j : Nat) (e : coremap_entry), st1.coremap[j]? = some e → e.available = false) ∧
      (∀ k : Nat, 1 ≤ k → alloc_kpages st1 k = some (0, st1)) ∧
      alloc_kpages st1 (vm_bootstrap 0x30000 0x36000).pageNum = some (0, st1) :=
  ⟨⟨by decide, by decide, by decide⟩,
    alloc_kpages_exhaustion 0x30000 0x36000 (by decide) (by decide) (by decide)⟩

/-- The function `free_kpages` in terms of the index it computes. -/
theorem free_kpages_eq (st : VMState) (addr : Nat) :
    free_kpages st addr =
      if VADDR_TO_PVADDR addr % PAGE_SIZE ≠ 0 then none
      else
        match st.coremap[free_kpages_index st addr]? with
        | none => none
        | some e =>
          if e.available = false ∧ e.datasize ≠ -1 then
            if free_kpages_index st addr + e.datasize.toNat ≤ st.coremap.length then
              some { st with coremap :=
                free_kpages_loop (free_kpages_index st addr) e.datasize.toNat 0 st.coremap }
            else none
          else none := rfl

/-- In a well-formed coremap the assertion of `free_kpages` on entry `i` holds exactly when
`i` is the first frame of a run. -/
theorem runStart_iff_assert {cm : List coremap_entry} (h : coremapInv cm) {i : Nat}
    {e : coremap_entry} (he : cm[i]? = some e) :
    (∃ n, runStart cm i n) ↔ (e.available = false ∧ e.datasize ≠ -1) := by
  constructor
  · rintro ⟨n, e1, he1, hav, hd, hn⟩
    rw [he] at he1
    have := Option.some.inj he1
    subst this
    refine ⟨hav, ?_⟩
    rw [hd]
    omega
  · rintro ⟨hav, hd⟩
    exact ⟨_, h.runStart_of_base he hav hd⟩

/-- C19: in a well-formed coremap, for an address whose index `i` (as `free_kpages` computes
it) is below `pageNum`: `free_kpages` fails exactly when the address is not page-aligned or
entry `i` is not the first frame of a run; entry `i` is not the first frame of a run exactly
when it is available or is unavailable with `datasize = -1`, and in the latter case it lies
inside a run that starts before `i`; when the call succeeds, entry `i` starts a run of some
length `n`, the entries `i .. i+n-1` become available with `datasize = -1`, every other entry
and `mapStart` are unchanged, and a second `free_kpages` of the same address fails. -/
theorem free_kpages_rejects (st : VMState) (addr : Nat) (hwf : coremapWF st.coremap)
    (hidx : free_kpages_index st addr < st.pageNum) :
    (free_kpages st addr = none ↔
      (VADDR_TO_PVADDR addr % PAGE_SIZE ≠ 0 ∨
        ¬ ∃ n, runStart st.coremap (free_kpages_index st addr) n)) ∧
    ((¬ ∃ n, runStart st.coremap (free_kpages_index st addr) n) ↔
      ∃ e, st.coremap[free_kpages_index st addr]? = some e ∧
        (e.available = true ∨ (e.available = false ∧ e.datasize = -1))) ∧
    (∀ e : coremap_entry, st.coremap[free_kpages_index st addr]? = some e →
      e.available = false → e.datasize = -1 →
      ∃ i n, runStart st.coremap i n ∧ i < free_kpages_index st addr ∧
        free_kpages_index st addr < i + n) ∧
    (∀ st1 : VMState, free_kpages st addr = some st1 →
      ∃ n, runStart st.coremap (free_kpages_index st addr) n ∧
        st1.mapStart = st.mapStart ∧ st1.pageNum = st.pageNum ∧
        (∀ j : Nat, free_kpages_index st addr ≤ j → j < free_kpages_index st addr + n →
          st1.coremap[j]? = some ⟨true, -1⟩) ∧
        (∀ j : Nat, ¬ (free_kpages_index st addr ≤ j ∧ j < free_kpages_index st addr + n) →
          st1.coremap[j]? = st.coremap[j]?) ∧
        free_kpages st1 addr = none) := by
  have hinv := hwf.toInv
  have hlt : free_kpages_index st addr < st.coremap.length := hidx
  have he : st.coremap[free_kpages_index st addr]?
      = some (st.coremap[free_kpages_index st addr]) := List.getElem?_eq_getElem hlt
  have hiff := runStart_iff_assert hinv he
  refine ⟨?_, ?_, ?_, ?_⟩
  · rw [free_kpages_eq, he]
    by_cases hal : VADDR_TO_PVADDR addr % PAGE_SIZE ≠ 0
    · rw [if_pos hal]
      exact ⟨fun _ => Or.inl hal, fun _ => rfl⟩
    · rw [if_neg hal]
      by_cases hc : (st.coremap[free_kpages_index st addr]).available = false ∧
          (st.coremap[free_kpages_index st addr]).datasize ≠ -1
      · have hs := hinv.runStart_of_base he hc.1 hc.2
        have hle := (hinv.runs _ _ hs).1
        simp only [if_pos hc, if_pos hle]
        constructor
        · intro h
          exact Option.noConfusion h
        · rintro (h | h)
          · exact absurd h hal
          · exact absurd ⟨_, hs⟩ h
      · simp only [if_neg hc]
        exact ⟨fun _ => Or.inr (fun h => hc (hiff.1 h)), fun _ => trivial⟩
  · rw [hiff]
    constructor
    · intro hc
      refine ⟨_, he, ?_⟩
      by_cases hav : (st.coremap[free_kpages_index st addr]).available = true
      · exact Or.inl hav
      · have hav1 : (st.coremap[free_kpages_index st addr]).available = false := by
          simpa using hav
        refine Or.inr ⟨hav1, ?_⟩
        by_contra hd
        exact hc ⟨hav1, hd⟩
    · rintro ⟨e, he1, hcase⟩ ⟨hav, hd⟩
      rw [he] at he1
      have := Option.some.inj he1
      subst this
      rcases hcase with h | ⟨_, h⟩
      · rw [hav] at h
        exact Bool.noConfusion h
      · exact hd h
  · intro e he1 hav hd
    obtain ⟨i, n, hs, h1, h2⟩ := hinv.covered _ e he1 hav
    refine ⟨i, n, hs, ?_, h2⟩
    by_contra hge
    have hi : i = free_kpages_index st addr := by omega
    subst hi
    obtain ⟨e2, he2, _, hd2, hn⟩ := hs
    rw [he1] at he2
    have := Option.some.inj he2
    subst this
    rw [hd] at hd2
    omega
  · intro st1 h
    obtain ⟨hal, hms, e, he1, hav, hd, hcm⟩ := free_kpages_coremap h
    have he2 : st.coremap[free_kpages_index st addr]? = some e := he1
    have hs := hinv.runStart_of_base he2 hav hd
    have hpos : 0 < e.datasize.toNat := hs.choose_spec.2.2.2
    have hpt : ∀ j : Nat, st1.coremap[j]? =
        if free_kpages_index st addr ≤ j ∧ j < free_kpages_index st addr + e.datasize.toNat
        then (st.coremap[j]?).map (fun _ => (⟨true, -1⟩ : coremap_entry))
        else st.coremap[j]? := by
      intro j
      rw [hcm, free_kpages_loop_getElem?]
      simp only [Nat.add_zero]
      rfl
    have hlen : st1.coremap.length = st.coremap.length := by
      rw [hcm]
      exact free_kpages_loop_length _ _ _ _
    have hle := (hinv.runs _ _ hs).1
    have hin : ∀ j : Nat, free_kpages_index st addr ≤ j →
        j < free_kpages_index st addr + e.datasize.toNat →
        st1.coremap[j]? = some ⟨true, -1⟩ := by
      intro j h1 h2
      rw [hpt j, if_pos ⟨h1, h2⟩, List.getElem?_eq_getElem (by omega)]
      rfl
    refine ⟨e.datasize.toNat, hs, hms, hlen, hin, ?_, ?_⟩
    · intro j hj
      rw [hpt j, if_neg hj]
    · have hidx1 : free_kpages_index st1 addr = free_kpages_index st addr := by
        unfold free_kpages_index
        rw [hms]
      rw [free_kpages_eq, hidx1, hin _ (Nat.le_refl _) (by omega)]
      have hal1 : ¬ VADDR_TO_PVADDR addr % PAGE_SIZE ≠ 0 := fun h => h hal
      rw [if_neg hal1]
      simp

theorem free_kpages_rejects_witness :
    (coremapWF afterExample.coremap ∧
      free_kpages_index afterExample 0x80034000 < afterExample.pageNum) ∧
    (free_kpages afterExample 0x80034000 = none ↔
      (VADDR_TO_PVADDR 0x80034000 % PAGE_SIZE ≠ 0 ∨
        ¬ ∃ n, runStart afterExample.coremap (free_kpages_index afterExample 0x80034000) n)) :=
  ⟨⟨(reachable_coremapInv afterExample_reachable).toWF, by decide⟩,
    (free_kpages_rejects afterExample 0x80034000
      (reachable_coremapInv afterExample_reachable).toWF (by decide)).1⟩

/-! ## Theorems: parents in reachable process tables -/

/-- The slot of `pid` after a write to index `i`. -/
theorem slotOf_set (PID_MIN : Nat) (t : ProcTable) (i : Nat) (s : Option proctable_node)
    (pid : Int) (hi : i < t.length) :
    slotOf PID_MIN (t.set i s) pid =
      if pid = (i : Int) + PID_MIN then some s else slotOf PID_MIN t pid := by
  unfold slotOf
  by_cases hlt : pid < (PID_MIN : Int)
  · have hne : ¬ pid = (i : Int) + PID_MIN := by omega
    rw [if_pos hlt, if_neg hne, if_pos hlt]
  · rw [if_neg hlt, if_neg hlt, List.getElem?_set]
    by_cases hp : pid = (i : Int) + PID_MIN
    · have hidx : i = (pid - (PID_MIN : Int)).toNat := by omega
      rw [if_pos hp, if_pos hidx, if_pos hi]
    · have hidx : ¬ i = (pid - (PID_MIN : Int)).toNat := by omega
      rw [if_neg hp, if_neg hidx]

/-- A successful `proctable_add` writes the new node into a null slot whose PID it returns. -/
theorem proctable_add_slots (PID_MIN : Nat) (t : ProcTable) (p : Nat) (ok : Bool)
    (pid : Int) (h : (proctable_add PID_MIN t p ok).2.1 = some pid) :
    slotOf PID_MIN t pid = some none ∧
    (proctable_add PID_MIN t p ok).1 = 0 ∧
    (proctable_add PID_MIN t p ok).2.2.length = t.length ∧
    ∀ q : Int, slotOf PID_MIN (proctable_add PID_MIN t p ok).2.2 q =
      if q = pid then some (some (proctable_create_node p)) else slotOf PID_MIN t q := by
  have hnull := proctable_add_returns_null PID_MIN t p ok pid h
  refine ⟨hnull, ?_⟩
  unfold proctable_add at h ⊢
  split at h
  · rename_i hok
    rw [if_pos hok]
    cases hscan : proctable_add_scan t 0 with
    | none =>
      rw [hscan] at h
      exact Option.noConfusion h
    | some i =>
      rw [hscan] at h
      simp only [Option.some.injEq] at h
      obtain ⟨_, h2, _⟩ := proctable_add_scan_some t 0 i hscan
      simp only [Nat.sub_zero] at h2
      have hi : i < t.length := (List.getElem?_eq_some.1 h2).1
      refine ⟨rfl, List.length_set _ _ _, ?_⟩
      intro q
      simp only []
      rw [slotOf_set PID_MIN t i _ q hi, h]
  · exact Option.noConfusion h

/-- A successful `sys_fork`, seen on the process table: the child's PID was that of a null
slot, the child's node has the caller as parent, and the other slots are unchanged. -/
theorem sys_fork_proctable_slots {PID_MIN : Nat} {t t1 : ProcTable} {curpid cpid : Int}
    {child : Nat} {node_ok : Bool}
    (h : sys_fork_proctable PID_MIN t curpid child node_ok = some (0, some cpid, t1)) :
    slotOf PID_MIN t cpid = some none ∧ t1.length = t.length ∧
    ∀ q : Int, slotOf PID_MIN t1 q =
      if q = cpid then
        some (some { proc := child, parent := curpid, exited := false, exitcode := -1 })
      else slotOf PID_MIN t q := by
  unfold sys_fork_proctable at h
  split at h
  rename_i result repid ta hadd
  split at h
  · rename_i hres
    simp only [Option.some.injEq, Prod.mk.injEq] at h
    exact absurd h.1 hres
  · split at h
    · exact Option.noConfusion h
    · rename_i cpid1
      have hrep : (proctable_add PID_MIN t child node_ok).2.1 = some cpid1 := by rw [hadd]
      obtain ⟨hnull, _, hlen, hslots⟩ := proctable_add_slots PID_MIN t child node_ok cpid1 hrep
      rw [hadd] at hlen hslots
      simp only at hlen hslots
      obtain ⟨hge, hidx, _⟩ := slotOf_some hnull
      split at h
      · rename_i nd hnd
        simp only [Option.some.injEq, Prod.mk.injEq, true_and] at h
        obtain ⟨hc, ht1⟩ := h
        subst hc
        have hnd1 : slotOf PID_MIN ta cpid1 = some (some nd) := by
          unfold slotOf
          rw [if_neg (by omega)]
          exact hnd
        rw [hslots cpid1, if_pos rfl] at hnd1
        have hndeq : nd = proctable_create_node child := by
          have := Option.some.inj (Option.some.inj hnd1)
          exact this.symm
        refine ⟨hnull, ?_, ?_⟩
        · rw [← ht1, List.length_set]
          exact hlen
        · intro q
          have hpid : (((cpid1 - (PID_MIN : Int)).toNat : Nat) : Int) + (PID_MIN : Int)
              = cpid1 := by omega
          rw [← ht1, slotOf_set PID_MIN ta _ _ q (by omega), hpid]
          by_cases hq : q = cpid1
          · rw [if_pos hq, if_pos hq, hndeq]
            rfl
          · rw [if_neg hq, if_neg hq, hslots q, if_neg hq]
      · exact Option.noConfusion h

/-- The function `sys_waitpid` does not change the process table. -/
theorem sys_waitpid_table {PID_MIN PID_MAX : Nat} {t t1 : ProcTable} {curpid pid : Int}
    {status : Nat} {options : Int} {copyout_ok : Bool} {out : WaitOutcome}
    (h : sys_waitpid PID_MIN PID_MAX t curpid pid status options copyout_ok = some (out, t1)) :
    t1 = t := by
  unfold sys_waitpid at h
  split at h
  · simp only [Option.some.injEq, Prod.mk.injEq] at h
    exact h.2.symm
  · split at h
    · simp only [Option.some.injEq, Prod.mk.injEq] at h
      exact h.2.symm
    · split at h
      · exact Option.noConfusion h
      · simp only [Option.some.injEq, Prod.mk.injEq] at h
        exact h.2.symm
      · split at h
        · simp only [Option.some.injEq, Prod.mk.injEq] at h
          exact h.2.symm
        · split at h
          · simp only [Option.some.injEq, Prod.mk.injEq] at h
            exact h.2.symm
          · split at h
            · simp only [Option.some.injEq, Prod.mk.injEq] at h
              exact h.2.symm
            · simp only [Option.some.injEq, Prod.mk.injEq] at h
              exact h.2.symm

/-- A completed `sys__exit` was called by a process whose slot is occupied. -/
theorem sys__exit_caller {PID_MIN PID_MAX : Nat} {t t1 : ProcTable} {curpid exitcode : Int}
    (h : sys__exit PID_MIN PID_MAX t curpid exitcode = some t1) :
    ∃ pt, slotOf PID_MIN t curpid = some (some pt) := by
  unfold sys__exit at h
  split at h
  · exact Option.noConfusion h
  · exact Option.noConfusion h
  · rename_i pt hget
    unfold proctable_get at hget
    split at hget
    · exact Option.noConfusion (Option.some.inj hget)
    · rename_i hb
      refine ⟨pt, ?_⟩
      unfold slotOf
      rw [if_neg (by omega)]
      exact hget

/-- The invariant of process tables is kept by `sys__exit`. -/
theorem procInv_exit {PID_MIN PID_MAX : Nat} {t t1 : ProcTable} {curpid exitcode : Int}
    (hinv : procInv PID_MIN PID_MAX t)
    (h : sys__exit PID_MIN PID_MAX t curpid exitcode = some t1) :
    procInv PID_MIN PID_MAX t1 := by
  obtain ⟨pt, hslot⟩ := sys__exit_caller h
  obtain ⟨hlen, hnodes⟩ := hinv
  have hself := (hnodes curpid pt hslot).1
  obtain ⟨t2, h2, hlen2, hcur, hoth⟩ :=
    sys__exit_slots PID_MIN PID_MAX t curpid exitcode pt hlen hslot hself
  rw [h] at h2
  have := Option.some.inj h2
  subst this
  -- the slot of a process that was occupied and running, other than the caller
  have halive : ∀ (q : Int) (pnd : proctable_node), q ≠ curpid →
      slotOf PID_MIN t q = some (some pnd) → pnd.exited = false →
      ∃ pnd1, slotOf PID_MIN t1 q = some (some pnd1) ∧ pnd1.exited = false := by
    intro q pnd hq hs hex
    rw [hoth q hq, hs]
    by_cases hp : pnd.parent = curpid
    · refine ⟨{ pnd with parent := -1 }, ?_, hex⟩
      simp [updateSlot, hp, hex]
    · refine ⟨pnd, ?_, hex⟩
      simp [updateSlot, hp]
  refine ⟨by omega, ?_⟩
  intro pid nd hnd
  by_cases hpid : pid = curpid
  · subst hpid
    rw [hcur] at hnd
    by_cases hroot : pt.parent = -1
    · rw [if_pos hroot] at hnd
      exact Option.noConfusion (Option.some.inj hnd)
    · rw [if_neg hroot] at hnd
      have hndeq := Option.some.inj (Option.some.inj hnd)
      have hpar : nd.parent = pt.parent := by rw [← hndeq]
      rw [hpar]
      refine ⟨hself, Or.inr ?_⟩
      rcases (hnodes pid pt hslot).2 with h1 | ⟨pnd, hp1, hp2⟩
      · exact absurd h1 hroot
      · exact halive pt.parent pnd hself hp1 hp2
  · rw [hoth pid hpid] at hnd
    cases hs : slotOf PID_MIN t pid with
    | none => rw [hs] at hnd; exact Option.noConfusion hnd
    | some s =>
      rw [hs] at hnd
      simp only [Option.map_some', Option.some.injEq] at hnd
      cases s with
      | none => simp [updateSlot] at hnd
      | some nd0 =>
        obtain ⟨hge, _, _⟩ := slotOf_some hs
        obtain ⟨hne0, hpar0⟩ := hnodes pid nd0 hs
        by_cases hp : nd0.parent = curpid
        · by_cases hex : nd0.exited = true
          · simp [updateSlot, hp, hex] at hnd
          · simp [updateSlot, hp, hex] at hnd
            have hpar : nd.parent = -1 := by rw [← hnd]
            rw [hpar]
            exact ⟨by omega, Or.inl rfl⟩
        · simp [updateSlot, hp] at hnd
          subst hnd
          refine ⟨hne0, ?_⟩
          rcases hpar0 with h1 | ⟨pnd, hp1, hp2⟩
          · exact Or.inl h1
          · exact Or.inr (halive nd0.parent pnd hp hp1 hp2)

/-- The invariant of process tables is kept by a `sys_fork` of a running process. -/
theorem procInv_fork {PID_MIN PID_MAX : Nat} {t t1 : ProcTable} {curpid cpid : Int}
    {pt : proctable_node} {child : Nat} {node_ok : Bool}
    (hinv : procInv PID_MIN PID_MAX t) (hslot : slotOf PID_MIN t curpid = some (some pt))
    (hrun : pt.exited = false)
    (h : sys_fork_proctable PID_MIN t curpid child node_ok = some (0, some cpid, t1)) :
    procInv PID_MIN PID_MAX t1 := by
  obtain ⟨hnull, hlen1, hslots⟩ := sys_fork_proctable_slots h
  obtain ⟨hlen, hnodes⟩ := hinv
  have hcc : curpid ≠ cpid := by
    intro heq
    rw [heq, hnull] at hslot
    exact Option.noConfusion (Option.some.inj hslot)
  have hkeep : ∀ (q : Int) (pnd : proctable_node), slotOf PID_MIN t q = some (some pnd) →
      slotOf PID_MIN t1 q = some (some pnd) := by
    intro q pnd hq
    have hne : q ≠ cpid := by
      intro heq
      rw [heq, hnull] at hq
      exact Option.noConfusion (Option.some.inj hq)
    rw [hslots q, if_neg hne]
    exact hq
  refine ⟨by omega, ?_⟩
  intro pid nd hnd
  rw [hslots pid] at hnd
  by_cases hpid : pid = cpid
  · rw [if_pos hpid] at hnd
    have hndeq := Option.some.inj (Option.some.inj hnd)
    have hpar : nd.parent = curpid := by rw [← hndeq]
    rw [hpar, hpid]
    exact ⟨hcc, Or.inr ⟨pt, hkeep curpid pt hslot, hrun⟩⟩
  · rw [if_neg hpid] at hnd
    obtain ⟨hne0, hpar0⟩ := hnodes pid nd hnd
    refine ⟨hne0, ?_⟩
    rcases hpar0 with h1 | ⟨pnd, hp1, hp2⟩
    · exact Or.inl h1
    · exact Or.inr ⟨pnd, hkeep _ pnd hp1, hp2⟩

/-- The invariant of process tables is kept by a successful `proctable_add`. -/
theorem procInv_add {PID_MIN PID_MAX : Nat} {t : ProcTable} {p : Nat} {ok : Bool} {pid : Int}
    (hinv : procInv PID_MIN PID_MAX t) (h : (proctable_add PID_MIN t p ok).2.1 = some pid) :
    procInv PID_MIN PID_MAX (proctable_add PID_MIN t p ok).2.2 := by
  obtain ⟨hnull, _, hlen1, hslots⟩ := proctable_add_slots PID_MIN t p ok pid h
  obtain ⟨hlen, hnodes⟩ := hinv
  obtain ⟨hge, _, _⟩ := slotOf_some hnull
  refine ⟨by omega, ?_⟩
  intro q nd hnd
  rw [hslots q] at hnd
  by_cases hq : q = pid
  · rw [if_pos hq] at hnd
    have hndeq := Option.some.inj (Option.some.inj hnd)
    have hpar : nd.parent = -1 := by rw [← hndeq]; rfl
    rw [hpar]
    exact ⟨by omega, Or.inl rfl⟩
  · rw [if_neg hq] at hnd
    obtain ⟨hne0, hpar0⟩ := hnodes q nd hnd
    refine ⟨hne0, ?_⟩
    rcases hpar0 with h1 | ⟨pnd, hp1, hp2⟩
    · exact Or.inl h1
    · refine Or.inr ⟨pnd, ?_, hp2⟩
      have hne : nd.parent ≠ pid := by
        intro heq
        rw [heq, hnull] at hp1
        exact Option.noConfusion (Option.some.inj hp1)
      rw [hslots nd.parent, if_neg hne]
      exact hp1

/-- Every reachable process table satisfies the invariant. -/
theorem procReachable_inv {PID_MIN PID_MAX : Nat} {t : ProcTable}
    (h : ProcReachable PID_MIN PID_MAX t) : procInv PID_MIN PID_MAX t := by
  induction h with
  | root t hlen hroot =>
    refine ⟨hlen, ?_⟩
    intro pid nd hnd
    obtain ⟨hge, _, hget⟩ := slotOf_some hnd
    have := hroot _ nd hget
    rw [this]
    exact ⟨by omega, Or.inl rfl⟩
  | create _ hadd ih => exact procInv_add ih hadd
  | fork _ hslot hrun hstep ih => exact procInv_fork ih hslot hrun hstep
  | exit _ hstep ih => exact procInv_exit ih hstep
  | wait _ hstep ih =>
    rw [sys_waitpid_table hstep]
    exact ih

/-- C28: in every process table reachable from a table of root nodes by `sys_fork` (of a
running process), `sys__exit` and `sys_waitpid` (and by `proctable_add` for a process created
outside `sys_fork`), the parent field of every occupied slot is
-1 or the PID of an occupied slot that is not marked exited (and never the node's own PID);
hence when `proctable_add` hands out a PID, no node of the table, before or after the call,
has that PID as its parent. -/
theorem no_dangling_parent (PID_MIN PID_MAX : Nat) (t : ProcTable)
    (h : ProcReachable PID_MIN PID_MAX t) :
    (∀ (pid : Int) (nd : proctable_node), slotOf PID_MIN t pid = some (some nd) →
      nd.parent ≠ pid ∧
      (nd.parent = -1 ∨
        ∃ pnd, slotOf PID_MIN t nd.parent = some (some pnd) ∧ pnd.exited = false)) ∧
    (∀ (p : Nat) (ok : Bool) (pid : Int), (proctable_add PID_MIN t p ok).2.1 = some pid →
      (∀ (q : Int) (nd : proctable_node), slotOf PID_MIN t q = some (some nd) →
        nd.parent ≠ pid) ∧
      (∀ (q : Int) (nd : proctable_node),
        slotOf PID_MIN (proctable_add PID_MIN t p ok).2.2 q = some (some nd) →
        nd.parent ≠ pid)) := by
  obtain ⟨_, hnodes⟩ := procReachable_inv h
  refine ⟨hnodes, ?_⟩
  intro p ok pid hadd
  obtain ⟨hnull, _, _, hslots⟩ := proctable_add_slots PID_MIN t p ok pid hadd
  obtain ⟨hge, _, _⟩ := slotOf_some hnull
  have hold : ∀ (q : Int) (nd : proctable_node), slotOf PID_MIN t q = some (some nd) →
      nd.parent ≠ pid := by
    intro q nd hq hpar
    rcases (hnodes q nd hq).2 with h1 | ⟨pnd, hp1, _⟩
    · omega
    · rw [hpar, hnull] at hp1
      exact Option.noConfusion (Option.some.inj hp1)
  refine ⟨hold, ?_⟩
  intro q nd hq
  rw [hslots q] at hq
  by_cases hqp : q = pid
  · rw [if_pos hqp] at hq
    have hndeq := Option.some.inj (Option.some.inj hq)
    rw [← hndeq]
    simp only [proctable_create_node]
    omega
  · rw [if_neg hqp] at hq
    exact hold q nd hq

/-- The table `tableAlive` is reached from `tableRoot` by a `sys_fork` of process 2. -/
theorem tableAlive_reachable : ProcReachable 2 6 tableAlive :=
  ProcReachable.fork
    (ProcReachable.root tableRoot rfl (fun i nd hnd => by
      match i with
      | 0 =>
        have := Option.some.inj (Option.some.inj hnd)
        rw [← this]
      | 1 => exact Option.noConfusion (Option.some.inj hnd)
      | 2 => exact Option.noConfusion (Option.some.inj hnd)
      | 3 => exact Option.noConfusion (Option.some.inj hnd)
      | (k + 4) => exact Option.noConfusion hnd))
    (rfl : slotOf 2 tableRoot 2 = some (some ⟨100, -1, false, -1⟩)) rfl
    (rfl : sys_fork_proctable 2 tableRoot 2 101 true = some (0, some 3, tableAlive))

theorem no_dangling_parent_witness :
    ProcReachable 2 6 tableAlive ∧
    ∀ (pid : Int) (nd : proctable_node), slotOf 2 tableAlive pid = some (some nd) →
      nd.parent ≠ pid ∧
      (nd.parent = -1 ∨
        ∃ pnd, slotOf 2 tableAlive nd.parent = some (some pnd) ∧ pnd.exited = false) :=
  ⟨tableAlive_reachable, (no_dangling_parent 2 6 tableAlive tableAlive_reachable).1⟩

/-! ## Theorems: frames of an address space -/

/-- Under the boot layout the kernel address of a managed frame does not wrap. -/
theorem frameAddr_eq {st : VMState} (hlay : bootLayout st) {s : Nat} (hs : s < st.pageNum) :
    frameAddr st s = st.mapStart + s * PAGE_SIZE + MIPS_KSEG0 := by
  obtain ⟨_, _, h3⟩ := hlay
  have hle : s * PAGE_SIZE + PAGE_SIZE ≤ st.pageNum * PAGE_SIZE := by
    have : (s + 1) * PAGE_SIZE ≤ st.pageNum * PAGE_SIZE := Nat.mul_le_mul_right _ hs
    rw [Nat.add_mul, Nat.one_mul] at this
    exact this
  unfold frameAddr PADDR_TO_KVADDR
  apply Nat.mod_eq_of_lt
  simp only [PAGE_SIZE, MIPS_KSEG0] at h3 hle ⊢
  omega

/-- Under the boot layout the physical address of a managed frame is recovered from its
kernel address. -/
theorem VADDR_TO_PVADDR_frameAddr {st : VMState} (hlay : bootLayout st) {s : Nat}
    (hs : s < st.pageNum) :
    VADDR_TO_PVADDR (frameAddr st s) = st.mapStart + s * PAGE_SIZE := by
  rw [frameAddr_eq hlay hs]
  obtain ⟨_, _, h3⟩ := hlay
  have hle : s * PAGE_SIZE + PAGE_SIZE ≤ st.pageNum * PAGE_SIZE := by
    have : (s + 1) * PAGE_SIZE ≤ st.pageNum * PAGE_SIZE := Nat.mul_le_mul_right _ hs
    rw [Nat.add_mul, Nat.one_mul] at this
    exact this
  unfold VADDR_TO_PVADDR
  simp only [PAGE_SIZE, MIPS_KSEG0] at h3 hle ⊢
  omega

/-- Under the boot layout `free_kpages` recovers the index of a managed frame. -/
theorem free_kpages_index_frameAddr {st : VMState} (hlay : bootLayout st) {s : Nat}
    (hs : s < st.pageNum) : free_kpages_index st (frameAddr st s) = s := by
  unfold free_kpages_index
  rw [VADDR_TO_PVADDR_frameAddr hlay hs]
  obtain ⟨_, _, h3⟩ := hlay
  have hle : s * PAGE_SIZE + PAGE_SIZE ≤ st.pageNum * PAGE_SIZE := by
    have : (s + 1) * PAGE_SIZE ≤ st.pageNum * PAGE_SIZE := Nat.mul_le_mul_right _ hs
    rw [Nat.add_mul, Nat.one_mul] at this
    exact this
  simp only [PAGE_SIZE, MIPS_KSEG0] at h3 hle ⊢
  omega

/-- The kernel address of a managed frame is not 0. -/
theorem frameAddr_ne_zero {st : VMState} (hlay : bootLayout st) {s : Nat}
    (hs : s < st.pageNum) : frameAddr st s ≠ 0 := by
  rw [frameAddr_eq hlay hs]
  simp only [MIPS_KSEG0]
  omega

/-- Distinct managed frames have distinct kernel addresses. -/
theorem frameAddr_inj {st : VMState} (hlay : bootLayout st) {s1 s2 : Nat}
    (h1 : s1 < st.pageNum) (h2 : s2 < st.pageNum) (h : frameAddr st s1 = frameAddr st s2) :
    s1 = s2 := by
  rw [frameAddr_eq hlay h1, frameAddr_eq hlay h2] at h
  simp only [PAGE_SIZE] at h
  omega

/-- The entries of the coremap after `markFrames`. -/
theorem markFrames_getElem? (e : coremap_entry) :
    ∀ (idxs : List Nat) (cm : List coremap_entry) (j : Nat),
      (markFrames e idxs cm)[j]? =
        if j ∈ idxs then (cm[j]?).map (fun _ => e) else cm[j]? := by
  intro idxs
  induction idxs with
  | nil => intro cm j; simp [markFrames]
  | cons s rest ih =>
    intro cm j
    simp only [markFrames]
    rw [ih, List.getElem?_set]
    by_cases hjr : j ∈ rest
    · have hj : j ∈ s :: rest := List.mem_cons_of_mem s hjr
      rw [if_pos hjr, if_pos hj]
      by_cases hsj : s = j
      · rw [if_pos hsj]
        by_cases hl : s < cm.length
        · rw [if_pos hl, ← hsj, List.getElem?_eq_getElem hl]
          rfl
        · rw [if_neg hl, ← hsj, List.getElem?_eq_none (by omega)]
      · rw [if_neg hsj]
    · rw [if_neg hjr]
      by_cases hsj : s = j
      · have hj : j ∈ s :: rest := by rw [hsj]; exact List.mem_cons_self j rest
        rw [if_pos hsj, if_pos hj]
        by_cases hl : s < cm.length
        · rw [if_pos hl, ← hsj, List.getElem?_eq_getElem hl]
          rfl
        · rw [if_neg hl, ← hsj, List.getElem?_eq_none (by omega)]
          rfl
      · have hj : ¬ j ∈ s :: rest := by
          intro h
          rcases List.mem_cons.1 h with h1 | h1
          · exact hsj h1.symm
          · exact hjr h1
        rw [if_neg hsj, if_neg hj]

theorem markFrames_length (e : coremap_entry) :
    ∀ (idxs : List Nat) (cm : List coremap_entry), (markFrames e idxs cm).length = cm.length := by
  intro idxs
  induction idxs with
  | nil => intro cm; rfl
  | cons s rest ih =>
    intro cm
    simp only [markFrames]
    rw [ih, List.length_set]

theorem markFrames_append (e : coremap_entry) :
    ∀ (l1 l2 : List Nat) (cm : List coremap_entry),
      markFrames e (l1 ++ l2) cm = markFrames e l2 (markFrames e l1 cm) := by
  intro l1
  induction l1 with
  | nil => intro l2 cm; rfl
  | cons s rest ih =>
    intro l2 cm
    simp only [List.cons_append, markFrames]
    exact ih l2 _

/-- A call `alloc_kpages(1)` that returns: either it returns 0 and changes nothing, or it
returns the kernel address of an available frame `s`, whose entry becomes
`(unavailable, 1)`. -/
theorem alloc_kpages_one {st st1 : VMState} {addr : Nat}
    (h : alloc_kpages st 1 = some (addr, st1)) (hlay : bootLayout st) :
    (addr = 0 ∧ st1 = st) ∨
    ∃ s, s < st.pageNum ∧ entryAvailable st.coremap s = true ∧ addr = frameAddr st s ∧
      st1 = { coremap := st.coremap.set s ⟨false, 1⟩, mapStart := st.mapStart } := by
  by_cases hex : ∃ s, freeRun st.coremap s 1
  · right
    obtain ⟨s, cm, addr1, hs, _, halloc, hlen, hpt, haddr⟩ :=
      (alloc_kpages_spec st 1 (Nat.le_refl 1)).1 hex
    rw [halloc] at h
    simp only [Option.some.injEq, Prod.mk.injEq] at h
    obtain ⟨h1, h2⟩ := h
    have hslt : s < st.pageNum := by
      have := hs.1
      simp only [VMState.pageNum]
      omega
    refine ⟨s, hslt, hs.2 s (Nat.le_refl s) (by omega), ?_, ?_⟩
    · rw [← h1]
      exact (haddr hlay.1 hlay.2.2).1
    · rw [← h2]
      congr 1
      apply List.ext_getElem?
      intro j
      rw [List.getElem?_set]
      by_cases hj : j < st.coremap.length
      · have hpj := hpt j _ (List.getElem?_eq_getElem hj)
        rw [hpj]
        by_cases hsj : s = j
        · have hjs : j = s := hsj.symm
          rw [if_pos hjs, if_pos hsj, if_pos (by omega)]
          rfl
        · have hjs : ¬ j = s := fun h => hsj h.symm
          have hmid : ¬ (s < j ∧ j < s + 1) := by omega
          rw [if_neg hjs, if_neg hmid, if_neg hsj, List.getElem?_eq_getElem hj]
      · rw [List.getElem?_eq_none (by omega)]
        by_cases hsj : s = j
        · rw [if_pos hsj, if_neg (by omega)]
        · rw [if_neg hsj, List.getElem?_eq_none (by omega)]
  · left
    have := (alloc_kpages_spec st 1 (Nat.le_refl 1)).2 hex
    rw [this] at h
    simp only [Option.some.injEq, Prod.mk.injEq] at h
    exact ⟨h.1.symm, h.2.symm⟩

/-- Freeing a single-frame run through its kernel address makes its entry available. -/
theorem free_kpages_frame {st : VMState} (hlay : bootLayout st) {s : Nat}
    (hs : s < st.pageNum) (he : st.coremap[s]? = some ⟨false, 1⟩) :
    free_kpages st (frameAddr st s)
      = some { coremap := st.coremap.set s ⟨true, -1⟩, mapStart := st.mapStart } := by
  have hal : ¬ VADDR_TO_PVADDR (frameAddr st s) % PAGE_SIZE ≠ 0 := by
    rw [VADDR_TO_PVADDR_frameAddr hlay hs]
    have := hlay.2.1
    simp only [PAGE_SIZE] at this ⊢
    omega
  have hfit : s + (1 : Int).toNat ≤ st.coremap.length := by
    have : (1 : Int).toNat = 1 := rfl
    rw [this]
    exact hs
  have hc1 : True ∧ (1 : Int) ≠ -1 := ⟨trivial, by decide⟩
  rw [free_kpages_eq, if_neg hal, free_kpages_index_frameAddr hlay hs, he]
  simp only []
  rw [if_pos hc1, if_pos hfit]
  rfl
/-- What the allocation loop of `as_prepare_load` and `as_define_stack` does when it
returns: it has taken pairwise distinct frames `idxs`, each available before, has marked
them `(unavailable, 1)`, has written their kernel addresses into the entries from `i` on,
and has changed memory only inside these frames.  When it ran to its end it has taken one
frame per iteration; when it stopped early the entry after the last frame is 0. -/
theorem as_alloc_loop_spec :
    ∀ (k i : Nat) (tbl : List Nat) (st : VMState) (mem : Mem) (ok : Bool) (tbl1 : List Nat)
      (st1 : VMState) (mem1 : Mem),
      bootLayout st →
      as_alloc_loop k i tbl st mem = some (ok, tbl1, st1, mem1) →
      ∃ idxs : List Nat,
        idxs.Nodup ∧
        (∀ s ∈ idxs, s < st.pageNum ∧ entryAvailable st.coremap s = true) ∧
        st1 = { coremap := markFrames ⟨false, 1⟩ idxs st.coremap, mapStart := st.mapStart } ∧
        tbl1.length = tbl.length ∧
        (∀ (j s : Nat), idxs[j]? = some s → tbl1[i + j]? = some (frameAddr st s)) ∧
        (∀ j : Nat, j < i → tbl1[j]? = tbl[j]?) ∧
        (ok = true → idxs.length = k ∧ (0 < k → i + k ≤ tbl.length)) ∧
        (ok = true → ∀ j : Nat, i + k ≤ j → tbl1[j]? = tbl[j]?) ∧
        (ok = false → idxs.length < k ∧ tbl1[i + idxs.length]? = some 0 ∧
          ∀ j : Nat, i + idxs.length < j → tbl1[j]? = tbl[j]?) ∧
        (∀ a : Nat, (∀ s ∈ idxs, ¬ inFrame st s a) → mem1 a = mem a) := by
  intro k
  induction k with
  | zero =>
    intro i tbl st mem ok tbl1 st1 mem1 _ h
    simp only [as_alloc_loop, Option.some.injEq, Prod.mk.injEq] at h
    obtain ⟨h1, h2, h3, h4⟩ := h
    subst h1 h2 h3 h4
    refine ⟨[], List.nodup_nil, fun s hs => absurd hs (List.not_mem_nil s), rfl, rfl,
      fun j s hj => by simp at hj, fun j _ => rfl,
      fun _ => ⟨rfl, fun h => absurd h (Nat.lt_irrefl 0)⟩,
      fun _ j _ => rfl, fun h => Bool.noConfusion h, fun a _ => rfl⟩
  | succ k ih =>
    intro i tbl st mem ok tbl1 st1 mem1 hlay h
    unfold as_alloc_loop at h
    split at h
    · rename_i hi
      split at h
      · exact Option.noConfusion h
      · rename_i addr st2 halloc
        rcases alloc_kpages_one halloc hlay with ⟨ha0, hst⟩ | ⟨s, hs, hav, haddr, hst⟩
        · -- the allocation failed
          rw [if_pos ha0] at h
          simp only [Option.some.injEq, Prod.mk.injEq] at h
          obtain ⟨h1, h2, h3, h4⟩ := h
          subst h1 h2 h3 h4 hst ha0
          refine ⟨[], List.nodup_nil, fun s hs => absurd hs (List.not_mem_nil s), rfl,
            List.length_set _ _ _, fun j s hj => by simp at hj, ?_,
            fun h => Bool.noConfusion h, fun h => Bool.noConfusion h, ?_, fun a _ => rfl⟩
          · intro j hj
            rw [List.getElem?_set, if_neg (by omega)]
          · intro _
            refine ⟨Nat.succ_pos k, ?_, ?_⟩
            · simp only [List.length_nil, Nat.add_zero]
              rw [List.getElem?_set, if_pos rfl, if_pos hi]
            · intro j hj
              simp only [List.length_nil, Nat.add_zero] at hj
              rw [List.getElem?_set, if_neg (by omega)]
        · -- the allocation gave frame `s`
          have hne : ¬ addr = 0 := by
            rw [haddr]
            exact frameAddr_ne_zero hlay hs
          rw [if_neg hne] at h
          have hslen : s < st.coremap.length := hs
          have hlay2 : bootLayout st2 := by
            rw [hst]
            obtain ⟨l1, l2, l3⟩ := hlay
            refine ⟨l1, l2, ?_⟩
            simp only [VMState.pageNum, List.length_set] at l3 ⊢
            exact l3
          obtain ⟨idxs, hnd, hmem, hst1, hlen, hent, hlow, hok1, hok2, hfail, hm⟩ :=
            ih (i + 1) (tbl.set i addr) st2 _ ok tbl1 st1 mem1 hlay2 h
          have hpn : st2.pageNum = st.pageNum := by
            rw [hst]
            simp only [VMState.pageNum, List.length_set]
          have hfa : ∀ x : Nat, frameAddr st2 x = frameAddr st x := by
            intro x
            rw [hst]
            rfl
          have hav2 : entryAvailable st2.coremap s = false := by
            rw [hst]
            unfold entryAvailable
            simp only []
            rw [List.getElem?_set, if_pos rfl, if_pos hslen]
          have hsnot : s ∉ idxs := by
            intro hmem1
            have := (hmem s hmem1).2
            rw [hav2] at this
            exact Bool.noConfusion this
          have hother : ∀ x ∈ idxs, x < st.pageNum ∧ entryAvailable st.coremap x = true := by
            intro x hx
            obtain ⟨hx1, hx2⟩ := hmem x hx
            have hxs : s ≠ x := by
              intro heq
              rw [heq] at hsnot
              exact hsnot hx
            refine ⟨by omega, ?_⟩
            rw [hst] at hx2
            unfold entryAvailable at hx2 ⊢
            simp only [] at hx2
            rw [List.getElem?_set, if_neg hxs] at hx2
            exact hx2
          refine ⟨s :: idxs, List.nodup_cons.2 ⟨hsnot, hnd⟩, ?_, ?_, ?_, ?_, ?_, ?_, ?_, ?_,
            ?_⟩
          · intro x hx
            rcases List.mem_cons.1 hx with h1 | h1
            · rw [h1]; exact ⟨hs, hav⟩
            · exact hother x h1
          · rw [hst1, hst]
            rfl
          · rw [hlen, List.length_set]
          · intro j x hj
            cases j with
            | zero =>
              simp only [List.getElem?_cons_zero, Option.some.injEq] at hj
              rw [Nat.add_zero, hlow i (by omega), List.getElem?_set, if_pos rfl, if_pos hi,
                haddr, hj]
            | succ j =>
              rw [List.getElem?_cons_succ] at hj
              have := hent j x hj
              rw [hfa] at this
              rw [← this]
              congr 1
              omega
          · intro j hj
            rw [hlow j (by omega), List.getElem?_set, if_neg (by omega)]
          · intro hok
            obtain ⟨h1, h2⟩ := hok1 hok
            rw [List.length_set] at h2
            refine ⟨by rw [List.length_cons, h1], fun _ => ?_⟩
            by_cases hk : 0 < k
            · have := h2 hk
              omega
            · omega
          · intro hok j hj
            rw [hok2 hok j (by omega), List.getElem?_set, if_neg (by omega)]
          · intro hok
            obtain ⟨h1, h2, h3⟩ := hfail hok
            refine ⟨by rw [List.length_cons]; omega, ?_, ?_⟩
            · rw [List.length_cons, ← h2]
              congr 1
              omega
            · intro j hj
              rw [List.length_cons] at hj
              rw [h3 j (by omega), List.getElem?_set, if_neg (by omega)]
          · intro a ha
            have h1 : mem1 a = as_zero_region mem (VADDR_TO_PVADDR addr) 1 a := by
              apply hm
              intro x hx hin
              apply ha x (List.mem_cons_of_mem s hx)
              unfold inFrame at hin ⊢
              rw [hfa] at hin
              exact hin
            rw [h1]
            have hnot := ha s (List.mem_cons_self s idxs)
            unfold inFrame at hnot
            have hback : PADDR_TO_KVADDR (VADDR_TO_PVADDR addr) = frameAddr st s := by
              rw [haddr, VADDR_TO_PVADDR_frameAddr hlay hs]
              rfl
            unfold as_zero_region bzero
            rw [hback, Nat.one_mul, if_neg hnot]
    · exact Option.noConfusion h

theorem entryAvailable_markFrames (idxs : List Nat) (cm : List coremap_entry) (s : Nat)
    (h : entryAvailable (markFrames ⟨false, 1⟩ idxs cm) s = true) :
    s ∉ idxs ∧ entryAvailable cm s = true := by
  unfold entryAvailable at h
  rw [markFrames_getElem?] at h
  by_cases hs : s ∈ idxs
  · rw [if_pos hs] at h
    cases hc : cm[s]? with
    | none => rw [hc] at h; exact Bool.noConfusion h
    | some e => rw [hc] at h; exact Bool.noConfusion h
  · rw [if_neg hs] at h
    exact ⟨hs, h⟩

/-- The allocation loop run over a whole table of `k` entries to its end. -/
theorem as_alloc_loop_full {k : Nat} {tbl tbl1 : List Nat} {st st1 : VMState} {mem mem1 : Mem}
    (hlay : bootLayout st) (hlen : tbl.length = k)
    (h : as_alloc_loop k 0 tbl st mem = some (true, tbl1, st1, mem1)) :
    ∃ idxs : List Nat, idxs.Nodup ∧ idxs.length = k ∧
      (∀ s ∈ idxs, s < st.pageNum ∧ entryAvailable st.coremap s = true) ∧
      st1 = { coremap := markFrames ⟨false, 1⟩ idxs st.coremap, mapStart := st.mapStart } ∧
      tbl1 = idxs.map (frameAddr st) ∧
      (∀ a : Nat, (∀ s ∈ idxs, ¬ inFrame st s a) → mem1 a = mem a) := by
  obtain ⟨idxs, hnd, hmem, hst1, hlen1, hent, _, hok, _, _, hm⟩ :=
    as_alloc_loop_spec k 0 tbl st mem true tbl1 st1 mem1 hlay h
  have hk := (hok rfl).1
  refine ⟨idxs, hnd, hk, hmem, hst1, ?_, hm⟩
  apply List.ext_getElem?
  intro j
  rw [List.getElem?_map]
  by_cases hj : j < idxs.length
  · have h1 := hent j _ (List.getElem?_eq_getElem hj)
    rw [Nat.zero_add] at h1
    rw [h1, List.getElem?_eq_getElem hj]
    rfl
  · rw [List.getElem?_eq_none (by omega), List.getElem?_eq_none (by omega)]
    rfl

/-- The state after the allocation loop has the boot layout again. -/
theorem bootLayout_markFrames {st : VMState} (hlay : bootLayout st) (e : coremap_entry)
    (idxs : List Nat) :
    bootLayout { coremap := markFrames e idxs st.coremap, mapStart := st.mapStart } := by
  obtain ⟨l1, l2, l3⟩ := hlay
  refine ⟨l1, l2, ?_⟩
  simp only [VMState.pageNum, markFrames_length] at l3 ⊢
  exact l3

/-- Frames taken by two allocation loops in a row. -/
theorem alloc_chain {st : VMState} {idxs1 idxs2 : List Nat} (h1nd : idxs1.Nodup)
    (h2nd : idxs2.Nodup)
    (h1 : ∀ s ∈ idxs1, s < st.pageNum ∧ entryAvailable st.coremap s = true)
    (h2 : ∀ s ∈ idxs2, s < st.pageNum ∧
      entryAvailable (markFrames ⟨false, 1⟩ idxs1 st.coremap) s = true) :
    (idxs1 ++ idxs2).Nodup ∧
    ∀ s ∈ idxs1 ++ idxs2, s < st.pageNum ∧ entryAvailable st.coremap s = true := by
  constructor
  · rw [List.nodup_append]
    refine ⟨h1nd, h2nd, ?_⟩
    intro a ha1 ha2
    exact (entryAvailable_markFrames idxs1 st.coremap a (h2 a ha2).2).1 ha1
  · intro s hs
    rcases List.mem_append.1 hs with h | h
    · exact h1 s h
    · exact ⟨(h2 s h).1, (entryAvailable_markFrames idxs1 st.coremap s (h2 s h).2).2⟩

/-- A successful `as_prepare_load`: the two page tables hold the kernel addresses of
pairwise distinct frames that were available, the frames are now single-frame runs, and
memory is unchanged outside them. -/
theorem as_prepare_load_success {as as1 : addrspace} {st st1 : VMState} {mem mem1 : Mem}
    (hlay : bootLayout st) (hsz : tablesSized as)
    (h : as_prepare_load as st mem = some (0, as1, st1, mem1)) :
    ∃ idxs1 idxs2 : List Nat, (idxs1 ++ idxs2).Nodup ∧
      idxs1.length = as.as_npages1 ∧ idxs2.length = as.as_npages2 ∧
      (∀ s ∈ idxs1 ++ idxs2, s < st.pageNum ∧ entryAvailable st.coremap s = true) ∧
      as1 = { as with as_ptable1 := some (idxs1.map (frameAddr st)),
                      as_ptable2 := some (idxs2.map (frameAddr st)) } ∧
      st1 = { coremap := markFrames ⟨false, 1⟩ (idxs1 ++ idxs2) st.coremap,
              mapStart := st.mapStart } ∧
      (∀ a : Nat, (∀ s ∈ idxs1 ++ idxs2, ¬ inFrame st s a) → mem1 a = mem a) := by
  have hne : ENOMEM ≠ 0 := by decide
  unfold as_prepare_load at h
  split at h
  · rename_i t1 t2 ht1 ht2
    split at h
    · exact Option.noConfusion h
    · simp only [Option.some.injEq, Prod.mk.injEq] at h
      exact absurd h.1 hne
    · rename_i t1a sta mema hloop1
      obtain ⟨idxs1, h1nd, h1len, h1mem, h1st, h1tbl, h1m⟩ :=
        as_alloc_loop_full hlay (hsz.1 t1 ht1) hloop1
      have hlaya : bootLayout sta := by
        rw [h1st]
        exact bootLayout_markFrames hlay _ _
      split at h
      · exact Option.noConfusion h
      · simp only [Option.some.injEq, Prod.mk.injEq] at h
        exact absurd h.1 hne
      · rename_i t2a stb memb hloop2
        obtain ⟨idxs2, h2nd, h2len, h2mem, h2st, h2tbl, h2m⟩ :=
          as_alloc_loop_full hlaya (hsz.2 t2 ht2) hloop2
        simp only [Option.some.injEq, Prod.mk.injEq, true_and] at h
        obtain ⟨has, hst, hmem⟩ := h
        have hpn : sta.pageNum = st.pageNum := by
          rw [h1st]
          simp only [VMState.pageNum, markFrames_length]
        have h2mem1 : ∀ s ∈ idxs2, s < st.pageNum ∧
            entryAvailable (markFrames ⟨false, 1⟩ idxs1 st.coremap) s = true := by
          intro s hs
          have := h2mem s hs
          rw [hpn] at this
          rw [h1st] at this
          exact this
        obtain ⟨hnd, hall⟩ := alloc_chain h1nd h2nd h1mem h2mem1
        have hfa : ∀ x : Nat, frameAddr sta x = frameAddr st x := by
          intro x
          rw [h1st]
          rfl
        refine ⟨idxs1, idxs2, hnd, h1len, h2len, hall, ?_, ?_, ?_⟩
        · have h2tbl1 : t2a = idxs2.map (frameAddr st) := by
            rw [h2tbl]
            exact List.map_congr_left (fun x _ => hfa x)
          rw [← has, h1tbl, h2tbl1]
        · rw [← hst, h2st, h1st, markFrames_append]
        · intro a ha
          rw [← hmem]
          have ha2 : ∀ s ∈ idxs2, ¬ inFrame sta s a := by
            intro s hs hin
            apply ha s (List.mem_append_right idxs1 hs)
            unfold inFrame at hin ⊢
            rw [hfa] at hin
            exact hin
          rw [h2m a ha2]
          exact h1m a (fun s hs => ha s (List.mem_append_left idxs2 hs))
  · exact Option.noConfusion h

/-- A successful `as_define_stack`: the stack table holds the kernel addresses of twelve
pairwise distinct frames that were available, the frames are now single-frame runs, and
memory is unchanged outside them. -/
theorem as_define_stack_success {as as1 : addrspace} {st st1 : VMState} {mem mem1 : Mem}
    {kmalloc : Nat → Option (List Nat)} {sp : Option Nat}
    (hlay : bootLayout st) (hk : kmallocSized kmalloc)
    (h : as_define_stack as st mem kmalloc = some (0, sp, as1, st1, mem1)) :
    as.as_stack = none ∧ sp = some USERSTACK ∧
    ∃ idxs : List Nat, idxs.Nodup ∧ idxs.length = DUMBVM_STACKPAGES ∧
      (∀ s ∈ idxs, s < st.pageNum ∧ entryAvailable st.coremap s = true) ∧
      as1 = { as with as_stack := some (idxs.map (frameAddr st)) } ∧
      st1 = { coremap := markFrames ⟨false, 1⟩ idxs st.coremap, mapStart := st.mapStart } ∧
      (∀ a : Nat, (∀ s ∈ idxs, ¬ inFrame st s a) → mem1 a = mem a) := by
  have hne : ENOMEM ≠ 0 := by decide
  unfold as_define_stack at h
  split at h
  · exact Option.noConfusion h
  · rename_i hnone
    split at h
    · simp only [Option.some.injEq, Prod.mk.injEq] at h
      exact absurd h.1 hne
    · rename_i tbl htbl
      split at h
      · exact Option.noConfusion h
      · simp only [Option.some.injEq, Prod.mk.injEq] at h
        exact absurd h.1 hne
      · rename_i tbl1 sta mema hloop
        obtain ⟨idxs, hnd, hlen, hmem, hst, htbl1, hm⟩ :=
          as_alloc_loop_full hlay (hk _ tbl htbl) hloop
        simp only [Option.some.injEq, Prod.mk.injEq, true_and] at h
        obtain ⟨hsp, has, hst1, hmem1⟩ := h
        refine ⟨hnone, hsp.symm, idxs, hnd, hlen, hmem, ?_, ?_, ?_⟩
        · rw [← has, htbl1]
        · rw [← hst1, hst]
        · intro a ha
          rw [← hmem1]
          exact hm a ha

/-- One iteration of a loop of `as_destroy`. -/
theorem as_destroy_loop_step {k i : Nat} {t : List Nat} {st st1 : VMState} {addr : Nat}
    (h1 : t[i]? = some addr) (h2 : free_kpages st addr = some st1) :
    as_destroy_loop (k + 1) i (some t) st = as_destroy_loop k (i + 1) (some t) st1 := by
  have h : as_destroy_free (some t) i st = some st1 := by
    unfold as_destroy_free
    simp only [h1]
    exact h2
  rw [as_destroy_loop, h]

/-- One loop of `as_destroy` over a table that holds the kernel addresses of pairwise
distinct single-frame runs: every call of `free_kpages` passes its assertions and the
frames become available. -/
theorem as_destroy_loop_spec :
    ∀ (idxs : List Nat) (i : Nat) (t : List Nat) (st : VMState),
      bootLayout st → idxs.Nodup →
      (∀ s ∈ idxs, s < st.pageNum ∧ st.coremap[s]? = some ⟨false, 1⟩) →
      (∀ (j s : Nat), idxs[j]? = some s → t[i + j]? = some (frameAddr st s)) →
      as_destroy_loop idxs.length i (some t) st
        = some { coremap := markFrames ⟨true, -1⟩ idxs st.coremap,
                 mapStart := st.mapStart } := by
  intro idxs
  induction idxs with
  | nil =>
    intro i t st _ _ _ _
    rfl
  | cons s rest ih =>
    intro i t st hlay hnd hmem hent
    obtain ⟨hs, hes⟩ := hmem s (List.mem_cons_self s rest)
    have h0 := hent 0 s (List.getElem?_cons_zero)
    rw [Nat.add_zero] at h0
    obtain ⟨hsnot, hndr⟩ := List.nodup_cons.1 hnd
    have hlay1 : bootLayout
        { coremap := st.coremap.set s ⟨true, -1⟩, mapStart := st.mapStart } := by
      obtain ⟨l1, l2, l3⟩ := hlay
      refine ⟨l1, l2, ?_⟩
      simp only [VMState.pageNum, List.length_set] at l3 ⊢
      exact l3
    have hrest := ih (i + 1) t
      { coremap := st.coremap.set s ⟨true, -1⟩, mapStart := st.mapStart } hlay1 hndr
      (by
        intro x hx
        obtain ⟨hx1, hx2⟩ := hmem x (List.mem_cons_of_mem s hx)
        have hxs : s ≠ x := by
          intro heq
          rw [heq] at hsnot
          exact hsnot hx
        refine ⟨by simpa [VMState.pageNum] using hx1, ?_⟩
        simp only []
        rw [List.getElem?_set, if_neg hxs]
        exact hx2)
      (by
        intro j x hj
        have := hent (j + 1) x (by rw [List.getElem?_cons_succ]; exact hj)
        have hidx : i + 1 + j = i + (j + 1) := by omega
        rw [hidx, this]
        rfl)
    rw [List.length_cons, as_destroy_loop_step h0 (free_kpages_frame hlay hs hes), hrest]
    rfl

/-- The entry of a frame taken by the allocation loops. -/
theorem markFrames_mem {e : coremap_entry} {idxs : List Nat} {cm : List coremap_entry}
    {s : Nat} (hs : s ∈ idxs) (hlt : s < cm.length) : (markFrames e idxs cm)[s]? = some e := by
  rw [markFrames_getElem?, if_pos hs, List.getElem?_eq_getElem hlt]
  rfl

/-- The entries of the other frames. -/
theorem markFrames_not_mem {e : coremap_entry} {idxs : List Nat} {cm : List coremap_entry}
    {j : Nat} (hj : j ∉ idxs) : (markFrames e idxs cm)[j]? = cm[j]? := by
  rw [markFrames_getElem?, if_neg hj]

/-- A successful `as_define_region` with an allocator that gives tables of the size asked
for keeps the page tables as long as their `npages` fields say, and leaves the stack as it
is. -/
theorem as_define_region_sized {as as1 : addrspace} {vaddr sz : Nat} {r w x : Int}
    {kmalloc : Nat → Option (List Nat)} (hk : kmallocSized kmalloc) (hsz : tablesSized as)
    (h : as_define_region as vaddr sz r w x kmalloc = (0, as1)) :
    tablesSized as1 ∧ as1.as_stack = as.as_stack := by
  have hne : ENOMEM ≠ 0 := by decide
  have hne2 : EUNIMP ≠ 0 := by decide
  unfold as_define_region at h
  simp only [] at h
  split at h
  · split at h
    · simp only [Prod.mk.injEq] at h
      exact absurd h.1 hne
    · rename_i tbl htbl
      simp only [Prod.mk.injEq, true_and] at h
      rw [← h]
      refine ⟨⟨?_, hsz.2⟩, rfl⟩
      intro t ht
      simp only [Option.some.injEq] at ht
      rw [← ht]
      exact hk _ _ htbl
  · split at h
    · split at h
      · simp only [Prod.mk.injEq] at h
        exact absurd h.1 hne
      · rename_i tbl htbl
        simp only [Prod.mk.injEq, true_and] at h
        rw [← h]
        refine ⟨⟨hsz.1, ?_⟩, rfl⟩
        intro t ht
        simp only [Option.some.injEq] at ht
        rw [← ht]
        exact hk _ _ htbl
    · simp only [Prod.mk.injEq] at h
      exact absurd h.1 hne2

/-- The three loops of `as_destroy` on an address space whose page tables hold the kernel
addresses of pairwise distinct single-frame runs: no assertion fails and exactly these
frames become available. -/
theorem as_destroy_spec {as : addrspace} {st st3 : VMState} {idxs1 idxs2 idxs3 : List Nat}
    (hlay3 : bootLayout st3) (hms : st3.mapStart = st.mapStart)
    (hnd : (idxs1 ++ idxs2 ++ idxs3).Nodup)
    (ht1 : as.as_ptable1 = some (idxs1.map (frameAddr st)))
    (ht2 : as.as_ptable2 = some (idxs2.map (frameAddr st)))
    (ht3 : as.as_stack = some (idxs3.map (frameAddr st)))
    (hn1 : as.as_npages1 = idxs1.length) (hn2 : as.as_npages2 = idxs2.length)
    (hn3 : DUMBVM_STACKPAGES = idxs3.length)
    (hin : ∀ s ∈ idxs1 ++ idxs2 ++ idxs3, s < st3.pageNum ∧
      st3.coremap[s]? = some ⟨false, 1⟩) :
    as_destroy as st3
      = some { coremap := markFrames ⟨true, -1⟩ (idxs1 ++ idxs2 ++ idxs3) st3.coremap,
               mapStart := st3.mapStart } := by
  have hfa : ∀ (sx : VMState) (x : Nat), sx.mapStart = st.mapStart →
      frameAddr st x = frameAddr sx x := by
    intro sx x h
    unfold frameAddr
    rw [h]
  have hent : ∀ (sx : VMState) (idxs : List Nat), sx.mapStart = st.mapStart →
      ∀ (j s : Nat), idxs[j]? = some s →
        (idxs.map (frameAddr st))[0 + j]? = some (frameAddr sx s) := by
    intro sx idxs hsx j s hj
    rw [Nat.zero_add, List.getElem?_map, hj, ← hfa sx s hsx]
    rfl
  obtain ⟨hnd12, hnd3, hdis3⟩ := List.nodup_append.1 hnd
  obtain ⟨hnd1, hnd2, hdis2⟩ := List.nodup_append.1 hnd12
  -- first loop
  have hl1 := as_destroy_loop_spec idxs1 0 (idxs1.map (frameAddr st)) st3 hlay3 hnd1
    (fun s hs => hin s (List.mem_append_left _ (List.mem_append_left _ hs)))
    (hent st3 idxs1 hms)
  -- second loop
  have hlay4 := bootLayout_markFrames hlay3 ⟨true, -1⟩ idxs1
  have hl2 := as_destroy_loop_spec idxs2 0 (idxs2.map (frameAddr st))
    { coremap := markFrames ⟨true, -1⟩ idxs1 st3.coremap, mapStart := st3.mapStart }
    hlay4 hnd2
    (by
      intro s hs
      obtain ⟨h1, h2⟩ := hin s (List.mem_append_left _ (List.mem_append_right _ hs))
      refine ⟨by simpa [VMState.pageNum, markFrames_length] using h1, ?_⟩
      simp only []
      rw [markFrames_not_mem (fun h => hdis2 h hs)]
      exact h2)
    (hent _ idxs2 hms)
  -- third loop
  have hlay5 := bootLayout_markFrames hlay4 ⟨true, -1⟩ idxs2
  have hl3 := as_destroy_loop_spec idxs3 0 (idxs3.map (frameAddr st))
    { coremap := markFrames ⟨true, -1⟩ idxs2 (markFrames ⟨true, -1⟩ idxs1 st3.coremap),
      mapStart := st3.mapStart }
    hlay5 hnd3
    (by
      intro s hs
      obtain ⟨h1, h2⟩ := hin s (List.mem_append_right _ hs)
      refine ⟨by simpa [VMState.pageNum, markFrames_length] using h1, ?_⟩
      simp only []
      rw [markFrames_not_mem (fun h => hdis3 (List.mem_append_right _ h) hs),
        markFrames_not_mem (fun h => hdis3 (List.mem_append_left _ h) hs)]
      exact h2)
    (hent _ idxs3 hms)
  unfold as_destroy
  rw [ht1, ht2, ht3, hn1, hn2, hn3, hl1]
  simp only []
  rw [hl2]
  simp only []
  rw [hl3, markFrames_append, markFrames_append]

/-- C14: after `as_prepare_load` returns 0 (under the boot layout of the allocator, for an
address space whose page tables have `npages` entries), both page tables are defined, every
entry is non-zero and the entries are pairwise distinct across both regions; each entry is
the kernel address of a frame that was available before the call and is a single-frame run
after it (so no entry names a frame that was in use before, such as a stack frame), and the
stack table and the region bounds are unchanged. -/
theorem as_prepare_load_distinct (as as1 : addrspace) (st st1 : VMState) (mem mem1 : Mem)
    (hlay : bootLayout st) (hsz : tablesSized as)
    (h : as_prepare_load as st mem = some (0, as1, st1, mem1)) :
    ∃ t1 t2 : List Nat, as1.as_ptable1 = some t1 ∧ as1.as_ptable2 = some t2 ∧
      t1.length = as1.as_npages1 ∧ t2.length = as1.as_npages2 ∧
      (∀ e ∈ t1 ++ t2, e ≠ 0) ∧ (t1 ++ t2).Nodup ∧
      (∀ e ∈ t1 ++ t2, ∃ s, s < st.pageNum ∧ e = frameAddr st s ∧
        entryAvailable st.coremap s = true ∧ st1.coremap[s]? = some ⟨false, 1⟩) ∧
      as1.as_stack = as.as_stack ∧ as1.as_npages1 = as.as_npages1 ∧
      as1.as_npages2 = as.as_npages2 ∧ as1.as_vbase1 = as.as_vbase1 ∧
      as1.as_vbase2 = as.as_vbase2 := by
  obtain ⟨idxs1, idxs2, hnd, hl1, hl2, hall, has, hst, _⟩ :=
    as_prepare_load_success hlay hsz h
  have hmap : idxs1.map (frameAddr st) ++ idxs2.map (frameAddr st)
      = (idxs1 ++ idxs2).map (frameAddr st) := (List.map_append _ _ _).symm
  have hdesc : ∀ e ∈ (idxs1 ++ idxs2).map (frameAddr st), ∃ s, s < st.pageNum ∧
      e = frameAddr st s ∧ entryAvailable st.coremap s = true ∧
      st1.coremap[s]? = some ⟨false, 1⟩ := by
    intro e he
    obtain ⟨s, hs, hes⟩ := List.mem_map.1 he
    obtain ⟨h1, h2⟩ := hall s hs
    refine ⟨s, h1, hes.symm, h2, ?_⟩
    rw [hst]
    exact markFrames_mem hs h1
  refine ⟨idxs1.map (frameAddr st), idxs2.map (frameAddr st), by rw [has], by rw [has],
    by rw [has, List.length_map, hl1], by rw [has, List.length_map, hl2], ?_, ?_, ?_,
    by rw [has], by rw [has], by rw [has], by rw [has], by rw [has]⟩
  · rw [hmap]
    intro e he
    obtain ⟨s, hs, hes, _, _⟩ := hdesc e he
    rw [hes]
    exact frameAddr_ne_zero hlay hs
  · rw [hmap]
    apply List.Nodup.map_on _ hnd
    intro x hx y hy hxy
    exact frameAddr_inj hlay (hall x hx).1 (hall y hy).1 hxy
  · rw [hmap]
    exact hdesc

theorem as_prepare_load_distinct_witness :
    (bootLayout bootExample31 ∧ tablesSized asDefined ∧
      as_prepare_load asDefined bootExample31 memExample
        = some (0, asPrepared, allocatedExample 2, zeroedExample 2)) ∧
    ∃ t1 t2 : List Nat, asPrepared.as_ptable1 = some t1 ∧ asPrepared.as_ptable2 = some t2 ∧
      t1.length = asPrepared.as_npages1 ∧ t2.length = asPrepared.as_npages2 ∧
      (∀ e ∈ t1 ++ t2, e ≠ 0) ∧ (t1 ++ t2).Nodup ∧
      (∀ e ∈ t1 ++ t2, ∃ s, s < bootExample31.pageNum ∧ e = frameAddr bootExample31 s ∧
        entryAvailable bootExample31.coremap s = true ∧
        (allocatedExample 2).coremap[s]? = some ⟨false, 1⟩) ∧
      asPrepared.as_stack = asDefined.as_stack ∧
      asPrepared.as_npages1 = asDefined.as_npages1 ∧
      asPrepared.as_npages2 = asDefined.as_npages2 ∧
      asPrepared.as_vbase1 = asDefined.as_vbase1 ∧
      asPrepared.as_vbase2 = asDefined.as_vbase2 :=
  have hsz : tablesSized asDefined :=
    ⟨fun t ht => by rw [← Option.some.inj ht]; rfl,
      fun t ht => by rw [← Option.some.inj ht]; rfl⟩
  ⟨⟨by decide, hsz, rfl⟩,
    as_prepare_load_distinct asDefined asPrepared bootExample31 (allocatedExample 2)
      memExample (zeroedExample 2) (by decide) hsz rfl⟩

/-! ## Theorems: `as_destroy` gives the frames back -/

/-- C24: for an address space built by `as_create`, two `as_define_region` calls, a
successful `as_prepare_load` and a successful `as_define_stack` (well-formed coremap, boot
layout, `kmalloc` giving tables of the size asked for): the three page tables hold the
kernel addresses of `npages1 + npages2 + 12` pairwise distinct frames, each a single-frame
run; `as_destroy` right afterwards passes every assertion of `free_kpages` and gives back
exactly the allocator state from before `as_prepare_load`; and in any later state in which
these frames are still single-frame runs (other allocations may have happened),
`as_destroy` passes every assertion, makes each of these frames available with
`datasize = -1` and leaves every other coremap entry unchanged. -/
theorem as_destroy_releases (as0 asA as as1 as2 : addrspace) (st st1 st2 : VMState)
    (mem mem1 mem2 : Mem) (vaddr1 sz1 vaddr2 sz2 : Nat) (r1 w1 x1 r2 w2 x2 : Int)
    (k1 k2 k3 : Nat → Option (List Nat)) (sp : Option Nat)
    (hwf : coremapWF st.coremap) (hlay : bootLayout st)
    (hk1 : kmallocSized k1) (hk2 : kmallocSized k2) (hk3 : kmallocSized k3)
    (hcreate : as_create true = some as0)
    (hreg1 : as_define_region as0 vaddr1 sz1 r1 w1 x1 k1 = (0, asA))
    (hreg2 : as_define_region asA vaddr2 sz2 r2 w2 x2 k2 = (0, as))
    (hprep : as_prepare_load as st mem = some (0, as1, st1, mem1))
    (hstack : as_define_stack as1 st1 mem1 k3 = some (0, sp, as2, st2, mem2)) :
    as_destroy as2 st2 = some st ∧
    ∃ idxs : List Nat, idxs.Nodup ∧
      idxs.length = as2.as_npages1 + as2.as_npages2 + DUMBVM_STACKPAGES ∧
      (∃ t1 t2 ts : List Nat, as2.as_ptable1 = some t1 ∧ as2.as_ptable2 = some t2 ∧
        as2.as_stack = some ts ∧ t1 ++ t2 ++ ts = idxs.map (frameAddr st)) ∧
      (∀ s ∈ idxs, s < st.pageNum ∧ entryAvailable st.coremap s = true ∧
        st2.coremap[s]? = some ⟨false, 1⟩) ∧
      (∀ j : Nat, j ∉ idxs → st2.coremap[j]? = st.coremap[j]?) ∧
      (∀ st3 : VMState, bootLayout st3 → st3.mapStart = st.mapStart →
        st3.pageNum = st.pageNum → (∀ s ∈ idxs, st3.coremap[s]? = some ⟨false, 1⟩) →
        ∃ st4, as_destroy as2 st3 = some st4 ∧ st4.mapStart = st3.mapStart ∧
          st4.pageNum = st3.pageNum ∧
          (∀ s ∈ idxs, st4.coremap[s]? = some ⟨true, -1⟩) ∧
          (∀ j : Nat, j ∉ idxs → st4.coremap[j]? = st3.coremap[j]?)) := by
  -- the page tables have `npages` entries
  have hsz0 : tablesSized as0 := by
    simp only [as_create, if_true, Option.some.injEq] at hcreate
    rw [← hcreate]
    exact ⟨fun t ht => Option.noConfusion ht, fun t ht => Option.noConfusion ht⟩
  have hszA := (as_define_region_sized hk1 hsz0 hreg1).1
  have hsz := (as_define_region_sized hk2 hszA hreg2).1
  -- the frames of the two regions
  obtain ⟨idxs1, idxs2, hnd12, hl1, hl2, hall12, has1, hst1, _⟩ :=
    as_prepare_load_success hlay hsz hprep
  have hlay1 : bootLayout st1 := by
    rw [hst1]
    exact bootLayout_markFrames hlay _ _
  -- the frames of the stack
  obtain ⟨_, _, idxs3, hnd3, hl3, hall3, has2, hst2, _⟩ :=
    as_define_stack_success hlay1 hk3 hstack
  have hpn1 : st1.pageNum = st.pageNum := by
    rw [hst1]
    simp only [VMState.pageNum, markFrames_length]
  have hall3a : ∀ s ∈ idxs3, s < st.pageNum ∧
      entryAvailable (markFrames ⟨false, 1⟩ (idxs1 ++ idxs2) st.coremap) s = true := by
    intro s hs
    have := hall3 s hs
    rw [hpn1, hst1] at this
    exact this
  obtain ⟨hnd, hall⟩ := alloc_chain hnd12 hnd3 hall12 hall3a
  have hfa : ∀ x : Nat, frameAddr st1 x = frameAddr st x := by
    intro x
    rw [hst1]
    rfl
  have hts : idxs3.map (frameAddr st1) = idxs3.map (frameAddr st) :=
    List.map_congr_left (fun x _ => hfa x)
  have hcm2 : st2.coremap = markFrames ⟨false, 1⟩ (idxs1 ++ idxs2 ++ idxs3) st.coremap := by
    rw [hst2, hst1, markFrames_append ⟨false, 1⟩ (idxs1 ++ idxs2) idxs3]
  have hms2 : st2.mapStart = st.mapStart := by
    rw [hst2, hst1]
  have ht1 : as2.as_ptable1 = some (idxs1.map (frameAddr st)) := by rw [has2, has1]
  have ht2 : as2.as_ptable2 = some (idxs2.map (frameAddr st)) := by rw [has2, has1]
  have ht3 : as2.as_stack = some (idxs3.map (frameAddr st)) := by rw [has2, hts]
  have hn1 : as2.as_npages1 = idxs1.length := by rw [has2, has1, hl1]
  have hn2 : as2.as_npages2 = idxs2.length := by rw [has2, has1, hl2]
  have hin2 : ∀ s ∈ idxs1 ++ idxs2 ++ idxs3, s < st.pageNum ∧
      entryAvailable st.coremap s = true ∧ st2.coremap[s]? = some ⟨false, 1⟩ := by
    intro s hs
    obtain ⟨h1, h2⟩ := hall s hs
    refine ⟨h1, h2, ?_⟩
    rw [hcm2]
    exact markFrames_mem hs h1
  -- destroying in a state in which the frames are single-frame runs
  have hgen : ∀ st3 : VMState, bootLayout st3 → st3.mapStart = st.mapStart →
      st3.pageNum = st.pageNum → (∀ s ∈ idxs1 ++ idxs2 ++ idxs3,
        st3.coremap[s]? = some ⟨false, 1⟩) →
      as_destroy as2 st3
        = some { coremap := markFrames ⟨true, -1⟩ (idxs1 ++ idxs2 ++ idxs3) st3.coremap,
                 mapStart := st3.mapStart } := by
    intro st3 hlay3 hms3 hpn3 hin3
    exact as_destroy_spec hlay3 hms3 hnd ht1 ht2 ht3 hn1 hn2 hl3.symm
      (fun s hs => ⟨by rw [hpn3]; exact (hall s hs).1, hin3 s hs⟩)
  have hlay2 : bootLayout st2 := by
    rw [hst2]
    exact bootLayout_markFrames hlay1 _ _
  have hpn2 : st2.pageNum = st.pageNum := by
    simp only [VMState.pageNum, hcm2, markFrames_length]
  refine ⟨?_, idxs1 ++ idxs2 ++ idxs3, hnd, ?_, ?_, hin2, ?_, ?_⟩
  · rw [hgen st2 hlay2 hms2 hpn2 (fun s hs => (hin2 s hs).2.2)]
    have hcm : markFrames ⟨true, -1⟩ (idxs1 ++ idxs2 ++ idxs3) st2.coremap = st.coremap := by
      apply List.ext_getElem?
      intro j
      by_cases hj : j ∈ idxs1 ++ idxs2 ++ idxs3
      · obtain ⟨h1, h2, _⟩ := hin2 j hj
        have hlen2 : j < st2.coremap.length := by
          have : st2.pageNum = st.pageNum := hpn2
          simp only [VMState.pageNum] at this h1
          omega
        rw [markFrames_mem hj hlen2]
        have hj1 : j < st.coremap.length := h1
        unfold entryAvailable at h2
        rw [List.getElem?_eq_getElem hj1] at h2 ⊢
        simp only [] at h2
        have hd := hwf.free j _ (List.getElem?_eq_getElem hj1) h2
        congr 1
        cases hc : st.coremap[j] with
        | mk av ds =>
          rw [hc] at h2 hd
          simp only [] at h2 hd
          rw [h2, hd]
      · rw [markFrames_not_mem hj, hcm2, markFrames_not_mem hj]
    rw [hcm, hms2]
  · rw [List.length_append, List.length_append, hn1, hn2, hl3]
  · refine ⟨_, _, _, ht1, ht2, ht3, ?_⟩
    rw [List.map_append, List.map_append]
  · intro j hj
    rw [hcm2, markFrames_not_mem hj]
  · intro st3 hlay3 hms3 hpn3 hin3
    refine ⟨_, hgen st3 hlay3 hms3 hpn3 hin3, rfl, ?_, ?_, ?_⟩
    · simp only [VMState.pageNum, markFrames_length]
    · intro s hs
      have h1 : s < st3.coremap.length := by
        have := (hall s hs).1
        have h3 : st3.pageNum = st.pageNum := hpn3
        simp only [VMState.pageNum] at this h3
        omega
      exact markFrames_mem hs h1
    · intro j hj
      exact markFrames_not_mem hj

/-- The allocator `kmallocExample` gives tables of the size asked for. -/
theorem kmallocExample_sized : kmallocSized kmallocExample := by
  intro n tbl h
  unfold kmallocExample at h
  rw [← Option.some.inj h]
  exact List.length_replicate _ _

theorem as_destroy_releases_witness :
    (coremapWF bootExample31.coremap ∧ bootLayout bootExample31 ∧
      as_create true = some asFresh ∧
      as_define_region
        (as_define_region asFresh 0x400000 4096 1 0 1 kmallocExample).2
        0x10000000 4096 1 1 0 kmallocExample = (0, asDefined) ∧
      as_prepare_load asDefined bootExample31 memExample
        = some (0, asPrepared, allocatedExample 2, zeroedExample 2) ∧
      as_define_stack asPrepared (allocatedExample 2) (zeroedExample 2) kmallocExample
        = some (0, some USERSTACK, asLoading, allocatedExample 14, zeroedExample 14)) ∧
    as_destroy asLoading (allocatedExample 14) = some bootExample31 :=
  ⟨⟨(reachable_coremapInv (Reachable.boot 0x30000 0x50000)).toWF, by decide, rfl, rfl, rfl,
      rfl⟩,
    (as_destroy_releases asFresh
      (as_define_region asFresh 0x400000 4096 1 0 1 kmallocExample).2 asDefined asPrepared
      asLoading bootExample31 (allocatedExample 2) (allocatedExample 14) memExample
      (zeroedExample 2) (zeroedExample 14) 0x400000 4096 0x10000000 4096 1 0 1 1 1 0
      kmallocExample kmallocExample kmallocExample (some USERSTACK)
      (reachable_coremapInv (Reachable.boot 0x30000 0x50000)).toWF (by decide)
      kmallocExample_sized kmallocExample_sized kmallocExample_sized rfl rfl rfl rfl rfl).1⟩

/-! ## Theorems: `as_copy` -/

/-- An address inside the page of a managed frame. -/
theorem inFrame_self {st : VMState} (s off : Nat) (hoff : off < PAGE_SIZE) :
    inFrame st s (frameAddr st s + off) := by
  unfold inFrame
  omega

/-- The pages of distinct managed frames are disjoint. -/
theorem not_inFrame_of_ne {st : VMState} (hlay : bootLayout st) {s1 s2 : Nat}
    (h1 : s1 < st.pageNum) (h2 : s2 < st.pageNum) (hne : s1 ≠ s2) (off : Nat)
    (hoff : off < PAGE_SIZE) : ¬ inFrame st s2 (frameAddr st s1 + off) := by
  unfold inFrame
  rw [frameAddr_eq hlay h1, frameAddr_eq hlay h2]
  simp only [PAGE_SIZE] at hoff ⊢
  omega

/-- One iteration of a copy loop of `as_copy`. -/
theorem as_copy_loop_step {k i : Nat} {tn told : List Nat} {mem : Mem} {d e : Nat}
    (h1 : tn[i]? = some d) (h2 : told[i]? = some e) :
    as_copy_loop (k + 1) i (some tn) (some told) mem
      = as_copy_loop k (i + 1) (some tn) (some told) (memmove mem d e PAGE_SIZE) := by
  rw [as_copy_loop]
  simp only [h1, h2]

/-- A copy loop of `as_copy` that returns has read an entry of the old table in every
iteration. -/
theorem as_copy_loop_reads {k i : Nat} {tn told : List Nat} {mem mem1 : Mem}
    (h : as_copy_loop (k + 1) i (some tn) (some told) mem = some mem1) :
    ∃ d e, tn[i]? = some d ∧ told[i]? = some e := by
  rw [as_copy_loop] at h
  split at h
  · rename_i d e hd he
    exact ⟨d, e, hd, he⟩
  · exact Option.noConfusion h

/-- A copy loop of `as_copy` whose destination table holds the kernel addresses of the
pairwise distinct frames `idxs` and whose source pages are pages of other managed frames:
memory outside the destination frames is unchanged, and every destination page holds what
the source page held before the loop. -/
theorem as_copy_loop_spec {st : VMState} (hlay : bootLayout st) :
    ∀ (idxs : List Nat) (i : Nat) (tn told : List Nat) (mem mem1 : Mem),
      idxs.Nodup → (∀ s ∈ idxs, s < st.pageNum) →
      (∀ (j s : Nat), idxs[j]? = some s → tn[i + j]? = some (frameAddr st s)) →
      (∀ (j e : Nat), j < idxs.length → told[i + j]? = some e →
        ∃ so, so < st.pageNum ∧ so ∉ idxs ∧ e = frameAddr st so) →
      as_copy_loop idxs.length i (some tn) (some told) mem = some mem1 →
      (∀ a : Nat, (∀ s ∈ idxs, ¬ inFrame st s a) → mem1 a = mem a) ∧
      (∀ (j s e : Nat), idxs[j]? = some s → told[i + j]? = some e →
        ∀ off : Nat, off < PAGE_SIZE → mem1 (frameAddr st s + off) = mem (e + off)) := by
  intro idxs
  induction idxs with
  | nil =>
    intro i tn told mem mem1 _ _ _ _ h
    simp only [List.length_nil, as_copy_loop, Option.some.injEq] at h
    subst h
    exact ⟨fun a _ => rfl, fun j s e hj => by simp at hj⟩
  | cons s rest ih =>
    intro i tn told mem mem1 hnd hlt htn hto h
    obtain ⟨hsnot, hndr⟩ := List.nodup_cons.1 hnd
    have hs : s < st.pageNum := hlt s (List.mem_cons_self s rest)
    rw [List.length_cons] at h
    obtain ⟨d, e, hd, he⟩ := as_copy_loop_reads h
    have hd0 := htn 0 s List.getElem?_cons_zero
    rw [Nat.add_zero, hd] at hd0
    have hdeq : d = frameAddr st s := Option.some.inj hd0
    rw [as_copy_loop_step hd he] at h
    obtain ⟨so, hso1, hso2, hso3⟩ := hto 0 e (by simp) (by rw [Nat.add_zero]; exact he)
    have hso_ne : so ≠ s := fun heq => hso2 (by rw [heq]; exact List.mem_cons_self s rest)
    obtain ⟨iha, ihb⟩ := ih (i + 1) tn told _ mem1 hndr
      (fun x hx => hlt x (List.mem_cons_of_mem s hx))
      (by
        intro j x hj
        have := htn (j + 1) x (by rw [List.getElem?_cons_succ]; exact hj)
        have hidx : i + 1 + j = i + (j + 1) := by omega
        rw [hidx]
        exact this)
      (by
        intro j e1 hj he1
        have hidx : i + 1 + j = i + (j + 1) := by omega
        rw [hidx] at he1
        obtain ⟨so1, h1, h2, h3⟩ := hto (j + 1) e1 (by simp; omega) he1
        exact ⟨so1, h1, fun hm => h2 (List.mem_cons_of_mem s hm), h3⟩)
      h
    -- the copy of page `s` leaves addresses outside the page as they are
    have hmove : ∀ a : Nat, ¬ inFrame st s a → memmove mem d e PAGE_SIZE a = mem a := by
      intro a ha
      unfold memmove
      rw [hdeq]
      unfold inFrame at ha
      rw [if_neg ha]
    constructor
    · intro a ha
      rw [iha a (fun x hx => ha x (List.mem_cons_of_mem s hx))]
      exact hmove a (ha s (List.mem_cons_self s rest))
    · intro j x e1 hj he1 off hoff
      cases j with
      | zero =>
        simp only [List.getElem?_cons_zero, Option.some.injEq] at hj
        rw [Nat.add_zero, he] at he1
        have hee : e = e1 := Option.some.inj he1
        rw [← hj, ← hee]
        rw [iha (frameAddr st s + off) (fun y hy =>
          not_inFrame_of_ne hlay hs (hlt y (List.mem_cons_of_mem s hy))
            (fun heq => hsnot (by rw [heq]; exact hy)) off hoff)]
        unfold memmove
        rw [hdeq]
        have hin : frameAddr st s ≤ frameAddr st s + off ∧
            frameAddr st s + off < frameAddr st s + PAGE_SIZE := by omega
        rw [if_pos hin]
        have hsub : frameAddr st s + off - frameAddr st s = off := by omega
        rw [hsub]
      | succ j =>
        rw [List.getElem?_cons_succ] at hj
        have hidx : i + 1 + j = i + (j + 1) := by omega
        have he2 : told[i + 1 + j]? = some e1 := by rw [hidx]; exact he1
        rw [ihb j x e1 hj he2 off hoff]
        have hjlt : j + 1 < (s :: rest).length := by
          have := (List.getElem?_eq_some.1 hj).1
          simp only [List.length_cons]
          omega
        obtain ⟨so1, h1, h2, h3⟩ := hto (j + 1) e1 hjlt he1
        have hne1 : so1 ≠ s := fun heq => h2 (by rw [heq]; exact List.mem_cons_self s rest)
        rw [h3]
        exact hmove _ (not_inFrame_of_ne hlay h1 hs hne1 off hoff)

/-- A successful `as_copy`, unfolded: the new address space mirrors the bounds of the old
one, its three page tables hold the kernel addresses of pairwise distinct frames that were
available, these frames are single-frame runs afterwards, memory outside them is as before
when the copy loops start, and the three copy loops run one after the other. -/
theorem as_copy_success {old new : addrspace} {st st1 : VMState} {mem mem1 : Mem}
    {k1 k2 k3 : Nat → Option (List Nat)} (hlay : bootLayout st)
    (hk1 : kmallocSized k1) (hk2 : kmallocSized k2) (hk3 : kmallocSized k3)
    (h : as_copy old st mem true k1 k2 k3 = some (0, some new, st1, mem1)) :
    ∃ (idxs1 idxs2 idxs3 : List Nat) (memb m1 m2 : Mem),
      (idxs1 ++ idxs2 ++ idxs3).Nodup ∧
      idxs1.length = old.as_npages1 ∧ idxs2.length = old.as_npages2 ∧
      idxs3.length = DUMBVM_STACKPAGES ∧
      (∀ s ∈ idxs1 ++ idxs2 ++ idxs3, s < st.pageNum ∧ entryAvailable st.coremap s = true) ∧
      new = { as_vbase1 := old.as_vbase1, as_ptable1 := some (idxs1.map (frameAddr st)),
              as_npages1 := old.as_npages1, as_vbase2 := old.as_vbase2,
              as_ptable2 := some (idxs2.map (frameAddr st)),
              as_npages2 := old.as_npages2,
              as_stack := some (idxs3.map (frameAddr st)),
              readonlyON := old.readonlyON } ∧
      st1 = { coremap := markFrames ⟨false, 1⟩ (idxs1 ++ idxs2 ++ idxs3) st.coremap,
              mapStart := st.mapStart } ∧
      (∀ a : Nat, (∀ s ∈ idxs1 ++ idxs2 ++ idxs3, ¬ inFrame st s a) → memb a = mem a) ∧
      as_copy_loop old.as_npages1 0 (some (idxs1.map (frameAddr st))) old.as_ptable1 memb
        = some m1 ∧
      as_copy_loop old.as_npages2 0 (some (idxs2.map (frameAddr st))) old.as_ptable2 m1
        = some m2 ∧
      as_copy_loop DUMBVM_STACKPAGES 0 (some (idxs3.map (frameAddr st))) old.as_stack m2
        = some mem1 := by
  have hne : ENOMEM ≠ 0 := by decide
  unfold as_copy at h
  simp only [as_create, if_true] at h
  split at h
  · simp only [Option.some.injEq, Prod.mk.injEq] at h
    exact absurd h.1 hne
  · rename_i t1 ht1
    split at h
    · simp only [Option.some.injEq, Prod.mk.injEq] at h
      exact absurd h.1 hne
    · rename_i t2 ht2
      split at h
      · exact Option.noConfusion h
      · rename_i r1 new1 sta mema hprep
        split at h
        · split at h
          · exact Option.noConfusion h
          · simp only [Option.some.injEq, Prod.mk.injEq] at h
            exact absurd h.1 hne
        · rename_i hr1
          have hr1z : r1 = 0 := by
            by_contra hc
            exact hr1 hc
          subst hr1z
          split at h
          · exact Option.noConfusion h
          · rename_i r2 sp new2 stb memb hstack
            split at h
            · split at h
              · exact Option.noConfusion h
              · simp only [Option.some.injEq, Prod.mk.injEq] at h
                exact absurd h.1 hne
            · rename_i hr2
              have hr2z : r2 = 0 := by
                by_contra hc
                exact hr2 hc
              subst hr2z
              -- the frames of the regions and of the stack
              have hsz : tablesSized
                  { as_vbase1 := old.as_vbase1, as_ptable1 := some t1,
                    as_npages1 := old.as_npages1, as_vbase2 := old.as_vbase2,
                    as_ptable2 := some t2, as_npages2 := old.as_npages2,
                    as_stack := none, readonlyON := old.readonlyON } := by
                constructor
                · intro t ht
                  simp only [Option.some.injEq] at ht
                  rw [← ht]
                  exact hk1 _ _ ht1
                · intro t ht
                  simp only [Option.some.injEq] at ht
                  rw [← ht]
                  exact hk2 _ _ ht2
              obtain ⟨idxs1, idxs2, hnd12, hl1, hl2, hall12, has1, hsta, hma⟩ :=
                as_prepare_load_success hlay hsz hprep
              have hlaya : bootLayout sta := by
                rw [hsta]
                exact bootLayout_markFrames hlay _ _
              obtain ⟨_, _, idxs3, hnd3, hl3, hall3, has2, hstb, hmb⟩ :=
                as_define_stack_success hlaya hk3 hstack
              have hpna : sta.pageNum = st.pageNum := by
                rw [hsta]
                simp only [VMState.pageNum, markFrames_length]
              have hall3a : ∀ s ∈ idxs3, s < st.pageNum ∧
                  entryAvailable (markFrames ⟨false, 1⟩ (idxs1 ++ idxs2) st.coremap) s
                    = true := by
                intro s hs
                have := hall3 s hs
                rw [hpna, hsta] at this
                exact this
              obtain ⟨hnd, hall⟩ := alloc_chain hnd12 hnd3 hall12 hall3a
              have hfa : ∀ x : Nat, frameAddr sta x = frameAddr st x := by
                intro x
                rw [hsta]
                rfl
              have hts : idxs3.map (frameAddr sta) = idxs3.map (frameAddr st) :=
                List.map_congr_left (fun x _ => hfa x)
              have hnew2 : new2 =
                  { as_vbase1 := old.as_vbase1,
                    as_ptable1 := some (idxs1.map (frameAddr st)),
                    as_npages1 := old.as_npages1, as_vbase2 := old.as_vbase2,
                    as_ptable2 := some (idxs2.map (frameAddr st)),
                    as_npages2 := old.as_npages2,
                    as_stack := some (idxs3.map (frameAddr st)),
                    readonlyON := old.readonlyON } := by
                rw [has2, has1, hts]
              rw [hnew2] at h
              simp only [] at h
              split at h
              · exact Option.noConfusion h
              · rename_i m1 hc1
                split at h
                · exact Option.noConfusion h
                · rename_i m2 hc2
                  split at h
                  · exact Option.noConfusion h
                  · rename_i m3 hc3
                    simp only [Option.some.injEq, Prod.mk.injEq, true_and] at h
                    obtain ⟨hn, hs1, hm⟩ := h
                    refine ⟨idxs1, idxs2, idxs3, memb, m1, m2, hnd, hl1, hl2, hl3, hall,
                      hn.symm, ?_, ?_, hc1, hc2, ?_⟩
                    · rw [← hs1, hstb, hsta, markFrames_append ⟨false, 1⟩ (idxs1 ++ idxs2)]
                    · intro a ha
                      have ha3 : ∀ s ∈ idxs3, ¬ inFrame sta s a := by
                        intro s hs hin
                        apply ha s (List.mem_append_right _ hs)
                        unfold inFrame at hin ⊢
                        rw [hfa] at hin
                        exact hin
                      rw [hmb a ha3]
                      exact hma a (fun s hs => ha s (List.mem_append_left _ hs))
                    · rw [← hm]
                      exact hc3

/-- An entry read from a list is a member of the list. -/
theorem mem_of_getElem?_some {l : List Nat} {j a : Nat} (h : l[j]? = some a) : a ∈ l := by
  obtain ⟨hlt, heq⟩ := List.getElem?_eq_some.1 h
  rw [← heq]
  exact List.getElem_mem hlt

/-- An address in the page of a managed frame `x` lies in the page of no frame of a list
that does not hold `x`. -/
theorem outside_frames {st : VMState} (hlay : bootLayout st) {l : List Nat} {x : Nat}
    (hx : x < st.pageNum) (hl : ∀ s ∈ l, s < st.pageNum) (hnot : x ∉ l) (off : Nat)
    (hoff : off < PAGE_SIZE) : ∀ s ∈ l, ¬ inFrame st s (frameAddr st x + off) := by
  intro s hs
  exact not_inFrame_of_ne hlay hx (hl s hs) (fun heq => hnot (by rw [heq]; exact hs)) off hoff

/-- The hypotheses of `as_copy_loop_spec` for tables given by lists of frame indices. -/
theorem as_copy_loop_frames {st : VMState} (hlay : bootLayout st) {idxs oidx : List Nat}
    {mem mem1 : Mem} (hnd : idxs.Nodup) (hlt : ∀ s ∈ idxs, s < st.pageNum)
    (hold : ∀ s ∈ oidx, s < st.pageNum ∧ s ∉ idxs)
    (h : as_copy_loop idxs.length 0 (some (idxs.map (frameAddr st)))
      (some (oidx.map (frameAddr st))) mem = some mem1) :
    (∀ a : Nat, (∀ s ∈ idxs, ¬ inFrame st s a) → mem1 a = mem a) ∧
    (∀ (j sn so : Nat), idxs[j]? = some sn → oidx[j]? = some so →
      ∀ off : Nat, off < PAGE_SIZE →
        mem1 (frameAddr st sn + off) = mem (frameAddr st so + off)) := by
  obtain ⟨ha, hb⟩ := as_copy_loop_spec hlay idxs 0 (idxs.map (frameAddr st))
    (oidx.map (frameAddr st)) mem mem1 hnd hlt
    (by
      intro j s hj
      rw [Nat.zero_add, List.getElem?_map, hj]
      rfl)
    (by
      intro j e _ he
      rw [Nat.zero_add, List.getElem?_map] at he
      cases ho : oidx[j]? with
      | none => rw [ho] at he; exact Option.noConfusion he
      | some so =>
        rw [ho] at he
        have hmem : so ∈ oidx := mem_of_getElem?_some ho
        exact ⟨so, (hold so hmem).1, (hold so hmem).2, (Option.some.inj he).symm⟩)
    h
  refine ⟨ha, ?_⟩
  intro j sn so hj ho off hoff
  apply hb j sn (frameAddr st so) hj _ off hoff
  rw [Nat.zero_add, List.getElem?_map, ho]
  rfl

/-- C15: for an address space `old` whose three page tables hold the kernel addresses of
frames in use (`npages1`, `npages2` and 12 entries), when `as_copy` returns 0 (boot layout,
`kmalloc` giving tables of the size asked for): the new address space has the same
`vbase1`, `npages1`, `vbase2`, `npages2` and `readonlyON`; its page tables have the same
lengths and hold pairwise distinct frames, none of which is a frame of `old`; every page of
region 1, region 2 and the stack of the new address space holds, byte for byte, what the
corresponding page of `old` held before the call; and the pages of `old` hold what they
held before the call. -/
theorem as_copy_roundtrip (old new : addrspace) (st st1 : VMState) (mem mem1 : Mem)
    (k1 k2 k3 : Nat → Option (List Nat)) (oi1 oi2 ois : List Nat)
    (hlay : bootLayout st) (hk1 : kmallocSized k1) (hk2 : kmallocSized k2)
    (hk3 : kmallocSized k3)
    (ho1 : old.as_ptable1 = some (oi1.map (frameAddr st)))
    (ho2 : old.as_ptable2 = some (oi2.map (frameAddr st)))
    (hos : old.as_stack = some (ois.map (frameAddr st)))
    (hlen1 : oi1.length = old.as_npages1) (hlen2 : oi2.length = old.as_npages2)
    (hlens : ois.length = DUMBVM_STACKPAGES)
    (hown : ∀ s ∈ oi1 ++ oi2 ++ ois, s < st.pageNum ∧ entryAvailable st.coremap s = false)
    (hcopy : as_copy old st mem true k1 k2 k3 = some (0, some new, st1, mem1)) :
    new.as_vbase1 = old.as_vbase1 ∧ new.as_npages1 = old.as_npages1 ∧
    new.as_vbase2 = old.as_vbase2 ∧ new.as_npages2 = old.as_npages2 ∧
    new.readonlyON = old.readonlyON ∧
    ∃ ni1 ni2 nis : List Nat,
      new.as_ptable1 = some (ni1.map (frameAddr st)) ∧
      new.as_ptable2 = some (ni2.map (frameAddr st)) ∧
      new.as_stack = some (nis.map (frameAddr st)) ∧
      ni1.length = oi1.length ∧ ni2.length = oi2.length ∧ nis.length = ois.length ∧
      (ni1 ++ ni2 ++ nis).Nodup ∧
      ((ni1 ++ ni2 ++ nis).map (frameAddr st)).Nodup ∧
      (∀ s ∈ ni1 ++ ni2 ++ nis, s < st.pageNum ∧ s ∉ oi1 ++ oi2 ++ ois ∧
        st1.coremap[s]? = some ⟨false, 1⟩) ∧
      (∀ e ∈ (ni1 ++ ni2 ++ nis).map (frameAddr st),
        e ∉ (oi1 ++ oi2 ++ ois).map (frameAddr st)) ∧
      (∀ (j sn so : Nat), ni1[j]? = some sn → oi1[j]? = some so →
        ∀ off : Nat, off < PAGE_SIZE →
          mem1 (frameAddr st sn + off) = mem (frameAddr st so + off)) ∧
      (∀ (j sn so : Nat), ni2[j]? = some sn → oi2[j]? = some so →
        ∀ off : Nat, off < PAGE_SIZE →
          mem1 (frameAddr st sn + off) = mem (frameAddr st so + off)) ∧
      (∀ (j sn so : Nat), nis[j]? = some sn → ois[j]? = some so →
        ∀ off : Nat, off < PAGE_SIZE →
          mem1 (frameAddr st sn + off) = mem (frameAddr st so + off)) ∧
      (∀ s ∈ oi1 ++ oi2 ++ ois, ∀ off : Nat, off < PAGE_SIZE →
        mem1 (frameAddr st s + off) = mem (frameAddr st s + off)) := by
  obtain ⟨idxs1, idxs2, idxs3, memb, m1, m2, hnd, hl1, hl2, hl3, hall, hnew, hst1, hmb,
    hc1, hc2, hc3⟩ := as_copy_success hlay hk1 hk2 hk3 hcopy
  rw [ho1, ← hl1] at hc1
  rw [ho2, ← hl2] at hc2
  rw [hos, ← hl3] at hc3
  obtain ⟨hnd12, hnd3, hdis3⟩ := List.nodup_append.1 hnd
  obtain ⟨hnd1, hnd2, hdis2⟩ := List.nodup_append.1 hnd12
  have hlt : ∀ s ∈ idxs1 ++ idxs2 ++ idxs3, s < st.pageNum := fun s hs => (hall s hs).1
  have hlt1 : ∀ s ∈ idxs1, s < st.pageNum :=
    fun s hs => hlt s (List.mem_append_left _ (List.mem_append_left _ hs))
  have hlt2 : ∀ s ∈ idxs2, s < st.pageNum :=
    fun s hs => hlt s (List.mem_append_left _ (List.mem_append_right _ hs))
  have hlt3 : ∀ s ∈ idxs3, s < st.pageNum :=
    fun s hs => hlt s (List.mem_append_right _ hs)
  -- a frame of the old address space is none of the new frames
  have hsep : ∀ so ∈ oi1 ++ oi2 ++ ois, so ∉ idxs1 ++ idxs2 ++ idxs3 := by
    intro so hso hin
    have h1 := (hown so hso).2
    rw [(hall so hin).2] at h1
    exact Bool.noConfusion h1
  have hsep1 : ∀ so ∈ oi1 ++ oi2 ++ ois, so ∉ idxs1 :=
    fun so hso h => hsep so hso (List.mem_append_left _ (List.mem_append_left _ h))
  have hsep2 : ∀ so ∈ oi1 ++ oi2 ++ ois, so ∉ idxs2 :=
    fun so hso h => hsep so hso (List.mem_append_left _ (List.mem_append_right _ h))
  have hsep3 : ∀ so ∈ oi1 ++ oi2 ++ ois, so ∉ idxs3 :=
    fun so hso h => hsep so hso (List.mem_append_right _ h)
  have hm1 : oi1 ⊆ oi1 ++ oi2 ++ ois :=
    fun x hx => List.mem_append_left _ (List.mem_append_left _ hx)
  have hm2 : oi2 ⊆ oi1 ++ oi2 ++ ois :=
    fun x hx => List.mem_append_left _ (List.mem_append_right _ hx)
  have hm3 : ois ⊆ oi1 ++ oi2 ++ ois := fun x hx => List.mem_append_right _ hx
  -- the three copy loops
  obtain ⟨ha1, hb1⟩ := as_copy_loop_frames hlay hnd1 hlt1
    (fun s hs => ⟨(hown s (hm1 hs)).1, hsep1 s (hm1 hs)⟩) hc1
  obtain ⟨ha2, hb2⟩ := as_copy_loop_frames hlay hnd2 hlt2
    (fun s hs => ⟨(hown s (hm2 hs)).1, hsep2 s (hm2 hs)⟩) hc2
  obtain ⟨ha3, hb3⟩ := as_copy_loop_frames hlay hnd3 hlt3
    (fun s hs => ⟨(hown s (hm3 hs)).1, hsep3 s (hm3 hs)⟩) hc3
  -- the pages of the old address space are not written
  have hold : ∀ so ∈ oi1 ++ oi2 ++ ois, ∀ off : Nat, off < PAGE_SIZE →
      mem1 (frameAddr st so + off) = mem (frameAddr st so + off) ∧
      m2 (frameAddr st so + off) = mem (frameAddr st so + off) ∧
      m1 (frameAddr st so + off) = mem (frameAddr st so + off) ∧
      memb (frameAddr st so + off) = mem (frameAddr st so + off) := by
    intro so hso off hoff
    have hx := (hown so hso).1
    have e0 : memb (frameAddr st so + off) = mem (frameAddr st so + off) :=
      hmb _ (outside_frames hlay hx hlt (hsep so hso) off hoff)
    have e1 : m1 (frameAddr st so + off) = mem (frameAddr st so + off) := by
      rw [ha1 _ (outside_frames hlay hx hlt1 (hsep1 so hso) off hoff)]
      exact e0
    have e2 : m2 (frameAddr st so + off) = mem (frameAddr st so + off) := by
      rw [ha2 _ (outside_frames hlay hx hlt2 (hsep2 so hso) off hoff)]
      exact e1
    have e3 : mem1 (frameAddr st so + off) = mem (frameAddr st so + off) := by
      rw [ha3 _ (outside_frames hlay hx hlt3 (hsep3 so hso) off hoff)]
      exact e2
    exact ⟨e3, e2, e1, e0⟩
  refine ⟨by rw [hnew], by rw [hnew], by rw [hnew], by rw [hnew], by rw [hnew],
    idxs1, idxs2, idxs3, by rw [hnew], by rw [hnew], by rw [hnew],
    by rw [hl1, hlen1], by rw [hl2, hlen2], by rw [hl3, hlens], hnd, ?_, ?_, ?_, ?_, ?_, ?_,
    fun so hso off hoff => (hold so hso off hoff).1⟩
  · apply List.Nodup.map_on _ hnd
    intro x hx y hy hxy
    exact frameAddr_inj hlay (hlt x hx) (hlt y hy) hxy
  · intro s hs
    refine ⟨hlt s hs, fun hin => hsep s hin hs, ?_⟩
    rw [hst1]
    exact markFrames_mem hs (hlt s hs)
  · intro e he heo
    obtain ⟨s, hs, hse⟩ := List.mem_map.1 he
    obtain ⟨so, hso, hsoe⟩ := List.mem_map.1 heo
    rw [← hse] at hsoe
    have := frameAddr_inj hlay (hown so hso).1 (hlt s hs) hsoe
    rw [this] at hso
    exact hsep s hso hs
  · intro j sn so hj ho off hoff
    have hsn : sn ∈ idxs1 := mem_of_getElem?_some hj
    have hso : so ∈ oi1 := mem_of_getElem?_some ho
    rw [ha3 _ (outside_frames hlay (hlt1 sn hsn) hlt3
        (fun h3 => hdis3 (List.mem_append_left _ hsn) h3) off hoff),
      ha2 _ (outside_frames hlay (hlt1 sn hsn) hlt2 (fun h2 => hdis2 hsn h2) off hoff),
      hb1 j sn so hj ho off hoff]
    exact (hold so (hm1 hso) off hoff).2.2.2
  · intro j sn so hj ho off hoff
    have hsn : sn ∈ idxs2 := mem_of_getElem?_some hj
    have hso : so ∈ oi2 := mem_of_getElem?_some ho
    rw [ha3 _ (outside_frames hlay (hlt2 sn hsn) hlt3
        (fun h3 => hdis3 (List.mem_append_right _ hsn) h3) off hoff),
      hb2 j sn so hj ho off hoff]
    exact (hold so (hm2 hso) off hoff).2.2.1
  · intro j sn so hj ho off hoff
    have hso : so ∈ ois := mem_of_getElem?_some ho
    rw [hb3 j sn so hj ho off hoff]
    exact (hold so (hm3 hso) off hoff).2.1


/-- In `allocatedExample 14` the frames 0 to 13 are in use. -/
theorem allocatedExample_owned :
    ∀ s ∈ [0] ++ [1] ++ List.range' 2 12, s < (allocatedExample 14).pageNum ∧
      entryAvailable (allocatedExample 14).coremap s = false := by
  intro s hs
  have h14 : s < 14 := by
    simp [List.mem_range'] at hs
    omega
  refine ⟨Nat.lt_of_lt_of_le h14 (by decide), ?_⟩
  interval_cases s <;> rfl

/-- The stack table of `asLoading` holds the frames 2 to 13. -/
theorem asLoading_stack :
    asLoading.as_stack = some ((List.range' 2 12).map (frameAddr (allocatedExample 14))) := by
  simp [asLoading, frameAddr, allocatedExample, PADDR_TO_KVADDR, PAGE_SIZE, MIPS_KSEG0,
    List.range', List.range, List.range.loop]

theorem as_copy_roundtrip_witness :
    (bootLayout (allocatedExample 14) ∧
      asLoading.as_ptable1 = some ([0].map (frameAddr (allocatedExample 14))) ∧
      asLoading.as_ptable2 = some ([1].map (frameAddr (allocatedExample 14))) ∧
      asLoading.as_stack = some ((List.range' 2 12).map (frameAddr (allocatedExample 14))) ∧
      as_copy asLoading (allocatedExample 14) memExample true kmallocExample kmallocExample
          kmallocExample
        = some (0, some asCopied, allocatedExample 28, copiedExample)) ∧
    asCopied.as_vbase1 = asLoading.as_vbase1 ∧ asCopied.as_npages1 = asLoading.as_npages1 ∧
    asCopied.as_vbase2 = asLoading.as_vbase2 ∧ asCopied.as_npages2 = asLoading.as_npages2 ∧
    asCopied.readonlyON = asLoading.readonlyON :=
  have h := as_copy_roundtrip asLoading asCopied (allocatedExample 14) (allocatedExample 28)
    memExample copiedExample kmallocExample kmallocExample kmallocExample [0] [1]
    (List.range' 2 12) (by decide) kmallocExample_sized kmallocExample_sized
    kmallocExample_sized rfl rfl asLoading_stack rfl rfl rfl allocatedExample_owned rfl
  ⟨⟨by decide, rfl, rfl, asLoading_stack, rfl⟩, h.1, h.2.1, h.2.2.1, h.2.2.2.1, h.2.2.2.2.1⟩

/-- A failing `proctable_add` leaves the process table as it is. -/
theorem proctable_add_fail (PID_MIN : Nat) (t : ProcTable) (p : Nat) (ok : Bool)
    (h : (proctable_add PID_MIN t p ok).1 ≠ 0) :
    proctable_add PID_MIN t p ok = ((proctable_add PID_MIN t p ok).1, none, t) := by
  unfold proctable_add at h ⊢
  cases ok with
  | false => rfl
  | true =>
    simp only [if_true] at h ⊢
    cases hs : proctable_add_scan t 0 with
    | none => rfl
    | some i =>
      rw [hs] at h
      exact absurd rfl h

/-- The table part of `sys_fork` when `proctable_add` fails. -/
theorem sys_fork_proctable_fail (PID_MIN : Nat) (t : ProcTable) (curpid : Int) (p : Nat)
    (ok : Bool) (h : (proctable_add PID_MIN t p ok).1 ≠ 0) :
    sys_fork_proctable PID_MIN t curpid p ok
      = some ((proctable_add PID_MIN t p ok).1, none, t) := by
  unfold sys_fork_proctable
  rw [proctable_add_fail PID_MIN t p ok h]
  simp only []
  rw [if_pos h]

/-- The function `free_kpages` applied to the null address reads outside the coremap. -/
theorem free_kpages_null {st : VMState} (hlay : bootLayout st) : free_kpages st 0 = none := by
  obtain ⟨_, l2, l3⟩ := hlay
  have hv : VADDR_TO_PVADDR 0 = MIPS_KSEG0 := by decide
  have hal : ¬ VADDR_TO_PVADDR 0 % PAGE_SIZE ≠ 0 := by decide
  have hidx : st.coremap.length ≤ free_kpages_index st 0 := by
    unfold free_kpages_index
    rw [hv]
    simp only [VMState.pageNum, PAGE_SIZE, MIPS_KSEG0] at l3 l2 ⊢
    omega
  rw [free_kpages_eq, if_neg hal, List.getElem?_eq_none hidx]

/-- C22, the code on its error paths.  (1) Whenever `sys_fork` returns a non-zero code
after `as_copy` has returned 0, the allocator state is the one `as_copy` left: the address
space copy is not destroyed.  (2) In particular, when `proctable_add` fails, `sys_fork`
returns its code with the process table unchanged and the allocator state left by
`as_copy`.  (3) In that state `npages1 + npages2 + 12` frames that were available before the
call are single-frame runs, so the coremap differs from the one before the call.  (4) When
no frame is available and region 1 has at least one page, `as_copy` does not return: after
the failed `as_prepare_load`, `as_destroy` calls `free_kpages` on the null entry. -/
theorem sys_fork_error_paths (PID_MIN : Nat) (t : ProcTable) (st st1 : VMState)
    (mem mem1 : Mem) (curpid : Int) (curas new : addrspace) (childp : Nat) (child_pid : Int)
    (k1 k2 k3 : Nat → Option (List Nat)) (node_ok tf_ok : Bool) (thread_fork : Int)
    (hlay : bootLayout st) (hk1 : kmallocSized k1) (hk2 : kmallocSized k2)
    (hk3 : kmallocSized k3)
    (hcopy : as_copy curas st mem true k1 k2 k3 = some (0, some new, st1, mem1)) :
    (∀ (err : Int) (rv : Option Int) (t1 : ProcTable) (st2 : VMState) (mem2 : Mem),
      sys_fork PID_MIN t st mem curpid curas (some (childp, child_pid)) true true k1 k2 k3
        node_ok tf_ok thread_fork = some (err, rv, t1, st2, mem2) →
      err ≠ 0 → st2 = st1 ∧ mem2 = mem1 ∧ rv = none) ∧
    ((proctable_add PID_MIN t childp node_ok).1 ≠ 0 →
      sys_fork PID_MIN t st mem curpid curas (some (childp, child_pid)) true true k1 k2 k3
        node_ok tf_ok thread_fork
        = some ((proctable_add PID_MIN t childp node_ok).1, none, t, st1, mem1)) ∧
    (∃ idxs : List Nat, idxs.Nodup ∧
      idxs.length = curas.as_npages1 + curas.as_npages2 + DUMBVM_STACKPAGES ∧
      (∀ s ∈ idxs, s < st.pageNum ∧ entryAvailable st.coremap s = true ∧
        st1.coremap[s]? = some ⟨false, 1⟩ ∧ st1.coremap[s]? ≠ st.coremap[s]?)) ∧
    st1.coremap ≠ st.coremap ∧
    (∀ (stf : VMState) (memf : Mem), bootLayout stf →
      (∀ (j : Nat) (e : coremap_entry), stf.coremap[j]? = some e → e.available = false) →
      1 ≤ curas.as_npages1 →
      (∃ t1 t2, k1 curas.as_npages1 = some t1 ∧ k2 curas.as_npages2 = some t2) →
      as_copy curas stf memf true k1 k2 k3 = none) := by
  obtain ⟨idxs1, idxs2, idxs3, memb, m1, m2, hnd, hl1, hl2, hl3, hall, hnew, hst1, _, _, _,
    _⟩ := as_copy_success hlay hk1 hk2 hk3 hcopy
  have hfr : ∀ s ∈ idxs1 ++ idxs2 ++ idxs3, s < st.pageNum ∧
      entryAvailable st.coremap s = true ∧ st1.coremap[s]? = some ⟨false, 1⟩ ∧
      st1.coremap[s]? ≠ st.coremap[s]? := by
    intro s hs
    obtain ⟨h1, h2⟩ := hall s hs
    have h3 : st1.coremap[s]? = some ⟨false, 1⟩ := by
      rw [hst1]
      exact markFrames_mem hs h1
    refine ⟨h1, h2, h3, ?_⟩
    intro heq
    rw [h3] at heq
    unfold entryAvailable at h2
    rw [← heq] at h2
    exact Bool.noConfusion h2
  refine ⟨?_, ?_, ⟨idxs1 ++ idxs2 ++ idxs3, hnd, ?_, hfr⟩, ?_, ?_⟩
  · intro err rv t1 st2 mem2 h herr
    unfold sys_fork at h
    simp only [Bool.true_eq_false, if_false, hcopy, ne_eq, not_true_eq_false] at h
    split at h
    · exact Option.noConfusion h
    · rename_i result repid ta _
      split at h
      · simp only [Option.some.injEq, Prod.mk.injEq] at h
        exact ⟨h.2.2.2.1.symm, h.2.2.2.2.symm, h.2.1.symm⟩
      · split at h
        · exact Option.noConfusion h
        · split at h
          · split at h
            · exact Option.noConfusion h
            · simp only [Option.some.injEq, Prod.mk.injEq] at h
              exact ⟨h.2.2.2.1.symm, h.2.2.2.2.symm, h.2.1.symm⟩
          · split at h
            · split at h
              · exact Option.noConfusion h
              · simp only [Option.some.injEq, Prod.mk.injEq] at h
                exact ⟨h.2.2.2.1.symm, h.2.2.2.2.symm, h.2.1.symm⟩
            · simp only [Option.some.injEq, Prod.mk.injEq] at h
              exact absurd h.1.symm herr
  · intro hfail
    unfold sys_fork
    simp only [Bool.true_eq_false, if_false, hcopy, ne_eq, not_true_eq_false,
      sys_fork_proctable_fail PID_MIN t curpid childp node_ok hfail]
    rw [if_pos hfail]
  · rw [List.length_append, List.length_append, hl1, hl2, hl3]
  · have hpos : 0 < idxs3.length := by
      rw [hl3]
      decide
    obtain ⟨s, hs⟩ := List.exists_mem_of_length_pos hpos
    intro heq
    have := (hfr s (List.mem_append_right _ hs)).2.2.2
    rw [heq] at this
    exact this rfl
  · intro stf memf hlayf hfull hn1 hk
    obtain ⟨t1, t2, ht1, ht2⟩ := hk
    have hlen1 : t1.length = curas.as_npages1 := hk1 _ _ ht1
    obtain ⟨n, hn⟩ : ∃ n, curas.as_npages1 = n + 1 := ⟨curas.as_npages1 - 1, by omega⟩
    have halloc : as_alloc_loop (n + 1) 0 t1 stf memf = some (false, t1.set 0 0, stf, memf) := by
      have h0 : 0 < t1.length := by omega
      rw [as_alloc_loop, if_pos h0, alloc_kpages_none_free stf 1 (Nat.le_refl 1) hfull]
      simp only [if_true]
    have hfree : as_destroy_free (some (t1.set 0 0)) 0 stf = none := by
      have h0 : 0 < t1.length := by omega
      unfold as_destroy_free
      simp only []
      rw [List.getElem?_set, if_pos rfl, if_pos h0]
      simp only []
      exact free_kpages_null hlayf
    have hdl : as_destroy_loop (n + 1) 0 (some (t1.set 0 0)) stf = none := by
      rw [as_destroy_loop, hfree]
    have hne : ENOMEM ≠ 0 := by decide
    rw [hn] at ht1
    unfold as_copy
    simp only [as_create, if_true, ht1, ht2, as_prepare_load, hn, halloc, ne_eq, hne,
      not_false_eq_true, as_destroy, hdl]

theorem sys_fork_error_paths_witness :
    (bootLayout (allocatedExample 14) ∧
      as_copy asLoading (allocatedExample 14) memExample true kmallocExample kmallocExample
          kmallocExample
        = some (0, some asCopied, allocatedExample 28, copiedExample) ∧
      (proctable_add 2 tableFull 7 true).1 ≠ 0) ∧
    sys_fork 2 tableFull (allocatedExample 14) memExample 2 asLoading (some (7, 0)) true true
        kmallocExample kmallocExample kmallocExample true true 0
      = some (ENPROC, none, tableFull, allocatedExample 28, copiedExample) ∧
    (allocatedExample 28).coremap ≠ (allocatedExample 14).coremap :=
  have h := sys_fork_error_paths 2 tableFull (allocatedExample 14) (allocatedExample 28)
    memExample copiedExample 2 asLoading asCopied 7 0 kmallocExample kmallocExample
    kmallocExample true true 0 (by decide) kmallocExample_sized kmallocExample_sized
    kmallocExample_sized rfl
  ⟨⟨by decide, rfl, by decide⟩, h.2.1 (by decide), h.2.2.2.1⟩

theorem ROUNDUP_8_bounds (n : Nat) :
    n ≤ ROUNDUP n 8 ∧ ROUNDUP n 8 < n + 8 ∧ ROUNDUP n 8 % 8 = 0 := by
  unfold ROUNDUP
  omega

theorem execvStringBytes_step (args : List (List Nat)) (k : Nat) :
    execvStringBytes args (k + 1) = execvStringBytes args k
      + ((args[k]?.toList).map (fun s => ROUNDUP (s.length + 1) 8)).sum := by
  unfold execvStringBytes
  rw [List.take_succ, List.map_append, List.sum_append]

theorem execvStringBytes_succ (args : List (List Nat)) (k : Nat) (s : List Nat)
    (hs : args[k]? = some s) :
    execvStringBytes args (k + 1) = execvStringBytes args k + ROUNDUP (s.length + 1) 8 := by
  rw [execvStringBytes_step, hs]
  simp

theorem execvStringBytes_mono (args : List (List Nat)) (i k : Nat) (h : i ≤ k) :
    execvStringBytes args i ≤ execvStringBytes args k := by
  induction k with
  | zero =>
    have : i = 0 := by omega
    rw [this]
  | succ k ih =>
    by_cases hi : i = k + 1
    · rw [hi]
    · have := ih (by omega)
      rw [execvStringBytes_step]
      omega

theorem execvStringBytes_length (args : List (List Nat)) :
    execvStringBytes args args.length = (args.map (fun s => ROUNDUP (s.length + 1) 8)).sum := by
  unfold execvStringBytes
  rw [List.take_length]

theorem execv_total_bounds (args : List (List Nat)) :
    (args.map (fun s => ROUNDUP (s.length + 1) 8)).sum
        ≤ 8 * (args.map (fun s => s.length + 1)).sum ∧
      args.length ≤ (args.map (fun s => s.length + 1)).sum ∧
      ∀ s ∈ args, s.length + 1 ≤ (args.map (fun s => s.length + 1)).sum := by
  induction args with
  | nil => simp
  | cons x xs ih =>
    obtain ⟨h1, h2, h3⟩ := ih
    have hr := ROUNDUP_8_bounds (x.length + 1)
    refine ⟨?_, ?_, ?_⟩
    · simp only [List.map_cons, List.sum_cons]
      omega
    · simp only [List.map_cons, List.sum_cons, List.length_cons]
      omega
    · intro s hs
      simp only [List.map_cons, List.sum_cons]
      rcases List.mem_cons.1 hs with h | h
      · rw [h]
        omega
      · have := h3 s h
        omega

theorem stack_sub_wrap (sp r : Nat) (h1 : r ≤ sp) (h2 : sp ≤ USERSTACK) :
    (sp + 2 ^ 32 - r % 2 ^ 32) % 2 ^ 32 = sp - r := by
  simp only [USERSTACK, MIPS_KSEG0] at h2
  omega

theorem copyout_ok (mapped : Nat → Bool) (bs : List Nat) (dst : Nat) (um : Mem)
    (htop : dst + bs.length ≤ USERSTACK)
    (hm : ∀ a, dst ≤ a → a < dst + bs.length → mapped a = true) :
    copyout mapped bs dst um = (0, writeBytes um dst bs) := by
  unfold copyout
  rw [if_pos]
  refine ⟨htop, ?_⟩
  rw [List.all_eq_true]
  intro j hj
  rw [List.mem_range] at hj
  exact hm (dst + j) (by omega) (by omega)

theorem copyoutstr_ok (mapped : Nat → Bool) (s : List Nat) (dst maxlen : Nat) (um : Mem)
    (hlen : s.length + 1 ≤ maxlen) (htop : dst + (s.length + 1) ≤ USERSTACK)
    (hm : ∀ a, dst ≤ a → a < dst + (s.length + 1) → mapped a = true) :
    copyoutstr mapped s dst maxlen um = (0, writeBytes um dst (s ++ [0])) := by
  unfold copyoutstr
  rw [if_neg (by omega)]
  apply copyout_ok
  · rw [List.length_append]
    exact htop
  · rw [List.length_append]
    exact hm

theorem writeBytes_outside (um : Mem) (addr : Nat) (bs : List Nat) (a : Nat)
    (h : a < addr ∨ addr + bs.length ≤ a) : writeBytes um addr bs a = um a := by
  unfold writeBytes
  rw [if_neg]
  omega

theorem writeBytes_inside (um : Mem) (addr : Nat) (bs : List Nat) (j : Nat)
    (h : j < bs.length) : writeBytes um addr bs (addr + j) = bs.getD j 0 := by
  unfold writeBytes
  rw [if_pos ⟨by omega, by omega⟩, Nat.add_sub_cancel_left]

theorem readWord_wordBytes (m um : Mem) (a w : Nat) (hw : w < 2 ^ 32)
    (h : ∀ j, j < 4 → m (a + j) = writeBytes um a (wordBytes w) (a + j)) :
    readWord m a = w := by
  have h0 := h 0 (by omega)
  have h1 := h 1 (by omega)
  have h2 := h 2 (by omega)
  have h3 := h 3 (by omega)
  have hl : (wordBytes w).length = 4 := rfl
  rw [writeBytes_inside um a _ 0 (by omega)] at h0
  rw [writeBytes_inside um a _ 1 (by omega)] at h1
  rw [writeBytes_inside um a _ 2 (by omega)] at h2
  rw [writeBytes_inside um a _ 3 (by omega)] at h3
  unfold readWord
  rw [Nat.add_zero] at h0
  rw [h0, h1, h2, h3]
  simp only [wordBytes, List.getD_cons_zero, List.getD_cons_succ]
  omega

theorem sys_execv_copy_strings_spec (mapped : Nat → Bool) (args : List (List Nat))
    (hlen : ∀ s ∈ args, s.length + 1 ≤ ARG_MAX) :
    ∀ (k sp : Nat) (arr : List Nat) (um : Mem), k ≤ args.length → k ≤ arr.length →
      execvStringBytes args k ≤ sp → sp ≤ USERSTACK →
      (∀ a, sp - execvStringBytes args k ≤ a → a < sp → mapped a = true) →
      ∃ arr1 um1,
        sys_execv_copy_strings mapped args k sp arr um
          = some (0, sp - execvStringBytes args k, arr1, um1) ∧
        arr1.length = arr.length ∧
        (∀ i, k ≤ i → arr1[i]? = arr[i]?) ∧
        (∀ i, i < k → arr1[i]?
          = some (sp - execvStringBytes args k + execvStringBytes args i)) ∧
        (∀ a, a < sp - execvStringBytes args k ∨ sp ≤ a → um1 a = um a) ∧
        (∀ i s, i < k → args[i]? = some s →
          (∀ j, j < s.length →
            um1 (sp - execvStringBytes args k + execvStringBytes args i + j) = s.getD j 0) ∧
          um1 (sp - execvStringBytes args k + execvStringBytes args i + s.length) = 0) := by
  intro k
  induction k with
  | zero =>
    intro sp arr um _ _ _ _ _
    have h0 : execvStringBytes args 0 = 0 := by simp [execvStringBytes]
    refine ⟨arr, um, ?_, rfl, fun _ _ => rfl, ?_, fun _ _ => rfl, ?_⟩
    · rw [h0]
      rfl
    · intro i hi
      exact absurd hi (Nat.not_lt_zero i)
    · intro i s hi
      exact absurd hi (Nat.not_lt_zero i)
  | succ k ih =>
    intro sp arr um hka hk hT hsp hm
    have hk1 : k < args.length := by omega
    have hs : args[k]? = some args[k] := List.getElem?_eq_getElem hk1
    generalize args[k] = s at hs
    have hsmem : s ∈ args := by
      obtain ⟨hlt, heq⟩ := List.getElem?_eq_some.1 hs
      rw [← heq]
      exact List.getElem_mem hlt
    have hT1 := execvStringBytes_succ args k s hs
    obtain ⟨hr1, hr2, _⟩ := ROUNDUP_8_bounds (s.length + 1)
    have hwrap : stackptr_lower sp (s.length + 1) 8 = sp - ROUNDUP (s.length + 1) 8 :=
      stack_sub_wrap sp (ROUNDUP (s.length + 1) 8) (by omega) hsp
    have hcopy : copyoutstr mapped s (sp - ROUNDUP (s.length + 1) 8) ARG_MAX um
        = (0, writeBytes um (sp - ROUNDUP (s.length + 1) 8) (s ++ [0])) :=
      copyoutstr_ok mapped s _ ARG_MAX um (hlen s hsmem) (by omega)
        (fun a ha1 ha2 => hm a (by omega) (by omega))
    obtain ⟨arr1, um1, h1, h2, h3, h4, h5, h6⟩ :=
      ih (sp - ROUNDUP (s.length + 1) 8) (arr.set k (sp - ROUNDUP (s.length + 1) 8))
        (writeBytes um (sp - ROUNDUP (s.length + 1) 8) (s ++ [0])) (by omega)
        (by rw [List.length_set]; omega) (by omega) (by omega)
        (fun a ha1 ha2 => hm a (by omega) (by omega))
    have hsub : sp - ROUNDUP (s.length + 1) 8 - execvStringBytes args k
        = sp - execvStringBytes args (k + 1) := by omega
    rw [hsub] at h1 h4 h5 h6
    have hkl : k < arr.length := by omega
    have hsl : (s ++ [0]).length = s.length + 1 := by rw [List.length_append]; rfl
    refine ⟨arr1, um1, ?_, ?_, ?_, ?_, ?_, ?_⟩
    · rw [sys_execv_copy_strings, hs]
      simp only []
      rw [hwrap, hcopy]
      simp only [ne_eq, not_true_eq_false, if_false]
      rw [if_pos hkl, h1]
    · rw [h2, List.length_set]
    · intro i hi
      rw [h3 i (by omega), List.getElem?_set, if_neg (by omega)]
    · intro i hi
      by_cases hik : i = k
      · rw [hik, h3 k (Nat.le_refl k), List.getElem?_set, if_pos rfl, if_pos hkl]
        congr 1
        omega
      · exact h4 i (by omega)
    · intro a ha
      rw [h5 a (by omega)]
      apply writeBytes_outside
      rw [hsl]
      omega
    · intro i t hi ht
      by_cases hik : i = k
      · rw [hik] at ht
        rw [hs] at ht
        have hts : s = t := Option.some.inj ht
        rw [← hts, hik]
        have hbase : sp - execvStringBytes args (k + 1) + execvStringBytes args k
            = sp - ROUNDUP (s.length + 1) 8 := by omega
        rw [hbase]
        refine ⟨?_, ?_⟩
        · intro j hj
          rw [h5 _ (by omega), writeBytes_inside _ _ _ j (by rw [hsl]; omega),
            List.getD_append _ _ _ _ hj]
        · rw [h5 _ (by omega), writeBytes_inside _ _ _ s.length (by rw [hsl]; omega),
            List.getD_append_right _ _ _ _ (Nat.le_refl _)]
          simp
      · exact h6 i t (by omega) ht

theorem sys_execv_copy_pointers_spec (mapped : Nat → Bool) (arr : List Nat)
    (harr : ∀ w ∈ arr, w < 2 ^ 32) :
    ∀ (k sp : Nat) (um : Mem), k ≤ arr.length → 4 * k ≤ sp → sp ≤ USERSTACK →
      (∀ a, sp - 4 * k ≤ a → a < sp → mapped a = true) →
      ∃ um1,
        sys_execv_copy_pointers mapped arr k sp um = some (0, sp - 4 * k, um1) ∧
        (∀ a, a < sp - 4 * k ∨ sp ≤ a → um1 a = um a) ∧
        (∀ i w, i < k → arr[i]? = some w → readWord um1 (sp - 4 * k + 4 * i) = w) := by
  intro k
  induction k with
  | zero =>
    intro sp um _ _ _ _
    refine ⟨um, rfl, fun _ _ => rfl, ?_⟩
    intro i w hi
    exact absurd hi (Nat.not_lt_zero i)
  | succ k ih =>
    intro sp um hk h4 hsp hm
    have hk1 : k < arr.length := by omega
    have hs : arr[k]? = some arr[k] := List.getElem?_eq_getElem hk1
    generalize arr[k] = w at hs
    have hw : w < 2 ^ 32 := harr w (mem_of_getElem?_some hs)
    have hR : ROUNDUP 4 4 = 4 := by norm_num [ROUNDUP]
    have hwrap : stackptr_lower sp 4 4 = sp - 4 := by
      unfold stackptr_lower
      rw [hR]
      simp only [USERSTACK, MIPS_KSEG0] at hsp
      omega
    have hwl : (wordBytes w).length = 4 := rfl
    have hcopy : copyout mapped (wordBytes w) (sp - 4) um
        = (0, writeBytes um (sp - 4) (wordBytes w)) :=
      copyout_ok mapped _ _ um (by rw [hwl]; omega)
        (fun a ha1 ha2 => hm a (by omega) (by rw [hwl] at ha2; omega))
    obtain ⟨um1, h1, h2, h3⟩ := ih (sp - 4) (writeBytes um (sp - 4) (wordBytes w))
      (by omega) (by omega) (by omega) (fun a ha1 ha2 => hm a (by omega) (by omega))
    have hsub : sp - 4 - 4 * k = sp - 4 * (k + 1) := by omega
    rw [hsub] at h1 h2 h3
    refine ⟨um1, ?_, ?_, ?_⟩
    · have hstep : sys_execv_copy_pointer mapped arr k sp um
          = some (0, sp - 4, writeBytes um (sp - 4) (wordBytes w)) := by
        unfold sys_execv_copy_pointer
        rw [hs]
        show some ((copyout mapped (wordBytes w) (stackptr_lower sp 4 4) um).1,
          stackptr_lower sp 4 4,
          (copyout mapped (wordBytes w) (stackptr_lower sp 4 4) um).2) = _
        rw [hwrap, hcopy]
      rw [sys_execv_copy_pointers, hstep]
      simp only [ne_eq, not_true_eq_false, if_false]
      rw [h1]
    · intro a ha
      rw [h2 a (by omega)]
      apply writeBytes_outside
      rw [hwl]
      omega
    · intro i v hi hv
      by_cases hik : i = k
      · rw [hik, hs] at hv
        have hwv : w = v := Option.some.inj hv
        rw [← hwv, hik]
        have hbase : sp - 4 * (k + 1) + 4 * k = sp - 4 := by omega
        rw [hbase]
        apply readWord_wordBytes um1 um (sp - 4) w hw
        intro j hj
        exact h2 _ (by omega)
      · exact h3 i v (by omega) hv

/-- C21, the two copy loops of `sys_execv` on the argument strings `args`, whose total size
passed the `ARG_MAX` check, with the stack below `USERSTACK` mapped down to the final stack
pointer.  (1) With the array as the source declares it, `vaddr_t usermodePointer[count]`,
the store `usermodePointer[count] = 0` after the first loop lies outside the array, so the
run has no defined result.  (2) With an array of `count + 1` words the layout is as
claimed: `enter_new_process` receives `argc = count` and `argv = stackptr =
USERSTACK - sum of ROUNDUP(len + 1, 8) - 4 * (count + 1)`; the word at `sp + 4 * i` is the
address of a NUL-terminated copy of string `i`, which lies above the pointer slots and
below `USERSTACK`; the word at `sp + 4 * count` is 0; memory outside `[sp, USERSTACK)` is
unchanged. -/
theorem sys_execv_stack_layout (mapped : Nat → Bool) (args : List (List Nat)) (um : Mem)
    (uargs : Nat) (huargs : uargs ≠ 0)
    (htot : (args.map (fun s => s.length + 1)).sum ≤ ARG_MAX)
    (hmapped : ∀ a, execvStackPointer args ≤ a → a < USERSTACK → mapped a = true) :
    (∀ arr : List Nat, arr.length = args.length →
      sys_execv_stack mapped arr args USERSTACK um uargs = none) ∧
    (∀ arr : List Nat, arr.length = args.length + 1 →
      ∃ um1,
        sys_execv_stack mapped arr args USERSTACK um uargs
          = some (0, some (args.length, execvStackPointer args, execvStackPointer args),
              um1) ∧
        (∀ i s, args[i]? = some s →
          readWord um1 (execvStackPointer args + 4 * i) = execvStringAddr args i ∧
          execvStackPointer args + 4 * (args.length + 1) ≤ execvStringAddr args i ∧
          execvStringAddr args i + (s.length + 1) ≤ USERSTACK ∧
          (∀ j, j < s.length → um1 (execvStringAddr args i + j) = s.getD j 0) ∧
          um1 (execvStringAddr args i + s.length) = 0) ∧
        readWord um1 (execvStackPointer args + 4 * args.length) = 0 ∧
        (∀ a, a < execvStackPointer args ∨ USERSTACK ≤ a → um1 a = um a)) := by
  obtain ⟨hb1, hb2, hb3⟩ := execv_total_bounds args
  have hTlen := execvStringBytes_length args
  have hUS : USERSTACK = 2147483648 := rfl
  have hAM : ARG_MAX = 65536 := rfl
  have hsp : execvStackPointer args
      = USERSTACK - execvStringBytes args args.length - 4 * (args.length + 1) := by
    rw [hTlen]
    rfl
  have hfit : execvStringBytes args args.length + 4 * (args.length + 1) ≤ USERSTACK := by
    rw [hTlen]
    omega
  have hstr : ∀ arr : List Nat, args.length ≤ arr.length → ∃ arr1 um1,
      sys_execv_copy_strings mapped args args.length USERSTACK arr um
        = some (0, USERSTACK - execvStringBytes args args.length, arr1, um1) ∧
      arr1.length = arr.length ∧
      (∀ i, i < args.length → arr1[i]? = some (execvStringAddr args i)) ∧
      (∀ a, a < USERSTACK - execvStringBytes args args.length ∨ USERSTACK ≤ a →
        um1 a = um a) ∧
      (∀ i s, i < args.length → args[i]? = some s →
        (∀ j, j < s.length → um1 (execvStringAddr args i + j) = s.getD j 0) ∧
        um1 (execvStringAddr args i + s.length) = 0) := by
    intro arr harr
    obtain ⟨arr1, um1, h1, h2, _, h4, h5, h6⟩ :=
      sys_execv_copy_strings_spec mapped args (fun s hs => Nat.le_trans (hb3 s hs) htot)
        args.length USERSTACK arr um (Nat.le_refl _) harr (by omega) (Nat.le_refl _)
        (fun a ha1 ha2 => hmapped a (by omega) ha2)
    have haddr : ∀ i, USERSTACK - execvStringBytes args args.length
        + execvStringBytes args i = execvStringAddr args i := by
      intro i
      unfold execvStringAddr
      omega
    refine ⟨arr1, um1, h1, h2, ?_, h5, ?_⟩
    · intro i hi
      rw [h4 i hi, haddr]
    · intro i s hi hs
      have := h6 i s hi hs
      rw [haddr] at this
      exact this
  refine ⟨?_, ?_⟩
  · intro arr harr
    obtain ⟨arr1, um1, h1, h2, _, _, _⟩ := hstr arr (by omega)
    unfold sys_execv_stack
    rw [h1]
    simp only [ne_eq, not_true_eq_false, if_false]
    rw [if_neg (by omega)]
  · intro arr harr
    obtain ⟨arr1, um1, h1, h2, h4, h5, h6⟩ := hstr arr (by omega)
    have hlt : args.length < arr1.length := by omega
    have hset : ∀ i, i < args.length →
        (arr1.set args.length 0)[i]? = some (execvStringAddr args i) := by
      intro i hi
      rw [List.getElem?_set, if_neg (by omega)]
      exact h4 i hi
    have hlast : (arr1.set args.length 0)[args.length]? = some 0 := by
      rw [List.getElem?_set, if_pos rfl, if_pos hlt]
    have hin : ∀ i s, args[i]? = some s →
        i < args.length ∧ execvStringAddr args i + (s.length + 1) ≤ USERSTACK := by
      intro i s hs
      have hi : i < args.length := (List.getElem?_eq_some.1 hs).1
      have hm := execvStringBytes_mono args (i + 1) args.length (by omega)
      rw [execvStringBytes_succ args i s hs] at hm
      have hr := ROUNDUP_8_bounds (s.length + 1)
      refine ⟨hi, ?_⟩
      unfold execvStringAddr
      omega
    have hwords : ∀ w ∈ arr1.set args.length 0, w < 2 ^ 32 := by
      intro w hw
      obtain ⟨i, hi, hiw⟩ := List.getElem_of_mem hw
      rw [List.length_set] at hi
      have hget : (arr1.set args.length 0)[i]? = some w := by
        rw [← hiw]
        exact List.getElem?_eq_getElem _
      by_cases hic : i < args.length
      · rw [hset i hic] at hget
        have hw1 : execvStringAddr args i = w := Option.some.inj hget
        have hs : args[i]? = some args[i] := List.getElem?_eq_getElem hic
        have := (hin i _ hs).2
        omega
      · have hie : i = args.length := by omega
        rw [hie, hlast] at hget
        have hw1 : 0 = w := Option.some.inj hget
        omega
    obtain ⟨um2, p1, p2, p3⟩ :=
      sys_execv_copy_pointers_spec mapped (arr1.set args.length 0) hwords
        (args.length + 1) (USERSTACK - execvStringBytes args args.length) um1
        (by rw [List.length_set]; omega) (by omega) (by omega)
        (fun a ha1 ha2 => hmapped a (by omega) (by omega))
    rw [← hsp] at p1 p2 p3
    refine ⟨um2, ?_, ?_, ?_, ?_⟩
    · unfold sys_execv_stack
      rw [h1]
      simp only [ne_eq, not_true_eq_false, if_false]
      rw [if_pos hlt, p1]
      simp only [ne_eq, not_true_eq_false, if_false]
      rw [if_pos huargs]
    · intro i s hs
      obtain ⟨hi, htop⟩ := hin i s hs
      have hge : execvStackPointer args + 4 * (args.length + 1) ≤ execvStringAddr args i := by
        unfold execvStringAddr
        omega
      refine ⟨p3 i _ (by omega) (hset i hi), hge, htop, ?_, ?_⟩
      · intro j hj
        rw [p2 _ (by omega)]
        exact (h6 i s hi hs).1 j hj
      · rw [p2 _ (by omega)]
        exact (h6 i s hi hs).2
    · exact p3 args.length 0 (by omega) hlast
    · intro a ha
      rw [p2 a (by omega), h5 a (by omega)]

theorem sys_execv_stack_layout_witness :
    ((1 : Nat) ≠ 0 ∧ (argvExample.map (fun s => s.length + 1)).sum ≤ ARG_MAX ∧
      (∀ a, execvStackPointer argvExample ≤ a → a < USERSTACK → stackMapped a = true)) ∧
    sys_execv_stack stackMapped [0, 0] argvExample USERSTACK memExample 1 = none ∧
    ∃ um1,
      sys_execv_stack stackMapped [0, 0, 0] argvExample USERSTACK memExample 1
        = some (0, some (2, execvStackPointer argvExample, execvStackPointer argvExample),
            um1) ∧
      readWord um1 (execvStackPointer argvExample + 4 * 2) = 0 :=
  have hm : ∀ a, execvStackPointer argvExample ≤ a → a < USERSTACK →
      stackMapped a = true := by
    intro a h1 h2
    have hsp : execvStackPointer argvExample = 2147483620 := by
      norm_num [execvStackPointer, argvExample, ROUNDUP, USERSTACK, MIPS_KSEG0]
    rw [hsp] at h1
    simp only [stackMapped, USERSTACK, MIPS_KSEG0, DUMBVM_STACKPAGES, PAGE_SIZE,
      decide_eq_true_eq] at h2 ⊢
    omega
  have h := sys_execv_stack_layout stackMapped argvExample memExample 1 (by decide)
    (by decide) hm
  ⟨⟨by decide, by decide, hm⟩, h.1 [0, 0] rfl,
    (h.2 [0, 0, 0] rfl).elim (fun um1 hu => ⟨um1, hu.1, hu.2.2.1⟩)⟩

/-! ## Theorems: the linked queue of the intersection -/

theorem addrAt_lt {addrs : List Nat} {i : Nat} (h : i < addrs.length) :
    addrs[i]? = some (addrAt addrs i) := by
  unfold addrAt
  rw [List.getElem?_eq_getElem h]
  rfl

theorem addrAt_ge {addrs : List Nat} {i : Nat} (h : addrs.length ≤ i) :
    addrAt addrs i = 0 := by
  unfold addrAt
  rw [List.getElem?_eq_none h]
  rfl

theorem addrAt_mem {addrs : List Nat} {i : Nat} (h : i < addrs.length) :
    addrAt addrs i ∈ addrs :=
  mem_of_getElem?_some (addrAt_lt h)

theorem addrAt_ne_zero {addrs : List Nat} {i : Nat} (h0 : 0 ∉ addrs)
    (h : i < addrs.length) : addrAt addrs i ≠ 0 := by
  intro hz
  apply h0
  rw [← hz]
  exact addrAt_mem h

theorem addrAt_inj {addrs : List Nat} {i j : Nat} (hnd : addrs.Nodup)
    (hi : i < addrs.length) (hj : j < addrs.length)
    (h : addrAt addrs i = addrAt addrs j) : i = j := by
  have h1 := addrAt_lt hi
  have h2 := addrAt_lt hj
  rw [h, ← h2, List.getElem?_eq_getElem hi, List.getElem?_eq_getElem hj] at h1
  exact (hnd.getElem_inj_iff).1 (Option.some.inj h1)

theorem addrAt_eraseIdx (addrs : List Nat) (p i : Nat) :
    addrAt (addrs.eraseIdx p) i = if i < p then addrAt addrs i else addrAt addrs (i + 1) := by
  unfold addrAt
  rw [List.getElem?_eraseIdx]
  split <;> rfl

theorem addrAt_append_singleton (addrs : List Nat) (n i : Nat) :
    addrAt (addrs ++ [n]) i
      = if i < addrs.length then addrAt addrs i else if i = addrs.length then n else 0 := by
  unfold addrAt
  by_cases h1 : i < addrs.length
  · rw [if_pos h1, List.getElem?_append_left h1]
  · rw [if_neg h1]
    by_cases h2 : i = addrs.length
    · rw [if_pos h2, h2, List.getElem?_append_right (Nat.le_refl _), Nat.sub_self]
      rfl
    · rw [if_neg h2, List.getElem?_eq_none]
      · rfl
      · rw [List.length_append]
        simp only [List.length_cons, List.length_nil]
        omega

/-- A vehicle other than `(origin, destination)` fails the test of the loop of
`intersection_after_exit`. -/
theorem vehicle_nomatch {c : Vehicle} {origin destination : Direction}
    (h : c ≠ (⟨origin, destination⟩ : Vehicle)) :
    ¬ (c.origin = origin ∧ c.destination = destination) := by
  intro h1
  apply h
  cases c
  simp only [Vehicle.mk.injEq]
  exact h1

/-- On a linked queue the loop of `intersection_after_exit` stops at the first node whose
vehicle matches, given fuel for the nodes up to it. -/
theorem intersection_after_exit_find_match {q : Vqueue} {addrs : List Nat}
    {origin destination : Direction} {pre post : List Vehicle}
    (hrep : QueueLinked q addrs (pre ++ ⟨origin, destination⟩ :: post))
    (hpre : ∀ c ∈ pre, c ≠ (⟨origin, destination⟩ : Vehicle)) :
    ∀ (d i fuel : Nat), i + d = pre.length → d + 1 ≤ fuel →
      intersection_after_exit_find origin destination q.heap fuel (addrAt addrs i)
        = some (some (addrAt addrs pre.length)) := by
  obtain ⟨hlen, _, h0, _, _, _, hnodes⟩ := hrep
  have hl : addrs.length = pre.length + (post.length + 1) := by
    rw [hlen, List.length_append, List.length_cons]
  intro d
  induction d with
  | zero =>
    intro i fuel hi hf
    obtain ⟨k, hk⟩ : ∃ k, fuel = k + 1 := ⟨fuel - 1, by omega⟩
    have hip : i = pre.length := by omega
    have hv : (pre ++ (⟨origin, destination⟩ : Vehicle) :: post)[i]?
        = some ⟨origin, destination⟩ := by
      rw [hip, List.getElem?_append_right (Nat.le_refl _), Nat.sub_self,
        List.getElem?_cons_zero]
    have hne : addrAt addrs i ≠ 0 := addrAt_ne_zero h0 (by omega)
    rw [hk, intersection_after_exit_find, if_neg hne, hnodes i _ hv]
    simp only [and_self, if_true]
    rw [hip]
  | succ d ih =>
    intro i fuel hi hf
    obtain ⟨k, hk⟩ : ∃ k, fuel = k + 1 := ⟨fuel - 1, by omega⟩
    have hip : i < pre.length := by omega
    have hv : (pre ++ (⟨origin, destination⟩ : Vehicle) :: post)[i]? = some pre[i] := by
      rw [List.getElem?_append_left hip, List.getElem?_eq_getElem hip]
    have hc := vehicle_nomatch (hpre pre[i] (List.getElem_mem hip))
    have hne : addrAt addrs i ≠ 0 := addrAt_ne_zero h0 (by omega)
    rw [hk, intersection_after_exit_find, if_neg hne, hnodes i _ hv]
    simp only []
    rw [if_neg hc]
    exact ih (i + 1) k (by omega) (by omega)

/-- On a linked queue without a matching vehicle the loop of `intersection_after_exit` ends
at the null pointer, given fuel for the nodes. -/
theorem intersection_after_exit_find_nomatch {q : Vqueue} {addrs : List Nat}
    {origin destination : Direction} {vs : List Vehicle}
    (hrep : QueueLinked q addrs vs)
    (hno : ∀ c ∈ vs, c ≠ (⟨origin, destination⟩ : Vehicle)) :
    ∀ (d i fuel : Nat), i + d = vs.length → d ≤ fuel →
      intersection_after_exit_find origin destination q.heap fuel (addrAt addrs i)
        = some none := by
  obtain ⟨hlen, _, h0, _, _, _, hnodes⟩ := hrep
  intro d
  induction d with
  | zero =>
    intro i fuel hi hf
    have hz : addrAt addrs i = 0 := addrAt_ge (by omega)
    rw [hz]
    cases fuel with
    | zero => rfl
    | succ k => rfl
  | succ d ih =>
    intro i fuel hi hf
    obtain ⟨k, hk⟩ : ∃ k, fuel = k + 1 := ⟨fuel - 1, by omega⟩
    have hip : i < vs.length := by omega
    have hv : vs[i]? = some vs[i] := List.getElem?_eq_getElem hip
    have hc := vehicle_nomatch (hno vs[i] (List.getElem_mem hip))
    have hne : addrAt addrs i ≠ 0 := addrAt_ne_zero h0 (by omega)
    rw [hk, intersection_after_exit_find, if_neg hne, hnodes i _ hv]
    simp only []
    rw [if_neg hc]
    exact ih (i + 1) k (by omega) (by omega)

/-- On a linked queue the removal of the node `p` by `intersection_after_exit` succeeds and
leaves a linked queue of the other nodes, in their order: `first`, `last`, `total` and the
`previous` and `next` fields fit the remaining nodes, the removed node is freed, and no
other address is written. -/
theorem intersection_after_exit_unlink_spec {q : Vqueue} {addrs : List Nat}
    {vs : List Vehicle} (hrep : QueueLinked q addrs vs) {p : Nat} (hp : p < addrs.length) :
    ∃ q1, intersection_after_exit_unlink q (addrAt addrs p) = some q1 ∧
      QueueLinked q1 (addrs.eraseIdx p) (vs.eraseIdx p) ∧
      q1.total = q.total - 1 ∧
      (∀ a, a ∉ addrs → q1.heap a = q.heap a) ∧
      q1.heap (addrAt addrs p) = none := by
  obtain ⟨hlen, hnd, h0, hfirst, hlast, htot, hnodes⟩ := hrep
  have hbound : ∀ {i : Nat} {v : Vehicle}, vs[i]? = some v → i < addrs.length := by
    intro i v h
    have := (List.getElem?_eq_some.1 h).1
    omega
  have hnode : ∀ i, i < addrs.length → ∃ v, vs[i]? = some v ∧
      q.heap (addrAt addrs i)
        = some ⟨v, if i = 0 then 0 else addrAt addrs (i - 1), addrAt addrs (i + 1)⟩ := by
    intro i hi
    have hiv : i < vs.length := by omega
    exact ⟨vs[i], List.getElem?_eq_getElem hiv, hnodes i _ (List.getElem?_eq_getElem hiv)⟩
  have hne : ∀ {i j : Nat}, i < addrs.length → j < addrs.length → i ≠ j →
      addrAt addrs i ≠ addrAt addrs j := fun hi hj hij h => hij (addrAt_inj hnd hi hj h)
  obtain ⟨vp, hvp, hcur⟩ := hnode p hp
  obtain ⟨prevP, hprevP⟩ : ∃ x, x = (if p = 0 then 0 else addrAt addrs (p - 1)) := ⟨_, rfl⟩
  rw [← hprevP] at hcur
  have hprev0 : p = 0 → prevP = 0 := by
    intro h
    rw [hprevP, if_pos h]
  have hprevS : p ≠ 0 → prevP = addrAt addrs (p - 1) := by
    intro h
    rw [hprevP, if_neg h]
  -- the store `current->previous->next = current->next`
  have hstep1 : ∃ h1,
      (if prevP ≠ 0 then node_set_next q.heap prevP (addrAt addrs (p + 1))
        else some q.heap) = some h1 ∧
      (∀ a, (p ≠ 0 → a ≠ addrAt addrs (p - 1)) → h1 a = q.heap a) ∧
      (p ≠ 0 → ∃ v, vs[p - 1]? = some v ∧
        h1 (addrAt addrs (p - 1))
          = some ⟨v, if p - 1 = 0 then 0 else addrAt addrs (p - 1 - 1),
              addrAt addrs (p + 1)⟩) := by
    by_cases hp0 : p = 0
    · refine ⟨q.heap, ?_, fun _ _ => rfl, fun h => absurd hp0 h⟩
      rw [hprev0 hp0]
      rfl
    · obtain ⟨v, hv, hn⟩ := hnode (p - 1) (by omega)
      have hpz : prevP ≠ 0 := by
        rw [hprevS hp0]
        exact addrAt_ne_zero h0 (by omega)
      refine ⟨fun a => if a = addrAt addrs (p - 1) then
          some ⟨v, if p - 1 = 0 then 0 else addrAt addrs (p - 1 - 1), addrAt addrs (p + 1)⟩
        else q.heap a, ?_, ?_, ?_⟩
      · rw [if_pos hpz, hprevS hp0]
        unfold node_set_next
        rw [hn]
      · intro a ha
        show (if a = addrAt addrs (p - 1) then _ else q.heap a) = q.heap a
        rw [if_neg (ha hp0)]
      · intro _
        refine ⟨v, hv, ?_⟩
        show (if addrAt addrs (p - 1) = addrAt addrs (p - 1) then _ else _) = _
        rw [if_pos rfl]
  obtain ⟨h1, hs1, h1frame, h1prev⟩ := hstep1
  have h1cur : h1 (addrAt addrs p) = some ⟨vp, prevP, addrAt addrs (p + 1)⟩ := by
    rw [h1frame _ (fun hp0 => hne hp (by omega) (by omega)), hcur]
  -- the store `current->next->previous = current->previous`
  have hstep2 : ∃ h2,
      (if addrAt addrs (p + 1) ≠ 0 then node_set_previous h1 (addrAt addrs (p + 1)) prevP
        else some h1) = some h2 ∧
      (∀ a, (p + 1 < addrs.length → a ≠ addrAt addrs (p + 1)) → h2 a = h1 a) ∧
      (p + 1 < addrs.length → ∃ v, vs[p + 1]? = some v ∧
        h2 (addrAt addrs (p + 1)) = some ⟨v, prevP, addrAt addrs (p + 1 + 1)⟩) := by
    by_cases hpl : p + 1 < addrs.length
    · obtain ⟨v, hv, hn⟩ := hnode (p + 1) hpl
      have hnz : addrAt addrs (p + 1) ≠ 0 := addrAt_ne_zero h0 hpl
      have hn1 : h1 (addrAt addrs (p + 1))
          = some ⟨v, addrAt addrs p, addrAt addrs (p + 1 + 1)⟩ := by
        rw [h1frame _ (fun hp0 => hne hpl (by omega) (by omega)), hn,
          if_neg (Nat.succ_ne_zero p), Nat.add_sub_cancel]
      refine ⟨fun a => if a = addrAt addrs (p + 1) then
          some ⟨v, prevP, addrAt addrs (p + 1 + 1)⟩ else h1 a, ?_, ?_, ?_⟩
      · rw [if_pos hnz]
        unfold node_set_previous
        rw [hn1]
      · intro a ha
        show (if a = addrAt addrs (p + 1) then _ else h1 a) = h1 a
        rw [if_neg (ha hpl)]
      · intro _
        refine ⟨v, hv, ?_⟩
        show (if addrAt addrs (p + 1) = addrAt addrs (p + 1) then _ else _) = _
        rw [if_pos rfl]
    · refine ⟨h1, ?_, fun _ _ => rfl, fun h => absurd h hpl⟩
      rw [addrAt_ge (by omega)]
      rfl
  obtain ⟨h2, hs2, h2frame, h2next⟩ := hstep2
  have h2cur : h2 (addrAt addrs p) = some ⟨vp, prevP, addrAt addrs (p + 1)⟩ := by
    rw [h2frame _ (fun hpl => hne hp hpl (by omega)), h1cur]
  have hrun : intersection_after_exit_unlink q (addrAt addrs p)
      = some { first := if q.first = addrAt addrs p then addrAt addrs (p + 1) else q.first
               last := if q.last = addrAt addrs p then prevP else q.last
               total := q.total - 1
               heap := fun a => if a = addrAt addrs p then none else h2 a } := by
    unfold intersection_after_exit_unlink
    rw [hcur]
    simp only []
    rw [hs1]
    simp only []
    rw [h1cur]
    simp only []
    rw [hs2]
    simp only []
    rw [h2cur]
  have hlen1 : (addrs.eraseIdx p).length = addrs.length - 1 := List.length_eraseIdx_of_lt hp
  refine ⟨_, hrun, ⟨?_, hnd.eraseIdx p, ?_, ?_, ?_, ?_, ?_⟩, rfl, ?_, ?_⟩
  · rw [hlen1, List.length_eraseIdx_of_lt (by omega), hlen]
  · intro h
    exact h0 ((List.eraseIdx_sublist addrs p).subset h)
  · show (if q.first = addrAt addrs p then addrAt addrs (p + 1) else q.first) = _
    rw [addrAt_eraseIdx, hfirst]
    by_cases hp0 : p = 0
    · rw [hp0, if_pos rfl, if_neg (Nat.lt_irrefl 0)]
    · rw [if_neg (hne (by omega) hp (fun h => hp0 h.symm)), if_pos (Nat.pos_of_ne_zero hp0)]
  · show (if q.last = addrAt addrs p then prevP else q.last) = _
    rw [addrAt_eraseIdx, hlast, hlen1]
    by_cases hpl : p + 1 < addrs.length
    · have hidx : addrs.length - 1 - 1 + 1 = addrs.length - 1 := by omega
      rw [if_neg (hne (by omega) hp (by omega)),
        if_neg (show ¬ (addrs.length - 1 - 1 < p) by omega), hidx]
    · have hpe : addrs.length - 1 = p := by omega
      rw [hpe, if_pos rfl]
      by_cases hp0 : p = 0
      · rw [hprev0 hp0, if_neg (show ¬ (p - 1 < p) by omega), addrAt_ge (by omega)]
      · rw [hprevS hp0, if_pos (show p - 1 < p by omega)]
  · show q.total - 1 = _
    rw [hlen1, htot]
    omega
  · intro i v hv
    rw [List.getElem?_eraseIdx] at hv
    show (if addrAt (addrs.eraseIdx p) i = addrAt addrs p then none
      else h2 (addrAt (addrs.eraseIdx p) i)) = _
    by_cases hip : i < p
    · rw [if_pos hip] at hv
      have hn := hnodes i v hv
      have e0 : addrAt (addrs.eraseIdx p) i = addrAt addrs i := by
        rw [addrAt_eraseIdx, if_pos hip]
      have eprev : (if i = 0 then 0 else addrAt (addrs.eraseIdx p) (i - 1))
          = (if i = 0 then 0 else addrAt addrs (i - 1)) := by
        by_cases hi0 : i = 0
        · rw [if_pos hi0, if_pos hi0]
        · rw [if_neg hi0, if_neg hi0, addrAt_eraseIdx, if_pos (by omega)]
      rw [e0, eprev, if_neg (hne (by omega) hp (by omega)),
        h2frame _ (fun hpl => hne (by omega) hpl (by omega))]
      by_cases hi1 : i + 1 = p
      · have enext : addrAt (addrs.eraseIdx p) (i + 1) = addrAt addrs (p + 1) := by
          rw [addrAt_eraseIdx, if_neg (by omega), hi1]
        have hp0 : p ≠ 0 := by omega
        obtain ⟨w, hw, hn1⟩ := h1prev hp0
        have hpi : p - 1 = i := by omega
        rw [hpi] at hw hn1
        rw [hv] at hw
        rw [enext, hn1, ← Option.some.inj hw]
      · have enext : addrAt (addrs.eraseIdx p) (i + 1) = addrAt addrs (i + 1) := by
          rw [addrAt_eraseIdx, if_pos (by omega)]
        rw [enext, h1frame _ (fun hp0 => hne (by omega) (by omega) (by omega)), hn]
    · rw [if_neg hip] at hv
      have hil := hbound hv
      have hn := hnodes (i + 1) v hv
      rw [if_neg (Nat.succ_ne_zero i), Nat.add_sub_cancel] at hn
      have e0 : addrAt (addrs.eraseIdx p) i = addrAt addrs (i + 1) := by
        rw [addrAt_eraseIdx, if_neg hip]
      have enext : addrAt (addrs.eraseIdx p) (i + 1) = addrAt addrs (i + 1 + 1) := by
        rw [addrAt_eraseIdx, if_neg (by omega)]
      rw [e0, enext, if_neg (hne hil hp (by omega))]
      by_cases hie : i = p
      · obtain ⟨w, hw, hn2⟩ := h2next (by omega)
        rw [← hie] at hw hn2
        rw [hv] at hw
        have eprev : (if i = 0 then 0 else addrAt (addrs.eraseIdx p) (i - 1)) = prevP := by
          by_cases hi0 : i = 0
          · rw [if_pos hi0, hprev0 (by omega)]
          · rw [if_neg hi0, addrAt_eraseIdx, if_pos (by omega), hprevS (by omega), hie]
        rw [eprev, hn2, ← Option.some.inj hw]
      · have eprev : (if i = 0 then 0 else addrAt (addrs.eraseIdx p) (i - 1))
            = addrAt addrs i := by
          rw [if_neg (by omega), addrAt_eraseIdx, if_neg (by omega)]
          congr 1
          omega
        rw [eprev, h2frame _ (fun hpl => hne hil hpl (by omega)),
          h1frame _ (fun hp0 => hne hil (by omega) (by omega)), hn]
  · intro a ha
    have hap : ∀ i, i < addrs.length → a ≠ addrAt addrs i := by
      intro i hi h
      apply ha
      rw [h]
      exact addrAt_mem hi
    show (if a = addrAt addrs p then none else h2 a) = q.heap a
    rw [if_neg (hap p hp), h2frame a (fun hpl => hap _ hpl),
      h1frame a (fun hp0 => hap _ (by omega))]
  · show (if addrAt addrs p = addrAt addrs p then none else h2 (addrAt addrs p)) = none
    rw [if_pos rfl]

/-- The queue set up by `intersection_sync_init` links no node. -/
theorem intersection_sync_init_linked_spec (heap : Nat → Option node) :
    QueueLinked (intersection_sync_init_linked heap) [] [] := by
  refine ⟨rfl, List.nodup_nil, List.not_mem_nil 0, rfl, rfl, rfl, ?_⟩
  intro i v hv
  simp at hv

/-- The end of `intersection_before_entry` keeps the queue linked: the node allocated at a
fresh address `newNode` becomes the last node, after the nodes already linked, and no other
address outside the queue is written. -/
theorem intersection_before_entry_link_spec {q : Vqueue} {addrs : List Nat}
    {vs : List Vehicle} (hrep : QueueLinked q addrs vs) (newNode : Nat) (v : Vehicle)
    (hnew : newNode ≠ 0) (hfresh : q.heap newNode = none) :
    ∃ q1, intersection_before_entry_link q newNode v = some q1 ∧
      QueueLinked q1 (addrs ++ [newNode]) (vs ++ [v]) ∧
      ∀ a, a ∉ addrs → a ≠ newNode → q1.heap a = q.heap a := by
  obtain ⟨hlen, hnd, h0, hfirst, hlast, htot, hnodes⟩ := hrep
  have hnode : ∀ i, i < addrs.length → ∃ w, vs[i]? = some w ∧
      q.heap (addrAt addrs i)
        = some ⟨w, if i = 0 then 0 else addrAt addrs (i - 1), addrAt addrs (i + 1)⟩ := by
    intro i hi
    have hiv : i < vs.length := by omega
    exact ⟨vs[i], List.getElem?_eq_getElem hiv, hnodes i _ (List.getElem?_eq_getElem hiv)⟩
  have hnewne : ∀ i, i < addrs.length → addrAt addrs i ≠ newNode := by
    intro i hi h
    obtain ⟨w, _, hn⟩ := hnode i hi
    rw [h, hfresh] at hn
    exact Option.noConfusion hn
  have hnotin : newNode ∉ addrs := by
    intro h
    obtain ⟨i, hi, hi2⟩ := List.getElem_of_mem h
    apply hnewne i hi
    have := addrAt_lt hi
    rw [List.getElem?_eq_getElem hi, hi2] at this
    exact (Option.some.inj this).symm
  have hne : ∀ {i j : Nat}, i < addrs.length → j < addrs.length → i ≠ j →
      addrAt addrs i ≠ addrAt addrs j := fun hi hj hij h => hij (addrAt_inj hnd hi hj h)
  have hstep : ∃ h1,
      (if q.last ≠ 0 then
          node_set_next (fun a => if a = newNode then some ⟨v, q.last, 0⟩ else q.heap a)
            q.last newNode
        else some (fun a => if a = newNode then some ⟨v, q.last, 0⟩ else q.heap a))
        = some h1 ∧
      h1 newNode = some ⟨v, q.last, 0⟩ ∧
      (∀ a, a ≠ newNode → (0 < addrs.length → a ≠ addrAt addrs (addrs.length - 1)) →
        h1 a = q.heap a) ∧
      (0 < addrs.length → ∃ w, vs[addrs.length - 1]? = some w ∧
        h1 (addrAt addrs (addrs.length - 1))
          = some ⟨w, if addrs.length - 1 = 0 then 0 else addrAt addrs (addrs.length - 1 - 1),
              newNode⟩) := by
    by_cases hl : 0 < addrs.length
    · obtain ⟨w, hw, hn⟩ := hnode (addrs.length - 1) (by omega)
      have hlz : q.last ≠ 0 := by
        rw [hlast]
        exact addrAt_ne_zero h0 (by omega)
      have hln : q.last ≠ newNode := by
        rw [hlast]
        exact hnewne _ (by omega)
      have hidx : addrs.length - 1 + 1 = addrs.length := by omega
      rw [hidx, addrAt_ge (Nat.le_refl _)] at hn
      refine ⟨fun a => if a = q.last then
          some ⟨w, if addrs.length - 1 = 0 then 0 else addrAt addrs (addrs.length - 1 - 1),
            newNode⟩
        else if a = newNode then some ⟨v, q.last, 0⟩ else q.heap a, ?_, ?_, ?_, ?_⟩
      · rw [if_pos hlz]
        unfold node_set_next
        show (match (if q.last = newNode then some (⟨v, q.last, 0⟩ : node)
          else q.heap q.last) with
          | none => none
          | some n => some (fun a => if a = q.last then some { n with next := newNode }
              else if a = newNode then some ⟨v, q.last, 0⟩ else q.heap a)) = _
        rw [if_neg hln]
        nth_rewrite 1 [hlast]
        rw [hn]
      · show (if newNode = q.last then _ else if newNode = newNode then _ else _) = _
        rw [if_neg (fun h => hln h.symm), if_pos rfl]
      · intro a ha1 ha2
        show (if a = q.last then _ else if a = newNode then _ else q.heap a) = _
        rw [if_neg (by rw [hlast]; exact ha2 hl), if_neg ha1]
      · intro _
        refine ⟨w, hw, ?_⟩
        show (if addrAt addrs (addrs.length - 1) = q.last then _ else _) = _
        rw [if_pos hlast.symm]
    · have hlz : q.last = 0 := by
        rw [hlast]
        exact addrAt_ge (by omega)
      refine ⟨fun a => if a = newNode then some ⟨v, q.last, 0⟩ else q.heap a, ?_, ?_, ?_,
        fun h => absurd h hl⟩
      · rw [if_neg (fun h => h hlz)]
      · show (if newNode = newNode then _ else _) = _
        rw [if_pos rfl]
      · intro a ha1 _
        show (if a = newNode then _ else q.heap a) = _
        rw [if_neg ha1]
  obtain ⟨h1, hs, h1new, h1frame, h1last⟩ := hstep
  have hrun : intersection_before_entry_link q newNode v
      = some { first := if q.last ≠ 0 then q.first else newNode
               last := newNode
               total := q.total + 1
               heap := h1 } := by
    unfold intersection_before_entry_link
    rw [if_neg hnew, hs]
  have hlen1 : (addrs ++ [newNode]).length = addrs.length + 1 := by
    rw [List.length_append]
    rfl
  refine ⟨_, hrun, ⟨?_, ?_, ?_, ?_, ?_, ?_, ?_⟩, ?_⟩
  · rw [hlen1, List.length_append, hlen]
    rfl
  · rw [List.nodup_append]
    refine ⟨hnd, List.nodup_singleton _, ?_⟩
    intro a ha hb
    rw [List.mem_singleton] at hb
    exact hnotin (hb ▸ ha)
  · intro h
    rcases List.mem_append.1 h with h | h
    · exact h0 h
    · rw [List.mem_singleton] at h
      exact hnew h.symm
  · show (if q.last ≠ 0 then q.first else newNode) = _
    rw [addrAt_append_singleton]
    by_cases hl : 0 < addrs.length
    · rw [if_pos (by rw [hlast]; exact addrAt_ne_zero h0 (by omega)), if_pos hl, hfirst]
    · have hlz : q.last = 0 := by
        rw [hlast]
        exact addrAt_ge (by omega)
      rw [if_neg (fun h => h hlz), if_neg hl, if_pos (by omega)]
  · show newNode = _
    rw [addrAt_append_singleton, hlen1, Nat.add_sub_cancel, if_neg (Nat.lt_irrefl _),
      if_pos rfl]
  · show q.total + 1 = _
    rw [hlen1, htot]
    push_cast
    rfl
  · intro i w hw
    show h1 (addrAt (addrs ++ [newNode]) i) = _
    have hil : i < addrs.length + 1 := by
      have := (List.getElem?_eq_some.1 hw).1
      rw [List.length_append] at this
      simp only [List.length_cons, List.length_nil] at this
      omega
    have eprev : (if i = 0 then 0 else addrAt (addrs ++ [newNode]) (i - 1))
        = (if i = 0 then 0 else addrAt addrs (i - 1)) := by
      by_cases hi0 : i = 0
      · rw [if_pos hi0, if_pos hi0]
      · rw [if_neg hi0, if_neg hi0, addrAt_append_singleton,
          if_pos (show i - 1 < addrs.length by omega)]
    rw [eprev]
    by_cases hie : i = addrs.length
    · have hwv : w = v := by
        rw [hie, List.getElem?_append_right (by omega), hlen, Nat.sub_self,
          List.getElem?_cons_zero] at hw
        exact (Option.some.inj hw).symm
      have e0 : addrAt (addrs ++ [newNode]) i = newNode := by
        rw [addrAt_append_singleton, if_neg (by omega), if_pos hie]
      have enext : addrAt (addrs ++ [newNode]) (i + 1) = 0 := by
        rw [addrAt_append_singleton, if_neg (by omega), if_neg (by omega)]
      rw [e0, enext, h1new, hwv, hlast]
      by_cases hi0 : i = 0
      · have hz : addrs.length - 1 = 0 := by omega
        rw [if_pos hi0, hz, addrAt_ge (by omega)]
      · rw [if_neg hi0, hie]
    · have hia : i < addrs.length := by omega
      have hw1 : vs[i]? = some w := by
        rw [List.getElem?_append_left (by omega)] at hw
        exact hw
      have e0 : addrAt (addrs ++ [newNode]) i = addrAt addrs i := by
        rw [addrAt_append_singleton, if_pos hia]
      rw [e0]
      by_cases hi1 : i + 1 = addrs.length
      · have enext : addrAt (addrs ++ [newNode]) (i + 1) = newNode := by
          rw [addrAt_append_singleton, if_neg (by omega), if_pos hi1]
        obtain ⟨u, hu, hn⟩ := h1last (by omega)
        have hidx : addrs.length - 1 = i := by omega
        rw [hidx] at hu hn
        rw [hw1] at hu
        rw [enext, hn, ← Option.some.inj hu]
      · have enext : addrAt (addrs ++ [newNode]) (i + 1) = addrAt addrs (i + 1) := by
          rw [addrAt_append_singleton, if_pos (by omega)]
        rw [enext, h1frame _ (hnewne i hia) (fun hl => hne hia (by omega) (by omega)),
          hnodes i w hw1]
  · intro a ha hb
    show h1 a = q.heap a
    apply h1frame a hb
    intro hl h
    apply ha
    rw [h]
    exact addrAt_mem (by omega)

/-- The list view of `intersection_after_exit`: for a queue whose counter equals the number
of nodes and is within the asserted bound, the first matching node is removed and `total`
decremented; without a match a non-empty queue is unchanged, and on the empty queue the
assertion `total > 0` fails. -/
theorem intersection_after_exit_on_list (q : vehicles) (origin destination : Direction)
    (hcount : q.total = (q.nodes.length : Int)) (hbound : q.total ≤ NumThreads) :
    (∀ pre post : List Vehicle, q.nodes = pre ++ ⟨origin, destination⟩ :: post →
      (∀ c ∈ pre, c ≠ (⟨origin, destination⟩ : Vehicle)) →
      intersection_after_exit q origin destination
        = some { nodes := pre ++ post, total := q.total - 1 } ∧
      q.total - 1 = ((pre ++ post).length : Int)) ∧
    ((∀ c ∈ q.nodes, c ≠ (⟨origin, destination⟩ : Vehicle)) →
      (q.nodes ≠ [] → intersection_after_exit q origin destination = some q) ∧
      (q.nodes = [] → intersection_after_exit q origin destination = none)) := by
  have hb : ¬ ¬ (q.total ≤ NumThreads) := fun h => h hbound
  refine ⟨?_, ?_⟩
  · intro pre post hq hpre
    have hlen : q.total = ((pre ++ post).length : Int) + 1 := by
      rw [hcount, hq]
      simp only [List.length_append, List.length_cons]
      push_cast
      omega
    have hpos : ¬ ¬ (q.total > 0) := by
      intro h
      apply h
      rw [hlen]
      omega
    refine ⟨?_, by omega⟩
    unfold intersection_after_exit
    rw [if_neg hb, if_neg hpos, hq,
      intersection_after_exit_loop_split origin destination pre post hpre]
    rfl
  · intro hno
    constructor
    · intro hne
      have hpos : ¬ ¬ (q.total > 0) := by
        intro h
        apply h
        rw [hcount]
        have : 0 < q.nodes.length := List.length_pos.2 hne
        omega
      unfold intersection_after_exit
      rw [if_neg hb, if_neg hpos, intersection_after_exit_loop_nomatch origin destination _ hno]
      rfl
    · intro hnil
      have hz : ¬ (q.total > 0) := by
        rw [hcount, hnil]
        simp
      unfold intersection_after_exit
      rw [if_neg hb, if_pos hz]

/-- C25: `intersection_after_exit(origin, destination)` on the linked queue.  The queue `q`
links the nodes at `addrs` holding the vehicles `vs` (`QueueLinked`: `first`, `last`, the
`previous` and `next` fields and `total` fit the list), `total` is within the asserted
bound, and the loop has fuel for every node.  When a node matches, with `pre` the vehicles
before the first match and `post` those after it, the call returns a queue that links the
other nodes in their order (`pre ++ post` at the addresses without the one of the match):
`first` and `last` point to its first and last node (null when none is left), the
neighbours of the removed node point to each other, `total` is one less and again the
number of linked nodes, the removed node is freed, and no address outside the queue is
written; the list view of the function gives the same vehicles and counter.  A queue that
holds a matching vehicle has such a first match.  When no node matches, a non-empty queue
is returned unchanged, and on the empty queue the assertion `total > 0` fails, so nothing
is written either.  Linked queues are what the code builds: the queue of
`intersection_sync_init` is linked, and the end of `intersection_before_entry` links a
fresh node after the last one. -/
theorem intersection_after_exit_removes_one (fuel : Nat) (q : Vqueue) (addrs : List Nat)
    (vs : List Vehicle) (origin destination : Direction)
    (hrep : QueueLinked q addrs vs) (hbound : q.total ≤ NumThreads)
    (hfuel : addrs.length ≤ fuel) :
    (∀ pre post : List Vehicle, vs = pre ++ ⟨origin, destination⟩ :: post →
      (∀ c ∈ pre, c ≠ (⟨origin, destination⟩ : Vehicle)) →
      ∃ q1, intersection_after_exit_linked fuel q origin destination = some q1 ∧
        QueueLinked q1 (addrs.eraseIdx pre.length) (pre ++ post) ∧
        q1.first = addrAt (addrs.eraseIdx pre.length) 0 ∧
        q1.last = addrAt (addrs.eraseIdx pre.length) ((pre ++ post).length - 1) ∧
        q1.total = q.total - 1 ∧
        q1.total = ((pre ++ post).length : Int) ∧
        q1.heap (addrAt addrs pre.length) = none ∧
        (∀ a, a ∉ addrs → q1.heap a = q.heap a) ∧
        intersection_after_exit { nodes := vs, total := q.total } origin destination
          = some { nodes := pre ++ post, total := q1.total }) ∧
    ((⟨origin, destination⟩ : Vehicle) ∈ vs →
      ∃ pre post, vs = pre ++ ⟨origin, destination⟩ :: post ∧
        ∀ c ∈ pre, c ≠ (⟨origin, destination⟩ : Vehicle)) ∧
    ((∀ c ∈ vs, c ≠ (⟨origin, destination⟩ : Vehicle)) →
      (vs ≠ [] → intersection_after_exit_linked fuel q origin destination = some q) ∧
      (vs = [] → intersection_after_exit_linked fuel q origin destination = none)) ∧
    (∀ heap : Nat → Option node, QueueLinked (intersection_sync_init_linked heap) [] []) ∧
    (∀ (newNode : Nat) (v : Vehicle), newNode ≠ 0 → q.heap newNode = none →
      ∃ q1, intersection_before_entry_link q newNode v = some q1 ∧
        QueueLinked q1 (addrs ++ [newNode]) (vs ++ [v])) := by
  have hb : ¬ ¬ (q.total ≤ NumThreads) := fun h => h hbound
  have hlen := hrep.1
  have hfirst := hrep.2.2.2.1
  have htot := hrep.2.2.2.2.2.1
  have hlist := intersection_after_exit_on_list { nodes := vs, total := q.total } origin
    destination (by rw [htot, hlen]) hbound
  refine ⟨?_, first_occurrence_split _ _, ?_, intersection_sync_init_linked_spec, ?_⟩
  · intro pre post hvs hpre
    have hl : addrs.length = pre.length + (post.length + 1) := by
      rw [hlen, hvs, List.length_append, List.length_cons]
    have hpos : ¬ ¬ (q.total > 0) := by
      intro h
      apply h
      rw [htot]
      omega
    have hrep1 := hrep
    rw [hvs] at hrep1
    have hfind := intersection_after_exit_find_match hrep1 hpre pre.length 0 fuel
      (by omega) (by omega)
    rw [← hfirst] at hfind
    obtain ⟨q1, hun, hq1, ht1, hfr, hfree⟩ :=
      intersection_after_exit_unlink_spec hrep (show pre.length < addrs.length by omega)
    have herase : vs.eraseIdx pre.length = pre ++ post := by
      rw [hvs, List.eraseIdx_append_of_length_le (Nat.le_refl _), Nat.sub_self]
      rfl
    rw [herase] at hq1
    have hlen1 : (addrs.eraseIdx pre.length).length = (pre ++ post).length := hq1.1
    have hq1last := hq1.2.2.2.2.1
    rw [hlen1] at hq1last
    have hq1tot := hq1.2.2.2.2.2.1
    rw [hlen1] at hq1tot
    refine ⟨q1, ?_, hq1, hq1.2.2.2.1, hq1last, ht1, hq1tot, hfree, hfr, ?_⟩
    · unfold intersection_after_exit_linked
      rw [if_neg hb, if_neg hpos, hfind]
      exact hun
    · rw [ht1]
      exact (hlist.1 pre post hvs hpre).1
  · intro hno
    have hfind := intersection_after_exit_find_nomatch hrep hno vs.length 0 fuel
      (by omega) (by omega)
    rw [← hfirst] at hfind
    constructor
    · intro hne
      have hpos : ¬ ¬ (q.total > 0) := by
        intro h
        apply h
        rw [htot, hlen]
        have : 0 < vs.length := List.length_pos.2 hne
        omega
      unfold intersection_after_exit_linked
      rw [if_neg hb, if_neg hpos, hfind]
    · intro hnil
      have hz : ¬ (q.total > 0) := by
        rw [htot, hlen, hnil]
        simp
      unfold intersection_after_exit_linked
      rw [if_neg hb, if_pos hz]
  · intro newNode v hnew hfresh
    obtain ⟨q1, h1, h2, _⟩ := intersection_before_entry_link_spec hrep newNode v hnew hfresh
    exact ⟨q1, h1, h2⟩

/-- The queue `linkedNSSN` links its two nodes. -/
theorem linkedNSSN_linked :
    QueueLinked linkedNSSN [0x1000, 0x2000]
      [⟨Direction.north, Direction.south⟩, ⟨Direction.south, Direction.north⟩] := by
  refine ⟨rfl, by decide, by decide, rfl, rfl, rfl, ?_⟩
  intro i v hv
  match i, hv with
  | 0, hv =>
    rw [List.getElem?_cons_zero] at hv
    rw [← Option.some.inj hv]
    rfl
  | 1, hv =>
    rw [List.getElem?_cons_succ, List.getElem?_cons_zero] at hv
    rw [← Option.some.inj hv]
    rfl
  | n + 2, hv =>
    simp at hv

theorem intersection_after_exit_removes_one_witness :
    (QueueLinked linkedNSSN [0x1000, 0x2000]
        [⟨Direction.north, Direction.south⟩, ⟨Direction.south, Direction.north⟩] ∧
      linkedNSSN.total ≤ NumThreads ∧ [0x1000, 0x2000].length ≤ 2) ∧
    ∃ q1, intersection_after_exit_linked 2 linkedNSSN Direction.north Direction.south
        = some q1 ∧
      QueueLinked q1 [0x2000] [⟨Direction.south, Direction.north⟩] ∧
      q1.first = 0x2000 ∧ q1.last = 0x2000 ∧ q1.total = 1 ∧ q1.heap 0x1000 = none :=
  ⟨⟨linkedNSSN_linked, by decide, by decide⟩,
    ((intersection_after_exit_removes_one 2 linkedNSSN [0x1000, 0x2000]
      [⟨Direction.north, Direction.south⟩, ⟨Direction.south, Direction.north⟩]
      Direction.north Direction.south linkedNSSN_linked (by decide) (by decide)).1
      [] [⟨Direction.south, Direction.north⟩] rfl (fun c hc => by simp at hc)).elim
      (fun q1 h => ⟨q1, h.1, h.2.1, h.2.2.1, h.2.2.2.1, h.2.2.2.2.1, h.2.2.2.2.2.2.1⟩)⟩

end OS161
